import Mathlib

/-!
# Inline-Engine GUI layout core: node tree and arrange pass

A shallow embedding of `Engine/GuiEngine/Gui.cpp`.

* A `Gui*` is a node identifier (`Nat`); the null pointer is `none`.
* The objects live in a heap `Nat → Gui`; every C++ statement that writes through a
  pointer is one `State.modify`, and every read goes through the current heap, so
  aliasing between `this`, `child`, siblings and parents behaves as in the source.
* `float` coordinates are exact rationals. Where a claim depends on the rounding of the
  `float` operations, the function concerned has a second embedding with the rounding as a
  parameter (`SetRectRounded`, `GuiSplitter.ArrangeChildrenRounded`), which is the first one
  for the identity; `round32` is the rounding of binary32.
* `int indexInParent` is an `Int`; vectors are assumed shorter than `INT_MAX`, so
  storing `children.size()` in it is exact.
* Delegates (`onChildAdded`, `onRectChanged`, ...) append to an event log; the only
  handlers that run are the ones the `Gui` constructor installs.
* The plain getters of `Gui.hpp` (`GetPos`, `GetSize`, `GetParent`, `GetChildren`,
  `GetIndexInParent`) return the members; what else `Gui.cpp` uses from that header is a
  parameter (`GuiHpp`).
* Recursion into children (`SetRect` moving children, `Arrange`) is bounded by a depth
  argument; the theorems show that the depth of a finite tree is enough for the call to
  return. A dereference of a null `parent` is an error result.
-/

namespace inl.gui

/-! ## Data model -/

/-- Two-component vector of the engine (`Vec2`). -/
structure Vec2 where
  x : ℚ
  y : ℚ
deriving DecidableEq

/-- Embedding of `RectF(left, right, top, bottom)`; also used for the four insets of margin, border, padding. -/
structure RectF where
  left : ℚ
  right : ℚ
  top : ℚ
  bottom : ℚ
deriving DecidableEq

/-- Embedding of `enum class eGuiStretch`. -/
inductive eGuiStretch where
  | NONE
  | FILL_PARENT
  | FILL_PARENT_POSITIVE_DIR
  | FIT_TO_CHILDREN
deriving DecidableEq

/-- Embedding of `enum class eGuiAlignHor`. -/
inductive eGuiAlignHor where
  | NONE
  | LEFT
  | CENTER
  | RIGHT
deriving DecidableEq

/-- Embedding of `enum class eGuiAlignVer`. -/
inductive eGuiAlignVer where
  | NONE
  | TOP
  | CENTER
  | BOTTOM
deriving DecidableEq

/-- The layout-relevant members of `class Gui`. -/
structure Gui where
  pos : Vec2
  size : Vec2
  margin : RectF
  border : RectF
  padding : RectF
  stretchHor : eGuiStretch
  stretchVer : eGuiStretch
  alignHor : eGuiAlignHor
  alignVer : eGuiAlignVer
  parent : Option Nat
  front : Option Nat
  back : Option Nat
  indexInParent : Int
  children : List Nat
  bLayoutNeedRefresh : Bool
  bFillParentEnabled : Bool
  bForceFitToChildren : Bool
deriving DecidableEq

/-- The member values set by the constructor `Gui::Gui(GuiEngine*, bool)`. -/
def Gui.new : Gui where
  pos := ⟨0, 0⟩
  size := ⟨60, 20⟩
  margin := ⟨0, 0, 0, 0⟩
  border := ⟨0, 0, 0, 0⟩
  padding := ⟨0, 0, 0, 0⟩
  stretchHor := eGuiStretch.NONE
  stretchVer := eGuiStretch.NONE
  alignHor := eGuiAlignHor.NONE
  alignVer := eGuiAlignVer.NONE
  parent := none
  front := none
  back := none
  indexInParent := -1
  children := []
  bLayoutNeedRefresh := false
  bFillParentEnabled := false
  bForceFitToChildren := false

/-- One delegate invocation; the first argument is the object whose delegate fires. -/
inductive Event where
  | onParentChanged (self : Nat) (newParent : Option Nat)
  | onParentChangedClonable (self : Nat) (newParent : Option Nat)
  | onChildAdded (self child : Nat)
  | onChildAddedClonable (self child : Nat)
  | onChildRemoved (self child : Nat)
  | onChildRemovedClonable (self child : Nat)
  | onParentTransformChanged (self : Nat) (rect : RectF)
  | onParentTransformChangedClonable (self : Nat) (rect : RectF)
  | onTransformChanged (self : Nat) (rect : RectF)
  | onChildTransformChanged (self : Nat) (rect : RectF)
  | onChildTransformChangedClonable (self : Nat) (rect : RectF)
  | onRectChanged (self : Nat) (rect : RectF)
  | onRectChangedClonable (self : Nat) (rect : RectF)
  | onPosChanged (self : Nat) (pos : Vec2)
  | onSizeChanged (self : Nat) (size : Vec2)
  | onSizeChangedClonable (self : Nat) (size : Vec2)
deriving DecidableEq

/-- All `Gui` objects, addressed by identifier, and the delegate invocations so far. -/
structure State where
  heap : Nat → Gui
  log : List Event

/-- Every object freshly constructed: detached, childless, clean. -/
def State.fresh : State where
  heap := fun _ => Gui.new
  log := []

/-- A write through the pointer `n`. -/
def State.modify (s : State) (n : Nat) (f : Gui → Gui) : State :=
  { s with heap := fun m => if m = n then f (s.heap n) else s.heap m }

/-- A delegate invocation with no handler attached beyond the log. -/
def State.fire (s : State) (e : Event) : State :=
  { s with log := s.log ++ [e] }

/-! ## Tree management: `Gui::RemoveGui`, `Gui::AddGui` -/

/-- The comparison `int < size_t` as C++ evaluates it: the `int` operand is converted to the
unsigned type, so a negative index compares above every vector size. -/
def intLtSize (i : Int) (n : Nat) : Bool :=
  decide (0 ≤ i) && decide (i < (n : Int))

/-- Handler installed by the constructor: `self->bLayoutNeedRefresh = true`. -/
def onChildRemovedClonable (s : State) (self child : Nat) : State :=
  (s.fire (Event.onChildRemovedClonable self child)).modify self
    (fun g => { g with bLayoutNeedRefresh := true })

/-- Handler installed by the constructor: `self->bLayoutNeedRefresh = true`. -/
def onChildAddedClonable (s : State) (self child : Nat) : State :=
  (s.fire (Event.onChildAddedClonable self child)).modify self
    (fun g => { g with bLayoutNeedRefresh := true })

/-- The loop `if (children[i]->indexInParent != -1) --children[i]->indexInParent;` over the
given tail of the children vector. -/
def decrementIndices (s : State) : List Nat → State
  | [] => s
  | c :: rest =>
    decrementIndices
      (if (s.heap c).indexInParent ≠ -1 then
        s.modify c (fun g => { g with indexInParent := g.indexInParent - 1 })
      else s) rest

/-- First block of the successful branch of `RemoveGui`:
`if (child->front) child->front->back = nullptr; if (child->back) child->back->front = nullptr;`
followed by the four assignments that clear the child's own parent, index and links. -/
def RemoveGui.clearLinks (s : State) (child : Nat) : State :=
  let s1 := match (s.heap child).front with
    | some f => s.modify f (fun g => { g with back := none })
    | none => s
  let s2 := match (s1.heap child).back with
    | some b => s1.modify b (fun g => { g with front := none })
    | none => s1
  s2.modify child
    (fun g => { g with parent := none, indexInParent := -1, front := none, back := none })

/-- Second block: `children.erase(children.begin() + potentialIndex)` and the loop that
corrects the indices of the children after the erased position. -/
def RemoveGui.erase (s : State) (self : Nat) (potentialIndex : Nat) : State :=
  let s4 := s.modify self (fun g => { g with children := g.children.eraseIdx potentialIndex })
  decrementIndices s4 ((s4.heap self).children.drop potentialIndex)

/-- Third block, under `if (bFireEvents)`: the four delegate invocations. -/
def RemoveGui.fireEvents (s : State) (self child : Nat) : State :=
  (((onChildRemovedClonable (s.fire (Event.onChildRemoved self child)) self child).fire
    (Event.onParentChanged child none)).fire (Event.onParentChangedClonable child none))

/-- Embedding of `bool Gui::RemoveGui(Gui* child, bool bFireEvents)` called on `self`. -/
def RemoveGui (s : State) (self child : Nat) (bFireEvents : Bool) : State × Bool :=
  let potentialIndex := (s.heap child).indexInParent
  if intLtSize potentialIndex (s.heap self).children.length then
    match (s.heap self).children[potentialIndex.toNat]? with
    | some potentialMatch =>
      if child = potentialMatch then
        let s5 := RemoveGui.erase (RemoveGui.clearLinks s child) self potentialIndex.toNat
        (if bFireEvents then RemoveGui.fireEvents s5 self child else s5, true)
      else (s, false)
    | none => (s, false)
  else (s, false)

/-- The block `if (children.size() != 0) { lastControl = children[children.size() - 1];
child->back = lastControl; lastControl->front = child; }` of `AddGui`. -/
def AddGui.linkLast (s : State) (self child : Nat) : State :=
  if (s.heap self).children.length ≠ 0 then
    match (s.heap self).children[(s.heap self).children.length - 1]? with
    | some lastControl =>
      (s.modify child (fun g => { g with back := some lastControl })).modify lastControl
        (fun g => { g with front := some child })
    | none => s
  else s

/-- The linking part of `AddGui`: set the parent, link to the last child, set the index,
`children.push_back(child)`. -/
def AddGui.link (s : State) (self child : Nat) : State :=
  let s2 := s.modify child (fun g => { g with parent := some self })
  let s3 := AddGui.linkLast s2 self child
  let s4 := s3.modify child
    (fun g => { g with indexInParent := ((s3.heap self).children.length : Int) })
  s4.modify self (fun g => { g with children := g.children ++ [child] })

/-- The block under `if (bFireEvents)` of `AddGui`: the four delegate invocations. -/
def AddGui.fireEvents (s : State) (self child : Nat) : State :=
  onChildAddedClonable
    (((s.fire (Event.onParentChanged child (some self))).fire
      (Event.onParentChangedClonable child (some self))).fire
      (Event.onChildAdded self child)) self child

/-- The first statement of `AddGui`:
`if (child->parent) child->parent->RemoveGui(child, bFireEvents);` (the result is ignored). -/
def AddGui.detach (s : State) (child : Nat) (bFireEvents : Bool) : State :=
  match (s.heap child).parent with
  | some p => (RemoveGui s p child bFireEvents).1
  | none => s

/-- Embedding of `void Gui::AddGui(Gui* child, bool bFireEvents)` called on `self`. -/
def AddGui (s : State) (self child : Nat) (bFireEvents : Bool) : State :=
  let s1 := AddGui.detach s child bFireEvents
  let s5 := AddGui.link s1 self child
  if bFireEvents then AddGui.fireEvents s5 self child else s5

/-- Embedding of `bool Gui::RemoveFromParent()`; the one-argument `RemoveGui` call fires events. -/
def RemoveFromParent (s : State) (self : Nat) : State × Bool :=
  match (s.heap self).parent with
  | some p => RemoveGui s p self true
  | none => (s, false)

/-! ## Tree invariants -/

/-- The children of `p` carry their position and point back to `p`:
`children[i]->indexInParent == i` and `children[i]->parent == p`. -/
def ChildrenIndexed (s : State) (p : Nat) : Prop :=
  ∀ (i : Nat) (c : Nat), (s.heap p).children[i]? = some c →
    (s.heap c).parent = some p ∧ (s.heap c).indexInParent = (i : Int)

/-- Index consistency for every container of the heap. -/
def IndexInv (s : State) : Prop := ∀ p, ChildrenIndexed s p

/-- Every node with a parent is stored in that parent's children at its recorded index. -/
def AttachInv (s : State) : Prop :=
  ∀ (c p : Nat), (s.heap c).parent = some p →
    ∃ i : Nat, (s.heap c).indexInParent = (i : Int) ∧ (s.heap p).children[i]? = some c

/-- The parent/children links of the whole heap are consistent in both directions. -/
def TreeInv (s : State) : Prop := IndexInv s ∧ AttachInv s

/-- A call of one of the two tree-mutation functions. -/
inductive TreeOp where
  | add (self child : Nat) (bFireEvents : Bool)
  | remove (self child : Nat) (bFireEvents : Bool)

/-- Run one tree-mutation call. -/
def TreeOp.run (s : State) : TreeOp → State
  | TreeOp.add self child b => AddGui s self child b
  | TreeOp.remove self child b => (RemoveGui s self child b).1

/-- Run a finite sequence of tree-mutation calls, first call first. -/
def runOps (s : State) (ops : List TreeOp) : State :=
  ops.foldl TreeOp.run s

/-- Whether the `front`/`back` links of the children of `p` agree with the children vector:
`children[i]->front == children[i+1]` (null for the last) and
`children[i]->back == children[i-1]` (null for the first). -/
def siblingLinked (s : State) (p : Nat) : Bool :=
  (List.range (s.heap p).children.length).all (fun i =>
    match (s.heap p).children[i]? with
    | some c =>
      decide ((s.heap c).front = (s.heap p).children[i + 1]?) &&
      decide ((s.heap c).back = if i = 0 then none else (s.heap p).children[i - 1]?)
    | none => true)

/-- The child is the element stored at `children[child->indexInParent]` of `self`. -/
def StoredAtIndex (s : State) (self child : Nat) : Prop :=
  ∃ k : Nat, (s.heap child).indexInParent = (k : Int) ∧ (s.heap self).children[k]? = some child

/-- Container `0` after `AddGui` of the fresh nodes `1`, `2`, `3`, in this order. -/
def threeChildren : State :=
  AddGui (AddGui (AddGui State.fresh 0 1 true) 0 2 true) 0 3 true

/-! ## Geometry -/

/-- Embedding of `RectF(pos, size)`: the rectangle with top-left corner `pos` and extent `size`. -/
def RectF.ofPosSize (pos size : Vec2) : RectF :=
  ⟨pos.x, pos.x + size.x, pos.y, pos.y + size.y⟩

/-- Embedding of `RectF::GetPos()`: the top-left corner. -/
def RectF.GetPos (r : RectF) : Vec2 := ⟨r.left, r.top⟩

/-- Embedding of `RectF::GetSize()`: width and height. -/
def RectF.GetSize (r : RectF) : Vec2 := ⟨r.right - r.left, r.bottom - r.top⟩

/-- Unary minus of `RectF`, component by component. -/
def RectF.neg (r : RectF) : RectF := ⟨-r.left, -r.right, -r.top, -r.bottom⟩

/-- Modelled from the spec: `RectF::MoveSidesLocal` is declared outside the sources. Each
side moves outwards by its length, so that with negated insets the rectangle is "shrunk by"
them, as section 4.1 derives the content rect. -/
def RectF.MoveSidesLocal (r d : RectF) : RectF :=
  ⟨r.left - d.left, r.right + d.right, r.top - d.top, r.bottom + d.bottom⟩

/-- Embedding of `Gui::GetRect()`. -/
def Gui.GetRect (g : Gui) : RectF := RectF.ofPosSize g.pos g.size

/-- Embedding of `Gui::GetContentRect()`. -/
def Gui.GetContentRect (g : Gui) : RectF :=
  (g.GetRect.MoveSidesLocal g.border.neg).MoveSidesLocal g.padding.neg

/-- Embedding of `Gui::GetPaddingRect()`. -/
def Gui.GetPaddingRect (g : Gui) : RectF := g.GetRect.MoveSidesLocal g.border.neg

/-- Embedding of `Gui::GetBorderRect()`. -/
def Gui.GetBorderRect (g : Gui) : RectF := g.GetRect.MoveSidesLocal g.margin.neg

/-- Embedding of `GetContentPosX()`: left edge of the content rect. -/
def Gui.GetContentPosX (g : Gui) : ℚ := g.GetContentRect.left

/-- Embedding of `GetContentPosY()`: top edge of the content rect. -/
def Gui.GetContentPosY (g : Gui) : ℚ := g.GetContentRect.top

/-- Embedding of `GetContentSizeX()` / `GetContentWidth()`: width of the content rect. -/
def Gui.GetContentSizeX (g : Gui) : ℚ := g.GetContentRect.GetSize.x

/-- Embedding of `GetContentSizeY()`: height of the content rect. -/
def Gui.GetContentSizeY (g : Gui) : ℚ := g.GetContentRect.GetSize.y

/-- Embedding of `GetContentRight()`: right edge of the content rect. -/
def Gui.GetContentRight (g : Gui) : ℚ := g.GetContentRect.right

/-- Embedding of `GetContentBottom()`: bottom edge of the content rect. -/
def Gui.GetContentBottom (g : Gui) : ℚ := g.GetContentRect.bottom

/-- Embedding of `GetContentCenterPosX()`: horizontal centre of the content rect. -/
def Gui.GetContentCenterPosX (g : Gui) : ℚ :=
  g.GetContentRect.left + g.GetContentRect.GetSize.x * (1 / 2)

/-- Embedding of `GetContentCenterPosY()`: vertical centre of the content rect. -/
def Gui.GetContentCenterPosY (g : Gui) : ℚ :=
  g.GetContentRect.top + g.GetContentRect.GetSize.y * (1 / 2)

/-! ## Layout: `SetRect`, `Arrange`, `ArrangeChildren`, `RefreshLayout` -/

/-- What the layout code uses from `Gui.hpp`, which is not among the sources; these members
are parameters of the model. `SetPos(x, y)`, called by `Gui::Move`, is taken to commit
through `SetRect(x, y, size.x, size.y, ..)` with the two flags given here, and
`SetSize(w, h)`, called by the splitter, through `SetRect(pos.x, pos.y, w, h, ..)` with its
own two flags. -/
structure GuiHpp where
  GetDesiredSize : Gui → Vec2
  GetMinSizeX : Gui → ℚ
  GetMinSizeY : Gui → ℚ
  setPosMoveChildren : Bool
  setPosMakeLayoutDirty : Bool
  setSizeMoveChildren : Bool
  setSizeMakeLayoutDirty : Bool

/-- How a call can fail to return a state of the model: a dereference of a null `parent`,
the recursion of the model leaving the depth it was given (a cyclic or too deep heap), or a
floating-point division by zero, whose quotient is no number of the model. -/
inductive ArrangeError where
  | nullParent
  | outOfFuel
  | divisionByZero
deriving DecidableEq

/-- A range-for over a children vector whose body threads the state. -/
def forEachChild (body : State → Nat → Except ArrangeError State) :
    State → List Nat → Except ArrangeError State
  | s, [] => Except.ok s
  | s, c :: rest =>
    match body s c with
    | Except.ok s1 => forEachChild body s1 rest
    | Except.error e => Except.error e

/-- The loop over the children inside `if (bRectChanged)` of `SetRect`: the optional
`child->Move(..)` (passed as `move`), then the two parent-transform delegates. -/
def SetRect.notifyChildren (move : State → Nat → Except ArrangeError State) (rect : RectF) :
    State → List Nat → Except ArrangeError State :=
  forEachChild (fun t child =>
    match move t child with
    | Except.ok t1 =>
      Except.ok ((t1.fire (Event.onParentTransformChanged child rect)).fire
        (Event.onParentTransformChangedClonable child rect))
    | Except.error e => Except.error e)

/-- The rest of `if (bRectChanged)`: `onTransformChanged`, the parent's child-transform
delegates under `if (parent)`, `onRectChanged`. -/
def SetRect.notifySelf (s : State) (self : Nat) (rect : RectF) : State :=
  let s3 := s.fire (Event.onTransformChanged self rect)
  let s4 := match (s3.heap self).parent with
    | some p => (s3.fire (Event.onChildTransformChanged p rect)).fire
        (Event.onChildTransformChangedClonable p rect)
    | none => s3
  (s4.fire (Event.onRectChanged self rect)).fire (Event.onRectChangedClonable self rect)

/-- The blocks `if (bPosChanged)` and `if (bSizeChanged)` that end `SetRect`. -/
def SetRect.notifyChange (s : State) (self : Nat) (rect : RectF)
    (bPosChanged bSizeChanged bMakeLayoutDirty : Bool) : State :=
  let s6 := if bPosChanged then s.fire (Event.onPosChanged self rect.GetPos) else s
  if bSizeChanged then
    let t := (s6.fire (Event.onSizeChanged self rect.GetSize)).fire
      (Event.onSizeChangedClonable self rect.GetSize)
    if bMakeLayoutDirty then t.modify self (fun g => { g with bLayoutNeedRefresh := true })
    else t
  else s6

/-- The statement `if (bMoveChildren) child->Move(rect.GetPos() - oldRect.GetPos());` where
`Move(d)` is `SetPos(pos.x + d.x, pos.y + d.y)`; `setRect` is `SetRect` one level down. -/
def SetRect.move (H : GuiHpp)
    (setRect : State → Nat → ℚ → ℚ → ℚ → ℚ → Bool → Bool → Except ArrangeError State)
    (bMoveChildren : Bool) (d : Vec2) (t : State) (child : Nat) : Except ArrangeError State :=
  if bMoveChildren then
    setRect t child ((t.heap child).pos.x + d.x) ((t.heap child).pos.y + d.y)
      (t.heap child).size.x (t.heap child).size.y
      H.setPosMoveChildren H.setPosMakeLayoutDirty
  else Except.ok t

/-- The part of `SetRect` after the new `pos` and `size` are stored in `s1`: the three
change flags and the notifications they guard. The sizes compared are recomputed from the
sides of the rects, here in exact arithmetic; `SetRectRounded.commit` is the same with the
rounding of `float`. -/
def SetRect.commit (H : GuiHpp)
    (setRect : State → Nat → ℚ → ℚ → ℚ → ℚ → Bool → Bool → Except ArrangeError State)
    (s1 : State) (self : Nat) (rect oldRect : RectF) (bMoveChildren bMakeLayoutDirty : Bool) :
    Except ArrangeError State :=
  let bPosChanged := decide (rect.GetPos ≠ oldRect.GetPos)
  let bSizeChanged := decide (rect.GetSize ≠ oldRect.GetSize)
  let bRectChanged := bPosChanged || bSizeChanged
  let afterRect : Except ArrangeError State :=
    if bRectChanged then
      match SetRect.notifyChildren
          (SetRect.move H setRect bMoveChildren
            ⟨rect.GetPos.x - oldRect.GetPos.x, rect.GetPos.y - oldRect.GetPos.y⟩)
          rect s1 (s1.heap self).children with
      | Except.ok s2 => Except.ok (SetRect.notifySelf s2 self rect)
      | Except.error e => Except.error e
    else Except.ok s1
  match afterRect with
  | Except.ok s5 =>
    Except.ok (SetRect.notifyChange s5 self rect bPosChanged bSizeChanged bMakeLayoutDirty)
  | Except.error e => Except.error e

/-- Embedding of `void Gui::SetRect(float x, float y, float width, float height, bool bMoveChildren,
bool bMakeLayoutDirty)` called on `self`. The first argument bounds the depth to which
children are moved along. -/
def SetRect (H : GuiHpp) : Nat → State → Nat → ℚ → ℚ → ℚ → ℚ → Bool → Bool →
    Except ArrangeError State
  | 0, _, _, _, _, _, _, _, _ => Except.error ArrangeError.outOfFuel
  | fuel + 1, s, self, x, y, width, height, bMoveChildren, bMakeLayoutDirty =>
    let width := max width (H.GetMinSizeX (s.heap self))
    let height := max height (H.GetMinSizeY (s.heap self))
    let oldRect := (s.heap self).GetRect
    let s1 := s.modify self (fun g => { g with pos := ⟨x, y⟩, size := ⟨width, height⟩ })
    let rect := (s1.heap self).GetRect
    SetRect.commit H (SetRect H fuel) s1 self rect oldRect bMoveChildren bMakeLayoutDirty

/-- The effective stretch flags of one `Arrange` call, after the `bForceFitToChildren`
override. -/
structure StretchFlags where
  bFitToChildrenHor : Bool
  bFitToChildrenVer : Bool
  bFillParentHor : Bool
  bFillParentVer : Bool
  bFillParentPositibeDirHor : Bool
  bFillParentPositibeDirVer : Bool

/-- The first lines of `Arrange`: the six flags read from `stretchHor`/`stretchVer`, with a
FILL_PARENT axis turned into FIT_TO_CHILDREN when `bForceFitToChildren` is set. -/
def Arrange.flags (g : Gui) : StretchFlags :=
  let bFitToChildrenHor := decide (g.stretchHor = eGuiStretch.FIT_TO_CHILDREN)
  let bFitToChildrenVer := decide (g.stretchVer = eGuiStretch.FIT_TO_CHILDREN)
  let bFillParentHor := decide (g.stretchHor = eGuiStretch.FILL_PARENT)
  let bFillParentVer := decide (g.stretchVer = eGuiStretch.FILL_PARENT)
  let bFillParentPositibeDirHor := decide (g.stretchHor = eGuiStretch.FILL_PARENT_POSITIVE_DIR)
  let bFillParentPositibeDirVer := decide (g.stretchVer = eGuiStretch.FILL_PARENT_POSITIVE_DIR)
  if g.bForceFitToChildren then
    { bFitToChildrenHor := if bFillParentHor then true else bFitToChildrenHor
      bFitToChildrenVer := if bFillParentVer then true else bFitToChildrenVer
      bFillParentHor := if bFillParentHor then false else bFillParentHor
      bFillParentVer := if bFillParentVer then false else bFillParentVer
      bFillParentPositibeDirHor := bFillParentPositibeDirHor
      bFillParentPositibeDirVer := bFillParentPositibeDirVer }
  else
    { bFitToChildrenHor := bFitToChildrenHor
      bFitToChildrenVer := bFitToChildrenVer
      bFillParentHor := bFillParentHor
      bFillParentVer := bFillParentVer
      bFillParentPositibeDirHor := bFillParentPositibeDirHor
      bFillParentPositibeDirVer := bFillParentPositibeDirVer }

/-- The assignment `bForceFitToChildren = false` that ends the block
`if (bForceFitToChildren) { .. }` at the start of `Arrange`. -/
def Arrange.resetForceFit (s : State) (self : Nat) : State :=
  if (s.heap self).bForceFitToChildren then
    s.modify self (fun g => { g with bForceFitToChildren := false })
  else s

/-- A read through `parent->`: undefined when `parent` is null. -/
def derefParent (s : State) (self : Nat) : Except ArrangeError Gui :=
  match (s.heap self).parent with
  | some p => Except.ok (s.heap p)
  | none => Except.error ArrangeError.nullParent

/-- The loop of the fit-to-children block that sets `c->bForceFitToChildren = true` on the
children with a FILL_PARENT axis. -/
def Arrange.forceFit (s : State) : List Nat → State
  | [] => s
  | c :: rest =>
    Arrange.forceFit
      (if (s.heap c).stretchHor = eGuiStretch.FILL_PARENT ∨
          (s.heap c).stretchVer = eGuiStretch.FILL_PARENT then
        s.modify c (fun g => { g with bForceFitToChildren := true })
      else s) rest

/-- The loop of the fit-to-children block that sets `c->bFillParentEnabled = true` on the
children with a FILL_PARENT or FILL_PARENT_POSITIVE_DIR axis. -/
def Arrange.enableFill (s : State) : List Nat → State
  | [] => s
  | c :: rest =>
    Arrange.enableFill
      (if (s.heap c).stretchHor = eGuiStretch.FILL_PARENT ∨
          (s.heap c).stretchVer = eGuiStretch.FILL_PARENT ∨
          (s.heap c).stretchHor = eGuiStretch.FILL_PARENT_POSITIVE_DIR ∨
          (s.heap c).stretchVer = eGuiStretch.FILL_PARENT_POSITIVE_DIR then
        s.modify c (fun g => { g with bFillParentEnabled := true })
      else s) rest

/-- The loop of `Gui::ArrangeChildren`, with the recursive `Arrange` as a parameter:
`sizeUsed = child->Arrange(child->GetPos(), child->GetDesiredSize())`, componentwise max. -/
def ArrangeChildren.loop (H : GuiHpp)
    (arrange : State → Nat → Vec2 → Vec2 → Except ArrangeError (State × Vec2)) :
    State → Vec2 → List Nat → Except ArrangeError (State × Vec2)
  | s, size, [] => Except.ok (s, size)
  | s, size, child :: rest =>
    match arrange s child (s.heap child).pos (H.GetDesiredSize (s.heap child)) with
    | Except.ok (s1, sizeUsed) =>
      ArrangeChildren.loop H arrange s1 ⟨max size.x sizeUsed.x, max size.y sizeUsed.y⟩ rest
    | Except.error e => Except.error e

/-- The body of `Gui::ArrangeChildren(const Vec2& finalSize)` (the default one) called on
`self`, with the recursive `Arrange` as a parameter; `finalSize` is not used by the body. -/
def ArrangeChildren.body (H : GuiHpp)
    (arrange : State → Nat → Vec2 → Vec2 → Except ArrangeError (State × Vec2))
    (s : State) (self : Nat) (_finalSize : Vec2) : Except ArrangeError (State × Vec2) :=
  ArrangeChildren.loop H arrange s ⟨0, 0⟩ (s.heap self).children

/-- The block `if (bFillParent || bFillParentPositiveDir)` of `Arrange`, on the local
variables `newPos`, `newSize`; the node itself is `g`, the state is read through `parent`. -/
def Arrange.fillParent (s : State) (self : Nat) (f : StretchFlags) (newPos newSize : Vec2) :
    Except ArrangeError (Vec2 × Vec2) :=
  let g := s.heap self
  let step1 : Except ArrangeError (Vec2 × Vec2) :=
    if f.bFillParentHor then
      match derefParent s self with
      | Except.ok parent =>
        if parent.stretchHor ≠ eGuiStretch.FIT_TO_CHILDREN ∨ g.bFillParentEnabled = true then
          Except.ok (⟨parent.GetContentPosX, newPos.y⟩, ⟨parent.GetContentSizeX, newSize.y⟩)
        else Except.ok (newPos, newSize)
      | Except.error e => Except.error e
    else Except.ok (newPos, newSize)
  match step1 with
  | Except.error e => Except.error e
  | Except.ok (newPos, newSize) =>
  let step2 : Except ArrangeError (Vec2 × Vec2) :=
    if f.bFillParentVer then
      match derefParent s self with
      | Except.ok parent =>
        if parent.stretchVer ≠ eGuiStretch.FIT_TO_CHILDREN ∨ g.bFillParentEnabled = true then
          Except.ok (⟨newPos.x, parent.GetContentPosY⟩, ⟨newSize.x, parent.GetContentSizeY⟩)
        else Except.ok (newPos, newSize)
      | Except.error e => Except.error e
    else Except.ok (newPos, newSize)
  match step2 with
  | Except.error e => Except.error e
  | Except.ok (newPos, newSize) =>
  let step3 : Except ArrangeError (Vec2 × Vec2) :=
    if f.bFillParentPositibeDirHor then
      match derefParent s self with
      | Except.ok parent =>
        if parent.stretchHor ≠ eGuiStretch.FIT_TO_CHILDREN ∨ g.bFillParentEnabled = true then
          Except.ok (newPos, ⟨parent.GetContentRight - newPos.x, newSize.y⟩)
        else Except.ok (newPos, newSize)
      | Except.error e => Except.error e
    else Except.ok (newPos, newSize)
  match step3 with
  | Except.error e => Except.error e
  | Except.ok (newPos, newSize) =>
    if f.bFillParentPositibeDirVer then
      match derefParent s self with
      | Except.ok parent =>
        if parent.stretchVer ≠ eGuiStretch.FIT_TO_CHILDREN ∨ g.bFillParentEnabled = true then
          Except.ok (newPos, ⟨newSize.x, parent.GetContentBottom - newPos.y⟩)
        else Except.ok (newPos, newSize)
      | Except.error e => Except.error e
    else Except.ok (newPos, newSize)

/-- The two alignment `switch` statements of `Arrange`; returns the new `newPos`. Only the
CENTER cases test `if (parent)`. -/
def Arrange.align (s : State) (self : Nat) (newPos newSize : Vec2) :
    Except ArrangeError Vec2 :=
  let g := s.heap self
  let afterVer : Except ArrangeError Vec2 :=
    match g.alignVer with
    | eGuiAlignVer.NONE => Except.ok newPos
    | eGuiAlignVer.TOP =>
      match derefParent s self with
      | Except.ok parent => Except.ok ⟨newPos.x, parent.GetContentPosY⟩
      | Except.error e => Except.error e
    | eGuiAlignVer.CENTER =>
      match g.parent with
      | some p => Except.ok ⟨newPos.x, (s.heap p).GetContentCenterPosY - newSize.y * (1 / 2)⟩
      | none => Except.ok newPos
    | eGuiAlignVer.BOTTOM =>
      match derefParent s self with
      | Except.ok parent => Except.ok ⟨newPos.x, parent.GetContentRect.bottom - newSize.y⟩
      | Except.error e => Except.error e
  match afterVer with
  | Except.error e => Except.error e
  | Except.ok newPos =>
    match g.alignHor with
    | eGuiAlignHor.NONE => Except.ok newPos
    | eGuiAlignHor.LEFT =>
      match derefParent s self with
      | Except.ok parent => Except.ok ⟨parent.GetContentPosX, newPos.y⟩
      | Except.error e => Except.error e
    | eGuiAlignHor.CENTER =>
      match g.parent with
      | some p => Except.ok ⟨(s.heap p).GetContentCenterPosX - newSize.x * (1 / 2), newPos.y⟩
      | none => Except.ok newPos
    | eGuiAlignHor.RIGHT =>
      match derefParent s self with
      | Except.ok parent =>
        Except.ok ⟨parent.GetContentPosX + parent.GetContentSizeX - newSize.x, newPos.y⟩
      | Except.error e => Except.error e

/-- The block `if (bFitToChildren) { .. }` of `Arrange`: measure the children and take the
fitted axes of `newSize` from their bounding box; returns the state and `newSize`. -/
def Arrange.fitToChildren (H : GuiHpp)
    (arrange : State → Nat → Vec2 → Vec2 → Except ArrangeError (State × Vec2))
    (s0 : State) (self : Nat) (f : StretchFlags) (size : Vec2) :
    Except ArrangeError (State × Vec2) :=
  if f.bFitToChildrenHor || f.bFitToChildrenVer then
    let g := s0.heap self
    let contentSize : Vec2 :=
      ⟨size.x - (g.margin.left + g.margin.right) - (g.border.left + g.border.right)
          - (g.padding.left + g.padding.right),
        size.y - (g.margin.top + g.margin.bottom) - (g.border.top + g.border.bottom)
          - (g.padding.top + g.padding.bottom)⟩
    let s1 := Arrange.forceFit s0 (s0.heap self).children
    match ArrangeChildren.body H arrange s1 self contentSize with
    | Except.ok (s2, sizeUsed) =>
      let g2 := s2.heap self
      let newSizeX :=
        if f.bFitToChildrenHor then
          sizeUsed.x + (g2.padding.left + g2.padding.right)
            + (g2.border.left + g2.border.right) + (g2.margin.left + g2.margin.right)
        else size.x
      let newSizeY :=
        if f.bFitToChildrenVer then
          sizeUsed.y + (g2.padding.top + g2.padding.bottom)
            + (g2.border.top + g2.border.bottom) + (g2.margin.top + g2.margin.bottom)
        else size.y
      Except.ok (Arrange.enableFill s2 (s2.heap self).children, ⟨newSizeX, newSizeY⟩)
    | Except.error e => Except.error e
  else Except.ok (s0, size)

/-- The block `if (bFillParent || bFillParentPositiveDir) { .. bFillParentEnabled = false; }`
of `Arrange`; returns the state, `newPos` and `newSize`. -/
def Arrange.fill (s3 : State) (self : Nat) (f : StretchFlags) (pos newSize : Vec2) :
    Except ArrangeError (State × Vec2 × Vec2) :=
  if (f.bFillParentHor || f.bFillParentVer) ||
      (f.bFillParentPositibeDirHor || f.bFillParentPositibeDirVer) then
    match Arrange.fillParent s3 self f pos newSize with
    | Except.ok (newPos, newSize) =>
      Except.ok (s3.modify self (fun g => { g with bFillParentEnabled := false }),
        newPos, newSize)
    | Except.error e => Except.error e
  else Except.ok (s3, pos, newSize)

/-- The end of `Arrange`, from the comment "Pos and size containing the margin, subtract
it": the margin is taken off, `SetRect(.., true, false)` commits, the children are arranged
against the committed size, the dirty flag is cleared, the used size is returned. -/
def Arrange.finish (H : GuiHpp)
    (setRect : State → Nat → ℚ → ℚ → ℚ → ℚ → Bool → Bool → Except ArrangeError State)
    (arrange : State → Nat → Vec2 → Vec2 → Except ArrangeError (State × Vec2))
    (s4 : State) (self : Nat) (newPos newSize : Vec2) : Except ArrangeError (State × Vec2) :=
  let g4 := s4.heap self
  match setRect s4 self (newPos.x + g4.margin.left) (newPos.y + g4.margin.right)
      (newSize.x - (g4.margin.left + g4.margin.right))
      (newSize.y - (g4.margin.top + g4.margin.bottom)) true false with
  | Except.error e => Except.error e
  | Except.ok s5 =>
    -- `newSize = GetSize()`, read before `ArrangeChildren(newSize)`
    let newSize := (s5.heap self).size
    match ArrangeChildren.body H arrange s5 self newSize with
    | Except.error e => Except.error e
    | Except.ok (s6, _) =>
      let s7 := s6.modify self (fun g => { g with bLayoutNeedRefresh := false })
      let g7 := s7.heap self
      Except.ok (s7, ⟨newSize.x + (g7.margin.left + g7.margin.right),
        newSize.y + (g7.margin.top + g7.margin.bottom)⟩)

/-- Embedding of `Vec2 Gui::Arrange(const Vec2& pos, const Vec2& size)` called on `self`, for nodes whose
`ArrangeChildren` is the default one. The first argument bounds the depth of the recursion
into the children. -/
def Arrange (H : GuiHpp) : Nat → State → Nat → Vec2 → Vec2 → Except ArrangeError (State × Vec2)
  | 0, _, _, _, _ => Except.error ArrangeError.outOfFuel
  | fuel + 1, s, self, pos, size =>
    let f := Arrange.flags (s.heap self)
    let s0 := Arrange.resetForceFit s self
    match Arrange.fitToChildren H (Arrange H fuel) s0 self f size with
    | Except.error e => Except.error e
    | Except.ok (s3, newSize) =>
      match Arrange.fill s3 self f pos newSize with
      | Except.error e => Except.error e
      | Except.ok (s4, newPos, newSize) =>
        match Arrange.align s4 self newPos newSize with
        | Except.error e => Except.error e
        | Except.ok newPos =>
          Arrange.finish H (SetRect H (fuel + 1)) (Arrange H fuel) s4 self newPos newSize

/-- Embedding of `Gui::ArrangeChildren(const Vec2& finalSize)` (the default, non-overridden one) called
on `self`; the argument `finalSize` is not used by the body. -/
def ArrangeChildren (H : GuiHpp) (fuel : Nat) (s : State) (self : Nat) (finalSize : Vec2) :
    Except ArrangeError (State × Vec2) :=
  ArrangeChildren.body H (Arrange H fuel) s self finalSize

/-- The loop `while (arrangeRoot && arrangeRoot->GetParent())` of `RefreshLayout`; `none`
when the walk does not end within the given number of steps. -/
def arrangeRoot : Nat → State → Nat → Option Nat
  | 0, _, _ => none
  | fuel + 1, s, n =>
    match (s.heap n).parent with
    | some p => arrangeRoot fuel s p
    | none => some n

/-- Embedding of `void Gui::RefreshLayout()` called on `self`. -/
def RefreshLayout (H : GuiHpp) (fuel : Nat) (s : State) (self : Nat) :
    Except ArrangeError State :=
  if (s.heap self).bLayoutNeedRefresh = false then Except.ok s
  else
    match arrangeRoot fuel s self with
    | some root =>
      match Arrange H fuel s root (s.heap root).pos (s.heap root).size with
      | Except.ok (s1, _) => Except.ok s1
      | Except.error e => Except.error e
    | none => Except.error ArrangeError.outOfFuel

/-! ## Trees in the heap -/

/-- The node `m` is `n` itself or is reached from `n` through children vectors. -/
inductive Descendant (s : State) : Nat → Nat → Prop where
  | self (n : Nat) : Descendant s n n
  | child {n c m : Nat} : c ∈ (s.heap n).children → Descendant s c m → Descendant s n m

/-- The node reads `parent->` in `Arrange` without testing it: a FILL_PARENT or
FILL_PARENT_POSITIVE_DIR axis, or an alignment other than NONE and CENTER. -/
def Gui.usesParent (g : Gui) : Bool :=
  decide (g.stretchHor = eGuiStretch.FILL_PARENT) ||
  decide (g.stretchVer = eGuiStretch.FILL_PARENT) ||
  decide (g.stretchHor = eGuiStretch.FILL_PARENT_POSITIVE_DIR) ||
  decide (g.stretchVer = eGuiStretch.FILL_PARENT_POSITIVE_DIR) ||
  decide (g.alignVer = eGuiAlignVer.TOP) || decide (g.alignVer = eGuiAlignVer.BOTTOM) ||
  decide (g.alignHor = eGuiAlignHor.LEFT) || decide (g.alignHor = eGuiAlignHor.RIGHT)

/-- The subtree below `n` is a finite tree of depth at most `d` (so `d` levels of recursion
reach all of it), and every node of it that reads `parent->` has a parent. -/
def arrangeable (s : State) : Nat → Nat → Bool
  | 0, _ => false
  | d + 1, n =>
    (!(s.heap n).usesParent || (s.heap n).parent.isSome) &&
    (s.heap n).children.all (fun c => arrangeable s d c)

/-- The members of a node that the layout pass never writes: everything except `pos`,
`size` and the three flags. -/
def Gui.fixed (g : Gui) : Gui :=
  { g with
    pos := ⟨0, 0⟩, size := ⟨0, 0⟩, bLayoutNeedRefresh := false,
    bFillParentEnabled := false, bForceFitToChildren := false }

/-- The state `t` differs from `s` at most in positions, sizes and flags (and the log). -/
def SameFixed (s t : State) : Prop := ∀ m, (t.heap m).fixed = (s.heap m).fixed

/-- What a layout step on `root` may do to the heap: the fixed members of every node are
left alone, and a node that is not `root` or below it is not written at all. -/
def StepOk (s : State) (root : Nat) (t : State) : Prop :=
  SameFixed s t ∧ ∀ m, ¬ Descendant s root m → t.heap m = s.heap m

/-- What `Arrange` on `root` does to the heap besides geometry: a `StepOk` step after which
no dirty flag is set on `root` or below. -/
def CleanStep (s : State) (root : Nat) (t : State) : Prop :=
  StepOk s root t ∧ ∀ m, Descendant s root m → (t.heap m).bLayoutNeedRefresh = false

/-! ## Measurement of children -/

/-- A choice of the `Gui.hpp` members for the examples: the desired size is the current size
plus the margin (the space `Arrange` takes the margin off again), no minimum size, and
`SetPos` and `SetSize` moving children and marking the layout dirty like the setters of
`Gui.cpp`. -/
def sampleHpp : GuiHpp where
  GetDesiredSize := fun g =>
    ⟨g.size.x + (g.margin.left + g.margin.right), g.size.y + (g.margin.top + g.margin.bottom)⟩
  GetMinSizeX := fun _ => 0
  GetMinSizeY := fun _ => 0
  setPosMoveChildren := true
  setPosMakeLayoutDirty := true
  setSizeMoveChildren := true
  setSizeMakeLayoutDirty := true

/-- Another choice of the `Gui.hpp` members: the desired size is the current size, no
minimum size, and `SetPos` and `SetSize` neither moving children nor marking the layout
dirty. -/
def plainHpp : GuiHpp where
  GetDesiredSize := fun g => g.size
  GetMinSizeX := fun _ => 0
  GetMinSizeY := fun _ => 0
  setPosMoveChildren := false
  setPosMakeLayoutDirty := false
  setSizeMoveChildren := false
  setSizeMakeLayoutDirty := false

/-- Scenario 1 of the specification: root `0` of 400x300, its child `1` with
FIT_TO_CHILDREN on both axes, and the leaf `2` of 50x20 with margin 5 on all sides below
`1`. -/
def scenario1 : State :=
  (((AddGui (AddGui State.fresh 0 1 true) 1 2 true).modify 0
      (fun g => { g with size := ⟨400, 300⟩ })).modify 1
      (fun g => { g with stretchHor := eGuiStretch.FIT_TO_CHILDREN,
                         stretchVer := eGuiStretch.FIT_TO_CHILDREN })).modify 2
      (fun g => { g with size := ⟨50, 20⟩, margin := ⟨5, 5, 5, 5⟩ })

/-- A root `0` with one child `1` whose left margin is 5; everything else as constructed. -/
def marginChild : State :=
  (AddGui State.fresh 0 1 true).modify 1 (fun g => { g with margin := ⟨5, 0, 0, 0⟩ })

/-- Two `Arrange(pos, size)` calls on `self` in succession with nothing in between; the
states after the first and after the second call. -/
def arrangeTwice (H : GuiHpp) (fuel : Nat) (s : State) (self : Nat) (pos size : Vec2) :
    Option (State × State) :=
  match Arrange H fuel s self pos size with
  | Except.ok (s1, _) =>
    match Arrange H fuel s1 self pos size with
    | Except.ok (s2, _) => some (s1, s2)
    | Except.error _ => none
  | Except.error _ => none

/-- The node `n` in the state a call returned, if it returned. -/
def resultNode (r : Except ArrangeError (State × Vec2)) (n : Nat) : Option Gui :=
  match r with
  | Except.ok (s, _) => some (s.heap n)
  | Except.error _ => none

/-! ## Rectangles within rectangles; further example configurations -/

/-- The rectangle `inner` lies within `outer`: no side of it is outside. -/
def RectF.Within (inner outer : RectF) : Prop :=
  outer.left ≤ inner.left ∧ inner.right ≤ outer.right ∧
  outer.top ≤ inner.top ∧ inner.bottom ≤ outer.bottom

instance (inner outer : RectF) : Decidable (inner.Within outer) := by
  unfold RectF.Within; infer_instance

/-- All four lengths of an inset (margin, border or padding) are non-negative. -/
def RectF.NonNeg (r : RectF) : Prop := 0 ≤ r.left ∧ 0 ≤ r.right ∧ 0 ≤ r.top ∧ 0 ≤ r.bottom

instance (r : RectF) : Decidable r.NonNeg := by
  unfold RectF.NonNeg; infer_instance

/-- A node of 100x100 at the origin with margin 5 on all sides, no border, no padding. -/
def marginBox : Gui :=
  { Gui.new with size := ⟨100, 100⟩, margin := ⟨5, 5, 5, 5⟩ }

/-- A single node `0` as constructed (60x20, stretch and alignment NONE) whose margin is
left 1, right 7, top 3, bottom 2. -/
def slipLeaf : State :=
  State.fresh.modify 0 (fun g => { g with margin := ⟨1, 7, 3, 2⟩ })

/-- A root `0` of 400x300 at the origin with one child `1` whose stretch is FILL_PARENT on
both axes and whose margin is `m`; with `m` zero this is scenario 2 of the specification. -/
def fillChild (m : RectF) : State :=
  ((AddGui State.fresh 0 1 true).modify 0 (fun g => { g with size := ⟨400, 300⟩ })).modify 1
    (fun g => { g with stretchHor := eGuiStretch.FILL_PARENT,
                       stretchVer := eGuiStretch.FILL_PARENT, margin := m })

deriving instance DecidableEq for Except

/-! ## Delegate invocations of one call -/

/-- The invocation is `onPosChanged` of the node `n`. -/
def Event.isPosChangedOf (n : Nat) : Event → Bool
  | Event.onPosChanged m _ => decide (m = n)
  | _ => false

/-- The invocation is `onSizeChanged` or `onSizeChangedClonable` of the node `n`. -/
def Event.isSizeChangedOf (n : Nat) : Event → Bool
  | Event.onSizeChanged m _ => decide (m = n)
  | Event.onSizeChangedClonable m _ => decide (m = n)
  | _ => false

/-- From `s` to `t` the log has only grown, and every invocation added satisfies `P`. -/
def Fired (P : Event → Prop) (s t : State) : Prop :=
  ∃ new, t.log = s.log ++ new ∧ ∀ e ∈ new, P e

/-- The size of the node `c` is at least 0 on both axes. -/
def SizeNonNeg (s : State) (c : Nat) : Prop :=
  0 ≤ (s.heap c).size.x ∧ 0 ≤ (s.heap c).size.y

/-! ## The splitter: `GuiSplitter` -/

/-- Embedding of `enum class eGuiOrientation`. -/
inductive eGuiOrientation where
  | VERTICAL
  | HORIZONTAL
deriving DecidableEq

/-- The values of `eCursorVisual` that `GuiSplitter.cpp` sets. -/
inductive eCursorVisual where
  | ARROW
  | SIZEWE
  | SIZENS
deriving DecidableEq

/-- The component of a vector along the orientation: `x` for HORIZONTAL, `y` for VERTICAL. -/
def eGuiOrientation.along (o : eGuiOrientation) (v : Vec2) : ℚ :=
  match o with
  | eGuiOrientation.HORIZONTAL => v.x
  | eGuiOrientation.VERTICAL => v.y

/-- The two lengths of an inset (such as the margin) along the orientation, added up. -/
def eGuiOrientation.insets (o : eGuiOrientation) (r : RectF) : ℚ :=
  match o with
  | eGuiOrientation.HORIZONTAL => r.left + r.right
  | eGuiOrientation.VERTICAL => r.top + r.bottom

/-- The members that `class GuiSplitter` adds to those of `Gui`, as `GuiSplitter.cpp` uses
them. The set `items` is the list of its elements in iteration order. -/
structure GuiSplitter where
  orientation : eGuiOrientation
  separatorLength : ℚ
  items : List Nat
  separators : List Nat
  bDragging : Bool
  mousePosWhenPressed : Vec2
  prevItemOrigSize : Vec2
  nextItemOrigSize : Vec2
  separatorSaved : Option Nat
deriving DecidableEq

/-- The member values after `GuiSplitter::GuiSplitter(GuiEngine*)`: orientation HORIZONTAL,
separator length 10; the members the constructor does not name are empty, null, and not
dragging. -/
def GuiSplitter.new : GuiSplitter where
  orientation := eGuiOrientation.HORIZONTAL
  separatorLength := 10
  items := []
  separators := []
  bDragging := false
  mousePosWhenPressed := ⟨0, 0⟩
  prevItemOrigSize := ⟨0, 0⟩
  nextItemOrigSize := ⟨0, 0⟩
  separatorSaved := none

/-- Modelled from the spec: `Gui::SetSize(width, height)` is declared in `Gui.hpp`, outside
the sources. By section 4.4 (5) a size is committed through the rect-change contract, so
the call on `self` is `SetRect(pos.x, pos.y, width, height, ..)`, here with `SetRect` passed
in; the two flags it passes on are the members `setSizeMoveChildren` and
`setSizeMakeLayoutDirty` of `GuiHpp`. -/
def SetSize (H : GuiHpp)
    (setRect : State → Nat → ℚ → ℚ → ℚ → ℚ → Bool → Bool → Except ArrangeError State)
    (s : State) (self : Nat) (width height : ℚ) : Except ArrangeError State :=
  setRect s self (s.heap self).pos.x (s.heap self).pos.y width height
    H.setSizeMoveChildren H.setSizeMakeLayoutDirty

/-- The first loop of `GuiSplitter::ArrangeChildren`: `itemsLength` is the sum of the
lengths of the items' parents along the orientation; `child->GetParent()` is dereferenced
unchecked. -/
def GuiSplitter.ArrangeChildren.itemsLength (s : State) (bVertical : Bool) :
    ℚ → List Nat → Except ArrangeError ℚ
  | acc, [] => Except.ok acc
  | acc, child :: rest =>
    match (s.heap child).parent with
    | some container =>
      GuiSplitter.ArrangeChildren.itemsLength s bVertical
        (acc + if bVertical then (s.heap container).size.y else (s.heap container).size.x) rest
    | none => Except.error ArrangeError.nullParent

/-- The second loop of `GuiSplitter::ArrangeChildren`: every item's container gets its share
`container->GetSize() / itemsLength * freeSpace` added to its length, and the content size
of the splitter `self` across the orientation. The division is by `itemsLength` as it is.
The arithmetic is exact here; `GuiSplitter.ArrangeChildren.sizeItemsRounded` is the same
with the rounding of `float`. -/
def GuiSplitter.ArrangeChildren.sizeItems (H : GuiHpp)
    (setRect : State → Nat → ℚ → ℚ → ℚ → ℚ → Bool → Bool → Except ArrangeError State)
    (bVertical : Bool) (itemsLength freeSpace : ℚ) (self : Nat) :
    State → List Nat → Except ArrangeError State
  | s, [] => Except.ok s
  | s, item :: rest =>
    match (s.heap item).parent with
    | none => Except.error ArrangeError.nullParent
    | some container =>
      if itemsLength = 0 then Except.error ArrangeError.divisionByZero
      else
        let itemNormedSpacePercent : Vec2 :=
          ⟨(s.heap container).size.x / itemsLength, (s.heap container).size.y / itemsLength⟩
        let itemFreeSpace : Vec2 :=
          ⟨itemNormedSpacePercent.x * freeSpace, itemNormedSpacePercent.y * freeSpace⟩
        let r :=
          if bVertical then
            SetSize H setRect s container (s.heap self).GetContentSizeX
              ((s.heap container).size.y + itemFreeSpace.y)
          else
            SetSize H setRect s container ((s.heap container).size.x + itemFreeSpace.x)
              (s.heap self).GetContentSizeY
        match r with
        | Except.ok s1 =>
          GuiSplitter.ArrangeChildren.sizeItems H setRect bVertical itemsLength freeSpace self
            s1 rest
        | Except.error e => Except.error e

/-- The third loop of `GuiSplitter::ArrangeChildren`: the children are arranged one after
the other along the orientation, each at the offset the ones before have used. -/
def GuiSplitter.ArrangeChildren.layout (H : GuiHpp)
    (arrange : State → Nat → Vec2 → Vec2 → Except ArrangeError (State × Vec2))
    (bVertical : Bool) (pos : Vec2) :
    State → Vec2 → List Nat → Except ArrangeError (State × Vec2)
  | s, selfSize, [] => Except.ok (s, selfSize)
  | s, selfSize, child :: rest =>
    let desiredSize := H.GetDesiredSize (s.heap child)
    if bVertical then
      match arrange s child ⟨pos.x, pos.y + selfSize.y⟩ desiredSize with
      | Except.ok (s1, sizeUsed) =>
        GuiSplitter.ArrangeChildren.layout H arrange bVertical pos s1
          ⟨max selfSize.x sizeUsed.x, selfSize.y + sizeUsed.y⟩ rest
      | Except.error e => Except.error e
    else
      match arrange s child ⟨pos.x + selfSize.x, pos.y⟩ desiredSize with
      | Except.ok (s1, sizeUsed) =>
        GuiSplitter.ArrangeChildren.layout H arrange bVertical pos s1
          ⟨selfSize.x + sizeUsed.x, max selfSize.y sizeUsed.y⟩ rest
      | Except.error e => Except.error e

/-- The body of `Vec2 GuiSplitter::ArrangeChildren(const Vec2& finalSize)` called on the
splitter `self` with the members `sp`; `SetRect` and the recursive `Arrange` are passed in. -/
def GuiSplitter.ArrangeChildren.body (H : GuiHpp) (sp : GuiSplitter)
    (setRect : State → Nat → ℚ → ℚ → ℚ → ℚ → Bool → Bool → Except ArrangeError State)
    (arrange : State → Nat → Vec2 → Vec2 → Except ArrangeError (State × Vec2))
    (s : State) (self : Nat) (_finalSize : Vec2) : Except ArrangeError (State × Vec2) :=
  let items := sp.items
  if items.length = 0 then Except.ok (s, (s.heap self).size)
  else
    let bVertical := decide (sp.orientation = eGuiOrientation.VERTICAL)
    match GuiSplitter.ArrangeChildren.itemsLength s bVertical 0 items with
    | Except.error e => Except.error e
    | Except.ok itemsLength =>
      let separatorCount : Nat := items.length - 1
      let childrenLength := itemsLength + (separatorCount : ℚ) * sp.separatorLength
      let freeSpace :=
        if bVertical then (s.heap self).GetContentSizeY - childrenLength
        else (s.heap self).GetContentSizeX - childrenLength
      match GuiSplitter.ArrangeChildren.sizeItems H setRect bVertical itemsLength freeSpace self
          s items with
      | Except.error e => Except.error e
      | Except.ok s1 =>
        GuiSplitter.ArrangeChildren.layout H arrange bVertical
          ⟨(s1.heap self).GetContentPosX, (s1.heap self).GetContentPosY⟩ s1 ⟨0, 0⟩
          (s1.heap self).children

/-- Embedding of `Vec2 GuiSplitter::ArrangeChildren(const Vec2& finalSize)` called on `self`, for a
splitter below which every node has the default `ArrangeChildren`. -/
def GuiSplitter.ArrangeChildren (H : GuiHpp) (fuel : Nat) (sp : GuiSplitter) (s : State)
    (self : Nat) (finalSize : Vec2) : Except ArrangeError (State × Vec2) :=
  GuiSplitter.ArrangeChildren.body H sp (SetRect H fuel) (Arrange H fuel) s self finalSize

/-- The sum of the lengths of the given containers along the orientation: the value of
`itemsLength` when these are the parents of the items. -/
def GuiSplitter.itemsLengthOf (o : eGuiOrientation) (s : State) (containers : List Nat) : ℚ :=
  (containers.map (fun c => o.along (s.heap c).size)).sum

/-- The content length of a node along the orientation. -/
def GuiSplitter.contentLength (o : eGuiOrientation) (g : Gui) : ℚ :=
  o.along ⟨g.GetContentSizeX, g.GetContentSizeY⟩

/-- The value of `freeSpace` for the splitter `self` when the given containers are the
parents of its items: the content length minus the lengths of the containers and of the
`items.size() - 1` separators. -/
def GuiSplitter.freeSpaceOf (sp : GuiSplitter) (s : State) (self : Nat)
    (containers : List Nat) : ℚ :=
  GuiSplitter.contentLength sp.orientation (s.heap self) -
    (GuiSplitter.itemsLengthOf sp.orientation s containers +
      ((sp.items.length - 1 : Nat) : ℚ) * sp.separatorLength)

/-- The block `if (bFitToChildren) { .. }` of `Arrange` as `Arrange.fitToChildren` has it,
with the virtual `ArrangeChildren` passed in. -/
def Arrange.fitToChildrenWith
    (arrangeChildren : State → Nat → Vec2 → Except ArrangeError (State × Vec2))
    (s0 : State) (self : Nat) (f : StretchFlags) (size : Vec2) :
    Except ArrangeError (State × Vec2) :=
  if f.bFitToChildrenHor || f.bFitToChildrenVer then
    let g := s0.heap self
    let contentSize : Vec2 :=
      ⟨size.x - (g.margin.left + g.margin.right) - (g.border.left + g.border.right)
          - (g.padding.left + g.padding.right),
        size.y - (g.margin.top + g.margin.bottom) - (g.border.top + g.border.bottom)
          - (g.padding.top + g.padding.bottom)⟩
    let s1 := Arrange.forceFit s0 (s0.heap self).children
    match arrangeChildren s1 self contentSize with
    | Except.ok (s2, sizeUsed) =>
      let g2 := s2.heap self
      let newSizeX :=
        if f.bFitToChildrenHor then
          sizeUsed.x + (g2.padding.left + g2.padding.right)
            + (g2.border.left + g2.border.right) + (g2.margin.left + g2.margin.right)
        else size.x
      let newSizeY :=
        if f.bFitToChildrenVer then
          sizeUsed.y + (g2.padding.top + g2.padding.bottom)
            + (g2.border.top + g2.border.bottom) + (g2.margin.top + g2.margin.bottom)
        else size.y
      Except.ok (Arrange.enableFill s2 (s2.heap self).children, ⟨newSizeX, newSizeY⟩)
    | Except.error e => Except.error e
  else Except.ok (s0, size)

/-- The end of `Arrange` as `Arrange.finish` has it, with the virtual `ArrangeChildren`
passed in. -/
def Arrange.finishWith
    (setRect : State → Nat → ℚ → ℚ → ℚ → ℚ → Bool → Bool → Except ArrangeError State)
    (arrangeChildren : State → Nat → Vec2 → Except ArrangeError (State × Vec2))
    (s4 : State) (self : Nat) (newPos newSize : Vec2) : Except ArrangeError (State × Vec2) :=
  let g4 := s4.heap self
  match setRect s4 self (newPos.x + g4.margin.left) (newPos.y + g4.margin.right)
      (newSize.x - (g4.margin.left + g4.margin.right))
      (newSize.y - (g4.margin.top + g4.margin.bottom)) true false with
  | Except.error e => Except.error e
  | Except.ok s5 =>
    let newSize := (s5.heap self).size
    match arrangeChildren s5 self newSize with
    | Except.error e => Except.error e
    | Except.ok (s6, _) =>
      let s7 := s6.modify self (fun g => { g with bLayoutNeedRefresh := false })
      let g7 := s7.heap self
      Except.ok (s7, ⟨newSize.x + (g7.margin.left + g7.margin.right),
        newSize.y + (g7.margin.top + g7.margin.bottom)⟩)

/-- Embedding of `Vec2 Gui::Arrange(const Vec2& pos, const Vec2& size)` called on `self` in a tree that may
hold splitters: `cls n` gives the `GuiSplitter` members of the object `n` if it is one, and
the call `ArrangeChildren(..)` is `GuiSplitter::ArrangeChildren` on such an object and
`Gui::ArrangeChildren` on any other. -/
def ArrangeV (H : GuiHpp) (cls : Nat → Option GuiSplitter) :
    Nat → State → Nat → Vec2 → Vec2 → Except ArrangeError (State × Vec2)
  | 0, _, _, _, _ => Except.error ArrangeError.outOfFuel
  | fuel + 1, s, self, pos, size =>
    let arrangeChildren : State → Nat → Vec2 → Except ArrangeError (State × Vec2) :=
      match cls self with
      | some sp =>
        GuiSplitter.ArrangeChildren.body H sp (SetRect H fuel) (ArrangeV H cls fuel)
      | none => ArrangeChildren.body H (ArrangeV H cls fuel)
    let f := Arrange.flags (s.heap self)
    let s0 := Arrange.resetForceFit s self
    match Arrange.fitToChildrenWith arrangeChildren s0 self f size with
    | Except.error e => Except.error e
    | Except.ok (s3, newSize) =>
      match Arrange.fill s3 self f pos newSize with
      | Except.error e => Except.error e
      | Except.ok (s4, newPos, newSize) =>
        match Arrange.align s4 self newPos newSize with
        | Except.error e => Except.error e
        | Except.ok newPos =>
          Arrange.finishWith (SetRect H (fuel + 1)) arrangeChildren s4 self newPos newSize

/-- Embedding of `void Gui::RefreshLayout()` called on `self` in a tree that may hold splitters. -/
def RefreshLayoutV (H : GuiHpp) (cls : Nat → Option GuiSplitter) (fuel : Nat) (s : State)
    (self : Nat) : Except ArrangeError State :=
  if (s.heap self).bLayoutNeedRefresh = false then Except.ok s
  else
    match arrangeRoot fuel s self with
    | some root =>
      match ArrangeV H cls fuel s root (s.heap root).pos (s.heap root).size with
      | Except.ok (s1, _) => Except.ok s1
      | Except.error e => Except.error e
    | none => Except.error ArrangeError.outOfFuel

/-! ## The splitter: items, separators and the drag handlers -/

/-- How a call on the splitter can fail to return a state of the model: a failure of the
layout calls it makes, a dereference of a null pointer, `AsSplitter()` on an object that is
no `GuiSplitter`, `erase` of the end iterator, an index outside a children vector. -/
inductive SplitterError where
  | layout (e : ArrangeError)
  | nullPointer
  | notSplitter
  | eraseEnd
  | badIndex
deriving DecidableEq

/-- The `Gui` objects, the `GuiSplitter` members of those objects that are splitters, and
the two pieces of `GuiEngine` state that the handlers of the splitter set: `GuiEngine` is
declared outside the sources, and `SetCursorVisual`, `FreezeHover` and `DefreezeHover` are
taken to store the cursor and the flag. -/
structure World where
  gui : State
  splitter : Nat → Option GuiSplitter
  cursorVisual : eCursorVisual
  bHoverFreezed : Bool

/-- A write to the `GuiSplitter` members of the object `n`. -/
def World.setSplitter (w : World) (n : Nat) (sp : GuiSplitter) : World :=
  { w with splitter := fun m => if m = n then some sp else w.splitter m }

/-- Embedding of `Gui::AsSplitter()`: the assertion `Is<GuiSplitter>()` fails on any other object. -/
def World.AsSplitter (w : World) (n : Nat) : Except SplitterError GuiSplitter :=
  match w.splitter n with
  | some sp => Except.ok sp
  | none => Except.error SplitterError.notSplitter

/-- A layout call made from the splitter's code. -/
def liftLayout {α : Type} : Except ArrangeError α → Except SplitterError α
  | Except.ok a => Except.ok a
  | Except.error e => Except.error (SplitterError.layout e)

/-- Modelled from the spec: `Gui::GetChild(index)` is declared in `Gui.hpp`, outside the
sources; it is taken as the element at `index` of the ordered children of section 3, which
has to exist. -/
def GetChild (s : State) (self : Nat) (index : Int) : Except SplitterError Nat :=
  if 0 ≤ index then
    match (s.heap self).children[index.toNat]? with
    | some c => Except.ok c
    | none => Except.error SplitterError.badIndex
  else Except.error SplitterError.badIndex

/-- Embedding of `Gui* Gui::AddGui()` called on `self`: `new Gui(guiEngine)`, here at the address `p`,
which has to be unused, then `AddGui(p)`. -/
def AddGuiNew (s : State) (self p : Nat) : State :=
  AddGui (s.modify p (fun _ => Gui.new)) self p true

/-- Modelled from the spec: `Gui::Stretch(hor, ver)` is declared outside the sources; as a
policy setter of section 6 it stores the two stretch modes and marks the node dirty. -/
def Stretch (s : State) (self : Nat) (hor ver : eGuiStretch) : State :=
  s.modify self (fun g =>
    { g with stretchHor := hor, stretchVer := ver, bLayoutNeedRefresh := true })

/-- Embedding of `void Gui::StretchFillParent(bool bHor, bool bVer)` called on `self`. -/
def StretchFillParent (s : State) (self : Nat) (bHor bVer : Bool) : State :=
  let bWasHorFill := decide ((s.heap self).stretchHor = eGuiStretch.FILL_PARENT)
  let bWasVerFill := decide ((s.heap self).stretchVer = eGuiStretch.FILL_PARENT)
  let hor :=
    if bHor then eGuiStretch.FILL_PARENT
    else (if bWasHorFill then eGuiStretch.NONE else (s.heap self).stretchHor)
  let ver :=
    if bVer then eGuiStretch.FILL_PARENT
    else (if bWasVerFill then eGuiStretch.NONE else (s.heap self).stretchVer)
  Stretch s self hor ver

/-- The block `if (items.size() > 0) { .. }` of `GuiSplitter::AddItem`, without the handler
registrations: the new separator at the address `separator` is added as a child, pushed
to `separators`, sized along the orientation and stretched across it. -/
def GuiSplitter.AddItem.addSeparator (H : GuiHpp) (fuel : Nat) (sp : GuiSplitter) (s : State)
    (self separator : Nat) : Except ArrangeError (State × List Nat) :=
  if sp.items.length > 0 then
    let s1 := AddGuiNew s self separator
    let separators := sp.separators ++ [separator]
    if sp.orientation = eGuiOrientation.HORIZONTAL then
      match SetSize H (SetRect H fuel) s1 separator sp.separatorLength 0 with
      | Except.ok s2 => Except.ok (StretchFillParent s2 separator false true, separators)
      | Except.error e => Except.error e
    else
      match SetSize H (SetRect H fuel) s1 separator 0 sp.separatorLength with
      | Except.ok s2 => Except.ok (StretchFillParent s2 separator true false, separators)
      | Except.error e => Except.error e
  else Except.ok (s, sp.separators)

/-- Embedding of `void GuiSplitter::AddItem(Gui* item)` called on the splitter `self`; `separator` and
`container` are the addresses of the two objects it creates (the first only when there is
an item already). Each call that creates a separator also registers one more copy of the
handlers `onMouseMoved` and `onMouseReleased` below with the engine. -/
def GuiSplitter.AddItem (H : GuiHpp) (fuel : Nat) (w : World)
    (self item separator container : Nat) : Except SplitterError World :=
  match w.splitter self with
  | none => Except.error SplitterError.notSplitter
  | some sp =>
    match liftLayout (GuiSplitter.AddItem.addSeparator H fuel sp w.gui self separator) with
    | Except.error e => Except.error e
    | Except.ok (s2, separators) =>
      let s3 := AddGuiNew s2 self container
      let s4 := AddGui s3 container item true
      match liftLayout (SetSize H (SetRect H fuel) s4 container (s4.heap item).size.x
          (s4.heap item).size.y) with
      | Except.error e => Except.error e
      | Except.ok s5 =>
        Except.ok ({ w with gui := s5 }.setSplitter self
          { sp with
            separators := separators
            items := if item ∈ sp.items then sp.items else sp.items ++ [item] })

/-- The choice of the separator in `GuiSplitter::RemoveItem`. The index of the container
has been stored in `bool bGuiIdxInParent`; in `bGuiIdxInParent == 0` and
`children[bGuiIdxInParent - 1]` the `bool` is promoted to 0 or 1. -/
def GuiSplitter.RemoveItem.separator (children : List Nat) (bGuiIdxInParent : Bool) :
    Option Nat :=
  let idx : Nat := if bGuiIdxInParent then 1 else 0
  if idx = 0 then children[idx]? else children[idx - 1]?

/-- The block `if (bRemoved && children.size() > 0) { .. }` of `GuiSplitter::RemoveItem`;
returns the state and the vector `separators`. -/
def GuiSplitter.RemoveItem.removeSeparator (sp : GuiSplitter) (s : State) (self : Nat)
    (bGuiIdxInParent bRemoved : Bool) : Except SplitterError (State × List Nat) :=
  let children := (s.heap self).children
  if bRemoved && decide (children.length > 0) then
    match GuiSplitter.RemoveItem.separator children bGuiIdxInParent with
    | none => Except.error SplitterError.badIndex
    | some separator =>
      if separator ∈ sp.separators then
        Except.ok ((RemoveFromParent s separator).1, sp.separators.erase separator)
      else Except.error SplitterError.eraseEnd
  else Except.ok (s, sp.separators)

/-- Embedding of `bool GuiSplitter::RemoveItem(Gui* gui)` called on the splitter `self`. -/
def GuiSplitter.RemoveItem (w : World) (self gui : Nat) :
    Except SplitterError (World × Bool) :=
  match w.splitter self with
  | none => Except.error SplitterError.notSplitter
  | some sp =>
    match (w.gui.heap gui).parent with
    | none => Except.error SplitterError.nullPointer
    | some container =>
      let bGuiIdxInParent : Bool := decide ((w.gui.heap container).indexInParent ≠ 0)
      let r := RemoveFromParent w.gui container
      match GuiSplitter.RemoveItem.removeSeparator sp r.1 self bGuiIdxInParent r.2 with
      | Except.error e => Except.error e
      | Except.ok (s2, separators) =>
        Except.ok ({ w with gui := s2 }.setSplitter self
          { sp with separators := separators, items := sp.items.erase gui }, r.2)

/-- The handler `onMouseEnteredClonable` of a separator `self`. -/
def GuiSplitter.onMouseEntered (w : World) (self : Nat) : Except SplitterError World :=
  match (w.gui.heap self).parent with
  | none => Except.error SplitterError.nullPointer
  | some p =>
    match w.AsSplitter p with
    | Except.error e => Except.error e
    | Except.ok splitter =>
      let w1 := w.setSplitter p { splitter with separatorSaved := some self }
      let w2 :=
        if splitter.orientation = eGuiOrientation.HORIZONTAL then
          { w1 with cursorVisual := eCursorVisual.SIZEWE }
        else w1
      Except.ok
        (if splitter.orientation = eGuiOrientation.VERTICAL then
          { w2 with cursorVisual := eCursorVisual.SIZENS }
        else w2)

/-- The handler `onMouseLeavedClonable` of a separator `self`. -/
def GuiSplitter.onMouseLeaved (w : World) (self : Nat) : Except SplitterError World :=
  match (w.gui.heap self).parent with
  | none => Except.error SplitterError.nullPointer
  | some p =>
    match w.AsSplitter p with
    | Except.error e => Except.error e
    | Except.ok splitter =>
      if !splitter.bDragging then Except.ok { w with cursorVisual := eCursorVisual.ARROW }
      else Except.ok w

/-- The handler `onMousePressedClonable` of a separator `separator`, with `evt.cursorPos`. -/
def GuiSplitter.onMousePressed (w : World) (separator : Nat) (cursorPos : Vec2) :
    Except SplitterError World :=
  match (w.gui.heap separator).parent with
  | none => Except.error SplitterError.nullPointer
  | some p =>
    match w.AsSplitter p with
    | Except.error e => Except.error e
    | Except.ok splitter =>
      match GetChild w.gui p ((w.gui.heap separator).indexInParent - 1) with
      | Except.error e => Except.error e
      | Except.ok prevItem =>
        match GetChild w.gui p ((w.gui.heap separator).indexInParent + 1) with
        | Except.error e => Except.error e
        | Except.ok nextItem =>
          Except.ok ({ w with bHoverFreezed := true }.setSplitter p
            { splitter with
              bDragging := true
              mousePosWhenPressed := cursorPos
              prevItemOrigSize := (w.gui.heap prevItem).size
              nextItemOrigSize := (w.gui.heap nextItem).size })

/-- The vector `deltaMove` of the handler of `guiEngine->onMouseMoved`: the component of
`deltaMouse` along the orientation of the splitter. -/
def GuiSplitter.onMouseMoved.deltaMove (o : eGuiOrientation) (deltaMouse : Vec2) : Vec2 :=
  if o = eGuiOrientation.HORIZONTAL then ⟨deltaMouse.x, 0⟩ else ⟨0, deltaMouse.y⟩

/-- The two `SetSize` calls of the handler of `guiEngine->onMouseMoved`, with the members
`sp` of the splitter that registered it; returns the state and the two containers. -/
def GuiSplitter.onMouseMoved.resize (H : GuiHpp) (fuel : Nat) (w : World) (sp : GuiSplitter)
    (cursorPos : Vec2) : Except SplitterError (State × Nat × Nat) :=
  match sp.separatorSaved with
  | none => Except.error SplitterError.nullPointer
  | some separatorSaved =>
    match (w.gui.heap separatorSaved).parent with
    | none => Except.error SplitterError.nullPointer
    | some p =>
      match w.AsSplitter p with
      | Except.error e => Except.error e
      | Except.ok splitter =>
        let deltaMouse : Vec2 :=
          ⟨cursorPos.x - sp.mousePosWhenPressed.x, cursorPos.y - sp.mousePosWhenPressed.y⟩
        match GetChild w.gui p ((w.gui.heap separatorSaved).indexInParent - 1) with
        | Except.error e => Except.error e
        | Except.ok leftContainer =>
          match GetChild w.gui p ((w.gui.heap separatorSaved).indexInParent + 1) with
          | Except.error e => Except.error e
          | Except.ok rightContainer =>
            let deltaMove := GuiSplitter.onMouseMoved.deltaMove splitter.orientation deltaMouse
            let tmp0 : Vec2 :=
              ⟨sp.prevItemOrigSize.x + deltaMove.x, sp.prevItemOrigSize.y + deltaMove.y⟩
            let tmp1 : Vec2 :=
              ⟨sp.nextItemOrigSize.x - deltaMove.x, sp.nextItemOrigSize.y - deltaMove.y⟩
            match liftLayout (SetSize H (SetRect H fuel) w.gui leftContainer
                (max 0 tmp0.x) (max 0 tmp0.y)) with
            | Except.error e => Except.error e
            | Except.ok s1 =>
              match liftLayout (SetSize H (SetRect H fuel) s1 rightContainer
                  (max 0 tmp1.x) (max 0 tmp1.y)) with
              | Except.error e => Except.error e
              | Except.ok s2 => Except.ok (s2, leftContainer, rightContainer)

/-- One copy of the handler of `guiEngine->onMouseMoved` that `AddItem` registers, with
`this` the splitter that registered it and `evt.cursorPos`. -/
def GuiSplitter.onMouseMoved (H : GuiHpp) (fuel : Nat) (w : World) (this : Nat)
    (cursorPos : Vec2) : Except SplitterError World :=
  match w.splitter this with
  | none => Except.error SplitterError.notSplitter
  | some sp =>
    if sp.bDragging then
      match GuiSplitter.onMouseMoved.resize H fuel w sp cursorPos with
      | Except.error e => Except.error e
      | Except.ok (s2, leftContainer, rightContainer) =>
        match liftLayout (RefreshLayoutV H w.splitter fuel s2 leftContainer) with
        | Except.error e => Except.error e
        | Except.ok s3 =>
          match liftLayout (RefreshLayoutV H w.splitter fuel s3 rightContainer) with
          | Except.error e => Except.error e
          | Except.ok s4 => Except.ok { w with gui := s4 }
    else Except.ok w

/-- One copy of the handler of `guiEngine->onMouseReleased` that `AddItem` registers, with
`this` the splitter that registered it. -/
def GuiSplitter.onMouseReleased (w : World) (this : Nat) : Except SplitterError World :=
  match w.splitter this with
  | none => Except.error SplitterError.notSplitter
  | some sp =>
    if sp.bDragging then
      Except.ok ({ w with bHoverFreezed := false }.setSplitter this
        { sp with bDragging := false })
    else Except.ok w

/-- A pointer event as the handlers of one splitter see it: on a separator (entered,
left, pressed at a cursor position) or anywhere (moved to a cursor position, released). -/
inductive PointerEvent where
  | entered (separator : Nat)
  | leaved (separator : Nat)
  | pressed (separator : Nat) (cursorPos : Vec2)
  | moved (cursorPos : Vec2)
  | released

/-- The handler that a pointer event runs; for the events of the engine, one copy of the
handler registered by the splitter `this`. -/
def GuiSplitter.handle (H : GuiHpp) (fuel : Nat) (this : Nat) (w : World) :
    PointerEvent → Except SplitterError World
  | PointerEvent.entered separator => GuiSplitter.onMouseEntered w separator
  | PointerEvent.leaved separator => GuiSplitter.onMouseLeaved w separator
  | PointerEvent.pressed separator cursorPos => GuiSplitter.onMousePressed w separator cursorPos
  | PointerEvent.moved cursorPos => GuiSplitter.onMouseMoved H fuel w this cursorPos
  | PointerEvent.released => GuiSplitter.onMouseReleased w this

/-- A sequence of pointer events, first event first. -/
def GuiSplitter.handleAll (H : GuiHpp) (fuel : Nat) (this : Nat) :
    World → List PointerEvent → Except SplitterError World
  | w, [] => Except.ok w
  | w, e :: rest =>
    match GuiSplitter.handle H fuel this w e with
    | Except.ok w1 => GuiSplitter.handleAll H fuel this w1 rest
    | Except.error err => Except.error err

/-! ## Example configurations of the splitter -/

/-- A splitter `0` of the given width and height 100 as constructed (orientation HORIZONTAL,
separator length 10, no border or padding, so its content rect is its rect), and two
detached nodes `1` and `2` of 100x50. -/
def splitterRoot (width : ℚ) : World where
  gui := ((State.fresh.modify 0 (fun g => { g with size := ⟨width, 100⟩ })).modify 1
    (fun g => { g with size := ⟨100, 50⟩ })).modify 2 (fun g => { g with size := ⟨100, 50⟩ })
  splitter := fun n => if n = 0 then some GuiSplitter.new else none
  cursorVisual := eCursorVisual.ARROW
  bHoverFreezed := false

/-- The splitter `0` after `AddItem(1)` and `AddItem(2)`: the container `3` of item `1`, the
separator `4`, the container `5` of item `2`. -/
def twoItems (H : GuiHpp) (width : ℚ) : Except SplitterError World :=
  match GuiSplitter.AddItem H 2 (splitterRoot width) 0 1 4 3 with
  | Except.ok w1 => GuiSplitter.AddItem H 2 w1 0 2 4 5
  | Except.error e => Except.error e

/-- The call `RefreshLayout()` on the node `n`. -/
def World.RefreshLayout (H : GuiHpp) (fuel : Nat) (w : World) (n : Nat) :
    Except SplitterError World :=
  match liftLayout (RefreshLayoutV H w.splitter fuel w.gui n) with
  | Except.ok s => Except.ok { w with gui := s }
  | Except.error e => Except.error e

/-- Scenario 3 of the specification for width 300: the splitter with its two items after
`RefreshLayout()` on the splitter. -/
def arrangedItems (H : GuiHpp) (width : ℚ) : Except SplitterError World :=
  match twoItems H width with
  | Except.ok w => w.RefreshLayout H 4 0
  | Except.error e => Except.error e

/-- The pointer events handled one after the other from a configuration that was reached. -/
def thenEvents (H : GuiHpp) (r : Except SplitterError World) (events : List PointerEvent) :
    Except SplitterError World :=
  match r with
  | Except.ok w => GuiSplitter.handleAll H 4 0 w events
  | Except.error e => Except.error e

/-- What the examples look at in a configuration: the sizes of the nodes `3` and `5` (the
two containers), the children of the splitter `0`, its vector `separators`, its set `items`
and its member `bDragging`. -/
structure Summary where
  size3 : Vec2
  size5 : Vec2
  children : List Nat
  separators : List Nat
  items : List Nat
  bDragging : Bool
deriving DecidableEq

/-- The summary of a configuration that was reached. -/
def summary (r : Except SplitterError World) : Option Summary :=
  match r with
  | Except.ok w =>
    match w.splitter 0 with
    | some sp =>
      some ⟨(w.gui.heap 3).size, (w.gui.heap 5).size, (w.gui.heap 0).children,
        sp.separators, sp.items, sp.bDragging⟩
    | none => none
  | Except.error _ => none

/-- The error a call ended with, if it did. -/
def resultError {ε α : Type} : Except ε α → Option ε
  | Except.ok _ => none
  | Except.error e => some e

/-- `RemoveItem(gui)` on the splitter `0` of a configuration that was reached. -/
def thenRemoveItem (r : Except SplitterError World) (gui : Nat) :
    Except SplitterError (World × Bool) :=
  match r with
  | Except.ok w => GuiSplitter.RemoveItem w 0 gui
  | Except.error e => Except.error e

/-- The members of the splitter `0` of `draggable`: two items, one separator, which the
pointer has entered last. -/
def draggableMembers : GuiSplitter :=
  { GuiSplitter.new with items := [1, 2], separators := [4], separatorSaved := some 4 }

/-- A splitter `0` of the given width and height 100 with the children container `3` (of
width `w3`, holding the item `1`), separator `4` (10 wide, FILL_PARENT across) and container
`5` (of width `w5`, holding the item `2`), linked by `AddGui`; all three children are 100
high. -/
def splitterTree (width w3 w5 : ℚ) : State :=
  ((((AddGui (AddGui (AddGui (AddGui (AddGui State.fresh 0 3 true) 0 4 true) 0 5 true)
      3 1 true) 5 2 true).modify 0 (fun g => { g with size := ⟨width, 100⟩ })).modify 3
      (fun g => { g with size := ⟨w3, 100⟩ })).modify 4
      (fun g => { g with size := ⟨10, 100⟩, stretchVer := eGuiStretch.FILL_PARENT })).modify 5
      (fun g => { g with size := ⟨w5, 100⟩ })

/-- The splitter tree of width 300 with both containers 145 wide; the pointer has entered
the separator `4` last. -/
def draggable : World where
  gui := splitterTree 300 145 145
  splitter := fun n => if n = 0 then some draggableMembers else none
  cursorVisual := eCursorVisual.SIZEWE
  bHoverFreezed := false

/-- The members of the splitter `0` of `draggable` while the separator `4` is dragged:
pressed at (150, 10) with the sizes 145x100 of both containers recorded. -/
def draggingMembers : GuiSplitter :=
  { draggableMembers with
    bDragging := true
    mousePosWhenPressed := ⟨150, 10⟩
    prevItemOrigSize := ⟨145, 100⟩
    nextItemOrigSize := ⟨145, 100⟩ }

/-- The world `draggable` while the separator `4` is dragged. -/
def dragging : World :=
  { draggable with bHoverFreezed := true }.setSplitter 0 draggingMembers

/-- A splitter `0` without items and, apart from it, a node `10` with the child `11` that
has the child `12`. -/
def otherTree : World :=
  { splitterRoot 300 with gui := AddGui (AddGui (splitterRoot 300).gui 10 11 true) 11 12 true }


/-! ## Further example configurations -/

/-- A root `0` of 400x300 with the given stretch modes and alignments and a child `1` of
50x20; everything else as constructed. -/
def rootWith (hor ver : eGuiStretch) (alignHor : eGuiAlignHor) (alignVer : eGuiAlignVer) :
    State :=
  ((AddGui State.fresh 0 1 true).modify 0 (fun g =>
    { g with size := ⟨400, 300⟩, stretchHor := hor, stretchVer := ver, alignHor := alignHor,
             alignVer := alignVer })).modify 1 (fun g => { g with size := ⟨50, 20⟩ })

/-- The splitter `0` of width 300 after `AddItem(1)` for an item `1` of size 0x0 (container
`3`), then `RefreshLayout()` on the splitter. -/
def emptyItemArranged (H : GuiHpp) : Except SplitterError World :=
  match GuiSplitter.AddItem H 2
      { splitterRoot 300 with
        gui := (splitterRoot 300).gui.modify 1 (fun g => { g with size := ⟨0, 0⟩ }) }
      0 1 4 3 with
  | Except.ok w => w.RefreshLayout H 4 0
  | Except.error e => Except.error e

/-! ## The transient flags of `Arrange` -/

/-- Neither `bForceFitToChildren` nor `bFillParentEnabled` is set on the node `n`. -/
def FlagsClear (s : State) (n : Nat) : Prop :=
  (s.heap n).bForceFitToChildren = false ∧ (s.heap n).bFillParentEnabled = false

/-- The test of the loop that sets `c->bFillParentEnabled = true`: a FILL_PARENT or
FILL_PARENT_POSITIVE_DIR axis. -/
def Gui.fillsParent (g : Gui) : Prop :=
  g.stretchHor = eGuiStretch.FILL_PARENT ∨ g.stretchVer = eGuiStretch.FILL_PARENT ∨
  g.stretchHor = eGuiStretch.FILL_PARENT_POSITIVE_DIR ∨
  g.stretchVer = eGuiStretch.FILL_PARENT_POSITIVE_DIR

/-- What one `Arrange` call on `n`, taking the state `s` to `t`, does to the transient
flags when no flag is set strictly below `n` before the call: none is set strictly below
`n` after it, `bForceFitToChildren` of `n` is off, and `bFillParentEnabled` of `n` can be on
afterwards only if it was on before and the fill block did not have to run. -/
structure FlagStep (s : State) (n : Nat) (t : State) : Prop where
  below : ∀ m, Descendant s n m → m ≠ n → FlagsClear t m
  force : (t.heap n).bForceFitToChildren = false
  enabled : (t.heap n).bFillParentEnabled = true →
    (s.heap n).bFillParentEnabled = true ∧
      ((s.heap n).bForceFitToChildren = true ∨ ¬ (s.heap n).fillsParent)

/-- No transient flag is set on `n` or within `d - 1` levels below it. -/
def clearBelow (s : State) : Nat → Nat → Bool
  | 0, _ => false
  | d + 1, n =>
    (!(s.heap n).bForceFitToChildren && !(s.heap n).bFillParentEnabled) &&
    (s.heap n).children.all (fun c => clearBelow s d c)

/-- A tree that uses every stretch mode: the root `0` of 400x300 fits to its children `1`
and `2` on both axes; `1` (50x20) fills the parent horizontally and fits to its child `3`
vertically; `2` (30x40) fills the parent in the positive direction vertically; the leaf `3`
(10x10, margin 2) fills the parent on both axes. -/
def flagTree : State :=
  ((((AddGui (AddGui (AddGui State.fresh 0 1 true) 0 2 true) 1 3 true).modify 0
      (fun g => { g with size := ⟨400, 300⟩, stretchHor := eGuiStretch.FIT_TO_CHILDREN,
                         stretchVer := eGuiStretch.FIT_TO_CHILDREN })).modify 1
      (fun g => { g with size := ⟨50, 20⟩, stretchHor := eGuiStretch.FILL_PARENT,
                         stretchVer := eGuiStretch.FIT_TO_CHILDREN })).modify 2
      (fun g => { g with size := ⟨30, 40⟩,
                         stretchVer := eGuiStretch.FILL_PARENT_POSITIVE_DIR })).modify 3
      (fun g => { g with size := ⟨10, 10⟩, margin := ⟨2, 2, 2, 2⟩,
                         stretchHor := eGuiStretch.FILL_PARENT,
                         stretchVer := eGuiStretch.FILL_PARENT })

/-- The two transient flags of the node `n` in the state a call returned. -/
def resultFlags (r : Except ArrangeError (State × Vec2)) (n : Nat) : Option (Bool × Bool) :=
  (resultNode r n).map (fun g => (g.bForceFitToChildren, g.bFillParentEnabled))

/-- A fit/fill cycle: the root `0` (400x300) fits to its children on both axes; its child
`1` (50x20, zero margin) fills the parent on both axes; its child `2` (30x40) has stretch
NONE. -/
def fitFillTree : State :=
  (((AddGui (AddGui State.fresh 0 1 true) 0 2 true).modify 0
      (fun g => { g with size := ⟨400, 300⟩, stretchHor := eGuiStretch.FIT_TO_CHILDREN,
                         stretchVer := eGuiStretch.FIT_TO_CHILDREN })).modify 1
      (fun g => { g with size := ⟨50, 20⟩, stretchHor := eGuiStretch.FILL_PARENT,
                         stretchVer := eGuiStretch.FILL_PARENT })).modify 2
      (fun g => { g with size := ⟨30, 40⟩ })

/-! ## The same tree with another horizontal alignment -/

/-- The state `s` with the member `alignHor` of the node `n` set to `a`. -/
def reAlign (n : Nat) (a : eGuiAlignHor) (s : State) : State :=
  s.modify n (fun g => { g with alignHor := a })

/-- The result of a call that returns a state and a value, with `alignHor` of `n` set to
`a` in the state. -/
def reAlignResult {α : Type} (n : Nat) (a : eGuiAlignHor) :
    Except ArrangeError (State × α) → Except ArrangeError (State × α)
  | Except.ok (t, u) => Except.ok (reAlign n a t, u)
  | Except.error e => Except.error e

/-- A root `0` of 400x300 with border 10 and padding 5 on all sides and its child `1` of
60x20 with margin left 3, right 4 and the horizontal alignment `a`. -/
def alignChild (a : eGuiAlignHor) : State :=
  ((AddGui State.fresh 0 1 true).modify 0
      (fun g => { g with size := ⟨400, 300⟩, border := ⟨10, 10, 10, 10⟩,
                         padding := ⟨5, 5, 5, 5⟩ })).modify 1
      (fun g => { g with size := ⟨60, 20⟩, margin := ⟨3, 4, 0, 0⟩, alignHor := a })

/-! ## A sequence of `AddItem` calls -/

/-- One call `AddItem(item)` together with the addresses that `new Gui` returns in it for
the separator (created only when the splitter has an item already) and the container. -/
structure AddItemCall where
  item : Nat
  separator : Nat
  container : Nat
deriving DecidableEq

/-- The calls `AddItem(item)` on the splitter `self`, one after the other. -/
def GuiSplitter.addItems (H : GuiHpp) (fuel : Nat) (self : Nat) :
    World → List AddItemCall → Except SplitterError World
  | w, [] => Except.ok w
  | w, c :: rest =>
    match GuiSplitter.AddItem H fuel w self c.item c.separator c.container with
    | Except.ok w1 => GuiSplitter.addItems H fuel self w1 rest
    | Except.error e => Except.error e

/-- The nodes that the calls create as children of the splitter, in the order of creation:
the container of the first call, then the separator and the container of each later
call. -/
def createdChildren : List AddItemCall → List Nat
  | [] => []
  | c :: rest => c.container :: rest.flatMap (fun d => [d.separator, d.container])

/-- All addresses that occur in the calls. -/
def callIds (cs : List AddItemCall) : List Nat :=
  cs.flatMap (fun c => [c.item, c.separator, c.container])

/-- The splitter `p` of orientation `o` and separator length `L` as the calls `done`,
run from the world `w0`, have built it in the world `w`: its members, its children, the
wrapping of every item in its container, the lengths of the separators, and the sizes of
the nodes that the calls did not create. -/
structure SplitterBuilt (w0 w : World) (p : Nat) (o : eGuiOrientation) (L : ℚ)
    (done : List AddItemCall) : Prop where
  members : ∃ sp, w.splitter p = some sp ∧ sp.orientation = o ∧ sp.separatorLength = L ∧
    sp.items = done.map AddItemCall.item ∧
    sp.separators = done.tail.map AddItemCall.separator
  children : (w.gui.heap p).children = createdChildren done
  wrapped : ∀ c ∈ done, (w.gui.heap c.item).parent = some c.container ∧
    (w.gui.heap c.container).children = [c.item] ∧
    (w.gui.heap c.container).size = (w0.gui.heap c.item).size
  lengths : ∀ c ∈ done.tail, o.along (w.gui.heap c.separator).size = L
  sizes : ∀ m, (∀ c ∈ done, m ≠ c.separator ∧ m ≠ c.container) →
    (w.gui.heap m).size = (w0.gui.heap m).size
  apart : ∀ c ∈ done, c.separator ≠ p ∧ c.container ≠ p

/-- What the next call needs of its addresses: they are new, different from each other and
from the splitter. -/
structure FreshCall (p : Nat) (done : List AddItemCall) (c : AddItemCall) : Prop where
  itemSelf : c.item ≠ p
  sepSelf : c.separator ≠ p
  contSelf : c.container ≠ p
  itemSep : c.item ≠ c.separator
  itemCont : c.item ≠ c.container
  sepCont : c.separator ≠ c.container
  itemNew : ∀ d ∈ done, c.item ≠ d.item ∧ c.item ≠ d.separator ∧ c.item ≠ d.container
  sepNew : ∀ d ∈ done, c.separator ≠ d.item ∧ c.separator ≠ d.separator ∧
    c.separator ≠ d.container
  contNew : ∀ d ∈ done, c.container ≠ d.item ∧ c.container ≠ d.separator ∧
    c.container ≠ d.container

/-- The splitter `0` of width 300 with the detached nodes `1`, `2` (100x50) and `7` (60x20
as constructed) added as items: containers `3`, `5`, `9`, separators `4`, `8`; the
separator address `6` of the first call is not used. -/
def threeItems (H : GuiHpp) : Except SplitterError World :=
  GuiSplitter.addItems H 2 0 (splitterRoot 300) [⟨1, 6, 3⟩, ⟨2, 4, 5⟩, ⟨7, 8, 9⟩]

/-- The sizes of the given nodes in a configuration that was reached. -/
def resultSizes (r : Except SplitterError World) (ids : List Nat) : Option (List Vec2) :=
  match r with
  | Except.ok w => some (ids.map (fun n => (w.gui.heap n).size))
  | Except.error _ => none
/-! ## Rounding of `float` operations -/

/-- Floor of the base-2 logarithm of `n`; the first argument bounds the number of halvings
(`n` itself is enough). -/
def log2Floor : Nat → Nat → Nat
  | 0, _ => 0
  | fuel + 1, n => if n < 2 then 0 else log2Floor fuel (n / 2) + 1

/-- The power `2 ^ e` for an integer exponent. -/
def pow2 (e : Int) : ℚ :=
  if 0 ≤ e then ((2 ^ e.toNat : Nat) : ℚ) else 1 / ((2 ^ (-e).toNat : Nat) : ℚ)

/-- The binary exponent of a positive rational `a`: the `e` with `2 ^ e ≤ a < 2 ^ (e + 1)`. -/
def binade (a : ℚ) : Int :=
  let p := a.num.natAbs
  let q := a.den
  if q ≤ p then (log2Floor p (p / q) : Int)
  else
    let j := log2Floor q (q / p)
    if q = p * 2 ^ j then -(j : Int) else -(j : Int) - 1

/-- Round to the nearest integer, ties to the even one. -/
def roundEven (q : ℚ) : Int :=
  let f := ⌊q⌋
  let r := q - f
  if r < 1 / 2 then f
  else if 1 / 2 < r then f + 1
  else if f % 2 = 0 then f else f + 1

/-- The value a `float` operation stores for the exact result `x`: IEEE 754 binary32 rounding
(24 significant bits, round to nearest, ties to even). Exponent limits are not modelled: the
function is the rounding of binary32 for `2 ^ (-126) ≤ |x| < 2 ^ 128`. -/
def round32 (x : ℚ) : ℚ :=
  if x = 0 then 0
  else
    let a := |x|
    let e := binade a
    let m := roundEven (a * pow2 (23 - e))
    (if x < 0 then -1 else 1) * ((m : ℚ) * pow2 (e - 23))


/-! ## `SetRect` with the rounding of `float` made explicit -/

/-- Embedding of `Gui::GetRect()` with the rounding of each `float` operation as the
parameter `fl`: the members are `pos` and `size`, a `RectF` holds the four sides, so the
right and bottom sides are the rounded sums `pos + size`. -/
def Gui.GetRectRounded (fl : ℚ → ℚ) (g : Gui) : RectF :=
  ⟨g.pos.x, fl (g.pos.x + g.size.x), g.pos.y, fl (g.pos.y + g.size.y)⟩

/-- Embedding of `RectF::GetSize()` with rounding: the rounded differences of the sides. -/
def RectF.GetSizeRounded (fl : ℚ → ℚ) (r : RectF) : Vec2 :=
  ⟨fl (r.right - r.left), fl (r.bottom - r.top)⟩

/-- The blocks `if (bPosChanged)` and `if (bSizeChanged)` that end `SetRect`, the size passed
to the delegates being `rect.GetSize()` as `float` arithmetic computes it. -/
def SetRectRounded.notifyChange (fl : ℚ → ℚ) (s : State) (self : Nat) (rect : RectF)
    (bPosChanged bSizeChanged bMakeLayoutDirty : Bool) : State :=
  let s6 := if bPosChanged then s.fire (Event.onPosChanged self rect.GetPos) else s
  if bSizeChanged then
    let t := (s6.fire (Event.onSizeChanged self (rect.GetSizeRounded fl))).fire
      (Event.onSizeChangedClonable self (rect.GetSizeRounded fl))
    if bMakeLayoutDirty then t.modify self (fun g => { g with bLayoutNeedRefresh := true })
    else t
  else s6

/-- The statement `if (bMoveChildren) child->Move(rect.GetPos() - oldRect.GetPos());` with
the sums of `Move` rounded. -/
def SetRectRounded.move (fl : ℚ → ℚ) (H : GuiHpp)
    (setRect : State → Nat → ℚ → ℚ → ℚ → ℚ → Bool → Bool → Except ArrangeError State)
    (bMoveChildren : Bool) (d : Vec2) (t : State) (child : Nat) : Except ArrangeError State :=
  if bMoveChildren then
    setRect t child (fl ((t.heap child).pos.x + d.x)) (fl ((t.heap child).pos.y + d.y))
      (t.heap child).size.x (t.heap child).size.y
      H.setPosMoveChildren H.setPosMakeLayoutDirty
  else Except.ok t

/-- The part of `SetRect` after the new `pos` and `size` are stored in `s1`, with rounding:
`bSizeChanged` compares `rect.GetSize()` with `oldRect.GetSize()`, both recomputed from the
sides of the rects. -/
def SetRectRounded.commit (fl : ℚ → ℚ) (H : GuiHpp)
    (setRect : State → Nat → ℚ → ℚ → ℚ → ℚ → Bool → Bool → Except ArrangeError State)
    (s1 : State) (self : Nat) (rect oldRect : RectF) (bMoveChildren bMakeLayoutDirty : Bool) :
    Except ArrangeError State :=
  let bPosChanged := decide (rect.GetPos ≠ oldRect.GetPos)
  let bSizeChanged := decide (rect.GetSizeRounded fl ≠ oldRect.GetSizeRounded fl)
  let bRectChanged := bPosChanged || bSizeChanged
  let afterRect : Except ArrangeError State :=
    if bRectChanged then
      match SetRect.notifyChildren
          (SetRectRounded.move fl H setRect bMoveChildren
            ⟨fl (rect.GetPos.x - oldRect.GetPos.x), fl (rect.GetPos.y - oldRect.GetPos.y)⟩)
          rect s1 (s1.heap self).children with
      | Except.ok s2 => Except.ok (SetRect.notifySelf s2 self rect)
      | Except.error e => Except.error e
    else Except.ok s1
  match afterRect with
  | Except.ok s5 =>
    Except.ok (SetRectRounded.notifyChange fl s5 self rect bPosChanged bSizeChanged
      bMakeLayoutDirty)
  | Except.error e => Except.error e

/-- Embedding of `void Gui::SetRect(float x, float y, float width, float height, bool bMoveChildren,
bool bMakeLayoutDirty)` called on `self`, with the rounding `fl` of every `float` operation
it performs; with `fl` the identity it is `SetRect`. -/
def SetRectRounded (fl : ℚ → ℚ) (H : GuiHpp) : Nat → State → Nat → ℚ → ℚ → ℚ → ℚ → Bool →
    Bool → Except ArrangeError State
  | 0, _, _, _, _, _, _, _, _ => Except.error ArrangeError.outOfFuel
  | fuel + 1, s, self, x, y, width, height, bMoveChildren, bMakeLayoutDirty =>
    let width := max width (H.GetMinSizeX (s.heap self))
    let height := max height (H.GetMinSizeY (s.heap self))
    let oldRect := (s.heap self).GetRectRounded fl
    let s1 := s.modify self (fun g => { g with pos := ⟨x, y⟩, size := ⟨width, height⟩ })
    let rect := (s1.heap self).GetRectRounded fl
    SetRectRounded.commit fl H (SetRectRounded fl H fuel) s1 self rect oldRect bMoveChildren
      bMakeLayoutDirty

/-- What the examples look at after a `SetRect` call on a node: its position, size and dirty
flag, and the delegate invocations. -/
structure RectOutcome where
  pos : Vec2
  size : Vec2
  bLayoutNeedRefresh : Bool
  log : List Event
deriving DecidableEq

/-- The outcome of a `SetRect` call for the node `n`. -/
def rectOutcome (r : Except ArrangeError State) (n : Nat) : Option RectOutcome :=
  match r with
  | Except.ok t => some ⟨(t.heap n).pos, (t.heap n).size, (t.heap n).bLayoutNeedRefresh, t.log⟩
  | Except.error _ => none

/-- A node `0` without parent and children, at (0, 0), whose width is the `float` nearest to
60.3 (`60.3f`) and whose height is 20; clean. -/
def oddWidthNode : State :=
  State.fresh.modify 0 (fun g => { g with size := ⟨round32 (603 / 10), 20⟩ })

/-! ## A tree whose nodes are all dirty -/

/-- The root `0` of 400x300 with the given horizontal stretch and alignment and its child
`1` of 50x20 (`rootWith`), the child marked dirty as the root is. -/
def dirtyTree (hor : eGuiStretch) (alignHor : eGuiAlignHor) : State :=
  (rootWith hor eGuiStretch.NONE alignHor eGuiAlignVer.NONE).modify 1
    (fun g => { g with bLayoutNeedRefresh := true })

/-! ## Laid-out splitters -/

/-- The first loop of `GuiSplitter::ArrangeChildren` with the rounding `fl` of every `float`
operation: `itemsLength += container->GetSizeX()` stores a rounded sum. -/
def GuiSplitter.ArrangeChildren.itemsLengthRounded (fl : ℚ → ℚ) (s : State)
    (bVertical : Bool) : ℚ → List Nat → Except ArrangeError ℚ
  | acc, [] => Except.ok acc
  | acc, child :: rest =>
    match (s.heap child).parent with
    | some container =>
      GuiSplitter.ArrangeChildren.itemsLengthRounded fl s bVertical
        (fl (acc + if bVertical then (s.heap container).size.y
          else (s.heap container).size.x)) rest
    | none => Except.error ArrangeError.nullParent

/-- The second loop of `GuiSplitter::ArrangeChildren` with rounding: the quotient
`container->GetSize() / itemsLength`, the product with `freeSpace` and the sum with the
length of the container are each rounded, component by component. -/
def GuiSplitter.ArrangeChildren.sizeItemsRounded (fl : ℚ → ℚ) (H : GuiHpp)
    (setRect : State → Nat → ℚ → ℚ → ℚ → ℚ → Bool → Bool → Except ArrangeError State)
    (bVertical : Bool) (itemsLength freeSpace : ℚ) (self : Nat) :
    State → List Nat → Except ArrangeError State
  | s, [] => Except.ok s
  | s, item :: rest =>
    match (s.heap item).parent with
    | none => Except.error ArrangeError.nullParent
    | some container =>
      if itemsLength = 0 then Except.error ArrangeError.divisionByZero
      else
        let itemNormedSpacePercent : Vec2 :=
          ⟨fl ((s.heap container).size.x / itemsLength),
            fl ((s.heap container).size.y / itemsLength)⟩
        let itemFreeSpace : Vec2 :=
          ⟨fl (itemNormedSpacePercent.x * freeSpace),
            fl (itemNormedSpacePercent.y * freeSpace)⟩
        let r :=
          if bVertical then
            SetSize H setRect s container (s.heap self).GetContentSizeX
              (fl ((s.heap container).size.y + itemFreeSpace.y))
          else
            SetSize H setRect s container (fl ((s.heap container).size.x + itemFreeSpace.x))
              (s.heap self).GetContentSizeY
        match r with
        | Except.ok s1 =>
          GuiSplitter.ArrangeChildren.sizeItemsRounded fl H setRect bVertical itemsLength
            freeSpace self s1 rest
        | Except.error e => Except.error e

/-- The third loop of `GuiSplitter::ArrangeChildren` with rounding: the offsets
`pos + selfSize` and the sums `selfSize += sizeUsed` are rounded. -/
def GuiSplitter.ArrangeChildren.layoutRounded (fl : ℚ → ℚ) (H : GuiHpp)
    (arrange : State → Nat → Vec2 → Vec2 → Except ArrangeError (State × Vec2))
    (bVertical : Bool) (pos : Vec2) :
    State → Vec2 → List Nat → Except ArrangeError (State × Vec2)
  | s, selfSize, [] => Except.ok (s, selfSize)
  | s, selfSize, child :: rest =>
    let desiredSize := H.GetDesiredSize (s.heap child)
    if bVertical then
      match arrange s child ⟨pos.x, fl (pos.y + selfSize.y)⟩ desiredSize with
      | Except.ok (s1, sizeUsed) =>
        GuiSplitter.ArrangeChildren.layoutRounded fl H arrange bVertical pos s1
          ⟨max selfSize.x sizeUsed.x, fl (selfSize.y + sizeUsed.y)⟩ rest
      | Except.error e => Except.error e
    else
      match arrange s child ⟨fl (pos.x + selfSize.x), pos.y⟩ desiredSize with
      | Except.ok (s1, sizeUsed) =>
        GuiSplitter.ArrangeChildren.layoutRounded fl H arrange bVertical pos s1
          ⟨fl (selfSize.x + sizeUsed.x), max selfSize.y sizeUsed.y⟩ rest
      | Except.error e => Except.error e

/-- The body of `Vec2 GuiSplitter::ArrangeChildren(const Vec2& finalSize)` with the rounding `fl` of
every `float` operation of the function: `childrenLength` is the rounded sum of
`itemsLength` and the rounded product `separatorCount * separatorLength`, `freeSpace` the
rounded difference. -/
def GuiSplitter.ArrangeChildren.bodyRounded (fl : ℚ → ℚ) (H : GuiHpp) (sp : GuiSplitter)
    (setRect : State → Nat → ℚ → ℚ → ℚ → ℚ → Bool → Bool → Except ArrangeError State)
    (arrange : State → Nat → Vec2 → Vec2 → Except ArrangeError (State × Vec2))
    (s : State) (self : Nat) (_finalSize : Vec2) : Except ArrangeError (State × Vec2) :=
  let items := sp.items
  if items.length = 0 then Except.ok (s, (s.heap self).size)
  else
    let bVertical := decide (sp.orientation = eGuiOrientation.VERTICAL)
    match GuiSplitter.ArrangeChildren.itemsLengthRounded fl s bVertical 0 items with
    | Except.error e => Except.error e
    | Except.ok itemsLength =>
      let separatorCount : Nat := items.length - 1
      let childrenLength := fl (itemsLength + fl ((separatorCount : ℚ) * sp.separatorLength))
      let freeSpace :=
        if bVertical then fl ((s.heap self).GetContentSizeY - childrenLength)
        else fl ((s.heap self).GetContentSizeX - childrenLength)
      match GuiSplitter.ArrangeChildren.sizeItemsRounded fl H setRect bVertical itemsLength
          freeSpace self s items with
      | Except.error e => Except.error e
      | Except.ok s1 =>
        GuiSplitter.ArrangeChildren.layoutRounded fl H arrange bVertical
          ⟨(s1.heap self).GetContentPosX, (s1.heap self).GetContentPosY⟩ s1 ⟨0, 0⟩
          (s1.heap self).children

/-- Embedding of `Vec2 GuiSplitter::ArrangeChildren(const Vec2& finalSize)` called on `self` with the
rounding `fl` of the `float` operations of the function itself; with `fl` the identity it
is `GuiSplitter.ArrangeChildren`. The calls `SetSize` and `Arrange` are the embeddings
above, which store the size they are given (less the margin) as it is. -/
def GuiSplitter.ArrangeChildrenRounded (fl : ℚ → ℚ) (H : GuiHpp) (fuel : Nat)
    (sp : GuiSplitter) (s : State) (self : Nat) (finalSize : Vec2) :
    Except ArrangeError (State × Vec2) :=
  GuiSplitter.ArrangeChildren.bodyRounded fl H sp (SetRect H fuel) (Arrange H fuel) s self
    finalSize

/-- A layout step from `s` to `t` keeps the lengths of the nodes `tr`: the fixed members of
every node are left alone, and along `o` every node of `tr` has in `t` the size it has in
`s`. -/
def KeptLengths (o : eGuiOrientation) (tr : List Nat) (s t : State) : Prop :=
  SameFixed s t ∧ ∀ c ∈ tr, o.along (t.heap c).size = o.along (s.heap c).size

/-- The splitter `p` with the members `sp`, whose items have the parents `containers`, is
laid out in the tree below the node `r`, and the layout pass proposes to it the size it
has: `r` has no parent, `p` is `r` or below it, the tree below `r` is finite with
consistent indices; the containers are distinct children of `p` with stretch NONE whose
desired size is their size plus their margin along the orientation and whose minimum size
is not above their length; `p` has stretch NONE and a minimum size not above its length,
as a child a desired size that is its size plus its margin along the orientation, and as
the root no margin along the orientation; the lengths of the containers are not all 0 and,
with the separators, fill the content length of `p` exactly (`freeSpace` is 0). -/
structure GuiSplitter.Settled (H : GuiHpp) (sp : GuiSplitter) (s : State) (p r : Nat)
    (containers : List Nat) (k : Nat) : Prop where
  hasItems : sp.items ≠ []
  parents : sp.items.map (fun i => (s.heap i).parent) = containers.map some
  distinct : containers.Nodup
  below : ∀ c ∈ containers, c ∈ (s.heap p).children
  indices : IndexInv s
  top : (s.heap r).parent = none
  inTree : Descendant s r p
  finite : arrangeable s (k + 2) r = true
  stretchNone : ∀ c ∈ containers, (s.heap c).stretchHor = eGuiStretch.NONE ∧
    (s.heap c).stretchVer = eGuiStretch.NONE
  lengths : GuiSplitter.itemsLengthOf sp.orientation s containers ≠ 0
  desired : ∀ c ∈ containers, ∀ g, g.fixed = (s.heap c).fixed →
    sp.orientation.along (H.GetDesiredSize g) - sp.orientation.insets g.margin =
      sp.orientation.along g.size
  minSize : ∀ c ∈ containers, ∀ g, g.fixed = (s.heap c).fixed →
    sp.orientation.along ⟨H.GetMinSizeX g, H.GetMinSizeY g⟩ ≤
      sp.orientation.along (s.heap c).size
  ownStretch : (s.heap p).stretchHor = eGuiStretch.NONE ∧
    (s.heap p).stretchVer = eGuiStretch.NONE
  ownDesired : (s.heap p).parent ≠ none → ∀ g, g.fixed = (s.heap p).fixed →
    sp.orientation.along (H.GetDesiredSize g) - sp.orientation.insets g.margin =
      sp.orientation.along g.size
  ownMargin : (s.heap p).parent = none → sp.orientation.insets (s.heap p).margin = 0
  ownMin : ∀ g, g.fixed = (s.heap p).fixed →
    sp.orientation.along ⟨H.GetMinSizeX g, H.GetMinSizeY g⟩ ≤
      sp.orientation.along (s.heap p).size
  noFreeSpace : GuiSplitter.freeSpaceOf sp s p containers = 0

end inl.gui

namespace inl.gxeng

/-! ## `CopyCommandList`: tracking of resource states -/

/-- The enumeration `eResourceHeap`, declared outside the sources: `CONSTANT` and `UPLOAD`
are the two enumerators the code names, `other` stands for the remaining ones. -/
inductive eResourceHeap where
  | CONSTANT
  | UPLOAD
  | other (tag : Nat)
deriving DecidableEq

/-- The members of `gxapi_dx12::Resource` that `GetNumSubresources` reads. -/
structure Resource where
  m_numMipLevels : Nat
  m_numTexturePlanes : Nat
  m_numArrayLevels : Nat
deriving DecidableEq

/-- Embedding of `unsigned Resource::GetNumSubresources()`: a product of `unsigned` values. -/
def Resource.GetNumSubresources (r : Resource) : Nat :=
  (r.m_numMipLevels * r.m_numTexturePlanes * r.m_numArrayLevels) % 2 ^ 32

/-- What the code reads of a `MemoryObject`, which is declared outside the sources: the
heap `GetHeap()`, the address `_GetResourcePtr()` and the resource object at that address. -/
structure MemoryObject where
  heap : eResourceHeap
  resourcePtr : Nat
  resource : Resource
deriving DecidableEq

/-- The key `SubresourceId{ resource, subresource }` of `m_resourceTransitions`; its
comparison, declared outside the sources, is taken to compare both members. -/
structure SubresourceId where
  resource : MemoryObject
  subresource : Nat
deriving DecidableEq

/-- The record `SubresourceUsageInfo` kept per subresource; a `gxapi::eResourceState` is
its numeric value. -/
structure SubresourceUsageInfo where
  lastState : Nat
  firstState : Nat
  multipleStates : Bool
deriving DecidableEq

/-- The aggregate `gxapi::TransitionBarrier{ resource, beforeState, afterState,
subresource }` passed to `ResourceBarrier`. -/
structure TransitionBarrier where
  resource : Nat
  beforeState : Nat
  afterState : Nat
  subresource : Nat
deriving DecidableEq

/-- The state of a `CopyCommandList` that `SetResourceState` works on: the map
`m_resourceTransitions`, and the barriers recorded into `m_commandList` by
`ResourceBarrier`, first call first. -/
structure CopyCommandList where
  m_resourceTransitions : SubresourceId → Option SubresourceUsageInfo
  m_commandList : List TransitionBarrier

/-- How a call can leave other than by returning: the two exceptions the code throws, or
the recursion of the model leaving the depth it was given. -/
inductive Thrown where
  | invalid_argument
  | logic_error
  | outOfFuel
deriving DecidableEq

/-- A command list on which no resource state has been set. -/
def CopyCommandList.fresh : CopyCommandList where
  m_resourceTransitions := fun _ => none
  m_commandList := []

/-- The branch "Do a single subresource" of `SetResourceState`. -/
def SetResourceState.single (cl : CopyCommandList) (resource : MemoryObject) (state : Nat)
    (subresource : Nat) : CopyCommandList :=
  let resId : SubresourceId := ⟨resource, subresource⟩
  match cl.m_resourceTransitions resId with
  | none =>
    let info : SubresourceUsageInfo :=
      { lastState := state, firstState := state, multipleStates := false }
    { cl with
      m_resourceTransitions := fun k => if k = resId then some info else
        cl.m_resourceTransitions k }
  | some iter =>
    let prevState := iter.lastState
    if prevState ≠ state then
      { m_commandList := cl.m_commandList ++
          [⟨resource.resourcePtr, prevState, state, subresource⟩]
        m_resourceTransitions := fun k =>
          if k = resId then some { iter with lastState := state, multipleStates := true }
          else cl.m_resourceTransitions k }
    else cl

/-- Embedding of `void CopyCommandList::SetResourceState(const MemoryObject& resource, gxapi::eResourceState state, unsigned subresource)`;
`ALL_SUBRESOURCES` is the constant `gxapi::ALL_SUBRESOURCES`, declared outside the
sources, and the first argument after it bounds the depth of the recursion. -/
def SetResourceState (ALL_SUBRESOURCES : Nat) :
    Nat → CopyCommandList → MemoryObject → Nat → Nat → Except Thrown CopyCommandList
  | 0, _, _, _, _ => Except.error Thrown.outOfFuel
  | fuel + 1, cl, resource, state, subresource =>
    if resource.heap = eResourceHeap.CONSTANT ∨ resource.heap = eResourceHeap.UPLOAD then
      Except.error Thrown.invalid_argument
    else if subresource = ALL_SUBRESOURCES then
      (List.range resource.resource.GetNumSubresources).foldlM
        (fun cl1 s => SetResourceState ALL_SUBRESOURCES fuel cl1 resource state s) cl
    else Except.ok (SetResourceState.single cl resource state subresource)

/-- The test of the branch for a single subresource of `ExpectResourceState`; the calls of
`IsDebuggerPresent` and `DebugBreak` before a `throw` are left out. -/
def ExpectResourceState.single (cl : CopyCommandList) (resource : MemoryObject)
    (anyOfStates : List Nat) (subresource : Nat) : Except Thrown Unit :=
  match cl.m_resourceTransitions ⟨resource, subresource⟩ with
  | none => Except.error Thrown.logic_error
  | some iter =>
    let currentState := iter.lastState
    let ok := anyOfStates.foldl (fun ok it => ok || decide (currentState &&& it = it)) false
    if !ok then Except.error Thrown.logic_error else Except.ok ()

/-- Embedding of `void CopyCommandList::ExpectResourceState(const MemoryObject& resource, const std::initializer_list<gxapi::eResourceState>& anyOfStates, unsigned subresource)`. -/
def ExpectResourceState (ALL_SUBRESOURCES : Nat) :
    Nat → CopyCommandList → MemoryObject → List Nat → Nat → Except Thrown Unit
  | 0, _, _, _, _ => Except.error Thrown.outOfFuel
  | fuel + 1, cl, resource, anyOfStates, subresource =>
    if resource.heap = eResourceHeap.CONSTANT ∨ resource.heap = eResourceHeap.UPLOAD then
      Except.ok ()
    else if subresource = ALL_SUBRESOURCES then
      (List.range resource.resource.GetNumSubresources).foldlM
        (fun _ s => ExpectResourceState ALL_SUBRESOURCES fuel cl resource anyOfStates s) ()
    else ExpectResourceState.single cl resource anyOfStates subresource

/-- One `SetResourceState` call as data: resource, state, subresource. -/
structure StateCall where
  resource : MemoryObject
  state : Nat
  subresource : Nat
deriving DecidableEq

/-- A sequence of `SetResourceState` calls on one command list, first call first; an
exception ends the sequence. -/
def setResourceStates (ALL_SUBRESOURCES : Nat) (fuel : Nat) :
    CopyCommandList → List StateCall → Except Thrown CopyCommandList
  | cl, [] => Except.ok cl
  | cl, c :: rest =>
    match SetResourceState ALL_SUBRESOURCES fuel cl c.resource c.state c.subresource with
    | Except.ok cl1 => setResourceStates ALL_SUBRESOURCES fuel cl1 rest
    | Except.error e => Except.error e

/-- The states that the calls of a sequence give for one subresource, in call order. -/
def statesFor (k : SubresourceId) (calls : List StateCall) : List Nat :=
  (calls.filter (fun c => decide ((⟨c.resource, c.subresource⟩ : SubresourceId) = k))).map
    StateCall.state

/-- The changes of state in a sequence of states: the pairs `(s(i), s(i+1))` with
`s(i) ≠ s(i+1)`, in order. -/
def stateChanges : List Nat → List (Nat × Nat)
  | [] => []
  | [_] => []
  | a :: b :: rest => if a ≠ b then (a, b) :: stateChanges (b :: rest) else stateChanges (b :: rest)

/-- The barriers of a command list that are for the given subresource. -/
def barriersFor (k : SubresourceId) (cl : CopyCommandList) : List TransitionBarrier :=
  cl.m_commandList.filter
    (fun b => decide (b.resource = k.resource.resourcePtr ∧ b.subresource = k.subresource))

/-! ## `impl::VertexPartData`: lookup of an index -/

/-- The loop of `T& VertexPartData::operator[](int index)` from `lookupIdx` on, over the
rest of `table`: the slot `lookupIdx` of `values` that is returned, or
`throw std::invalid_argument("Index not found.")`. -/
def VertexPartData.lookup (index : Int) : List Int → Nat → Except Thrown Nat
  | [], _ => Except.error Thrown.invalid_argument
  | t :: rest, lookupIdx =>
    if t = index then Except.ok lookupIdx else VertexPartData.lookup index rest (lookupIdx + 1)

/-- Embedding of `T& VertexPartData::operator[](int index)` for the pack `Indices...` held in `table`:
the position in `values` of the reference returned. -/
def VertexPartData.subscript (table : List Int) (index : Int) : Except Thrown Nat :=
  VertexPartData.lookup index table 0

/-- The loop of `const T& VertexPartData::operator[](int index) const` from `lookupIdx` on. -/
def VertexPartData.lookupConst (index : Int) : List Int → Nat → Except Thrown Nat
  | [], _ => Except.error Thrown.invalid_argument
  | t :: rest, lookupIdx =>
    if t = index then Except.ok lookupIdx
    else VertexPartData.lookupConst index rest (lookupIdx + 1)

/-- Embedding of `const T& VertexPartData::operator[](int index) const`. -/
def VertexPartData.subscriptConst (table : List Int) (index : Int) : Except Thrown Nat :=
  VertexPartData.lookupConst index table 0

/-! ## `Mesh::Layout`: comparison and hashes -/

/-- Embedding of `enum class eVertexElementSemantic`. -/
inductive eVertexElementSemantic where
  | POSITION
  | NORMAL
  | TEX_COORD
  | COLOR
deriving DecidableEq

/-- The value of an enumerator of `eVertexElementSemantic`. -/
def eVertexElementSemantic.value : eVertexElementSemantic → Nat
  | eVertexElementSemantic.POSITION => 0
  | eVertexElementSemantic.NORMAL => 1
  | eVertexElementSemantic.TEX_COORD => 2
  | eVertexElementSemantic.COLOR => 3

/-- The aggregate `Mesh::Element`, declared outside the sources; `Mesh::Set` builds it as
`{ e.semantic, e.index, e.offset }`. Index and offset are integers of a type the sources
do not show. -/
structure Element where
  semantic : eVertexElementSemantic
  index : Int
  offset : Int
deriving DecidableEq

/-- Embedding of `Mesh::Layout::GetAllElements`: per stream a copy sorted by `std::sort` with the
comparator `lhs.offset < rhs.offset`, pushed to the end of `allElements`. `std::sort` is
not stable; the function `sort` is what it does to a stream. -/
def GetAllElements (sort : List Element → List Element) :
    List (List Element) → List Element
  | [] => []
  | s :: rest => sort s ++ GetAllElements sort rest

/-- Embedding of `Mesh::Layout::RadixSortElements`: three `std::stable_sort` calls, by offset, by index,
by semantic. The stable sort of a sequence is unique; insertion from the back, each
element put before the first one that is not smaller, computes it. -/
def RadixSortElements (elements : List Element) : List Element :=
  let byOffset := elements.insertionSort (fun lhs rhs => lhs.offset ≤ rhs.offset)
  let byIndex := byOffset.insertionSort (fun lhs rhs => lhs.index ≤ rhs.index)
  byIndex.insertionSort (fun lhs rhs => lhs.semantic.value ≤ rhs.semantic.value)

/-- Embedding of `inline uint32_t inthash(uint32_t key)`. -/
def inthash32 (key : Nat) : Nat :=
  let key := (key + 2 ^ 32 - (key <<< 6) % 2 ^ 32) % 2 ^ 32
  let key := key ^^^ (key >>> 17)
  let key := (key + 2 ^ 32 - (key <<< 9) % 2 ^ 32) % 2 ^ 32
  let key := key ^^^ ((key <<< 4) % 2 ^ 32)
  let key := (key + 2 ^ 32 - (key <<< 3) % 2 ^ 32) % 2 ^ 32
  let key := key ^^^ ((key <<< 10) % 2 ^ 32)
  let key := key ^^^ (key >>> 15)
  key

/-- Embedding of `inline uint64_t inthash(uint64_t key)`. -/
def inthash64 (key : Nat) : Nat :=
  let key := ((2 ^ 64 - 1 - key) + (key <<< 21)) % 2 ^ 64
  let key := key ^^^ (key >>> 24)
  let key := (key + (key <<< 3) + (key <<< 8)) % 2 ^ 64
  let key := key ^^^ (key >>> 14)
  let key := (key + (key <<< 2) + (key <<< 4)) % 2 ^ 64
  let key := key ^^^ (key >>> 28)
  let key := (key + (key <<< 31)) % 2 ^ 64
  key

/-- The call `inthash((size_t)v)` for an integer `v`: the conversion to `size_t`, `w` bits wide
(32 or 64), and the overload of `inthash` for that width. -/
def inthashSizeT (w : Nat) (v : Int) : Nat :=
  if w = 32 then inthash32 (v % 2 ^ 32).toNat else inthash64 (v % 2 ^ 64).toNat

/-- One of the two loops of `CalculateHashes`: the hash is xor-ed with the hashes of
semantic, index and offset of every element. -/
def CalculateHashes.fold (w : Nat) (hash : Nat) : List Element → Nat
  | [] => hash
  | e :: rest =>
    let hash := hash ^^^ inthashSizeT w (e.semantic.value : Int)
    let hash := hash ^^^ inthashSizeT w e.index
    let hash := hash ^^^ inthashSizeT w e.offset
    CalculateHashes.fold w hash rest

/-- Embedding of `Mesh::Layout::CalculateHashes`: returns `(elementHash, layoutHash)`. -/
def CalculateHashes (w : Nat) (sort : List Element → List Element)
    (layout : List (List Element)) : Nat × Nat :=
  let allElements := GetAllElements sort layout
  let layoutHash := CalculateHashes.fold w 0 allElements
  let allElements := RadixSortElements allElements
  let elementHash := CalculateHashes.fold w 0 allElements
  (elementHash, layoutHash)

/-- The members of `Mesh::Layout`. -/
structure Layout where
  m_layout : List (List Element)
  m_elementHash : Nat
  m_layoutHash : Nat

/-- The two hash members are what `CalculateHashes` computes for `m_layout`. -/
def Layout.Hashed (w : Nat) (sort : List Element → List Element) (a : Layout) : Prop :=
  (a.m_elementHash, a.m_layoutHash) = CalculateHashes w sort a.m_layout

/-- A layout with its hashes calculated. -/
def Layout.ofStreams (w : Nat) (sort : List Element → List Element)
    (layout : List (List Element)) : Layout where
  m_layout := layout
  m_elementHash := (CalculateHashes w sort layout).1
  m_layoutHash := (CalculateHashes w sort layout).2

/-- The comparison loop of `EqualElements` and `EqualLayout` over two vectors of the same
size: `false` at the first position where semantic, index or offset differ. -/
def elementsMatch : List Element → List Element → Bool
  | l :: ls, r :: rs =>
    if l.semantic ≠ r.semantic ∨ l.index ≠ r.index ∨ l.offset ≠ r.offset then false
    else elementsMatch ls rs
  | _, _ => true

/-- Embedding of `bool Mesh::Layout::EqualElements(const Layout& rhs) const`. -/
def Layout.EqualElements (sort : List Element → List Element) (lhs rhs : Layout) : Bool :=
  if lhs.m_elementHash ≠ rhs.m_elementHash then false
  else
    let lhsElements := GetAllElements sort lhs.m_layout
    let rhsElements := GetAllElements sort rhs.m_layout
    if lhsElements.length ≠ rhsElements.length then false
    else elementsMatch (RadixSortElements lhsElements) (RadixSortElements rhsElements)

/-- Embedding of `bool Mesh::Layout::EqualLayout(const Layout& rhs) const`. -/
def Layout.EqualLayout (sort : List Element → List Element) (lhs rhs : Layout) : Bool :=
  if lhs.m_layoutHash ≠ rhs.m_layoutHash then false
  else
    let lhsElements := GetAllElements sort lhs.m_layout
    let rhsElements := GetAllElements sort rhs.m_layout
    if lhsElements.length ≠ rhsElements.length then false
    else elementsMatch lhsElements rhsElements

/-- Embedding of `size_t Mesh::Layout::GetStreamCount() const`. -/
def Layout.GetStreamCount (a : Layout) : Nat := a.m_layout.length

/-- What `std::sort` with the comparator `lhs.offset < rhs.offset` guarantees: the result
is a rearrangement of the stream in which no element has a smaller offset than one before
it. -/
def StdSort (sort : List Element → List Element) : Prop :=
  ∀ l, (sort l).Perm l ∧ (sort l).Pairwise (fun lhs rhs => lhs.offset ≤ rhs.offset)

/-- The lexicographic order by (semantic, index, offset). -/
def Element.lexLE (a b : Element) : Prop :=
  a.semantic.value < b.semantic.value ∨
    (a.semantic.value = b.semantic.value ∧
      (a.index < b.index ∨ (a.index = b.index ∧ a.offset ≤ b.offset)))

/-- A sort that meets `StdSort`, for the examples. -/
def sampleSort (l : List Element) : List Element :=
  l.insertionSort (fun lhs rhs => lhs.offset ≤ rhs.offset)

/-- The element with the given semantic, index 0 and the given offset. -/
def elem (semantic : eVertexElementSemantic) (offset : Int) : Element :=
  ⟨semantic, 0, offset⟩

end inl.gxeng

namespace inl.gui
/-! ## Heap lemmas -/

@[simp] theorem State.modify_heap_self (s : State) (n : Nat) (f : Gui → Gui) :
    (s.modify n f).heap n = f (s.heap n) := by
  simp [State.modify]

@[simp] theorem State.modify_heap_of_ne (s : State) {m n : Nat} (f : Gui → Gui) (h : m ≠ n) :
    (s.modify n f).heap m = s.heap m := by
  simp [State.modify, h]

theorem State.modify_heap (s : State) (n : Nat) (f : Gui → Gui) (m : Nat) :
    (s.modify n f).heap m = if m = n then f (s.heap n) else s.heap m := rfl

@[simp] theorem State.modify_log (s : State) (n : Nat) (f : Gui → Gui) :
    (s.modify n f).log = s.log := rfl

@[simp] theorem State.fire_heap (s : State) (e : Event) : (s.fire e).heap = s.heap := rfl

@[simp] theorem State.fire_log (s : State) (e : Event) : (s.fire e).log = s.log ++ [e] := rfl

theorem drop_eraseIdx_self (l : List Nat) (k : Nat) : (l.eraseIdx k).drop k = l.drop (k + 1) := by
  induction l generalizing k with
  | nil => simp
  | cons a t ih =>
    cases k with
    | zero => simp
    | succ k => simpa using ih k

/-- The index loop only writes `indexInParent`. -/
theorem decrementIndices_frame (l : List Nat) (s : State) (m : Nat) :
    ∃ j, (decrementIndices s l).heap m = { s.heap m with indexInParent := j } := by
  induction l generalizing s with
  | nil => exact ⟨(s.heap m).indexInParent, rfl⟩
  | cons c rest ih =>
    simp only [decrementIndices]
    obtain ⟨j, hj⟩ := ih (if (s.heap c).indexInParent ≠ -1 then
        s.modify c (fun g => { g with indexInParent := g.indexInParent - 1 }) else s)
    rw [hj]
    split_ifs with h
    · by_cases hm : m = c
      · subst hm; exact ⟨j, by simp⟩
      · exact ⟨j, by simp [hm]⟩
    · exact ⟨j, rfl⟩

theorem decrementIndices_log (l : List Nat) (s : State) : (decrementIndices s l).log = s.log := by
  induction l generalizing s with
  | nil => rfl
  | cons c rest ih =>
    simp only [decrementIndices]
    rw [ih]
    split_ifs <;> rfl

theorem decrementIndices_index (l : List Nat) (s : State) (m : Nat) (hnd : l.Nodup)
    (hne : ∀ c ∈ l, (s.heap c).indexInParent ≠ -1) :
    ((decrementIndices s l).heap m).indexInParent =
      if m ∈ l then (s.heap m).indexInParent - 1 else (s.heap m).indexInParent := by
  induction l generalizing s with
  | nil => simp [decrementIndices]
  | cons c rest ih =>
    have hc : (s.heap c).indexInParent ≠ -1 := hne c (List.mem_cons_self _ _)
    have hcr : c ∉ rest := (List.nodup_cons.mp hnd).1
    simp only [decrementIndices, hc, ne_eq, not_false_eq_true, if_true]
    rw [ih _ (List.nodup_cons.mp hnd).2]
    · by_cases hm : m = c
      · subst hm; simp [hcr]
      · by_cases hr : m ∈ rest <;> simp [hm, hr]
    · intro c2 hc2
      have : c2 ≠ c := fun h => hcr (h ▸ hc2)
      simpa [this] using hne c2 (List.mem_cons_of_mem _ hc2)


theorem intLtSize_natCast (k n : Nat) : intLtSize (k : Int) n = decide (k < n) := by
  simp [intLtSize]

theorem intLtSize_iff (i : Int) (n : Nat) :
    intLtSize i n = true ↔ 0 ≤ i ∧ i.toNat < n := by
  simp only [intLtSize, Bool.and_eq_true, decide_eq_true_eq]
  constructor
  · rintro ⟨h0, h1⟩; exact ⟨h0, by omega⟩
  · rintro ⟨h0, h1⟩; exact ⟨h0, by omega⟩

/-! ### `RemoveGui` block by block -/

theorem clearLinks_children (s : State) (child m : Nat) :
    ((RemoveGui.clearLinks s child).heap m).children = (s.heap m).children := by
  unfold RemoveGui.clearLinks
  cases (s.heap child).front <;> simp only [] <;>
    (split <;> simp only [State.modify_heap] <;> split_ifs <;> simp_all)

theorem clearLinks_parent (s : State) (child m : Nat) :
    ((RemoveGui.clearLinks s child).heap m).parent =
      if m = child then none else (s.heap m).parent := by
  unfold RemoveGui.clearLinks
  cases (s.heap child).front <;> simp only [] <;>
    (split <;> simp only [State.modify_heap] <;> split_ifs <;> simp_all)

theorem clearLinks_index (s : State) (child m : Nat) :
    ((RemoveGui.clearLinks s child).heap m).indexInParent =
      if m = child then -1 else (s.heap m).indexInParent := by
  unfold RemoveGui.clearLinks
  cases (s.heap child).front <;> simp only [] <;>
    (split <;> simp only [State.modify_heap] <;> split_ifs <;> simp_all)

theorem clearLinks_dirty (s : State) (child m : Nat) :
    ((RemoveGui.clearLinks s child).heap m).bLayoutNeedRefresh =
      (s.heap m).bLayoutNeedRefresh := by
  unfold RemoveGui.clearLinks
  cases (s.heap child).front <;> simp only [] <;>
    (split <;> simp only [State.modify_heap] <;> split_ifs <;> simp_all)

theorem clearLinks_child (s : State) (child : Nat) :
    ((RemoveGui.clearLinks s child).heap child).front = none ∧
    ((RemoveGui.clearLinks s child).heap child).back = none := by
  unfold RemoveGui.clearLinks
  simp

theorem clearLinks_log (s : State) (child : Nat) :
    (RemoveGui.clearLinks s child).log = s.log := by
  unfold RemoveGui.clearLinks
  cases (s.heap child).front <;> simp only [] <;> (split <;> simp)

theorem erase_frame (s : State) (self k m : Nat) :
    ∃ j ch, (RemoveGui.erase s self k).heap m =
      { s.heap m with indexInParent := j, children := ch } := by
  unfold RemoveGui.erase
  simp only []
  obtain ⟨j, hj⟩ := decrementIndices_frame
    (((s.modify self (fun g => { g with children := g.children.eraseIdx k })).heap
      self).children.drop k)
    (s.modify self (fun g => { g with children := g.children.eraseIdx k })) m
  rw [hj]
  by_cases hm : m = self
  · subst hm; exact ⟨j, (s.heap m).children.eraseIdx k, by simp⟩
  · exact ⟨j, (s.heap m).children, by simp [hm]⟩

theorem erase_children (s : State) (self k m : Nat) :
    ((RemoveGui.erase s self k).heap m).children =
      if m = self then (s.heap self).children.eraseIdx k else (s.heap m).children := by
  unfold RemoveGui.erase
  simp only []
  obtain ⟨j, hj⟩ := decrementIndices_frame
    (((s.modify self (fun g => { g with children := g.children.eraseIdx k })).heap
      self).children.drop k)
    (s.modify self (fun g => { g with children := g.children.eraseIdx k })) m
  rw [hj]
  by_cases hm : m = self
  · subst hm; simp
  · simp [hm]

theorem erase_log (s : State) (self k : Nat) : (RemoveGui.erase s self k).log = s.log := by
  unfold RemoveGui.erase
  simp [decrementIndices_log]

theorem erase_index (s : State) (self k m : Nat)
    (hnd : ((s.heap self).children.drop (k + 1)).Nodup)
    (hne : ∀ c ∈ (s.heap self).children.drop (k + 1), (s.heap c).indexInParent ≠ -1) :
    ((RemoveGui.erase s self k).heap m).indexInParent =
      if m ∈ (s.heap self).children.drop (k + 1) then (s.heap m).indexInParent - 1
      else (s.heap m).indexInParent := by
  unfold RemoveGui.erase
  simp only [State.modify_heap_self, drop_eraseIdx_self]
  rw [decrementIndices_index _ _ _ hnd]
  · simp only [State.modify_heap]
    split_ifs <;> simp_all
  · intro c hc
    simp only [State.modify_heap]
    split_ifs
    · subst_vars; exact hne _ hc
    · exact hne c hc

theorem fireEvents_heap (s : State) (self child m : Nat) :
    (RemoveGui.fireEvents s self child).heap m =
      if m = self then { s.heap self with bLayoutNeedRefresh := true } else s.heap m := by
  simp [RemoveGui.fireEvents, onChildRemovedClonable, State.modify_heap]


theorem ChildrenIndexed.inj {s : State} {p : Nat} (h : ChildrenIndexed s p) {i j c : Nat}
    (hi : (s.heap p).children[i]? = some c) (hj : (s.heap p).children[j]? = some c) : i = j := by
  have h1 := (h i c hi).2
  have h2 := (h j c hj).2
  rw [h1] at h2
  exact_mod_cast h2

theorem nodup_of_getElem?_inj (l : List Nat)
    (h : ∀ (i j c : Nat), l[i]? = some c → l[j]? = some c → i = j) : l.Nodup := by
  rw [List.nodup_iff_getElem?_ne_getElem?]
  intro i j hij hj heq
  have hi : i < l.length := by omega
  have : l[i]? = some l[i] := List.getElem?_eq_getElem hi
  have h2 : l[j]? = some l[i] := by rw [← heq, this]
  have := h i j _ this h2
  omega

theorem ChildrenIndexed.nodup {s : State} {p : Nat} (h : ChildrenIndexed s p) :
    (s.heap p).children.Nodup :=
  nodup_of_getElem?_inj _ (fun _ _ _ hi hj => h.inj hi hj)

theorem mem_drop_iff_getElem? (l : List Nat) (k c : Nat) :
    c ∈ l.drop k ↔ ∃ i, k ≤ i ∧ l[i]? = some c := by
  constructor
  · intro h
    obtain ⟨n, hn⟩ := List.mem_iff_getElem?.mp h
    rw [List.getElem?_drop] at hn
    exact ⟨k + n, by omega, hn⟩
  · rintro ⟨i, hki, hi⟩
    apply List.mem_iff_getElem?.mpr
    refine ⟨i - k, ?_⟩
    rw [List.getElem?_drop]
    have : k + (i - k) = i := by omega
    rw [this]; exact hi


theorem RemoveGui_eq_of_stored (s : State) (self child : Nat) (b : Bool) (k : Nat)
    (hk : (s.heap child).indexInParent = (k : Int))
    (hget : (s.heap self).children[k]? = some child) :
    RemoveGui s self child b =
      (if b then RemoveGui.fireEvents (RemoveGui.erase (RemoveGui.clearLinks s child) self k)
          self child
        else RemoveGui.erase (RemoveGui.clearLinks s child) self k, true) := by
  have hlt : k < (s.heap self).children.length := by
    by_contra h
    rw [List.getElem?_eq_none (by omega)] at hget
    exact absurd hget (by simp)
  have hlt2 : intLtSize (k : Int) (s.heap self).children.length = true := by
    simp [intLtSize_natCast, hlt]
  simp only [RemoveGui, hk, Int.toNat_ofNat, hlt2, hget, if_true]

theorem RemoveGui_of_indexed (s : State) (self child : Nat) (b : Bool) (k : Nat)
    (h : ChildrenIndexed s self) (hget : (s.heap self).children[k]? = some child) :
    (RemoveGui s self child b).2 = true ∧
    ∀ m, ((RemoveGui s self child b).1.heap m).children =
          (if m = self then (s.heap self).children.eraseIdx k else (s.heap m).children) ∧
        ((RemoveGui s self child b).1.heap m).parent =
          (if m = child then none else (s.heap m).parent) ∧
        ((RemoveGui s self child b).1.heap m).indexInParent =
          (if m = child then -1
           else if m ∈ (s.heap self).children.drop (k + 1) then (s.heap m).indexInParent - 1
           else (s.heap m).indexInParent) := by
  have hk := (h k child hget).2
  rw [RemoveGui_eq_of_stored s self child b k hk hget]
  refine ⟨rfl, fun m => ?_⟩
  have hnd : (((RemoveGui.clearLinks s child).heap self).children.drop (k + 1)).Nodup := by
    rw [clearLinks_children]
    exact List.Nodup.sublist (List.drop_sublist _ _) h.nodup
  have hchild : child ∉ (s.heap self).children.drop (k + 1) := by
    intro hc
    obtain ⟨i, hki, hi⟩ := (mem_drop_iff_getElem? _ _ _).mp hc
    have := h.inj hi hget
    omega
  have hne : ∀ c ∈ ((RemoveGui.clearLinks s child).heap self).children.drop (k + 1),
      ((RemoveGui.clearLinks s child).heap c).indexInParent ≠ -1 := by
    intro c hc
    rw [clearLinks_children] at hc
    rw [clearLinks_index]
    have hcc : c ≠ child := fun e => hchild (e ▸ hc)
    obtain ⟨i, _, hi⟩ := (mem_drop_iff_getElem? _ _ _).mp hc
    rw [if_neg hcc, (h i c hi).2]
    omega
  have hidx := erase_index (RemoveGui.clearLinks s child) self k m hnd hne
  have hch := erase_children (RemoveGui.clearLinks s child) self k m
  obtain ⟨j, ch, hfr⟩ := erase_frame (RemoveGui.clearLinks s child) self k m
  have hpar : ((RemoveGui.erase (RemoveGui.clearLinks s child) self k).heap m).parent =
      ((RemoveGui.clearLinks s child).heap m).parent := by rw [hfr]
  rw [clearLinks_children] at hidx
  simp only [clearLinks_children, clearLinks_index] at hidx hch
  rw [clearLinks_parent] at hpar
  have hidx2 : ((RemoveGui.erase (RemoveGui.clearLinks s child) self k).heap m).indexInParent =
      (if m = child then -1
           else if m ∈ (s.heap self).children.drop (k + 1) then (s.heap m).indexInParent - 1
           else (s.heap m).indexInParent) := by
    rw [hidx]
    by_cases hmc : m = child
    · subst hmc; simp [hchild]
    · simp [hmc]
  cases b
  · exact ⟨hch, hpar, hidx2⟩
  · simp only [if_true, fireEvents_heap]
    by_cases hms : m = self
    · subst hms
      simp only [if_true]
      exact ⟨by simpa using hch, hpar, hidx2⟩
    · simp only [hms, if_false]
      exact ⟨by simpa [hms] using hch, hpar, hidx2⟩


theorem RemoveGui_true_iff (s : State) (self child : Nat) (b : Bool) :
    (RemoveGui s self child b).2 = true ↔
      ∃ k : Nat, (s.heap child).indexInParent = (k : Int) ∧
        (s.heap self).children[k]? = some child := by
  constructor
  · intro h
    unfold RemoveGui at h
    simp only [] at h
    split at h
    · rename_i hlt
      split at h
      · rename_i pm hpm
        split at h
        · rename_i hc
          refine ⟨(s.heap child).indexInParent.toNat, ?_, ?_⟩
          · have := (intLtSize_iff _ _).mp hlt
            omega
          · rw [hpm, hc]
        · simp at h
      · simp at h
    · simp at h
  · rintro ⟨k, hk, hget⟩
    rw [RemoveGui_eq_of_stored s self child b k hk hget]

theorem RemoveGui_false_state (s : State) (self child : Nat) (b : Bool)
    (h : (RemoveGui s self child b).2 = false) : (RemoveGui s self child b).1 = s := by
  revert h
  unfold RemoveGui
  simp only []
  split
  · split
    · split
      · intro h; simp at h
      · intro _; rfl
    · intro _; rfl
  · intro _; rfl

theorem RemoveGui_tail_mem (s : State) (self k : Nat) (h : ChildrenIndexed s self)
    (i c : Nat) (hi : (s.heap self).children[i]? = some c) :
    c ∈ (s.heap self).children.drop (k + 1) ↔ k + 1 ≤ i := by
  rw [mem_drop_iff_getElem?]
  constructor
  · rintro ⟨j, hj, hjc⟩
    have := h.inj hi hjc
    omega
  · intro hle; exact ⟨i, hle, hi⟩

theorem RemoveGui_tail_not_mem (s : State) (self k : Nat) (h : ChildrenIndexed s self)
    (c : Nat) (hc : (s.heap c).parent ≠ some self) :
    c ∉ (s.heap self).children.drop (k + 1) := by
  intro hmem
  obtain ⟨j, _, hjc⟩ := (mem_drop_iff_getElem? _ _ _).mp hmem
  exact hc (h j c hjc).1

theorem IndexInv_RemoveGui (s : State) (self child : Nat) (b : Bool) (h : IndexInv s) :
    IndexInv (RemoveGui s self child b).1 := by
  cases hres : (RemoveGui s self child b).2
  · rw [RemoveGui_false_state s self child b hres]; exact h
  · obtain ⟨k, hk, hget⟩ := (RemoveGui_true_iff s self child b).mp hres
    obtain ⟨-, hpost⟩ := RemoveGui_of_indexed s self child b k (h self) hget
    have hcpar : (s.heap child).parent = some self := (h self k child hget).1
    intro p i c hic
    rw [(hpost p).1] at hic
    rw [(hpost c).2.1, (hpost c).2.2]
    by_cases hp : p = self
    · subst hp
      rw [if_pos rfl, List.getElem?_eraseIdx] at hic
      by_cases hik : i < k
      · rw [if_pos hik] at hic
        have hck : c ≠ child := by
          intro e; subst e
          have := (h p).inj hic hget
          omega
        have hnt : c ∉ (s.heap p).children.drop (k + 1) := by
          rw [RemoveGui_tail_mem s p k (h p) i c hic]; omega
        rw [if_neg hck, if_neg hck, if_neg hnt]
        exact h p i c hic
      · rw [if_neg hik] at hic
        have hck : c ≠ child := by
          intro e; subst e
          have := (h p).inj hic hget
          omega
        have hnt : c ∈ (s.heap p).children.drop (k + 1) := by
          rw [RemoveGui_tail_mem s p k (h p) (i + 1) c hic]; omega
        rw [if_neg hck, if_neg hck, if_pos hnt]
        refine ⟨(h p (i + 1) c hic).1, ?_⟩
        rw [(h p (i + 1) c hic).2]
        push_cast; ring
    · rw [if_neg hp] at hic
      have hc := h p i c hic
      have hck : c ≠ child := by
        intro e; subst e
        rw [hcpar] at hc
        exact hp (Option.some.inj hc.1).symm
      have hnt : c ∉ (s.heap self).children.drop (k + 1) := by
        apply RemoveGui_tail_not_mem s self k (h self)
        rw [hc.1]
        intro e; exact hp (Option.some.inj e)
      rw [if_neg hck, if_neg hck, if_neg hnt]
      exact hc

theorem AttachInv_RemoveGui (s : State) (self child : Nat) (b : Bool) (h : TreeInv s) :
    AttachInv (RemoveGui s self child b).1 := by
  cases hres : (RemoveGui s self child b).2
  · rw [RemoveGui_false_state s self child b hres]; exact h.2
  · obtain ⟨k, hk, hget⟩ := (RemoveGui_true_iff s self child b).mp hres
    obtain ⟨-, hpost⟩ := RemoveGui_of_indexed s self child b k (h.1 self) hget
    intro c p hcp
    rw [(hpost c).2.1] at hcp
    by_cases hck : c = child
    · rw [if_pos hck] at hcp; exact absurd hcp (by simp)
    · rw [if_neg hck] at hcp
      obtain ⟨i, hi, hic⟩ := h.2 c p hcp
      rw [(hpost c).2.2, (hpost p).1, if_neg hck]
      by_cases hp : p = self
      · subst hp
        rw [if_pos rfl]
        have hik : i ≠ k := by
          intro e; subst e
          rw [hget] at hic
          exact hck (Option.some.inj hic).symm
        by_cases hlt : i < k
        · have hnt : c ∉ (s.heap p).children.drop (k + 1) := by
            rw [RemoveGui_tail_mem s p k (h.1 p) i c hic]; omega
          rw [if_neg hnt]
          refine ⟨i, hi, ?_⟩
          rw [List.getElem?_eraseIdx, if_pos hlt]; exact hic
        · have hnt : c ∈ (s.heap p).children.drop (k + 1) := by
            rw [RemoveGui_tail_mem s p k (h.1 p) i c hic]; omega
          rw [if_pos hnt]
          refine ⟨i - 1, ?_, ?_⟩
          · rw [hi]; omega
          · rw [List.getElem?_eraseIdx, if_neg (by omega)]
            have : i - 1 + 1 = i := by omega
            rw [this]; exact hic
      · rw [if_neg hp]
        have hnt : c ∉ (s.heap self).children.drop (k + 1) := by
          apply RemoveGui_tail_not_mem s self k (h.1 self)
          rw [hcp]
          intro e; exact hp (Option.some.inj e)
        rw [if_neg hnt]
        exact ⟨i, hi, hic⟩

theorem TreeInv_RemoveGui (s : State) (self child : Nat) (b : Bool) (h : TreeInv s) :
    TreeInv (RemoveGui s self child b).1 :=
  ⟨IndexInv_RemoveGui s self child b h.1, AttachInv_RemoveGui s self child b h⟩

/-! ### `AddGui` block by block -/

theorem linkLast_frame (s : State) (self child m : Nat) :
    ∃ f b, (AddGui.linkLast s self child).heap m = { s.heap m with front := f, back := b } := by
  unfold AddGui.linkLast
  split_ifs with h0
  · split
    · rename_i lastControl _
      by_cases h1 : m = lastControl
      · by_cases h2 : lastControl = child
        · refine ⟨some child, some lastControl, ?_⟩
          subst h1; subst h2; simp
        · refine ⟨some child, (s.heap m).back, ?_⟩
          subst h1; simp [h2]
      · by_cases h2 : m = child
        · refine ⟨(s.heap m).front, some lastControl, ?_⟩
          subst h2; simp [h1]
        · exact ⟨(s.heap m).front, (s.heap m).back, by simp [h1, h2]⟩
    · exact ⟨(s.heap m).front, (s.heap m).back, rfl⟩
  · exact ⟨(s.heap m).front, (s.heap m).back, rfl⟩

theorem linkLast_log (s : State) (self child : Nat) :
    (AddGui.linkLast s self child).log = s.log := by
  unfold AddGui.linkLast
  split_ifs
  · split <;> rfl
  · rfl

theorem link_children (s : State) (self child m : Nat) :
    ((AddGui.link s self child).heap m).children =
      if m = self then (s.heap self).children ++ [child] else (s.heap m).children := by
  unfold AddGui.link
  simp only [State.modify_heap]
  obtain ⟨f1, b1, h1⟩ := linkLast_frame
    (s.modify child (fun g => { g with parent := some self })) self child self
  obtain ⟨f2, b2, h2⟩ := linkLast_frame
    (s.modify child (fun g => { g with parent := some self })) self child m
  obtain ⟨f3, b3, h3⟩ := linkLast_frame
    (s.modify child (fun g => { g with parent := some self })) self child child
  rw [h1, h2, h3]
  simp only [State.modify_heap]
  split_ifs <;> simp_all

theorem link_parent (s : State) (self child m : Nat) :
    ((AddGui.link s self child).heap m).parent =
      if m = child then some self else (s.heap m).parent := by
  unfold AddGui.link
  simp only [State.modify_heap]
  obtain ⟨f1, b1, h1⟩ := linkLast_frame
    (s.modify child (fun g => { g with parent := some self })) self child self
  obtain ⟨f2, b2, h2⟩ := linkLast_frame
    (s.modify child (fun g => { g with parent := some self })) self child m
  obtain ⟨f3, b3, h3⟩ := linkLast_frame
    (s.modify child (fun g => { g with parent := some self })) self child child
  rw [h1, h2, h3]
  simp only [State.modify_heap]
  split_ifs <;> simp_all

theorem link_index (s : State) (self child m : Nat) :
    ((AddGui.link s self child).heap m).indexInParent =
      if m = child then ((s.heap self).children.length : Int)
      else (s.heap m).indexInParent := by
  unfold AddGui.link
  simp only [State.modify_heap]
  obtain ⟨f1, b1, h1⟩ := linkLast_frame
    (s.modify child (fun g => { g with parent := some self })) self child self
  obtain ⟨f2, b2, h2⟩ := linkLast_frame
    (s.modify child (fun g => { g with parent := some self })) self child m
  obtain ⟨f3, b3, h3⟩ := linkLast_frame
    (s.modify child (fun g => { g with parent := some self })) self child child
  rw [h1, h2, h3]
  simp only [State.modify_heap]
  split_ifs <;> simp_all

theorem link_dirty (s : State) (self child m : Nat) :
    ((AddGui.link s self child).heap m).bLayoutNeedRefresh =
      (s.heap m).bLayoutNeedRefresh := by
  unfold AddGui.link
  simp only [State.modify_heap]
  obtain ⟨f1, b1, h1⟩ := linkLast_frame
    (s.modify child (fun g => { g with parent := some self })) self child self
  obtain ⟨f2, b2, h2⟩ := linkLast_frame
    (s.modify child (fun g => { g with parent := some self })) self child m
  obtain ⟨f3, b3, h3⟩ := linkLast_frame
    (s.modify child (fun g => { g with parent := some self })) self child child
  rw [h1, h2, h3]
  simp only [State.modify_heap]
  split_ifs <;> simp_all

theorem AddGui_fireEvents_heap (s : State) (self child m : Nat) :
    (AddGui.fireEvents s self child).heap m =
      if m = self then { s.heap self with bLayoutNeedRefresh := true } else s.heap m := by
  simp [AddGui.fireEvents, onChildAddedClonable, State.modify_heap]


theorem getElem?_lt_length {l : List Nat} {i c : Nat} (h : l[i]? = some c) : i < l.length := by
  by_contra hh
  rw [List.getElem?_eq_none (by omega)] at h
  exact absurd h (by simp)

theorem getElem?_append_singleton (l : List Nat) (a : Nat) (i c : Nat)
    (h : (l ++ [a])[i]? = some c) :
    (i < l.length ∧ l[i]? = some c) ∨ (i = l.length ∧ c = a) := by
  by_cases hi : i < l.length
  · left
    rw [List.getElem?_append_left hi] at h
    exact ⟨hi, h⟩
  · right
    have hlen := getElem?_lt_length h
    simp only [List.length_append, List.length_singleton] at hlen
    have hil : i = l.length := by omega
    subst hil
    simp at h
    exact ⟨rfl, h.symm⟩

theorem IndexInv_link (s : State) (self child : Nat) (h : IndexInv s)
    (hdet : (s.heap child).parent = none) : IndexInv (AddGui.link s self child) := by
  have hnc : ∀ (p i : Nat), (s.heap p).children[i]? ≠ some child := by
    intro p i hpi
    have := (h p i child hpi).1
    rw [hdet] at this
    exact absurd this (by simp)
  intro p i c hic
  rw [link_children] at hic
  rw [link_parent, link_index]
  by_cases hp : p = self
  · subst hp
    rw [if_pos rfl] at hic
    rcases getElem?_append_singleton _ _ _ _ hic with ⟨_, hl⟩ | ⟨hi, hc⟩
    · have hck : c ≠ child := fun e => hnc p i (e ▸ hl)
      rw [if_neg hck, if_neg hck]
      exact h p i c hl
    · subst hc; subst hi
      simp
  · rw [if_neg hp] at hic
    have hck : c ≠ child := fun e => hnc p i (e ▸ hic)
    rw [if_neg hck, if_neg hck]
    exact h p i c hic

theorem AttachInv_link (s : State) (self child : Nat) (h : AttachInv s) :
    AttachInv (AddGui.link s self child) := by
  intro c p hcp
  rw [link_parent] at hcp
  rw [link_index, link_children]
  by_cases hck : c = child
  · subst hck
    rw [if_pos rfl] at hcp
    have hps : p = self := (Option.some.inj hcp).symm
    subst hps
    refine ⟨(s.heap p).children.length, by simp, ?_⟩
    simp
  · rw [if_neg hck] at hcp
    obtain ⟨i, hi, hic⟩ := h c p hcp
    refine ⟨i, by rw [if_neg hck]; exact hi, ?_⟩
    by_cases hp : p = self
    · subst hp
      rw [if_pos rfl, List.getElem?_append_left (getElem?_lt_length hic)]
      exact hic
    · rw [if_neg hp]; exact hic

theorem TreeInv_link (s : State) (self child : Nat) (h : TreeInv s)
    (hdet : (s.heap child).parent = none) : TreeInv (AddGui.link s self child) :=
  ⟨IndexInv_link s self child h.1 hdet, AttachInv_link s self child h.2⟩

theorem TreeInv_of_fields (s t : State) (h : TreeInv s)
    (hc : ∀ m, (t.heap m).children = (s.heap m).children)
    (hp : ∀ m, (t.heap m).parent = (s.heap m).parent)
    (hi : ∀ m, (t.heap m).indexInParent = (s.heap m).indexInParent) : TreeInv t := by
  constructor
  · intro p i c hic
    rw [hc] at hic
    rw [hp, hi]
    exact h.1 p i c hic
  · intro c p hcp
    rw [hp] at hcp
    rw [hi, hc]
    exact h.2 c p hcp

theorem AddGui_detach (s : State) (child : Nat) (b : Bool) (h : TreeInv s) :
    TreeInv (AddGui.detach s child b) ∧ ((AddGui.detach s child b).heap child).parent = none := by
  unfold AddGui.detach
  cases hpar : (s.heap child).parent with
  | none => exact ⟨h, hpar⟩
  | some p =>
    simp only []
    refine ⟨TreeInv_RemoveGui s p child b h, ?_⟩
    obtain ⟨k, _, hget⟩ := h.2 child p hpar
    rw [((RemoveGui_of_indexed s p child b k (h.1 p) hget).2 child).2.1]
    simp

theorem AddGui_fields (s : State) (self child : Nat) (b : Bool) (m : Nat) :
    ((AddGui s self child b).heap m).children =
      ((AddGui.link (AddGui.detach s child b) self child).heap m).children ∧
    ((AddGui s self child b).heap m).parent =
      ((AddGui.link (AddGui.detach s child b) self child).heap m).parent ∧
    ((AddGui s self child b).heap m).indexInParent =
      ((AddGui.link (AddGui.detach s child b) self child).heap m).indexInParent := by
  unfold AddGui
  cases b
  · exact ⟨rfl, rfl, rfl⟩
  · simp only [if_true, AddGui_fireEvents_heap]
    split_ifs with hm
    · subst hm; exact ⟨rfl, rfl, rfl⟩
    · exact ⟨rfl, rfl, rfl⟩

theorem IndexInv_of_fields (s t : State) (h : IndexInv s)
    (hf : ∀ m, (t.heap m).children = (s.heap m).children ∧
      (t.heap m).parent = (s.heap m).parent ∧
      (t.heap m).indexInParent = (s.heap m).indexInParent) : IndexInv t := by
  intro p i c hic
  rw [(hf p).1] at hic
  rw [(hf c).2.1, (hf c).2.2]
  exact h p i c hic

theorem TreeInv_AddGui (s : State) (self child : Nat) (b : Bool) (h : TreeInv s) :
    TreeInv (AddGui s self child b) := by
  obtain ⟨h1, h2⟩ := AddGui_detach s child b h
  have h3 := TreeInv_link _ self child h1 h2
  exact TreeInv_of_fields _ _ h3 (fun m => (AddGui_fields s self child b m).1)
    (fun m => (AddGui_fields s self child b m).2.1)
    (fun m => (AddGui_fields s self child b m).2.2)

theorem TreeInv_fresh : TreeInv State.fresh := by
  constructor
  · intro p i c h
    simp [State.fresh, Gui.new] at h
  · intro c p h
    simp [State.fresh, Gui.new] at h

theorem TreeInv_runOps (s : State) (ops : List TreeOp) (h : TreeInv s) :
    TreeInv (runOps s ops) := by
  induction ops generalizing s with
  | nil => exact h
  | cons op rest ih =>
    unfold runOps
    rw [List.foldl_cons]
    apply ih
    cases op with
    | add self child b => exact TreeInv_AddGui s self child b h
    | remove self child b => exact TreeInv_RemoveGui s self child b h


theorem RemoveGui_child_links (s : State) (self child : Nat) (b : Bool) (k : Nat)
    (hk : (s.heap child).indexInParent = (k : Int))
    (hget : (s.heap self).children[k]? = some child) :
    ((RemoveGui s self child b).1.heap child).front = none ∧
    ((RemoveGui s self child b).1.heap child).back = none := by
  rw [RemoveGui_eq_of_stored s self child b k hk hget]
  obtain ⟨j, ch, hfr⟩ := erase_frame (RemoveGui.clearLinks s child) self k child
  have h1 := clearLinks_child s child
  cases b
  · simp only [Bool.false_eq_true, if_false]
    rw [hfr]; exact h1
  · simp only [if_true, fireEvents_heap]
    split_ifs with hm
    · subst hm
      change ((RemoveGui.erase _ _ k).heap _).front = none ∧
        ((RemoveGui.erase _ _ k).heap _).back = none
      rw [hfr]; exact h1
    · rw [hfr]; exact h1

theorem RemoveGui_dirty (s : State) (self child : Nat) (b : Bool) (m : Nat) :
    ((RemoveGui s self child b).1.heap m).bLayoutNeedRefresh =
      if b = true ∧ (RemoveGui s self child b).2 = true ∧ m = self then true
      else (s.heap m).bLayoutNeedRefresh := by
  cases hres : (RemoveGui s self child b).2
  · rw [RemoveGui_false_state s self child b hres]; simp
  · obtain ⟨k, hk, hget⟩ := (RemoveGui_true_iff s self child b).mp hres
    rw [RemoveGui_eq_of_stored s self child b k hk hget]
    obtain ⟨j, ch, hfr⟩ := erase_frame (RemoveGui.clearLinks s child) self k m
    have h1 := clearLinks_dirty s child m
    cases b
    · simp only [Bool.false_eq_true, if_false, false_and]
      rw [hfr]; exact h1
    · simp only [if_true, fireEvents_heap, true_and]
      split_ifs with hm
      · rfl
      · rw [hfr]; exact h1

theorem AddGui_detach_dirty (s : State) (child : Nat) (b : Bool) (m : Nat)
    (h : b = false ∨ (s.heap child).parent ≠ some m) :
    ((AddGui.detach s child b).heap m).bLayoutNeedRefresh = (s.heap m).bLayoutNeedRefresh := by
  unfold AddGui.detach
  cases hpar : (s.heap child).parent with
  | none => rfl
  | some p =>
    simp only []
    rw [RemoveGui_dirty, if_neg]
    rintro ⟨hb, -, hm⟩
    rcases h with h | h
    · rw [h] at hb; exact absurd hb (by simp)
    · exact h (by rw [hpar, hm])


/-! ## Claims on tree management -/

/-- C1. Index consistency: in every state reached from freshly constructed nodes by any
finite sequence of `AddGui` and `RemoveGui` calls (any receivers, any arguments, with or
without events), the child stored at position `i` of any container `p` has
`indexInParent == i` and `parent == p`. -/
theorem C1_index_consistency (ops : List TreeOp) (p i c : Nat)
    (h : ((runOps State.fresh ops).heap p).children[i]? = some c) :
    ((runOps State.fresh ops).heap c).indexInParent = (i : Int) ∧
    ((runOps State.fresh ops).heap c).parent = some p :=
  ((TreeInv_runOps State.fresh ops TreeInv_fresh).1 p i c h).symm

/-- Witness for C1: add `1`, `2`, `3` to `0`, remove `2`; node `3` now sits at position 1. -/
theorem C1_index_consistency_witness :
    ((runOps State.fresh [TreeOp.add 0 1 true, TreeOp.add 0 2 true, TreeOp.add 0 3 true,
        TreeOp.remove 0 2 true]).heap 0).children[1]? = some 3 ∧
    ((runOps State.fresh [TreeOp.add 0 1 true, TreeOp.add 0 2 true, TreeOp.add 0 3 true,
        TreeOp.remove 0 2 true]).heap 3).indexInParent = ((1 : Nat) : Int) ∧
    ((runOps State.fresh [TreeOp.add 0 1 true, TreeOp.add 0 2 true, TreeOp.add 0 3 true,
        TreeOp.remove 0 2 true]).heap 3).parent = some 0 :=
  ⟨by decide, C1_index_consistency _ 0 1 3 (by decide)⟩

/-- C2. For a container `self` whose children satisfy the index invariant and the child
stored at position `k`, `RemoveGui` returns true, the children become the original sequence
with position `k` erased, the removed child has no parent, no front, no back and index -1,
every earlier sibling keeps its index and every later sibling has its index decremented by
exactly one. -/
theorem C2_RemoveGui_indexed (s : State) (self child k : Nat) (b : Bool)
    (h : ChildrenIndexed s self) (hget : (s.heap self).children[k]? = some child) :
    (RemoveGui s self child b).2 = true ∧
    ((RemoveGui s self child b).1.heap self).children = (s.heap self).children.eraseIdx k ∧
    ((RemoveGui s self child b).1.heap child).parent = none ∧
    ((RemoveGui s self child b).1.heap child).front = none ∧
    ((RemoveGui s self child b).1.heap child).back = none ∧
    ((RemoveGui s self child b).1.heap child).indexInParent = -1 ∧
    (∀ (i c : Nat), i < k → (s.heap self).children[i]? = some c →
      ((RemoveGui s self child b).1.heap c).indexInParent = (i : Int)) ∧
    (∀ (i c : Nat), k < i → (s.heap self).children[i]? = some c →
      ((RemoveGui s self child b).1.heap c).indexInParent = (i : Int) - 1) := by
  obtain ⟨hres, hpost⟩ := RemoveGui_of_indexed s self child b k h hget
  have hlinks := RemoveGui_child_links s self child b k (h k child hget).2 hget
  refine ⟨hres, ?_, ?_, hlinks.1, hlinks.2, ?_, ?_, ?_⟩
  · rw [(hpost self).1, if_pos rfl]
  · rw [(hpost child).2.1, if_pos rfl]
  · rw [(hpost child).2.2, if_pos rfl]
  · intro i c hik hic
    have hck : c ≠ child := by
      intro e; subst e
      have := h.inj hic hget
      omega
    have hnt : c ∉ (s.heap self).children.drop (k + 1) := by
      rw [RemoveGui_tail_mem s self k h i c hic]; omega
    rw [(hpost c).2.2, if_neg hck, if_neg hnt]
    exact (h i c hic).2
  · intro i c hki hic
    have hck : c ≠ child := by
      intro e; subst e
      have := h.inj hic hget
      omega
    have hnt : c ∈ (s.heap self).children.drop (k + 1) := by
      rw [RemoveGui_tail_mem s self k h i c hic]; omega
    rw [(hpost c).2.2, if_neg hck, if_pos hnt, (h i c hic).2]

/-- Witness for C2 (scenario 4): removing the middle child of three leaves the two others,
in their order, with indices 0 and 1. -/
theorem C2_RemoveGui_indexed_witness :
    ((RemoveGui threeChildren 0 2 true).1.heap 0).children = [1, 3] ∧
    ((RemoveGui threeChildren 0 2 true).1.heap 1).indexInParent = 0 ∧
    ((RemoveGui threeChildren 0 2 true).1.heap 3).indexInParent = 1 ∧
    ((RemoveGui threeChildren 0 2 true).1.heap 2).indexInParent = -1 := by
  have hinv : ChildrenIndexed threeChildren 0 :=
    (TreeInv_AddGui _ 0 3 true (TreeInv_AddGui _ 0 2 true
      (TreeInv_AddGui _ 0 1 true TreeInv_fresh))).1 0
  have h := C2_RemoveGui_indexed threeChildren 0 2 1 true hinv (by decide)
  refine ⟨?_, ?_, ?_, h.2.2.2.2.2.1⟩
  · rw [h.2.1]; decide
  · exact h.2.2.2.2.2.2.1 0 1 (by decide) (by decide)
  · have := h.2.2.2.2.2.2.2 2 3 (by decide) (by decide)
    rw [this]; decide

/-- C3 (evaluation of the code at the failing input). The three children of `threeChildren`
are linked consistently; `RemoveGui` of the middle child succeeds and leaves `[1, 3]`, but
the former neighbours are not linked to each other: `1.front` and `3.back` are null, so the
links no longer agree with the children sequence. -/
theorem C3_RemoveGui_unlinks_neighbours :
    siblingLinked threeChildren 0 = true ∧
    (RemoveGui threeChildren 0 2 true).2 = true ∧
    ((RemoveGui threeChildren 0 2 true).1.heap 0).children = [1, 3] ∧
    ((RemoveGui threeChildren 0 2 true).1.heap 1).front = none ∧
    ((RemoveGui threeChildren 0 2 true).1.heap 3).back = none ∧
    siblingLinked (RemoveGui threeChildren 0 2 true).1 0 = false := by
  decide

/-- C4. `RemoveGui` reports failure (returns false) exactly when the child is not the element
stored at `children[child->indexInParent]` of the container (index negative, out of range,
or another node there); in that case the whole state is returned unchanged: children,
indices, links, the child itself, and the event log (no delegate fires). -/
theorem C4_RemoveGui_failure (s : State) (self child : Nat) (b : Bool) :
    ((RemoveGui s self child b).2 = false ↔ ¬ StoredAtIndex s self child) ∧
    (¬ StoredAtIndex s self child → RemoveGui s self child b = (s, false)) := by
  have hiff : (RemoveGui s self child b).2 = false ↔ ¬ StoredAtIndex s self child := by
    rw [← Bool.not_eq_true]
    exact not_congr (RemoveGui_true_iff s self child b)
  refine ⟨hiff, fun hn => ?_⟩
  have h2 := hiff.mpr hn
  have h1 := RemoveGui_false_state s self child b h2
  exact Prod.ext h1 h2


/-- C5. `AddGui` detaches before attaching. For a heap satisfying the index invariant, a
child stored in the children of `P1` and any container `P2`: after `P2.AddGui(child)` the
child is no longer among the children of `P1` (when `P2` is another container), it is the
last child of `P2` and occurs there exactly once, its parent is `P2`, and a node stored at
two places of the heap (position `i` of `p`, position `j` of `q`) is stored at one place
only: no node is in the children of two containers or twice in one. -/
theorem C5_AddGui_detaches (s : State) (P1 P2 child : Nat) (b : Bool)
    (hinv : IndexInv s) (hmem : child ∈ (s.heap P1).children) :
    (P1 ≠ P2 → child ∉ ((AddGui s P2 child b).heap P1).children) ∧
    ((AddGui s P2 child b).heap P2).children.getLast? = some child ∧
    ((AddGui s P2 child b).heap P2).children.count child = 1 ∧
    ((AddGui s P2 child b).heap child).parent = some P2 ∧
    (∀ (p q i j c : Nat), ((AddGui s P2 child b).heap p).children[i]? = some c →
      ((AddGui s P2 child b).heap q).children[j]? = some c → p = q ∧ i = j) := by
  obtain ⟨k, hget⟩ := List.mem_iff_getElem?.mp hmem
  have hpar : (s.heap child).parent = some P1 := (hinv P1 k child hget).1
  have hdet : AddGui.detach s child b = (RemoveGui s P1 child b).1 := by
    unfold AddGui.detach; rw [hpar]
  have hpost := (RemoveGui_of_indexed s P1 child b k (hinv P1) hget).2
  have hinv1 : IndexInv (AddGui.detach s child b) := by
    rw [hdet]; exact IndexInv_RemoveGui s P1 child b hinv
  have hnone : ((AddGui.detach s child b).heap child).parent = none := by
    rw [hdet, (hpost child).2.1, if_pos rfl]
  have hinv2 : IndexInv (AddGui s P2 child b) :=
    IndexInv_of_fields _ _ (IndexInv_link _ P2 child hinv1 hnone)
      (fun m => AddGui_fields s P2 child b m)
  have hch : ∀ m, ((AddGui s P2 child b).heap m).children =
      if m = P2 then ((AddGui.detach s child b).heap P2).children ++ [child]
      else ((AddGui.detach s child b).heap m).children := by
    intro m; rw [(AddGui_fields s P2 child b m).1, link_children]
  have hlast : ((AddGui s P2 child b).heap P2).children.getLast? = some child := by
    rw [hch P2, if_pos rfl]; simp
  have hin : child ∈ ((AddGui s P2 child b).heap P2).children := by
    rw [hch P2, if_pos rfl]; simp
  have hparent : ((AddGui s P2 child b).heap child).parent = some P2 := by
    rw [(AddGui_fields s P2 child b child).2.1, link_parent, if_pos rfl]
  refine ⟨?_, hlast, ?_, hparent, ?_⟩
  · intro hne hc
    obtain ⟨i, hi⟩ := List.mem_iff_getElem?.mp hc
    have := (hinv2 P1 i child hi).1
    rw [hparent] at this
    exact hne (Option.some.inj this).symm
  · exact List.count_eq_one_of_mem (hinv2 P2).nodup hin
  · intro p q i j c hp hq
    have h1 := hinv2 p i c hp
    have h2 := hinv2 q j c hq
    have hpq : p = q := by
      have := h1.1.symm.trans h2.1
      exact Option.some.inj this
    refine ⟨hpq, ?_⟩
    have := h1.2.symm.trans h2.2
    exact_mod_cast this

/-- Witness for C5: node `2`, the middle child of container `0`, is added to container `5`. -/
theorem C5_AddGui_detaches_witness :
    (2 ∉ ((AddGui threeChildren 5 2 true).heap 0).children) ∧
    ((AddGui threeChildren 5 2 true).heap 5).children.getLast? = some 2 ∧
    ((AddGui threeChildren 5 2 true).heap 5).children.count 2 = 1 ∧
    ((AddGui threeChildren 5 2 true).heap 2).parent = some 5 := by
  have hinv : IndexInv threeChildren :=
    (TreeInv_AddGui _ 0 3 true (TreeInv_AddGui _ 0 2 true
      (TreeInv_AddGui _ 0 1 true TreeInv_fresh))).1
  have h := C5_AddGui_detaches threeChildren 0 5 2 true hinv (by decide)
  exact ⟨h.1 (by decide), h.2.1, h.2.2.1, h.2.2.2.1⟩

/-- C6 (counterexample). `AddGui` of the fresh node `1` to the fresh node `0`, with events:
the container is marked dirty, the added child is not. -/
theorem C6_child_not_marked_dirty :
    ((AddGui State.fresh 0 1 true).heap 0).bLayoutNeedRefresh = true ∧
    ((AddGui State.fresh 0 1 true).heap 1).bLayoutNeedRefresh = false := by
  decide

/-- C6 (amended). After `AddGui(child, true)` the container is marked dirty, whatever the
flags were before, by the `onChildAdded` handler; the flag of the added child (a node other
than the container, and not its own parent) is left as it was. -/
theorem C6_AddGui_marks_container (s : State) (self child : Nat)
    (hne : child ≠ self) (hown : (s.heap child).parent ≠ some child) :
    ((AddGui s self child true).heap self).bLayoutNeedRefresh = true ∧
    ((AddGui s self child true).heap child).bLayoutNeedRefresh =
      (s.heap child).bLayoutNeedRefresh := by
  unfold AddGui
  simp only [if_true, AddGui_fireEvents_heap, if_neg hne]
  refine ⟨trivial, ?_⟩
  rw [link_dirty, AddGui_detach_dirty s child true child (Or.inr hown)]

/-- Witness for C6 (amended): a dirty child added to a clean container stays dirty, and a
clean one (see the counterexample) stays clean. -/
theorem C6_AddGui_marks_container_witness :
    ((AddGui threeChildren 1 2 true).heap 1).bLayoutNeedRefresh = true ∧
    ((AddGui threeChildren 1 2 true).heap 2).bLayoutNeedRefresh =
      (threeChildren.heap 2).bLayoutNeedRefresh :=
  C6_AddGui_marks_container threeChildren 1 2 (by decide) (by decide)



/-! ### Frame of the layout pass -/

theorem SameFixed.same (s : State) : SameFixed s s := fun _ => rfl

theorem SameFixed.andThen {s t u : State} (h1 : SameFixed s t) (h2 : SameFixed t u) :
    SameFixed s u := fun m => (h2 m).trans (h1 m)

theorem SameFixed.children {s t : State} (h : SameFixed s t) (m : Nat) :
    (t.heap m).children = (s.heap m).children := by
  have := congrArg Gui.children (h m); exact this

theorem SameFixed.parent {s t : State} (h : SameFixed s t) (m : Nat) :
    (t.heap m).parent = (s.heap m).parent := by
  have := congrArg Gui.parent (h m); exact this

theorem SameFixed.usesParent {s t : State} (h : SameFixed s t) (m : Nat) :
    (t.heap m).usesParent = (s.heap m).usesParent := by
  have := h m
  unfold Gui.usesParent
  have h1 : (t.heap m).stretchHor = (s.heap m).stretchHor := by
    have h0 := congrArg Gui.stretchHor this; exact h0
  have h2 : (t.heap m).stretchVer = (s.heap m).stretchVer := by
    have h0 := congrArg Gui.stretchVer this; exact h0
  have h3 : (t.heap m).alignHor = (s.heap m).alignHor := by
    have h0 := congrArg Gui.alignHor this; exact h0
  have h4 : (t.heap m).alignVer = (s.heap m).alignVer := by
    have h0 := congrArg Gui.alignVer this; exact h0
  rw [h1, h2, h3, h4]

theorem SameFixed.ofModify (s : State) (n : Nat) (f : Gui → Gui)
    (hf : (f (s.heap n)).fixed = (s.heap n).fixed) : SameFixed s (s.modify n f) := by
  intro m
  rw [State.modify_heap]
  split_ifs with h
  · subst h; exact hf
  · rfl

theorem SameFixed.ofFire (s : State) (e : Event) : SameFixed s (s.fire e) := fun _ => rfl

theorem Descendant.congr {s t : State} (h : SameFixed s t) {n m : Nat}
    (hd : Descendant s n m) : Descendant t n m := by
  induction hd with
  | self n => exact Descendant.self n
  | child hc _ ih => exact Descendant.child (by rw [h.children]; exact hc) ih

theorem Descendant.congr_iff {s t : State} (h : SameFixed s t) (n m : Nat) :
    Descendant t n m ↔ Descendant s n m :=
  ⟨fun hd => Descendant.congr (fun k => (h k).symm) hd, fun hd => Descendant.congr h hd⟩

theorem Descendant.cases_iff (s : State) (n m : Nat) :
    Descendant s n m ↔ m = n ∨ ∃ c ∈ (s.heap n).children, Descendant s c m := by
  constructor
  · intro h
    cases h with
    | self => exact Or.inl rfl
    | child hc hd => exact Or.inr ⟨_, hc, hd⟩
  · rintro (h | ⟨c, hc, hd⟩)
    · subst h; exact Descendant.self _
    · exact Descendant.child hc hd

theorem arrangeable_congr {s t : State} (h : SameFixed s t) (d n : Nat) :
    arrangeable t d n = arrangeable s d n := by
  induction d generalizing n with
  | zero => rfl
  | succ d ih =>
    have hfun : (fun c => arrangeable t d c) = fun c => arrangeable s d c := funext ih
    simp only [arrangeable, h.usesParent, h.parent, h.children, hfun]

theorem arrangeable_succ {s : State} {d n : Nat} (h : arrangeable s (d + 1) n = true) :
    ((s.heap n).usesParent = true → ∃ p, (s.heap n).parent = some p) ∧
    ∀ c ∈ (s.heap n).children, arrangeable s d c = true := by
  simp only [arrangeable, Bool.and_eq_true, Bool.or_eq_true, Bool.not_eq_true',
    List.all_eq_true] at h
  refine ⟨fun hu => ?_, h.2⟩
  rcases h.1 with h1 | h1
  · rw [hu] at h1; exact absurd h1 (by simp)
  · exact Option.isSome_iff_exists.mp h1

/-! ### `SetRect` returns and writes only below its node -/

theorem Descendant.trans {s : State} {a b c : Nat} (h1 : Descendant s a b)
    (h2 : Descendant s b c) : Descendant s a c := by
  induction h1 with
  | self n => exact h2
  | child hc _ ih => exact Descendant.child hc (ih h2)

theorem forEachChild_inv (body : State → Nat → Except ArrangeError State) (I : State → Prop)
    (l : List Nat)
    (hbody : ∀ t c, c ∈ l → I t → ∃ t1, body t c = Except.ok t1 ∧ I t1) :
    ∀ s, I s → ∃ s1, forEachChild body s l = Except.ok s1 ∧ I s1 := by
  induction l with
  | nil => intro s hs; exact ⟨s, rfl, hs⟩
  | cons c rest ih =>
    intro s hs
    obtain ⟨t1, h1, hI1⟩ := hbody s c (List.mem_cons_self _ _) hs
    obtain ⟨s1, h2, hI2⟩ :=
      ih (fun t c2 hc2 ht => hbody t c2 (List.mem_cons_of_mem _ hc2) ht) t1 hI1
    exact ⟨s1, by simp only [forEachChild, h1, h2], hI2⟩

theorem StepOk.refl (s : State) (root : Nat) : StepOk s root s :=
  ⟨SameFixed.same s, fun _ _ => rfl⟩

theorem StepOk.fire {s t : State} {root : Nat} (h : StepOk s root t) (e : Event) :
    StepOk s root (t.fire e) := h

theorem StepOk.modify {s t : State} {root : Nat} (h : StepOk s root t) (n : Nat)
    (f : Gui → Gui) (hf : (f (t.heap n)).fixed = (t.heap n).fixed)
    (hd : Descendant s root n) : StepOk s root (t.modify n f) := by
  refine ⟨h.1.andThen (SameFixed.ofModify t n f hf), fun m hm => ?_⟩
  have hmn : m ≠ n := fun e => hm (e ▸ hd)
  rw [State.modify_heap_of_ne _ _ hmn]
  exact h.2 m hm

theorem StepOk.mono {s t u : State} {root c : Nat} (hst : StepOk s root t)
    (hc : Descendant s root c) (htu : StepOk t c u) : StepOk s root u := by
  refine ⟨hst.1.andThen htu.1, fun m hm => ?_⟩
  have h1 : ¬ Descendant t c m := fun hd =>
    hm (hc.trans ((Descendant.congr_iff hst.1 c m).mp hd))
  rw [htu.2 m h1]
  exact hst.2 m hm

theorem StepOk.child {s t u : State} {self c : Nat} (hst : StepOk s self t)
    (hc : c ∈ (s.heap self).children) (htu : StepOk t c u) : StepOk s self u :=
  hst.mono (Descendant.child hc (Descendant.self c)) htu

theorem notifySelf_stepOk {s t : State} {root : Nat} (h : StepOk s root t) (self : Nat)
    (rect : RectF) : StepOk s root (SetRect.notifySelf t self rect) := by
  unfold SetRect.notifySelf
  simp only []
  split <;> exact h

theorem notifyChange_stepOk {s t : State} {self : Nat} (h : StepOk s self t)
    (rect : RectF) (b1 b2 b3 : Bool) :
    StepOk s self (SetRect.notifyChange t self rect b1 b2 b3) := by
  have hmod : ∀ u : State, StepOk s self u →
      StepOk s self (u.modify self (fun g => { g with bLayoutNeedRefresh := true })) :=
    fun u hu => hu.modify self _ rfl (Descendant.self self)
  unfold SetRect.notifyChange
  cases b1 <;> cases b2 <;> cases b3 <;> simp only [if_true, if_false, Bool.false_eq_true]
  · exact h
  · exact h
  · exact (h.fire _).fire _
  · exact hmod _ ((h.fire _).fire _)
  · exact h.fire _
  · exact h.fire _
  · exact ((h.fire _).fire _).fire _
  · exact hmod _ (((h.fire _).fire _).fire _)

theorem notifyChildren_inv (move : State → Nat → Except ArrangeError State) (rect : RectF)
    (I : State → Prop) (l : List Nat) (hfire : ∀ t e, I t → I (t.fire e))
    (hmove : ∀ t c, c ∈ l → I t → ∃ t1, move t c = Except.ok t1 ∧ I t1) :
    ∀ s, I s → ∃ s1, SetRect.notifyChildren move rect s l = Except.ok s1 ∧ I s1 := by
  unfold SetRect.notifyChildren
  apply forEachChild_inv
  intro t c hc ht
  obtain ⟨t1, h1, hI1⟩ := hmove t c hc ht
  refine ⟨(t1.fire (Event.onParentTransformChanged c rect)).fire
    (Event.onParentTransformChangedClonable c rect), ?_, hfire _ _ (hfire _ _ hI1)⟩
  simp only [h1]

theorem commit_spec (H : GuiHpp)
    (setRect : State → Nat → ℚ → ℚ → ℚ → ℚ → Bool → Bool → Except ArrangeError State)
    (s s1 : State) (self : Nat) (rect oldRect : RectF) (b1 b2 : Bool)
    (hrec : ∀ t c x y w h b3 b4, c ∈ (s.heap self).children → SameFixed s t →
      ∃ t1, setRect t c x y w h b3 b4 = Except.ok t1 ∧ StepOk t c t1)
    (hs1 : StepOk s self s1) :
    ∃ s2, SetRect.commit H setRect s1 self rect oldRect b1 b2 = Except.ok s2 ∧
      StepOk s self s2 := by
  unfold SetRect.commit
  simp only []
  split_ifs with hrect
  · obtain ⟨s2, h2, hI2⟩ := notifyChildren_inv
      (SetRect.move H setRect b1
        ⟨rect.GetPos.x - oldRect.GetPos.x, rect.GetPos.y - oldRect.GetPos.y⟩)
      rect (StepOk s self) (s1.heap self).children (fun t e ht => ht.fire e)
      (fun t c hc ht => by
        rw [hs1.1.children] at hc
        unfold SetRect.move
        split_ifs
        · obtain ⟨t1, ht1, hst1⟩ := hrec t c _ _ _ _ H.setPosMoveChildren
            H.setPosMakeLayoutDirty hc ht.1
          exact ⟨t1, ht1, ht.child hc hst1⟩
        · exact ⟨t, rfl, ht⟩) s1 hs1
    rw [h2]
    exact ⟨_, rfl, notifyChange_stepOk (notifySelf_stepOk hI2 self _) _ _ _ _⟩
  · exact ⟨_, rfl, notifyChange_stepOk hs1 _ _ _ _⟩

/-- On a finite tree `SetRect` returns; it leaves the fixed members alone and writes only
the node and nodes below it. -/
theorem SetRect_spec (H : GuiHpp) (fuel : Nat) :
    ∀ (s : State) (self : Nat) (x y w h : ℚ) (b1 b2 : Bool),
      arrangeable s fuel self = true →
      ∃ s1, SetRect H fuel s self x y w h b1 b2 = Except.ok s1 ∧ StepOk s self s1 := by
  induction fuel with
  | zero => intro s self x y w h b1 b2 ha; simp [arrangeable] at ha
  | succ fuel ih =>
    intro s self x y w h b1 b2 ha
    obtain ⟨-, hch⟩ := arrangeable_succ ha
    unfold SetRect
    simp only []
    apply commit_spec
    · intro t c x1 y1 w1 h1 b3 b4 hc ht
      exact ih t c x1 y1 w1 h1 b3 b4 (by rw [arrangeable_congr ht]; exact hch c hc)
    · exact (StepOk.refl s self).modify self _ rfl (Descendant.self self)

/-! ### `Arrange` returns, writes only below its node, and leaves it clean -/

theorem forceFit_stepOk (s0 : State) (root : Nat) (l : List Nat)
    (hl : ∀ c ∈ l, Descendant s0 root c) :
    ∀ t, StepOk s0 root t → StepOk s0 root (Arrange.forceFit t l) := by
  induction l with
  | nil => intro t ht; exact ht
  | cons c rest ih =>
    intro t ht
    simp only [Arrange.forceFit]
    apply ih (fun c2 hc2 => hl c2 (List.mem_cons_of_mem _ hc2))
    split_ifs
    · exact ht.modify c _ rfl (hl c (List.mem_cons_self _ _))
    · exact ht

theorem enableFill_stepOk (s0 : State) (root : Nat) (l : List Nat)
    (hl : ∀ c ∈ l, Descendant s0 root c) :
    ∀ t, StepOk s0 root t → StepOk s0 root (Arrange.enableFill t l) := by
  induction l with
  | nil => intro t ht; exact ht
  | cons c rest ih =>
    intro t ht
    simp only [Arrange.enableFill]
    apply ih (fun c2 hc2 => hl c2 (List.mem_cons_of_mem _ hc2))
    split_ifs
    · exact ht.modify c _ rfl (hl c (List.mem_cons_self _ _))
    · exact ht

/-- The loop of `ArrangeChildren` over `l`, started in a state `t` that has the fixed members
of `s`: it returns, writes only below the members of `l`, and leaves them clean. -/
theorem loop_spec (H : GuiHpp)
    (arrange : State → Nat → Vec2 → Vec2 → Except ArrangeError (State × Vec2))
    (s : State) (l : List Nat)
    (hstep : ∀ t c p z, c ∈ l → SameFixed s t →
      ∃ t1 u, arrange t c p z = Except.ok (t1, u) ∧ CleanStep t c t1) :
    ∀ t acc, SameFixed s t →
      ∃ t1 u, ArrangeChildren.loop H arrange t acc l = Except.ok (t1, u) ∧ SameFixed t t1 ∧
        (∀ m, (∀ c ∈ l, ¬ Descendant s c m) → t1.heap m = t.heap m) ∧
        (∀ c ∈ l, ∀ m, Descendant s c m → (t1.heap m).bLayoutNeedRefresh = false) := by
  induction l with
  | nil =>
    intro t acc _
    exact ⟨t, acc, rfl, SameFixed.same t, fun _ _ => rfl,
      fun c hc => absurd hc (List.not_mem_nil c)⟩
  | cons c rest ih =>
    intro t acc ht
    obtain ⟨t1, u1, h1, hc1⟩ := hstep t c (t.heap c).pos (H.GetDesiredSize (t.heap c))
      (List.mem_cons_self _ _) ht
    obtain ⟨t2, u2, h2, hf2, hfr2, hcl2⟩ :=
      ih (fun t c2 p z hc2 ht => hstep t c2 p z (List.mem_cons_of_mem _ hc2) ht) t1
        ⟨max acc.x u1.x, max acc.y u1.y⟩ (ht.andThen hc1.1.1)
    refine ⟨t2, u2, ?_, hc1.1.1.andThen hf2, fun m hm => ?_, fun c2 hc2 m hd => ?_⟩
    · simp only [ArrangeChildren.loop, h1, h2]
    · rw [hfr2 m (fun c2 hc2 => hm c2 (List.mem_cons_of_mem _ hc2))]
      exact hc1.1.2 m (fun hd => hm c (List.mem_cons_self _ _)
        ((Descendant.congr_iff ht c m).mp hd))
    · by_cases hrest : ∃ c3 ∈ rest, Descendant s c3 m
      · obtain ⟨c3, hc3, hd3⟩ := hrest
        exact hcl2 c3 hc3 m hd3
      · have hno : ∀ c3 ∈ rest, ¬ Descendant s c3 m := fun c3 hc3 hd3 => hrest ⟨c3, hc3, hd3⟩
        rw [hfr2 m hno]
        rcases List.mem_cons.mp hc2 with e | e
        · subst e
          exact hc1.2 m ((Descendant.congr_iff ht c2 m).mpr hd)
        · exact absurd hd (hno c2 e)

theorem loop_stepOk (H : GuiHpp)
    (arrange : State → Nat → Vec2 → Vec2 → Except ArrangeError (State × Vec2))
    (s : State) (self : Nat)
    (hstep : ∀ t c p z, c ∈ (s.heap self).children → SameFixed s t →
      ∃ t1 u, arrange t c p z = Except.ok (t1, u) ∧ CleanStep t c t1)
    (t : State) (acc : Vec2) (ht : StepOk s self t) :
    ∃ t1 u, ArrangeChildren.loop H arrange t acc (s.heap self).children = Except.ok (t1, u) ∧
      StepOk s self t1 ∧
      (∀ c ∈ (s.heap self).children, ∀ m, Descendant s c m →
        (t1.heap m).bLayoutNeedRefresh = false) := by
  obtain ⟨t1, u, h1, hf, hfr, hcl⟩ := loop_spec H arrange s (s.heap self).children hstep
    t acc ht.1
  refine ⟨t1, u, h1, ⟨ht.1.andThen hf, fun m hm => ?_⟩, hcl⟩
  rw [hfr m (fun c hc hd => hm (Descendant.child hc hd))]
  exact ht.2 m hm

theorem children_descendant (s : State) (self : Nat) :
    ∀ c ∈ (s.heap self).children, Descendant s self c :=
  fun c hc => Descendant.child hc (Descendant.self c)

theorem fitToChildren_spec (H : GuiHpp)
    (arrange : State → Nat → Vec2 → Vec2 → Except ArrangeError (State × Vec2))
    (s0 : State) (self : Nat) (f : StretchFlags) (size : Vec2)
    (hstep : ∀ t c p z, c ∈ (s0.heap self).children → SameFixed s0 t →
      ∃ t1 u, arrange t c p z = Except.ok (t1, u) ∧ CleanStep t c t1) :
    ∃ s3 newSize, Arrange.fitToChildren H arrange s0 self f size = Except.ok (s3, newSize) ∧
      StepOk s0 self s3 := by
  unfold Arrange.fitToChildren
  by_cases hfit : (f.bFitToChildrenHor || f.bFitToChildrenVer) = true
  · have h1 := forceFit_stepOk s0 self (s0.heap self).children (children_descendant s0 self)
      s0 (StepOk.refl s0 self)
    obtain ⟨t1, u, hl, hn, -⟩ := loop_stepOk H arrange s0 self hstep
      (Arrange.forceFit s0 (s0.heap self).children) ⟨0, 0⟩ h1
    simp only [hfit, if_true, ArrangeChildren.body, h1.1.children, hl]
    refine ⟨_, _, rfl, ?_⟩
    rw [hn.1.children]
    exact enableFill_stepOk s0 self _ (children_descendant s0 self) t1 hn
  · simp only [hfit, if_false]
    exact ⟨_, _, rfl, StepOk.refl s0 self⟩

theorem fillParent_of_parent (s : State) (self p : Nat) (f : StretchFlags) (np ns : Vec2)
    (hp : (s.heap self).parent = some p) :
    ∃ r, Arrange.fillParent s self f np ns = Except.ok r := by
  unfold Arrange.fillParent derefParent
  simp only [hp, ne_eq]
  by_cases c1 : (¬(s.heap p).stretchHor = eGuiStretch.FIT_TO_CHILDREN ∨
      (s.heap self).bFillParentEnabled = true) <;>
    by_cases c2 : (¬(s.heap p).stretchVer = eGuiStretch.FIT_TO_CHILDREN ∨
      (s.heap self).bFillParentEnabled = true) <;>
    cases f.bFillParentHor <;> cases f.bFillParentVer <;>
    cases f.bFillParentPositibeDirHor <;> cases f.bFillParentPositibeDirVer <;>
    simp only [c1, c2, if_true, if_false, Bool.false_eq_true] <;> exact ⟨_, rfl⟩

theorem flags_fill_usesParent (g : Gui)
    (h : (((Arrange.flags g).bFillParentHor || (Arrange.flags g).bFillParentVer) ||
      ((Arrange.flags g).bFillParentPositibeDirHor ||
        (Arrange.flags g).bFillParentPositibeDirVer)) = true) :
    g.usesParent = true := by
  unfold Arrange.flags at h
  unfold Gui.usesParent
  cases h1 : g.stretchHor <;> cases h2 : g.stretchVer <;> cases h3 : g.bForceFitToChildren <;>
    simp_all

theorem align_ok (s : State) (self : Nat) (np ns : Vec2)
    (hp : (s.heap self).usesParent = true → ∃ p, (s.heap self).parent = some p) :
    ∃ r, Arrange.align s self np ns = Except.ok r := by
  unfold Arrange.align derefParent
  cases hpar : (s.heap self).parent with
  | some p =>
    cases h1 : (s.heap self).alignVer <;> cases h2 : (s.heap self).alignHor <;>
      simp only [h1, h2, hpar] <;> exact ⟨_, rfl⟩
  | none =>
    have hu : (s.heap self).usesParent = false := by
      cases hh : (s.heap self).usesParent
      · rfl
      · obtain ⟨p, hp1⟩ := hp hh
        rw [hpar] at hp1
        exact absurd hp1 (by simp)
    unfold Gui.usesParent at hu
    cases h1 : (s.heap self).alignVer <;> cases h2 : (s.heap self).alignHor <;>
      first
      | (simp [h1, h2] at hu; done)
      | (simp only [h1, h2, hpar]; exact ⟨_, rfl⟩)

theorem fill_spec (s3 : State) (self : Nat) (pos newSize : Vec2)
    (hp : (s3.heap self).usesParent = true → ∃ p, (s3.heap self).parent = some p)
    (g : Gui) (hg : g.usesParent = (s3.heap self).usesParent) :
    ∃ s4 np ns, Arrange.fill s3 self (Arrange.flags g) pos newSize = Except.ok (s4, np, ns) ∧
      StepOk s3 self s4 := by
  unfold Arrange.fill
  split_ifs with hf
  · obtain ⟨p, hpar⟩ := hp (by rw [← hg]; exact flags_fill_usesParent g hf)
    obtain ⟨r, hr⟩ := fillParent_of_parent s3 self p (Arrange.flags g) pos newSize hpar
    rw [hr]
    exact ⟨_, _, _, rfl, (StepOk.refl s3 self).modify self _ rfl (Descendant.self self)⟩
  · exact ⟨_, _, _, rfl, StepOk.refl s3 self⟩

theorem finish_spec (H : GuiHpp)
    (setRect : State → Nat → ℚ → ℚ → ℚ → ℚ → Bool → Bool → Except ArrangeError State)
    (arrange : State → Nat → Vec2 → Vec2 → Except ArrangeError (State × Vec2))
    (s4 : State) (self : Nat) (newPos newSize : Vec2)
    (hset : ∀ x y w h, ∃ s5, setRect s4 self x y w h true false = Except.ok s5 ∧
      StepOk s4 self s5)
    (hstep : ∀ t c p z, c ∈ (s4.heap self).children → SameFixed s4 t →
      ∃ t1 u, arrange t c p z = Except.ok (t1, u) ∧ CleanStep t c t1) :
    ∃ s7 u, Arrange.finish H setRect arrange s4 self newPos newSize = Except.ok (s7, u) ∧
      CleanStep s4 self s7 := by
  unfold Arrange.finish
  simp only []
  obtain ⟨s5, h5, hst5⟩ := hset (newPos.x + (s4.heap self).margin.left)
    (newPos.y + (s4.heap self).margin.right)
    (newSize.x - ((s4.heap self).margin.left + (s4.heap self).margin.right))
    (newSize.y - ((s4.heap self).margin.top + (s4.heap self).margin.bottom))
  obtain ⟨s6, u6, h6, hst6, hcl6⟩ := loop_stepOk H arrange s4 self hstep s5 ⟨0, 0⟩ hst5
  simp only [h5, ArrangeChildren.body, hst5.1.children, h6]
  refine ⟨_, _, rfl, hst6.modify self _ rfl (Descendant.self self), fun m hm => ?_⟩
  by_cases hms : m = self
  · subst hms
    rw [State.modify_heap_self]
  · rw [State.modify_heap_of_ne _ _ hms]
    rcases (Descendant.cases_iff s4 self m).mp hm with e | ⟨c, hc, hdc⟩
    · exact absurd e hms
    · exact hcl6 c hc m hdc

/-- On a finite tree whose nodes have the parent they read, `Arrange` returns, leaves the
fixed members alone, writes only the node and nodes below it, and leaves all of them clean. -/
theorem Arrange_spec (H : GuiHpp) (fuel : Nat) :
    ∀ (s : State) (self : Nat) (pos size : Vec2), arrangeable s fuel self = true →
      ∃ s1 u, Arrange H fuel s self pos size = Except.ok (s1, u) ∧ CleanStep s self s1 := by
  induction fuel with
  | zero => intro s self pos size ha; simp [arrangeable] at ha
  | succ fuel ih =>
    intro s self pos size ha
    obtain ⟨hpar, hch⟩ := arrangeable_succ ha
    have hn0 : StepOk s self (Arrange.resetForceFit s self) := by
      unfold Arrange.resetForceFit
      split_ifs
      · exact (StepOk.refl s self).modify self _ rfl (Descendant.self self)
      · exact StepOk.refl s self
    have hrec : ∀ (t : State), SameFixed s t → ∀ (t2 : State) (c : Nat) (p z : Vec2),
        c ∈ (t.heap self).children → SameFixed t t2 →
        ∃ t1 u, Arrange H fuel t2 c p z = Except.ok (t1, u) ∧ CleanStep t2 c t1 := by
      intro t ht t2 c p z hc ht2
      apply ih
      rw [arrangeable_congr (ht.andThen ht2)]
      exact hch c (by rw [← ht.children]; exact hc)
    unfold Arrange
    simp only []
    obtain ⟨s3, ns3, h3, hn3⟩ := fitToChildren_spec H (Arrange H fuel) _ self
      (Arrange.flags (s.heap self)) size (hrec _ hn0.1)
    rw [h3]
    simp only []
    have hs3 : StepOk s self s3 := hn0.mono (Descendant.self self) hn3
    obtain ⟨s4, np4, ns4, h4, hn4⟩ := fill_spec s3 self pos ns3
      (by rw [hs3.1.usesParent, hs3.1.parent]; exact hpar) (s.heap self)
      (hs3.1.usesParent self).symm
    rw [h4]
    simp only []
    have hs4 : StepOk s self s4 := hs3.mono (Descendant.self self) hn4
    obtain ⟨np5, h5⟩ := align_ok s4 self np4 ns4
      (by rw [hs4.1.usesParent, hs4.1.parent]; exact hpar)
    rw [h5]
    simp only []
    obtain ⟨s7, u, h7, hc7⟩ := finish_spec H (SetRect H (fuel + 1)) (Arrange H fuel) s4 self
      np5 ns4
      (fun x y w h => SetRect_spec H (fuel + 1) s4 self x y w h true false
        (by rw [arrangeable_congr hs4.1]; exact ha))
      (hrec s4 hs4.1)
    exact ⟨s7, u, h7, hs4.mono (Descendant.self self) hc7.1,
      fun m hm => hc7.2 m ((Descendant.congr_iff hs4.1 self m).mpr hm)⟩

/-! ### Finite trees are acyclic; the measurement loop -/

theorem arrangeable_succ_iff (s : State) (d n : Nat) :
    arrangeable s (d + 1) n = true ↔
      ((!(s.heap n).usesParent || (s.heap n).parent.isSome) = true ∧
        ∀ c ∈ (s.heap n).children, arrangeable s d c = true) := by
  conv_lhs => unfold arrangeable
  simp only [Bool.and_eq_true, List.all_eq_true]

theorem arrangeable_mono (s : State) (d : Nat) :
    ∀ n, arrangeable s d n = true → arrangeable s (d + 1) n = true := by
  induction d with
  | zero => intro n h; simp [arrangeable] at h
  | succ d ih =>
    intro n h
    rw [arrangeable_succ_iff] at h ⊢
    exact ⟨h.1, fun c hc => ih c (h.2 c hc)⟩

theorem arrangeable_descendant (s : State) {x y : Nat} (hd : Descendant s x y) :
    ∀ d, arrangeable s d x = true → arrangeable s d y = true := by
  induction hd with
  | self n => intro d h; exact h
  | child hc _ ih =>
    intro d h
    cases d with
    | zero => simp [arrangeable] at h
    | succ d => exact ih (d + 1) (arrangeable_mono s d _ ((arrangeable_succ h).2 _ hc))

/-- A node of a finite tree is not below one of its own children. -/
theorem arrangeable_acyclic (s : State) (d : Nat) :
    ∀ n, arrangeable s d n = true → ∀ c ∈ (s.heap n).children, ¬ Descendant s c n := by
  induction d with
  | zero => intro n h; simp [arrangeable] at h
  | succ d ih =>
    intro n h c hc hd
    have hcd : arrangeable s d c = true := (arrangeable_succ h).2 c hc
    exact ih n (arrangeable_descendant s hd d hcd) c hc hd

theorem SameFixed.stretch {s t : State} (h : SameFixed s t) (m : Nat) :
    (t.heap m).stretchHor = (s.heap m).stretchHor ∧
    (t.heap m).stretchVer = (s.heap m).stretchVer := by
  have := h m
  constructor
  · have h0 := congrArg Gui.stretchHor this; exact h0
  · have h0 := congrArg Gui.stretchVer this; exact h0

theorem SameFixed.insets {s t : State} (h : SameFixed s t) (m : Nat) :
    (t.heap m).margin = (s.heap m).margin ∧ (t.heap m).border = (s.heap m).border ∧
    (t.heap m).padding = (s.heap m).padding := by
  have := h m
  refine ⟨?_, ?_, ?_⟩
  · have h0 := congrArg Gui.margin this; exact h0
  · have h0 := congrArg Gui.border this; exact h0
  · have h0 := congrArg Gui.padding this; exact h0

/-! ### What `SetRect` and `Arrange` store in their own node -/

theorem notifySelf_heap (t : State) (self : Nat) (rect : RectF) :
    (SetRect.notifySelf t self rect).heap = t.heap := by
  unfold SetRect.notifySelf
  simp only []
  split <;> rfl

theorem notifyChange_heap_false (t : State) (self : Nat) (rect : RectF) (b1 b2 : Bool) :
    (SetRect.notifyChange t self rect b1 b2 false).heap = t.heap := by
  unfold SetRect.notifyChange
  cases b1 <;> cases b2 <;> rfl

theorem commit_self (H : GuiHpp)
    (setRect : State → Nat → ℚ → ℚ → ℚ → ℚ → Bool → Bool → Except ArrangeError State)
    (s s1 : State) (self : Nat) (rect oldRect : RectF) (b1 : Bool)
    (hrec : ∀ t c x y w h b3 b4, c ∈ (s.heap self).children → SameFixed s t →
      ∃ t1, setRect t c x y w h b3 b4 = Except.ok t1 ∧ StepOk t c t1)
    (hs1 : SameFixed s s1)
    (hacyc : ∀ c ∈ (s.heap self).children, ¬ Descendant s c self) :
    ∃ s2, SetRect.commit H setRect s1 self rect oldRect b1 false = Except.ok s2 ∧
      s2.heap self = s1.heap self := by
  unfold SetRect.commit
  simp only []
  split_ifs with hrect
  · obtain ⟨s2, h2, -, hI2⟩ := notifyChildren_inv
      (SetRect.move H setRect b1
        ⟨rect.GetPos.x - oldRect.GetPos.x, rect.GetPos.y - oldRect.GetPos.y⟩)
      rect (fun t => SameFixed s t ∧ t.heap self = s1.heap self) (s1.heap self).children
      (fun t e ht => ht)
      (fun t c hc ht => by
        rw [hs1.children] at hc
        unfold SetRect.move
        split_ifs
        · obtain ⟨t1, ht1, hst1⟩ := hrec t c _ _ _ _ H.setPosMoveChildren
            H.setPosMakeLayoutDirty hc ht.1
          refine ⟨t1, ht1, ht.1.andThen hst1.1, ?_⟩
          rw [hst1.2 self (fun hd => hacyc c hc ((Descendant.congr_iff ht.1 c self).mp hd))]
          exact ht.2
        · exact ⟨t, rfl, ht⟩) s1 ⟨hs1, rfl⟩
    rw [h2]
    refine ⟨_, rfl, ?_⟩
    rw [notifyChange_heap_false, notifySelf_heap]
    exact hI2
  · refine ⟨_, rfl, ?_⟩
    rw [notifyChange_heap_false]

/-- What `SetRect(x, y, w, h, .., false)` stores in its own node on a finite tree: the
position as given and the size clamped from below by the minimum size. -/
theorem SetRect_self (H : GuiHpp) (fuel : Nat) (s : State) (self : Nat) (x y w h : ℚ)
    (b1 : Bool) (ha : arrangeable s (fuel + 1) self = true) :
    ∃ s5, SetRect H (fuel + 1) s self x y w h b1 false = Except.ok s5 ∧
      s5.heap self = { (s.heap self) with
        pos := ⟨x, y⟩,
        size := ⟨max w (H.GetMinSizeX (s.heap self)), max h (H.GetMinSizeY (s.heap self))⟩ } := by
  obtain ⟨-, hch⟩ := arrangeable_succ ha
  unfold SetRect
  simp only []
  have hs1 : SameFixed s (s.modify self (fun g =>
      { g with
        pos := ⟨x, y⟩
        size := ⟨max w (H.GetMinSizeX (s.heap self)), max h (H.GetMinSizeY (s.heap self))⟩ })) :=
    SameFixed.ofModify s self _ rfl
  obtain ⟨s2, h2, hself⟩ := commit_self H (SetRect H fuel) s _ self
    ((s.modify self (fun g =>
      { g with
        pos := ⟨x, y⟩
        size := ⟨max w (H.GetMinSizeX (s.heap self)),
          max h (H.GetMinSizeY (s.heap self))⟩ })).heap self).GetRect
    (s.heap self).GetRect b1
    (fun t c x1 y1 w1 h1 b3 b4 hc ht =>
      SetRect_spec H fuel t c x1 y1 w1 h1 b3 b4 (by rw [arrangeable_congr ht]; exact hch c hc))
    hs1 (arrangeable_acyclic s (fuel + 1) self ha)
  refine ⟨s2, h2, ?_⟩
  rw [hself, State.modify_heap_self]

/-- The end of `Arrange` on a finite tree: it returns; the node has the position
`newPos + (margin.left, margin.right)`, the size `newSize - margin` clamped from below by
the minimum size, and the used size returned is that size plus the margin. -/
theorem finish_self (H : GuiHpp) (fuel : Nat) (s4 : State) (self : Nat) (np ns : Vec2)
    (ha : arrangeable s4 (fuel + 1) self = true) :
    ∃ s7 u, Arrange.finish H (SetRect H (fuel + 1)) (Arrange H fuel) s4 self np ns =
        Except.ok (s7, u) ∧
      (s7.heap self).pos =
        ⟨np.x + (s4.heap self).margin.left, np.y + (s4.heap self).margin.right⟩ ∧
      (s7.heap self).size =
        ⟨max (ns.x - ((s4.heap self).margin.left + (s4.heap self).margin.right))
            (H.GetMinSizeX (s4.heap self)),
          max (ns.y - ((s4.heap self).margin.top + (s4.heap self).margin.bottom))
            (H.GetMinSizeY (s4.heap self))⟩ ∧
      u = ⟨(s7.heap self).size.x + ((s4.heap self).margin.left + (s4.heap self).margin.right),
        (s7.heap self).size.y + ((s4.heap self).margin.top + (s4.heap self).margin.bottom)⟩ := by
  obtain ⟨-, hch⟩ := arrangeable_succ ha
  have hacyc := arrangeable_acyclic s4 (fuel + 1) self ha
  obtain ⟨s5, h5, hself5⟩ := SetRect_self H fuel s4 self
    (np.x + (s4.heap self).margin.left) (np.y + (s4.heap self).margin.right)
    (ns.x - ((s4.heap self).margin.left + (s4.heap self).margin.right))
    (ns.y - ((s4.heap self).margin.top + (s4.heap self).margin.bottom)) true ha
  obtain ⟨s5b, h5b, hst5⟩ := SetRect_spec H (fuel + 1) s4 self
    (np.x + (s4.heap self).margin.left) (np.y + (s4.heap self).margin.right)
    (ns.x - ((s4.heap self).margin.left + (s4.heap self).margin.right))
    (ns.y - ((s4.heap self).margin.top + (s4.heap self).margin.bottom)) true false ha
  rw [h5] at h5b
  have e5 : s5b = s5 := by injection h5b with h; exact h.symm
  subst e5
  obtain ⟨s6, u6, h6, -, hfr6, -⟩ := loop_spec H (Arrange H fuel) s4 (s4.heap self).children
    (fun t c p z hc ht => Arrange_spec H fuel t c p z
      (by rw [arrangeable_congr ht]; exact hch c hc))
    s5b ⟨0, 0⟩ hst5.1
  have hself6 : s6.heap self = s5b.heap self := hfr6 self hacyc
  unfold Arrange.finish
  simp only [h5, ArrangeChildren.body, hst5.1.children, h6]
  refine ⟨_, _, rfl, ?_, ?_, ?_⟩
  · rw [State.modify_heap_self, hself6, hself5]
  · rw [State.modify_heap_self, hself6, hself5]
  · rw [State.modify_heap_self, hself6, hself5]


theorem arrangeRoot_descendant (s : State) (hatt : AttachInv s) (fuel : Nat) :
    ∀ n root, arrangeRoot fuel s n = some root → Descendant s root n := by
  induction fuel with
  | zero => intro n root h; simp [arrangeRoot] at h
  | succ fuel ih =>
    intro n root h
    unfold arrangeRoot at h
    cases hp : (s.heap n).parent with
    | none =>
      rw [hp] at h
      simp only [Option.some.injEq] at h
      subst h
      exact Descendant.self n
    | some p =>
      rw [hp] at h
      obtain ⟨i, -, hi⟩ := hatt n p hp
      exact (ih p root h).trans
        (Descendant.child (List.mem_iff_getElem?.mpr ⟨i, hi⟩) (Descendant.self n))

theorem TreeInv_modify (s : State) (n : Nat) (f : Gui → Gui) (h : TreeInv s)
    (hc : (f (s.heap n)).children = (s.heap n).children)
    (hp : (f (s.heap n)).parent = (s.heap n).parent)
    (hi : (f (s.heap n)).indexInParent = (s.heap n).indexInParent) :
    TreeInv (s.modify n f) := by
  apply TreeInv_of_fields s _ h <;> intro m <;> rw [State.modify_heap] <;>
    split_ifs with hm
  · subst hm; exact hc
  · rfl
  · subst hm; exact hp
  · rfl
  · subst hm; exact hi
  · rfl

theorem TreeInv_scenario1 : TreeInv scenario1 := by
  unfold scenario1
  refine TreeInv_modify _ _ _ (TreeInv_modify _ _ _ (TreeInv_modify _ _ _
    (TreeInv_AddGui _ 1 2 true (TreeInv_AddGui _ 0 1 true TreeInv_fresh)) rfl rfl rfl)
    rfl rfl rfl) rfl rfl rfl

/-- C7. `RefreshLayout` on a node whose dirty flag is false returns the state it was given:
no position, size or flag of any node changes and no delegate fires, whatever the flags of
the other nodes are. -/
theorem C7_RefreshLayout_clean_noop (H : GuiHpp) (fuel : Nat) (s : State) (self : Nat)
    (h : (s.heap self).bLayoutNeedRefresh = false) :
    RefreshLayout H fuel s self = Except.ok s := by
  unfold RefreshLayout
  rw [if_pos h]

/-- Witness for C7: in scenario 1 the leaf `2` is clean while `0` and `1` are dirty. -/
theorem C7_RefreshLayout_clean_noop_witness :
    (scenario1.heap 0).bLayoutNeedRefresh = true ∧
    (scenario1.heap 2).bLayoutNeedRefresh = false ∧
    RefreshLayout sampleHpp 3 scenario1 2 = Except.ok scenario1 :=
  ⟨by decide, by decide, C7_RefreshLayout_clean_noop sampleHpp 3 scenario1 2 (by decide)⟩

/-- C9 (evaluation of the code at the failing input). Root `0` with one child `1` of
margin.left 5, all else as constructed; `Arrange((0,0), (60,20))` on the root twice in
succession, nothing in between. Both calls return; the child is at x = 5 after the first
call and at x = 10 after the second: each pass adds the margin to the position the previous
pass stored. This is so for both sample choices of the `Gui.hpp` members (with the desired
size equal to the current size the child also shrinks by the margin in every pass). -/
theorem C9_Arrange_twice_shifts_child :
    (arrangeTwice sampleHpp 2 marginChild 0 ⟨0, 0⟩ ⟨60, 20⟩).map
      (fun p => ((p.1.heap 1).pos, (p.1.heap 1).size, (p.2.heap 1).pos, (p.2.heap 1).size)) =
      some (⟨5, 0⟩, ⟨60, 20⟩, ⟨10, 0⟩, ⟨60, 20⟩) ∧
    (arrangeTwice plainHpp 2 marginChild 0 ⟨0, 0⟩ ⟨60, 20⟩).map
      (fun p => ((p.1.heap 1).pos, (p.1.heap 1).size, (p.2.heap 1).pos, (p.2.heap 1).size)) =
      some (⟨5, 0⟩, ⟨55, 20⟩, ⟨10, 0⟩, ⟨50, 20⟩) := by
  decide!

theorem flags_nofit (g : Gui) (hH : g.stretchHor ≠ eGuiStretch.FIT_TO_CHILDREN)
    (hV : g.stretchVer ≠ eGuiStretch.FIT_TO_CHILDREN) (hf : g.bForceFitToChildren = false) :
    (Arrange.flags g).bFitToChildrenHor = false ∧ (Arrange.flags g).bFitToChildrenVer = false := by
  unfold Arrange.flags
  simp [hH, hV, hf]

theorem flags_fillBoth (g : Gui) (hH : g.stretchHor = eGuiStretch.FILL_PARENT)
    (hV : g.stretchVer = eGuiStretch.FILL_PARENT) (hf : g.bForceFitToChildren = false) :
    Arrange.flags g = ⟨false, false, true, true, false, false⟩ := by
  unfold Arrange.flags
  simp [hH, hV, hf]

theorem resetForceFit_stepOk (s : State) (self : Nat) :
    StepOk s self (Arrange.resetForceFit s self) := by
  unfold Arrange.resetForceFit
  split_ifs
  · exact (StepOk.refl s self).modify self _ rfl (Descendant.self self)
  · exact StepOk.refl s self

/-- `Arrange` on a finite tree for a node that does not fit to its children on either
axis, given what its fill block and its alignment compute: it returns, the node has the
aligned position plus `(margin.left, margin.right)` and the size minus the margin, clamped
from below by the minimum size. -/
theorem Arrange_nofit (H : GuiHpp) (fuel : Nat) (s : State) (self : Nat) (pos size : Vec2)
    (ha : arrangeable s (fuel + 1) self = true)
    (hfH : (Arrange.flags (s.heap self)).bFitToChildrenHor = false)
    (hfV : (Arrange.flags (s.heap self)).bFitToChildrenVer = false)
    (s4 : State) (np ns np5 : Vec2)
    (hfill : Arrange.fill (Arrange.resetForceFit s self) self (Arrange.flags (s.heap self))
      pos size = Except.ok (s4, np, ns))
    (halign : Arrange.align s4 self np ns = Except.ok np5) :
    ∃ s7 u, Arrange H (fuel + 1) s self pos size = Except.ok (s7, u) ∧
      (s7.heap self).pos =
        ⟨np5.x + (s.heap self).margin.left, np5.y + (s.heap self).margin.right⟩ ∧
      (s7.heap self).size =
        ⟨max (ns.x - ((s.heap self).margin.left + (s.heap self).margin.right))
            (H.GetMinSizeX (s4.heap self)),
          max (ns.y - ((s.heap self).margin.top + (s.heap self).margin.bottom))
            (H.GetMinSizeY (s4.heap self))⟩ ∧
      u = ⟨(s7.heap self).size.x + ((s.heap self).margin.left + (s.heap self).margin.right),
        (s7.heap self).size.y + ((s.heap self).margin.top + (s.heap self).margin.bottom)⟩ ∧
      CleanStep s self s7 := by
  have hn0 := resetForceFit_stepOk s self
  obtain ⟨hpar, -⟩ := arrangeable_succ ha
  obtain ⟨s4b, npb, nsb, h4, hn4⟩ := fill_spec (Arrange.resetForceFit s self) self pos size
    (by rw [hn0.1.usesParent, hn0.1.parent]; exact hpar) (s.heap self)
    (hn0.1.usesParent self).symm
  rw [hfill] at h4
  have e4 : s4b = s4 := by injection h4 with h; injection h with h1 h2; exact h1.symm
  subst e4
  have hs4 : SameFixed s s4b := hn0.1.andThen hn4.1
  obtain ⟨s7, u, h7, hpos, hsize, hu⟩ := finish_self H fuel s4b self np5 ns
    (by rw [arrangeable_congr hs4]; exact ha)
  obtain ⟨s1, u1, h1, hc1⟩ := Arrange_spec H (fuel + 1) s self pos size ha
  have hA : Arrange H (fuel + 1) s self pos size = Except.ok (s7, u) := by
    unfold Arrange
    simp only []
    unfold Arrange.fitToChildren
    simp only [hfH, hfV, Bool.or_self, Bool.false_eq_true, if_false, hfill, halign]
    exact h7
  rw [hA] at h1
  have e1 : s1 = s7 := by injection h1 with h; injection h with h1 h2; exact h1.symm
  subst e1
  have hm := (hs4.insets self).1
  rw [hm] at hpos hsize hu
  exact ⟨s1, u, hA, hpos, hsize, hu, hc1⟩

theorem fillParent_both (s : State) (self p : Nat) (np ns : Vec2)
    (hp : (s.heap self).parent = some p)
    (hpH : (s.heap p).stretchHor ≠ eGuiStretch.FIT_TO_CHILDREN)
    (hpV : (s.heap p).stretchVer ≠ eGuiStretch.FIT_TO_CHILDREN) :
    Arrange.fillParent s self ⟨false, false, true, true, false, false⟩ np ns =
      Except.ok (⟨(s.heap p).GetContentPosX, (s.heap p).GetContentPosY⟩,
        ⟨(s.heap p).GetContentSizeX, (s.heap p).GetContentSizeY⟩) := by
  unfold Arrange.fillParent derefParent
  simp [hp, hpH, hpV]

/-- A node that has just taken position and size of its parent's content rect is left where
it is by every alignment. -/
theorem align_filled (s : State) (self p : Nat) (hp : (s.heap self).parent = some p) :
    Arrange.align s self ⟨(s.heap p).GetContentPosX, (s.heap p).GetContentPosY⟩
      ⟨(s.heap p).GetContentSizeX, (s.heap p).GetContentSizeY⟩ =
      Except.ok ⟨(s.heap p).GetContentPosX, (s.heap p).GetContentPosY⟩ := by
  unfold Arrange.align derefParent
  cases h1 : (s.heap self).alignVer <;> cases h2 : (s.heap self).alignHor <;>
    simp only [h1, h2, hp, Gui.GetContentPosX, Gui.GetContentPosY, Gui.GetContentSizeX,
      Gui.GetContentSizeY, Gui.GetContentCenterPosX, Gui.GetContentCenterPosY,
      RectF.GetSize] <;>
    congr 2 <;> ring

theorem RectF.ofPosSize_self (r : RectF) : RectF.ofPosSize r.GetPos r.GetSize = r := by
  cases r
  simp [RectF.ofPosSize, RectF.GetPos, RectF.GetSize]


theorem align_none (s : State) (self : Nat) (pos size : Vec2)
    (haH : (s.heap self).alignHor = eGuiAlignHor.NONE)
    (haV : (s.heap self).alignVer = eGuiAlignVer.NONE) :
    Arrange.align s self pos size = Except.ok pos := by
  unfold Arrange.align
  simp only [haH, haV]

theorem leaf_descendant (s : State) (n m : Nat) (h : (s.heap n).children = []) :
    Descendant s n m ↔ m = n := by
  rw [Descendant.cases_iff, h]
  simp

/-! ## Claims on fill-parent, the rects of a node and the margin -/

/-- The containments among the rects of a node that hold with non-negative insets: the
content rect lies within the padding rect, and the padding rect, the border rect and the
node's rect lie within the node's rect expanded by its margin. -/
theorem rects_within (g : Gui) (hm : g.margin.NonNeg) (hb : g.border.NonNeg)
    (hp : g.padding.NonNeg) :
    g.GetContentRect.Within g.GetPaddingRect ∧
    g.GetPaddingRect.Within (g.GetRect.MoveSidesLocal g.margin) ∧
    g.GetBorderRect.Within (g.GetRect.MoveSidesLocal g.margin) ∧
    g.GetContentRect.Within (g.GetRect.MoveSidesLocal g.margin) := by
  obtain ⟨m1, m2, m3, m4⟩ := hm
  obtain ⟨b1, b2, b3, b4⟩ := hb
  obtain ⟨p1, p2, p3, p4⟩ := hp
  simp only [RectF.Within, Gui.GetContentRect, Gui.GetPaddingRect, Gui.GetBorderRect,
    RectF.MoveSidesLocal, RectF.neg]
  refine ⟨⟨?_, ?_, ?_, ?_⟩, ⟨?_, ?_, ?_, ?_⟩, ⟨?_, ?_, ?_, ?_⟩, ⟨?_, ?_, ?_, ?_⟩⟩ <;> linarith

/-- C11, counterexample. In scenario 2 with margin 5 on all sides of the child (FILL_PARENT
on both axes under a root of 400x300 with stretch NONE): after `Arrange` on the child its
rect is left 5, right 395, top 5, bottom 295, while the content rect of its parent is
left 0, right 400, top 0, bottom 300. -/
theorem C11_fill_parent_margin_shrinks :
    ((fillChild ⟨5, 5, 5, 5⟩).heap 1).stretchHor = eGuiStretch.FILL_PARENT ∧
    ((fillChild ⟨5, 5, 5, 5⟩).heap 1).stretchVer = eGuiStretch.FILL_PARENT ∧
    ((fillChild ⟨5, 5, 5, 5⟩).heap 1).parent = some 0 ∧
    ((fillChild ⟨5, 5, 5, 5⟩).heap 0).stretchHor = eGuiStretch.NONE ∧
    ((fillChild ⟨5, 5, 5, 5⟩).heap 0).stretchVer = eGuiStretch.NONE ∧
    (resultNode (Arrange sampleHpp 1 (fillChild ⟨5, 5, 5, 5⟩) 1 ⟨0, 0⟩ ⟨60, 20⟩) 1).map
      Gui.GetRect = some ⟨5, 395, 5, 295⟩ ∧
    (resultNode (Arrange sampleHpp 1 (fillChild ⟨5, 5, 5, 5⟩) 1 ⟨0, 0⟩ ⟨60, 20⟩) 0).map
      Gui.GetContentRect = some ⟨0, 400, 0, 300⟩ := by
  refine ⟨by decide, by decide, by decide, by decide, by decide, by decide!, by decide!⟩

/-- C11 (amended). A node with FILL_PARENT on both axes, margin zero on all sides and no
pending fit-to-children override, whose parent's stretch is FIT_TO_CHILDREN on neither axis
and whose parent's content size is not below the node's minimum size: `Arrange` on it (in a
finite tree of which the parent is not part) returns, and afterwards the node's rect equals
the content rect of its parent, whatever its alignment and the proposed position and size. -/
theorem C11_fill_parent_zero_margin (H : GuiHpp) (fuel : Nat) (s : State) (self p : Nat)
    (pos size : Vec2)
    (hpar : (s.heap self).parent = some p)
    (hH : (s.heap self).stretchHor = eGuiStretch.FILL_PARENT)
    (hV : (s.heap self).stretchVer = eGuiStretch.FILL_PARENT)
    (hpH : (s.heap p).stretchHor ≠ eGuiStretch.FIT_TO_CHILDREN)
    (hpV : (s.heap p).stretchVer ≠ eGuiStretch.FIT_TO_CHILDREN)
    (hforce : (s.heap self).bForceFitToChildren = false)
    (hmargin : (s.heap self).margin = ⟨0, 0, 0, 0⟩)
    (hminX : H.GetMinSizeX { (s.heap self) with bFillParentEnabled := false } ≤
      (s.heap p).GetContentSizeX)
    (hminY : H.GetMinSizeY { (s.heap self) with bFillParentEnabled := false } ≤
      (s.heap p).GetContentSizeY)
    (htree : arrangeable s (fuel + 1) self = true)
    (hnb : ¬ Descendant s self p) :
    ∃ s1 u, Arrange H (fuel + 1) s self pos size = Except.ok (s1, u) ∧
      (s1.heap self).GetRect = (s1.heap p).GetContentRect := by
  have hps : p ≠ self := fun e => hnb (by rw [e]; exact Descendant.self self)
  have hflags := flags_fillBoth (s.heap self) hH hV hforce
  have h0 : Arrange.resetForceFit s self = s := by
    unfold Arrange.resetForceFit
    simp [hforce]
  have hfill : Arrange.fill (Arrange.resetForceFit s self) self (Arrange.flags (s.heap self))
      pos size = Except.ok (s.modify self (fun g => { g with bFillParentEnabled := false }),
        ⟨(s.heap p).GetContentPosX, (s.heap p).GetContentPosY⟩,
        ⟨(s.heap p).GetContentSizeX, (s.heap p).GetContentSizeY⟩) := by
    rw [h0, hflags]
    unfold Arrange.fill
    simp only [Bool.or_self, Bool.or_false, if_true]
    rw [fillParent_both s self p pos size hpar hpH hpV]
  have halign : Arrange.align (s.modify self (fun g => { g with bFillParentEnabled := false }))
      self ⟨(s.heap p).GetContentPosX, (s.heap p).GetContentPosY⟩
      ⟨(s.heap p).GetContentSizeX, (s.heap p).GetContentSizeY⟩ =
      Except.ok ⟨(s.heap p).GetContentPosX, (s.heap p).GetContentPosY⟩ := by
    have := align_filled (s.modify self (fun g => { g with bFillParentEnabled := false }))
      self p (by rw [State.modify_heap_self]; exact hpar)
    rw [State.modify_heap_of_ne _ _ hps] at this
    exact this
  obtain ⟨s7, u, hA, hpos, hsize, -, hclean⟩ := Arrange_nofit H fuel s self pos size htree
    (by rw [hflags]) (by rw [hflags]) _ _ _ _ hfill halign
  refine ⟨s7, u, hA, ?_⟩
  rw [hclean.1.2 p hnb]
  rw [State.modify_heap_self] at hsize
  have hml : (s.heap self).margin.left = 0 := by rw [hmargin]
  have hmr : (s.heap self).margin.right = 0 := by rw [hmargin]
  have hmt : (s.heap self).margin.top = 0 := by rw [hmargin]
  have hmb : (s.heap self).margin.bottom = 0 := by rw [hmargin]
  unfold Gui.GetRect RectF.ofPosSize
  rw [hpos, hsize, hml, hmr, hmt, hmb]
  simp only [add_zero, sub_zero, max_eq_left hminX, max_eq_left hminY]
  exact RectF.ofPosSize_self (s.heap p).GetContentRect

/-- Witness for C11: scenario 2, the child resolves to the rect left 0, right 400, top 0,
bottom 300 of the root. -/
theorem C11_fill_parent_zero_margin_witness :
    ∃ s1 u, Arrange sampleHpp 1 (fillChild ⟨0, 0, 0, 0⟩) 1 ⟨0, 0⟩ ⟨60, 20⟩ = Except.ok (s1, u) ∧
      (s1.heap 1).GetRect = (s1.heap 0).GetContentRect :=
  C11_fill_parent_zero_margin sampleHpp 0 (fillChild ⟨0, 0, 0, 0⟩) 1 0 ⟨0, 0⟩ ⟨60, 20⟩
    (by decide) (by decide) (by decide) (by decide) (by decide) (by decide) (by decide)
    (by decide!) (by decide!) (by decide)
    (by rw [leaf_descendant _ 1 0 (by decide)]; decide)

/-- C12. A node of 100x100 with margin 5 on all sides and neither border nor padding (all
insets non-negative): `GetPaddingRect` is the node's rect, left 0, right 100, top 0,
bottom 100, while `GetBorderRect` is the rect taken in by the margin, left 5, right 95,
top 5, bottom 95; the padding rect is not within the border rect. -/
theorem C12_padding_rect_outside_border_rect :
    marginBox.margin.NonNeg ∧ marginBox.border.NonNeg ∧ marginBox.padding.NonNeg ∧
    marginBox.GetPaddingRect = ⟨0, 100, 0, 100⟩ ∧
    marginBox.GetBorderRect = ⟨5, 95, 5, 95⟩ ∧
    ¬ marginBox.GetPaddingRect.Within marginBox.GetBorderRect := by
  refine ⟨by decide!, by decide!, by decide!, by decide!, by decide!, by decide!⟩

/-- C20. A leaf with stretch NONE and alignment NONE whose margin is left 1, right 7,
top 3, bottom 2, arranged at the proposed position (10, 20) with the proposed size 60x20:
the committed position is (11, 27), that is `pos.y + margin.right`, where the proposed
rect shrunk by the margin starts at (11, 23); the committed size is 52x15. -/
theorem C20_Arrange_adds_margin_right_to_y :
    (slipLeaf.heap 0).stretchHor = eGuiStretch.NONE ∧
    (slipLeaf.heap 0).stretchVer = eGuiStretch.NONE ∧
    (slipLeaf.heap 0).alignHor = eGuiAlignHor.NONE ∧
    (slipLeaf.heap 0).alignVer = eGuiAlignVer.NONE ∧
    (slipLeaf.heap 0).margin = ⟨1, 7, 3, 2⟩ ∧
    (resultNode (Arrange sampleHpp 1 slipLeaf 0 ⟨10, 20⟩ ⟨60, 20⟩) 0).map Gui.pos =
      some ⟨11, 27⟩ ∧
    (resultNode (Arrange sampleHpp 1 slipLeaf 0 ⟨10, 20⟩ ⟨60, 20⟩) 0).map Gui.size =
      some ⟨52, 15⟩ ∧
    (resultNode (Arrange plainHpp 1 slipLeaf 0 ⟨10, 20⟩ ⟨60, 20⟩) 0).map Gui.pos =
      some ⟨11, 27⟩ := by
  refine ⟨by decide, by decide, by decide, by decide, by decide!, by decide!, by decide!,
    by decide!⟩

/-! ### The delegate invocations of `SetRect` -/

theorem State.modify_id (s : State) (n : Nat) (f : Gui → Gui) (h : f (s.heap n) = s.heap n) :
    s.modify n f = s := by
  cases s with
  | mk heap log =>
    simp only [State.modify, State.mk.injEq, and_true]
    funext m
    split_ifs with e
    · subst e; exact h
    · rfl

theorem Fired.none (P : Event → Prop) (s : State) : Fired P s s :=
  ⟨[], by simp, by simp⟩

theorem Fired.one {P : Event → Prop} {s t : State} (h : Fired P s t) (e : Event) (he : P e) :
    Fired P s (t.fire e) := by
  obtain ⟨new, hl, hP⟩ := h
  refine ⟨new ++ [e], by rw [State.fire_log, hl, List.append_assoc], fun e1 he1 => ?_⟩
  rcases List.mem_append.mp he1 with h1 | h1
  · exact hP e1 h1
  · rw [List.mem_singleton] at h1; subst h1; exact he

theorem Fired.write {P : Event → Prop} {s t : State} (h : Fired P s t) (n : Nat)
    (f : Gui → Gui) : Fired P s (t.modify n f) := h

theorem Fired.chain {P : Event → Prop} {s t u : State} (h1 : Fired P s t) (h2 : Fired P t u) :
    Fired P s u := by
  obtain ⟨n1, hl1, hP1⟩ := h1
  obtain ⟨n2, hl2, hP2⟩ := h2
  refine ⟨n1 ++ n2, by rw [hl2, hl1, List.append_assoc], fun e he => ?_⟩
  rcases List.mem_append.mp he with h | h
  · exact hP1 e h
  · exact hP2 e h

theorem Fired.imp {P Q : Event → Prop} {s t : State} (hPQ : ∀ e, P e → Q e)
    (h : Fired P s t) : Fired Q s t := by
  obtain ⟨new, hl, hP⟩ := h
  exact ⟨new, hl, fun e he => hPQ e (hP e he)⟩

/-- The invocations of the part of `SetRect` after the store: those of the calls one level
down satisfy `P`, `onPosChanged` and `onSizeChanged` of the node are only there when the
position or the size differs, and the rest are of other kinds. -/
theorem commit_fired (H : GuiHpp)
    (setRect : State → Nat → ℚ → ℚ → ℚ → ℚ → Bool → Bool → Except ArrangeError State)
    (P : Event → Prop) (s s1 : State) (self : Nat) (rect oldRect : RectF) (b1 b2 : Bool)
    (hrec : ∀ t c x y w h b3 b4, c ∈ (s.heap self).children → SameFixed s t →
      ∃ t1, setRect t c x y w h b3 b4 = Except.ok t1 ∧ StepOk t c t1 ∧ Fired P t t1)
    (hs1 : SameFixed s s1)
    (hother : ∀ e, (∀ m, e.isPosChangedOf m = false ∧ e.isSizeChangedOf m = false) → P e)
    (hpos : rect.GetPos ≠ oldRect.GetPos → ∀ v, P (Event.onPosChanged self v))
    (hsize : rect.GetSize ≠ oldRect.GetSize →
      ∀ v, P (Event.onSizeChanged self v) ∧ P (Event.onSizeChangedClonable self v)) :
    ∃ s2, SetRect.commit H setRect s1 self rect oldRect b1 b2 = Except.ok s2 ∧
      Fired P s1 s2 := by
  have hchange0 : ∀ (bp bs : Bool), (bp = true → ∀ v, P (Event.onPosChanged self v)) →
      (bs = true →
        ∀ v, P (Event.onSizeChanged self v) ∧ P (Event.onSizeChangedClonable self v)) →
      ∀ t, Fired P s1 t → Fired P s1 (SetRect.notifyChange t self rect bp bs b2) := by
    intro bp bs hp hs t ht
    unfold SetRect.notifyChange
    cases bp <;> cases bs <;> cases b2 <;>
      simp only [if_true, if_false, Bool.false_eq_true]
    · exact ht
    · exact ht
    · exact (ht.one _ (hs rfl _).1).one _ (hs rfl _).2
    · exact ((ht.one _ (hs rfl _).1).one _ (hs rfl _).2).write _ _
    · exact ht.one _ (hp rfl _)
    · exact ht.one _ (hp rfl _)
    · exact ((ht.one _ (hp rfl _)).one _ (hs rfl _).1).one _ (hs rfl _).2
    · exact (((ht.one _ (hp rfl _)).one _ (hs rfl _).1).one _ (hs rfl _).2).write _ _
  have hchange : ∀ t, Fired P s1 t →
      Fired P s1 (SetRect.notifyChange t self rect (decide (rect.GetPos ≠ oldRect.GetPos))
        (decide (rect.GetSize ≠ oldRect.GetSize)) b2) :=
    hchange0 _ _ (fun h => hpos (of_decide_eq_true h)) (fun h => hsize (of_decide_eq_true h))
  have hself : ∀ t, Fired P s1 t → Fired P s1 (SetRect.notifySelf t self rect) := by
    intro t ht
    unfold SetRect.notifySelf
    simp only []
    split <;>
      repeat (first
        | exact ht
        | refine Fired.one ?_ _ (hother _ (fun m => ⟨rfl, rfl⟩)))
  unfold SetRect.commit
  simp only []
  split_ifs with hrect
  · obtain ⟨s2, h2, hI2⟩ := forEachChild_inv
      (fun t child =>
        match SetRect.move H setRect b1
            ⟨rect.GetPos.x - oldRect.GetPos.x, rect.GetPos.y - oldRect.GetPos.y⟩ t child with
        | Except.ok t1 =>
          Except.ok ((t1.fire (Event.onParentTransformChanged child rect)).fire
            (Event.onParentTransformChangedClonable child rect))
        | Except.error e => Except.error e)
      (fun t => SameFixed s t ∧ Fired P s1 t) (s1.heap self).children
      (fun t c hc ht => by
        rw [hs1.children] at hc
        have hm : ∃ t1, SetRect.move H setRect b1
            ⟨rect.GetPos.x - oldRect.GetPos.x, rect.GetPos.y - oldRect.GetPos.y⟩ t c =
              Except.ok t1 ∧ SameFixed s t1 ∧ Fired P s1 t1 := by
          unfold SetRect.move
          split_ifs
          · obtain ⟨t1, ht1, hst1, hf1⟩ := hrec t c _ _ _ _ H.setPosMoveChildren
              H.setPosMakeLayoutDirty hc ht.1
            exact ⟨t1, ht1, ht.1.andThen hst1.1, ht.2.chain hf1⟩
          · exact ⟨t, rfl, ht⟩
        obtain ⟨t1, ht1, hsf1, hf1⟩ := hm
        refine ⟨(t1.fire (Event.onParentTransformChanged c rect)).fire
          (Event.onParentTransformChangedClonable c rect), by simp only [ht1], hsf1, ?_⟩
        exact (hf1.one (Event.onParentTransformChanged c rect)
          (hother _ (fun m => ⟨rfl, rfl⟩))).one (Event.onParentTransformChangedClonable c rect)
          (hother _ (fun m => ⟨rfl, rfl⟩))) s1 ⟨hs1, Fired.none P s1⟩
    have h2b : SetRect.notifyChildren
        (SetRect.move H setRect b1
          ⟨rect.GetPos.x - oldRect.GetPos.x, rect.GetPos.y - oldRect.GetPos.y⟩)
        rect s1 (s1.heap self).children = Except.ok s2 := h2
    rw [h2b]
    exact ⟨_, rfl, hchange _ (hself _ hI2.2)⟩
  · exact ⟨_, rfl, hchange _ (Fired.none P s1)⟩

/-- On a finite tree `SetRect` returns, and every `onPosChanged` or `onSizeChanged` it
invokes is of the node or of a node below it. -/
theorem SetRect_events (H : GuiHpp) (fuel : Nat) :
    ∀ (s : State) (self : Nat) (x y w h : ℚ) (b1 b2 : Bool),
      arrangeable s fuel self = true →
      ∃ s1, SetRect H fuel s self x y w h b1 b2 = Except.ok s1 ∧ StepOk s self s1 ∧
        Fired (fun e => ∀ m, (e.isPosChangedOf m = true ∨ e.isSizeChangedOf m = true) →
          Descendant s self m) s s1 := by
  induction fuel with
  | zero => intro s self x y w h b1 b2 ha; simp [arrangeable] at ha
  | succ fuel ih =>
    intro s self x y w h b1 b2 ha
    obtain ⟨-, hch⟩ := arrangeable_succ ha
    obtain ⟨s1, h1, hst1⟩ := SetRect_spec H (fuel + 1) s self x y w h b1 b2 ha
    refine ⟨s1, h1, hst1, ?_⟩
    unfold SetRect at h1
    simp only [] at h1
    obtain ⟨s2, h2, hf2⟩ := commit_fired H (SetRect H fuel)
      (fun e => ∀ m, (e.isPosChangedOf m = true ∨ e.isSizeChangedOf m = true) →
        Descendant s self m) s
      (s.modify self (fun g =>
        { g with
          pos := ⟨x, y⟩
          size := ⟨max w (H.GetMinSizeX (s.heap self)), max h (H.GetMinSizeY (s.heap self))⟩ }))
      self
      ((s.modify self (fun g =>
        { g with
          pos := ⟨x, y⟩
          size := ⟨max w (H.GetMinSizeX (s.heap self)),
            max h (H.GetMinSizeY (s.heap self))⟩ })).heap self).GetRect
      (s.heap self).GetRect b1 b2
      (fun t c x1 y1 w1 h1 b3 b4 hc ht => by
        obtain ⟨t1, ht1, hst, hf⟩ := ih t c x1 y1 w1 h1 b3 b4
          (by rw [arrangeable_congr ht]; exact hch c hc)
        exact ⟨t1, ht1, hst, hf.imp (fun e he m hm =>
          Descendant.child hc ((Descendant.congr_iff ht c m).mp (he m hm)))⟩)
      (SameFixed.ofModify s self _ rfl)
      (fun e he m hm => by
        rcases hm with hm | hm
        · rw [(he m).1] at hm; exact absurd hm (by simp)
        · rw [(he m).2] at hm; exact absurd hm (by simp))
      (fun _ v m hm => by
        rcases hm with hm | hm
        · simp only [Event.isPosChangedOf, decide_eq_true_eq] at hm
          subst hm; exact Descendant.self _
        · simp [Event.isSizeChangedOf] at hm)
      (fun _ v => ⟨fun m hm => by
        rcases hm with hm | hm
        · simp [Event.isPosChangedOf] at hm
        · simp only [Event.isSizeChangedOf, decide_eq_true_eq] at hm
          subst hm; exact Descendant.self _,
        fun m hm => by
        rcases hm with hm | hm
        · simp [Event.isPosChangedOf] at hm
        · simp only [Event.isSizeChangedOf, decide_eq_true_eq] at hm
          subst hm; exact Descendant.self _⟩)
    rw [h2] at h1
    have e1 : s2 = s1 := by injection h1
    subst e1
    exact hf2

/-- `SetRect` with the position the node has and a size that the clamp takes to the size
the node has returns the state it was given. -/
theorem SetRect_same (H : GuiHpp) (fuel : Nat) (s : State) (self : Nat) (x y w h : ℚ)
    (b1 b2 : Bool) (hp : (⟨x, y⟩ : Vec2) = (s.heap self).pos)
    (hs : (⟨max w (H.GetMinSizeX (s.heap self)), max h (H.GetMinSizeY (s.heap self))⟩ : Vec2) =
      (s.heap self).size) :
    SetRect H (fuel + 1) s self x y w h b1 b2 = Except.ok s := by
  unfold SetRect
  simp only []
  rw [State.modify_id s self _ (by rw [hp, hs])]
  unfold SetRect.commit SetRect.notifyChange
  simp

/-! ## Claims on the notifications of `SetRect` -/

/-- In exact arithmetic `SetRect(x, y, w, h, ..)` on a node of a finite tree returns. If
`(x, y)` is the
position the node has and the clamped size `(max w minX, max h minY)` is the size it has,
the state returned is the state given: no delegate fires, no child is moved, no flag
changes. In any case `onPosChanged` of the node is among the invocations only if the
position differs, and `onSizeChanged`/`onSizeChangedClonable` of the node only if the
clamped size differs from the size the node had. -/
theorem SetRect_no_spurious (H : GuiHpp) (fuel : Nat) (s : State) (self : Nat)
    (x y w h : ℚ) (b1 b2 : Bool) (ha : arrangeable s (fuel + 1) self = true) :
    ∃ s1, SetRect H (fuel + 1) s self x y w h b1 b2 = Except.ok s1 ∧
      (((⟨x, y⟩ : Vec2) = (s.heap self).pos ∧
        (⟨max w (H.GetMinSizeX (s.heap self)), max h (H.GetMinSizeY (s.heap self))⟩ : Vec2) =
          (s.heap self).size) → s1 = s) ∧
      Fired (fun e =>
        ((⟨x, y⟩ : Vec2) = (s.heap self).pos → e.isPosChangedOf self = false) ∧
        ((⟨max w (H.GetMinSizeX (s.heap self)), max h (H.GetMinSizeY (s.heap self))⟩ : Vec2) =
          (s.heap self).size → e.isSizeChangedOf self = false)) s s1 := by
  obtain ⟨-, hch⟩ := arrangeable_succ ha
  have hacyc := arrangeable_acyclic s (fuel + 1) self ha
  obtain ⟨s1, h1, -⟩ := SetRect_spec H (fuel + 1) s self x y w h b1 b2 ha
  refine ⟨s1, h1, fun hsame => ?_, ?_⟩
  · rw [SetRect_same H fuel s self x y w h b1 b2 hsame.1 hsame.2] at h1
    injection h1 with h1
    exact h1.symm
  · unfold SetRect at h1
    simp only [] at h1
    have hpos0 : (RectF.ofPosSize (⟨x, y⟩ : Vec2)
        ⟨max w (H.GetMinSizeX (s.heap self)), max h (H.GetMinSizeY (s.heap self))⟩).GetPos =
        ⟨x, y⟩ := rfl
    have hsize0 : (RectF.ofPosSize (⟨x, y⟩ : Vec2)
        ⟨max w (H.GetMinSizeX (s.heap self)), max h (H.GetMinSizeY (s.heap self))⟩).GetSize =
        ⟨max w (H.GetMinSizeX (s.heap self)), max h (H.GetMinSizeY (s.heap self))⟩ := by
      simp [RectF.ofPosSize, RectF.GetSize]
    have hold : (s.heap self).GetRect.GetPos = (s.heap self).pos ∧
        (s.heap self).GetRect.GetSize = (s.heap self).size := by
      simp [Gui.GetRect, RectF.ofPosSize, RectF.GetSize, RectF.GetPos]
    obtain ⟨s2, h2, hf2⟩ := commit_fired H (SetRect H fuel)
      (fun e =>
        ((⟨x, y⟩ : Vec2) = (s.heap self).pos → e.isPosChangedOf self = false) ∧
        ((⟨max w (H.GetMinSizeX (s.heap self)), max h (H.GetMinSizeY (s.heap self))⟩ : Vec2) =
          (s.heap self).size → e.isSizeChangedOf self = false)) s
      (s.modify self (fun g =>
        { g with
          pos := ⟨x, y⟩
          size := ⟨max w (H.GetMinSizeX (s.heap self)), max h (H.GetMinSizeY (s.heap self))⟩ }))
      self
      ((s.modify self (fun g =>
        { g with
          pos := ⟨x, y⟩
          size := ⟨max w (H.GetMinSizeX (s.heap self)),
            max h (H.GetMinSizeY (s.heap self))⟩ })).heap self).GetRect
      (s.heap self).GetRect b1 b2
      (fun t c x1 y1 w1 h1 b3 b4 hc ht => by
        obtain ⟨t1, ht1, hst, hf⟩ := SetRect_events H fuel t c x1 y1 w1 h1 b3 b4
          (by rw [arrangeable_congr ht]; exact hch c hc)
        refine ⟨t1, ht1, hst, hf.imp (fun e he => ?_)⟩
        have hnot : ∀ b : Bool, (b = true → Descendant t c self) → b = false := by
          intro b hb
          cases b
          · rfl
          · exact absurd ((Descendant.congr_iff ht c self).mp (hb rfl)) (hacyc c hc)
        exact ⟨fun _ => hnot _ (fun hb => he self (Or.inl hb)),
          fun _ => hnot _ (fun hb => he self (Or.inr hb))⟩)
      (SameFixed.ofModify s self _ rfl)
      (fun e he => ⟨fun _ => (he self).1, fun _ => (he self).2⟩)
      (fun hne v => ⟨fun hp => by
        rw [State.modify_heap_self] at hne
        exact absurd (by rw [hold.1]; exact hp) hne, fun _ => rfl⟩)
      (fun hne v => ⟨⟨fun _ => rfl, fun hs => by
        rw [State.modify_heap_self] at hne
        exact absurd (by rw [hold.2]; exact (hsize0.trans hs)) hne⟩,
        ⟨fun _ => rfl, fun hs => by
        rw [State.modify_heap_self] at hne
        exact absurd (by rw [hold.2]; exact (hsize0.trans hs)) hne⟩⟩)
    rw [h2] at h1
    have e1 : s2 = s1 := by injection h1
    subst e1
    exact hf2

/-- In scenario 1, `SetRect(0, 0, 60, 20, true, true)` on the node `1`,
which is at (0, 0) with size 60x20 and has the child `2`. -/
theorem SetRect_no_spurious_scenario1 :
    (scenario1.heap 1).pos = ⟨0, 0⟩ ∧ (scenario1.heap 1).size = ⟨60, 20⟩ ∧
    SetRect sampleHpp 2 scenario1 1 0 0 60 20 true true = Except.ok scenario1 := by
  refine ⟨by decide!, by decide!, ?_⟩
  obtain ⟨s1, h1, hsame, -⟩ :=
    SetRect_no_spurious sampleHpp 1 scenario1 1 0 0 60 20 true true (by decide)
  rw [h1, hsame ⟨by decide!, by decide!⟩]

/-- With the identity as rounding, `SetRectRounded` is `SetRect`. -/
theorem SetRectRounded_id (H : GuiHpp) : ∀ (fuel : Nat) (s : State) (self : Nat)
    (x y w h : ℚ) (b1 b2 : Bool),
    SetRectRounded id H fuel s self x y w h b1 b2 = SetRect H fuel s self x y w h b1 b2 := by
  intro fuel
  induction fuel with
  | zero => intros; rfl
  | succ fuel ih =>
    intro s self x y w h b1 b2
    have hf : SetRectRounded id H fuel = SetRect H fuel := by
      funext s self x y w h b1 b2
      exact ih s self x y w h b1 b2
    unfold SetRectRounded SetRect
    rw [hf]
    rfl

/-- C17 (evaluation of the code at the failing input). The node `0`, at (0, 0) with the
width `60.3f = 15807283 / 2^18` and the height 20, clean, is moved by
`SetRect(100, 0, 60.3f, 20, true, true)`. In binary32 the right side of the new rect is
`100 + 60.3f` rounded, `10505421 / 2^16`, and the width recomputed from the sides is
`15807284 / 2^18`, one unit in the last place above the width recomputed from the old rect:
`bSizeChanged` is true, `onSizeChanged` and `onSizeChangedClonable` fire and the dirty flag
is set, while the member `size` is what it was. The same move of a node 60 wide fires no
size notification, and neither does the move of the `60.3f` node in exact arithmetic. -/
theorem C17_SetRect_size_event_on_move :
    round32 (603 / 10) = 15807283 / 262144 ∧
    (oddWidthNode.heap 0).pos = ⟨0, 0⟩ ∧
    (oddWidthNode.heap 0).size = ⟨15807283 / 262144, 20⟩ ∧
    (oddWidthNode.heap 0).bLayoutNeedRefresh = false ∧
    rectOutcome (SetRectRounded round32 sampleHpp 1 oddWidthNode 0 100 0
        (15807283 / 262144) 20 true true) 0 =
      some ⟨⟨100, 0⟩, ⟨15807283 / 262144, 20⟩, true,
        [Event.onTransformChanged 0 ⟨100, 10505421 / 65536, 0, 20⟩,
          Event.onRectChanged 0 ⟨100, 10505421 / 65536, 0, 20⟩,
          Event.onRectChangedClonable 0 ⟨100, 10505421 / 65536, 0, 20⟩,
          Event.onPosChanged 0 ⟨100, 0⟩,
          Event.onSizeChanged 0 ⟨15807284 / 262144, 20⟩,
          Event.onSizeChangedClonable 0 ⟨15807284 / 262144, 20⟩]⟩ ∧
    rectOutcome (SetRectRounded round32 plainHpp 1 oddWidthNode 0 100 0
        (15807283 / 262144) 20 false false) 0 =
      some ⟨⟨100, 0⟩, ⟨15807283 / 262144, 20⟩, false,
        [Event.onTransformChanged 0 ⟨100, 10505421 / 65536, 0, 20⟩,
          Event.onRectChanged 0 ⟨100, 10505421 / 65536, 0, 20⟩,
          Event.onRectChangedClonable 0 ⟨100, 10505421 / 65536, 0, 20⟩,
          Event.onPosChanged 0 ⟨100, 0⟩,
          Event.onSizeChanged 0 ⟨15807284 / 262144, 20⟩,
          Event.onSizeChangedClonable 0 ⟨15807284 / 262144, 20⟩]⟩ ∧
    rectOutcome (SetRectRounded round32 sampleHpp 1 State.fresh 0 100 0 60 20 true true) 0 =
      some ⟨⟨100, 0⟩, ⟨60, 20⟩, false,
        [Event.onTransformChanged 0 ⟨100, 160, 0, 20⟩,
          Event.onRectChanged 0 ⟨100, 160, 0, 20⟩,
          Event.onRectChangedClonable 0 ⟨100, 160, 0, 20⟩,
          Event.onPosChanged 0 ⟨100, 0⟩]⟩ ∧
    rectOutcome (SetRect sampleHpp 1 oddWidthNode 0 100 0
        (15807283 / 262144) 20 true true) 0 =
      some ⟨⟨100, 0⟩, ⟨15807283 / 262144, 20⟩, false,
        [Event.onTransformChanged 0 ⟨100, 100 + 15807283 / 262144, 0, 20⟩,
          Event.onRectChanged 0 ⟨100, 100 + 15807283 / 262144, 0, 20⟩,
          Event.onRectChangedClonable 0 ⟨100, 100 + 15807283 / 262144, 0, 20⟩,
          Event.onPosChanged 0 ⟨100, 0⟩]⟩ := by
  refine ⟨by decide!, by decide!, by decide!, by decide!, by decide!, by decide!, by decide!,
    by decide!⟩

/-! ### `SetRect` with any flags; the two `SetSize` calls of the move handler -/

theorem notifyChange_geom (t : State) (self : Nat) (rect : RectF) (b1 b2 b3 : Bool) :
    ((SetRect.notifyChange t self rect b1 b2 b3).heap self).pos = (t.heap self).pos ∧
    ((SetRect.notifyChange t self rect b1 b2 b3).heap self).size = (t.heap self).size := by
  unfold SetRect.notifyChange
  cases b1 <;> cases b2 <;> cases b3 <;>
    simp only [if_true, if_false, Bool.false_eq_true, State.modify_heap_self, State.fire_heap,
      and_self]

theorem commit_geom (H : GuiHpp)
    (setRect : State → Nat → ℚ → ℚ → ℚ → ℚ → Bool → Bool → Except ArrangeError State)
    (s s1 : State) (self : Nat) (rect oldRect : RectF) (b1 b2 : Bool)
    (hrec : ∀ t c x y w h b3 b4, c ∈ (s.heap self).children → SameFixed s t →
      ∃ t1, setRect t c x y w h b3 b4 = Except.ok t1 ∧ StepOk t c t1)
    (hs1 : SameFixed s s1)
    (hacyc : ∀ c ∈ (s.heap self).children, ¬ Descendant s c self) :
    ∃ s2, SetRect.commit H setRect s1 self rect oldRect b1 b2 = Except.ok s2 ∧
      (s2.heap self).pos = (s1.heap self).pos ∧ (s2.heap self).size = (s1.heap self).size := by
  unfold SetRect.commit
  simp only []
  split_ifs with hrect
  · obtain ⟨s2, h2, -, hI2⟩ := notifyChildren_inv
      (SetRect.move H setRect b1
        ⟨rect.GetPos.x - oldRect.GetPos.x, rect.GetPos.y - oldRect.GetPos.y⟩)
      rect (fun t => SameFixed s t ∧ t.heap self = s1.heap self) (s1.heap self).children
      (fun t e ht => ht)
      (fun t c hc ht => by
        rw [hs1.children] at hc
        unfold SetRect.move
        split_ifs
        · obtain ⟨t1, ht1, hst1⟩ := hrec t c _ _ _ _ H.setPosMoveChildren
            H.setPosMakeLayoutDirty hc ht.1
          refine ⟨t1, ht1, ht.1.andThen hst1.1, ?_⟩
          rw [hst1.2 self (fun hd => hacyc c hc ((Descendant.congr_iff ht.1 c self).mp hd))]
          exact ht.2
        · exact ⟨t, rfl, ht⟩) s1 ⟨hs1, rfl⟩
    rw [h2]
    refine ⟨_, rfl, ?_⟩
    have hg := notifyChange_geom (SetRect.notifySelf s2 self rect) self rect
      (decide (rect.GetPos ≠ oldRect.GetPos)) (decide (rect.GetSize ≠ oldRect.GetSize)) b2
    rw [notifySelf_heap, hI2] at hg
    exact hg
  · exact ⟨_, rfl, notifyChange_geom s1 self rect _ _ b2⟩

/-- What `SetRect` stores in its own node on a finite tree, whatever the two flags: the
position as given and the size clamped from below by the minimum size. -/
theorem SetRect_geom (H : GuiHpp) (fuel : Nat) (s : State) (self : Nat) (x y w h : ℚ)
    (b1 b2 : Bool) (ha : arrangeable s (fuel + 1) self = true) :
    ∃ s5, SetRect H (fuel + 1) s self x y w h b1 b2 = Except.ok s5 ∧ StepOk s self s5 ∧
      (s5.heap self).pos = ⟨x, y⟩ ∧
      (s5.heap self).size =
        ⟨max w (H.GetMinSizeX (s.heap self)), max h (H.GetMinSizeY (s.heap self))⟩ := by
  obtain ⟨-, hch⟩ := arrangeable_succ ha
  obtain ⟨s5, h5, hst5⟩ := SetRect_spec H (fuel + 1) s self x y w h b1 b2 ha
  refine ⟨s5, h5, hst5, ?_⟩
  unfold SetRect at h5
  simp only [] at h5
  obtain ⟨s2, h2, hpos, hsize⟩ := commit_geom H (SetRect H fuel) s
    (s.modify self (fun g =>
      { g with
        pos := ⟨x, y⟩
        size := ⟨max w (H.GetMinSizeX (s.heap self)), max h (H.GetMinSizeY (s.heap self))⟩ }))
    self
    ((s.modify self (fun g =>
      { g with
        pos := ⟨x, y⟩
        size := ⟨max w (H.GetMinSizeX (s.heap self)),
          max h (H.GetMinSizeY (s.heap self))⟩ })).heap self).GetRect
    (s.heap self).GetRect b1 b2
    (fun t c x1 y1 w1 h1 b3 b4 hc ht =>
      SetRect_spec H fuel t c x1 y1 w1 h1 b3 b4 (by rw [arrangeable_congr ht]; exact hch c hc))
    (SameFixed.ofModify s self _ rfl) (arrangeable_acyclic s (fuel + 1) self ha)
  rw [h2] at h5
  have e : s2 = s5 := by injection h5
  subst e
  rw [State.modify_heap_self] at hpos hsize
  exact ⟨hpos, hsize⟩

theorem liftLayout_ok {α : Type} (a : α) :
    liftLayout (Except.ok a : Except ArrangeError α) = Except.ok a := rfl

/-- The two `SetSize` calls of the move handler on a finite tree in which neither of the two
containers is below the other: they return; each container has the size given to
`SetSize`, clamped from below by its minimum size; nothing outside the two subtrees is
written. -/
theorem resize_spec (H : GuiHpp) (fuel : Nat) (w : World) (sp splitter : GuiSplitter)
    (cursorPos : Vec2) (sep p left right : Nat)
    (hsaved : sp.separatorSaved = some sep)
    (hpar : (w.gui.heap sep).parent = some p)
    (hsp : w.splitter p = some splitter)
    (hleft : GetChild w.gui p ((w.gui.heap sep).indexInParent - 1) = Except.ok left)
    (hright : GetChild w.gui p ((w.gui.heap sep).indexInParent + 1) = Except.ok right)
    (haL : arrangeable w.gui (fuel + 1) left = true)
    (haR : arrangeable w.gui (fuel + 1) right = true)
    (hLR : ¬ Descendant w.gui left right) (hRL : ¬ Descendant w.gui right left) :
    ∃ s2, GuiSplitter.onMouseMoved.resize H (fuel + 1) w sp cursorPos =
        Except.ok (s2, left, right) ∧
      SameFixed w.gui s2 ∧
      (s2.heap left).size =
        ⟨max (max 0 (sp.prevItemOrigSize.x +
            (GuiSplitter.onMouseMoved.deltaMove splitter.orientation
              ⟨cursorPos.x - sp.mousePosWhenPressed.x,
                cursorPos.y - sp.mousePosWhenPressed.y⟩).x))
            (H.GetMinSizeX (w.gui.heap left)),
          max (max 0 (sp.prevItemOrigSize.y +
            (GuiSplitter.onMouseMoved.deltaMove splitter.orientation
              ⟨cursorPos.x - sp.mousePosWhenPressed.x,
                cursorPos.y - sp.mousePosWhenPressed.y⟩).y))
            (H.GetMinSizeY (w.gui.heap left))⟩ ∧
      (s2.heap right).size =
        ⟨max (max 0 (sp.nextItemOrigSize.x -
            (GuiSplitter.onMouseMoved.deltaMove splitter.orientation
              ⟨cursorPos.x - sp.mousePosWhenPressed.x,
                cursorPos.y - sp.mousePosWhenPressed.y⟩).x))
            (H.GetMinSizeX (w.gui.heap right)),
          max (max 0 (sp.nextItemOrigSize.y -
            (GuiSplitter.onMouseMoved.deltaMove splitter.orientation
              ⟨cursorPos.x - sp.mousePosWhenPressed.x,
                cursorPos.y - sp.mousePosWhenPressed.y⟩).y))
            (H.GetMinSizeY (w.gui.heap right))⟩ ∧
      ∀ m, ¬ Descendant w.gui left m → ¬ Descendant w.gui right m →
        s2.heap m = w.gui.heap m := by
  obtain ⟨s1, h1, hst1, -, hsize1⟩ := SetRect_geom H fuel w.gui left
    (w.gui.heap left).pos.x (w.gui.heap left).pos.y
    (max 0 (sp.prevItemOrigSize.x +
      (GuiSplitter.onMouseMoved.deltaMove splitter.orientation
        ⟨cursorPos.x - sp.mousePosWhenPressed.x, cursorPos.y - sp.mousePosWhenPressed.y⟩).x))
    (max 0 (sp.prevItemOrigSize.y +
      (GuiSplitter.onMouseMoved.deltaMove splitter.orientation
        ⟨cursorPos.x - sp.mousePosWhenPressed.x, cursorPos.y - sp.mousePosWhenPressed.y⟩).y))
    H.setSizeMoveChildren H.setSizeMakeLayoutDirty haL
  have hR1 : s1.heap right = w.gui.heap right := hst1.2 right hLR
  obtain ⟨s2, h2, hst2, -, hsize2⟩ := SetRect_geom H fuel s1 right
    (s1.heap right).pos.x (s1.heap right).pos.y
    (max 0 (sp.nextItemOrigSize.x -
      (GuiSplitter.onMouseMoved.deltaMove splitter.orientation
        ⟨cursorPos.x - sp.mousePosWhenPressed.x, cursorPos.y - sp.mousePosWhenPressed.y⟩).x))
    (max 0 (sp.nextItemOrigSize.y -
      (GuiSplitter.onMouseMoved.deltaMove splitter.orientation
        ⟨cursorPos.x - sp.mousePosWhenPressed.x, cursorPos.y - sp.mousePosWhenPressed.y⟩).y))
    H.setSizeMoveChildren H.setSizeMakeLayoutDirty
    (by rw [arrangeable_congr hst1.1]; exact haR)
  have hL2 : s2.heap left = s1.heap left :=
    hst2.2 left (fun hd => hRL ((Descendant.congr_iff hst1.1 right left).mp hd))
  refine ⟨s2, ?_, hst1.1.andThen hst2.1, ?_, ?_, ?_⟩
  · unfold GuiSplitter.onMouseMoved.resize
    simp only [hsaved, hpar, World.AsSplitter, hsp, hleft, hright, SetSize, h1, h2,
      liftLayout_ok]
  · rw [hL2, hsize1]
  · rw [hsize2, hR1]
  · intro m hmL hmR
    rw [hst2.2 m (fun hd => hmR ((Descendant.congr_iff hst1.1 right m).mp hd)),
      hst1.2 m hmL]

theorem Descendant.last_step {s : State} {a b : Nat} (h : Descendant s a b) :
    b = a ∨ ∃ q, Descendant s a q ∧ b ∈ (s.heap q).children := by
  induction h with
  | self n => exact Or.inl rfl
  | @child n c m hc _ ih =>
    right
    rcases ih with e | ⟨q, hq, hb⟩
    · subst e
      exact ⟨n, Descendant.self n, hc⟩
    · exact ⟨q, Descendant.child hc hq, hb⟩

theorem parent_of_mem {s : State} (hidx : IndexInv s) {p c : Nat}
    (hc : c ∈ (s.heap p).children) : (s.heap c).parent = some p := by
  obtain ⟨i, hi⟩ := List.mem_iff_getElem?.mp hc
  exact (hidx p i c hi).1

/-- In a heap with consistent indices, of two different children of a node on which the
tree is acyclic neither is below the other. -/
theorem sibling_not_below {s : State} (hidx : IndexInv s) {self c c2 : Nat}
    (hacyc : ∀ c ∈ (s.heap self).children, ¬ Descendant s c self)
    (hc : c ∈ (s.heap self).children) (hc2 : c2 ∈ (s.heap self).children) (hne : c ≠ c2) :
    ¬ Descendant s c c2 := by
  intro hd
  rcases hd.last_step with e | ⟨q, hq, hb⟩
  · exact hne e.symm
  · have h1 := parent_of_mem hidx hb
    have h2 := parent_of_mem hidx hc2
    rw [h1] at h2
    injection h2 with h2
    subst h2
    exact hacyc c hc hq

theorem along_if (o : eGuiOrientation) (v : Vec2) :
    (if decide (o = eGuiOrientation.VERTICAL) = true then v.y else v.x) = o.along v := by
  cases o <;> simp [eGuiOrientation.along]

theorem itemsLength_eq (s : State) (o : eGuiOrientation) :
    ∀ (items containers : List Nat) (acc : ℚ),
      items.map (fun i => (s.heap i).parent) = containers.map some →
      GuiSplitter.ArrangeChildren.itemsLength s (decide (o = eGuiOrientation.VERTICAL)) acc
          items =
        Except.ok (acc + (containers.map (fun c => o.along (s.heap c).size)).sum) := by
  intro items
  induction items with
  | nil =>
    intro containers acc h
    cases containers with
    | nil => simp [GuiSplitter.ArrangeChildren.itemsLength]
    | cons c cs => simp at h
  | cons i rest ih =>
    intro containers acc h
    cases containers with
    | nil => simp at h
    | cons c cs =>
      simp only [List.map_cons, List.cons.injEq] at h
      unfold GuiSplitter.ArrangeChildren.itemsLength
      simp only [h.1]
      rw [ih cs _ h.2, along_if]
      simp only [List.map_cons, List.sum_cons, add_assoc]

theorem along_mk_if (o : eGuiOrientation) (a b : ℚ) :
    o.along ⟨a, b⟩ = if o = eGuiOrientation.VERTICAL then b else a := by
  cases o <;> simp [eGuiOrientation.along]

theorem SizeNonNeg.ofWrite {s : State} {c : Nat} (h : SizeNonNeg s c) (n : Nat) (f : Gui → Gui)
    (hf : (f (s.heap n)).size = (s.heap n).size) : SizeNonNeg (s.modify n f) c := by
  unfold SizeNonNeg
  rw [State.modify_heap]
  split_ifs with e
  · subst e; rw [hf]; exact h
  · exact h

theorem SizeNonNeg.fired {s : State} {c : Nat} (h : SizeNonNeg s c) (e : Event) :
    SizeNonNeg (s.fire e) c := h

theorem forEachChild_keeps (body : State → Nat → Except ArrangeError State) (P : State → Prop)
    (hbody : ∀ t c t1, P t → body t c = Except.ok t1 → P t1) :
    ∀ (l : List Nat) (t t1 : State), P t → forEachChild body t l = Except.ok t1 → P t1 := by
  intro l
  induction l with
  | nil =>
    intro t t1 ht h
    simp only [forEachChild, Except.ok.injEq] at h
    subst h; exact ht
  | cons c rest ih =>
    intro t t1 ht h
    unfold forEachChild at h
    cases hb : body t c with
    | error e => rw [hb] at h; simp at h
    | ok t2 =>
      rw [hb] at h
      exact ih t2 t1 (hbody t c t2 ht hb) h

/-- With non-negative minimum sizes, `SetRect` leaves no size negative that was not. -/
theorem SetRect_nonneg (H : GuiHpp) (c : Nat)
    (hmin : ∀ g, 0 ≤ H.GetMinSizeX g ∧ 0 ≤ H.GetMinSizeY g) (fuel : Nat) :
    ∀ (s : State) (n : Nat) (x y w h : ℚ) (b1 b2 : Bool) (s1 : State), SizeNonNeg s c →
      SetRect H fuel s n x y w h b1 b2 = Except.ok s1 → SizeNonNeg s1 c := by
  induction fuel with
  | zero => intro s n x y w h b1 b2 s1 _ hr; simp [SetRect] at hr
  | succ fuel ih =>
    intro s n x y w h b1 b2 s1 hs hr
    unfold SetRect at hr
    simp only [] at hr
    have h1 : SizeNonNeg (s.modify n (fun g =>
        { g with
          pos := ⟨x, y⟩
          size := ⟨max w (H.GetMinSizeX (s.heap n)), max h (H.GetMinSizeY (s.heap n))⟩ })) c := by
      unfold SizeNonNeg
      rw [State.modify_heap]
      split_ifs with e
      · exact ⟨le_max_of_le_right (hmin _).1, le_max_of_le_right (hmin _).2⟩
      · exact hs
    revert hr
    generalize (s.modify n (fun g =>
        { g with
          pos := ⟨x, y⟩
          size := ⟨max w (H.GetMinSizeX (s.heap n)), max h (H.GetMinSizeY (s.heap n))⟩ })) = t0
      at h1 ⊢
    generalize (t0.heap n).GetRect = rect
    generalize (s.heap n).GetRect = oldRect
    intro hr
    have hchange : ∀ t bp bs, SizeNonNeg t c →
        SizeNonNeg (SetRect.notifyChange t n rect bp bs b2) c := by
      intro t bp bs ht
      unfold SetRect.notifyChange
      cases bp <;> cases bs <;> cases b2 <;>
        simp only [if_true, if_false, Bool.false_eq_true]
      · exact ht
      · exact ht
      · exact (ht.fired _).fired _
      · exact ((ht.fired _).fired _).ofWrite n _ rfl
      · exact ht.fired _
      · exact ht.fired _
      · exact ((ht.fired _).fired _).fired _
      · exact (((ht.fired _).fired _).fired _).ofWrite n _ rfl
    unfold SetRect.commit at hr
    simp only [] at hr
    split_ifs at hr with hrect
    · cases hloop : SetRect.notifyChildren
          (SetRect.move H (SetRect H fuel) b1
            ⟨rect.GetPos.x - oldRect.GetPos.x, rect.GetPos.y - oldRect.GetPos.y⟩)
          rect t0 (t0.heap n).children with
      | error e => rw [hloop] at hr; simp at hr
      | ok t2 =>
        rw [hloop] at hr
        simp only [Except.ok.injEq] at hr
        subst hr
        apply hchange
        have h2 : SizeNonNeg t2 c := by
          unfold SetRect.notifyChildren at hloop
          refine forEachChild_keeps _ (fun t => SizeNonNeg t c) ?_ _ t0 t2 h1 hloop
          intro t ch t1 ht hb
          simp only [] at hb
          cases hm : SetRect.move H (SetRect H fuel) b1
              ⟨rect.GetPos.x - oldRect.GetPos.x, rect.GetPos.y - oldRect.GetPos.y⟩ t ch with
          | error e => rw [hm] at hb; simp at hb
          | ok t3 =>
            rw [hm] at hb
            simp only [Except.ok.injEq] at hb
            subst hb
            have h3 : SizeNonNeg t3 c := by
              unfold SetRect.move at hm
              split_ifs at hm
              · exact ih _ _ _ _ _ _ _ _ _ ht hm
              · simp only [Except.ok.injEq] at hm
                subst hm; exact ht
            exact h3
        unfold SizeNonNeg
        rw [notifySelf_heap]
        exact h2
    · simp only [Except.ok.injEq] at hr
      subst hr
      exact hchange _ _ _ h1

theorem forceFit_nonneg (c : Nat) :
    ∀ (l : List Nat) (s : State), SizeNonNeg s c → SizeNonNeg (Arrange.forceFit s l) c := by
  intro l
  induction l with
  | nil => intro s h; exact h
  | cons a rest ih =>
    intro s h
    unfold Arrange.forceFit
    apply ih
    split_ifs
    · exact h.ofWrite a _ rfl
    · exact h

theorem enableFill_nonneg (c : Nat) :
    ∀ (l : List Nat) (s : State), SizeNonNeg s c → SizeNonNeg (Arrange.enableFill s l) c := by
  intro l
  induction l with
  | nil => intro s h; exact h
  | cons a rest ih =>
    intro s h
    unfold Arrange.enableFill
    apply ih
    split_ifs
    · exact h.ofWrite a _ rfl
    · exact h

theorem resetForceFit_nonneg {s : State} {c : Nat} (h : SizeNonNeg s c) (self : Nat) :
    SizeNonNeg (Arrange.resetForceFit s self) c := by
  unfold Arrange.resetForceFit
  split_ifs
  · exact h.ofWrite self _ rfl
  · exact h

theorem loop_nonneg (H : GuiHpp)
    (arrange : State → Nat → Vec2 → Vec2 → Except ArrangeError (State × Vec2)) (c : Nat)
    (harr : ∀ t n p z t1 u, SizeNonNeg t c → arrange t n p z = Except.ok (t1, u) →
      SizeNonNeg t1 c) :
    ∀ (l : List Nat) (t : State) (acc : Vec2) (t1 : State) (u : Vec2), SizeNonNeg t c →
      ArrangeChildren.loop H arrange t acc l = Except.ok (t1, u) → SizeNonNeg t1 c := by
  intro l
  induction l with
  | nil =>
    intro t acc t1 u ht h
    simp only [ArrangeChildren.loop, Except.ok.injEq, Prod.mk.injEq] at h
    rw [← h.1]; exact ht
  | cons a rest ih =>
    intro t acc t1 u ht h
    unfold ArrangeChildren.loop at h
    cases ha : arrange t a (t.heap a).pos (H.GetDesiredSize (t.heap a)) with
    | error e => rw [ha] at h; simp at h
    | ok r =>
      obtain ⟨t2, u2⟩ := r
      rw [ha] at h
      exact ih t2 _ t1 u (harr _ _ _ _ _ _ ht ha) h

theorem sizeItems_nonneg (H : GuiHpp)
    (setRect : State → Nat → ℚ → ℚ → ℚ → ℚ → Bool → Bool → Except ArrangeError State)
    (c : Nat)
    (hset : ∀ t n x y w h b1 b2 t1, SizeNonNeg t c → setRect t n x y w h b1 b2 = Except.ok t1 →
      SizeNonNeg t1 c)
    (b : Bool) (T f : ℚ) (self : Nat) :
    ∀ (l : List Nat) (t t1 : State), SizeNonNeg t c →
      GuiSplitter.ArrangeChildren.sizeItems H setRect b T f self t l = Except.ok t1 →
      SizeNonNeg t1 c := by
  intro l
  induction l with
  | nil =>
    intro t t1 ht h
    simp only [GuiSplitter.ArrangeChildren.sizeItems, Except.ok.injEq] at h
    rw [← h]; exact ht
  | cons a rest ih =>
    intro t t1 ht h
    unfold GuiSplitter.ArrangeChildren.sizeItems at h
    cases hp : (t.heap a).parent with
    | none => rw [hp] at h; simp at h
    | some container =>
      rw [hp] at h
      simp only [] at h
      split_ifs at h with hT hv
      · cases hs : SetSize H setRect t container (t.heap self).GetContentSizeX
            ((t.heap container).size.y + (t.heap container).size.y / T * f) with
        | error e => rw [hs] at h; simp at h
        | ok t2 =>
          rw [hs] at h
          exact ih t2 t1 (hset _ _ _ _ _ _ _ _ _ ht hs) h
      · cases hs : SetSize H setRect t container
            ((t.heap container).size.x + (t.heap container).size.x / T * f)
            (t.heap self).GetContentSizeY with
        | error e => rw [hs] at h; simp at h
        | ok t2 =>
          rw [hs] at h
          exact ih t2 t1 (hset _ _ _ _ _ _ _ _ _ ht hs) h

theorem layout_nonneg (H : GuiHpp)
    (arrange : State → Nat → Vec2 → Vec2 → Except ArrangeError (State × Vec2)) (c : Nat)
    (harr : ∀ t n p z t1 u, SizeNonNeg t c → arrange t n p z = Except.ok (t1, u) →
      SizeNonNeg t1 c)
    (b : Bool) (pos : Vec2) :
    ∀ (l : List Nat) (t : State) (acc : Vec2) (t1 : State) (u : Vec2), SizeNonNeg t c →
      GuiSplitter.ArrangeChildren.layout H arrange b pos t acc l = Except.ok (t1, u) →
      SizeNonNeg t1 c := by
  intro l
  induction l with
  | nil =>
    intro t acc t1 u ht h
    simp only [GuiSplitter.ArrangeChildren.layout, Except.ok.injEq, Prod.mk.injEq] at h
    rw [← h.1]; exact ht
  | cons a rest ih =>
    intro t acc t1 u ht h
    unfold GuiSplitter.ArrangeChildren.layout at h
    simp only [] at h
    cases b with
    | true =>
      simp only [if_true] at h
      cases ha : arrange t a ⟨pos.x, pos.y + acc.y⟩ (H.GetDesiredSize (t.heap a)) with
      | error e => rw [ha] at h; simp at h
      | ok r =>
        obtain ⟨t2, u2⟩ := r
        rw [ha] at h
        exact ih t2 _ t1 u (harr _ _ _ _ _ _ ht ha) h
    | false =>
      simp only [Bool.false_eq_true, if_false] at h
      cases ha : arrange t a ⟨pos.x + acc.x, pos.y⟩ (H.GetDesiredSize (t.heap a)) with
      | error e => rw [ha] at h; simp at h
      | ok r =>
        obtain ⟨t2, u2⟩ := r
        rw [ha] at h
        exact ih t2 _ t1 u (harr _ _ _ _ _ _ ht ha) h

theorem splitterBody_nonneg (H : GuiHpp) (sp : GuiSplitter)
    (setRect : State → Nat → ℚ → ℚ → ℚ → ℚ → Bool → Bool → Except ArrangeError State)
    (arrange : State → Nat → Vec2 → Vec2 → Except ArrangeError (State × Vec2)) (c : Nat)
    (hset : ∀ t n x y w h b1 b2 t1, SizeNonNeg t c → setRect t n x y w h b1 b2 = Except.ok t1 →
      SizeNonNeg t1 c)
    (harr : ∀ t n p z t1 u, SizeNonNeg t c → arrange t n p z = Except.ok (t1, u) →
      SizeNonNeg t1 c)
    (s : State) (self : Nat) (fs : Vec2) (s1 : State) (u : Vec2) (hs : SizeNonNeg s c)
    (h : GuiSplitter.ArrangeChildren.body H sp setRect arrange s self fs = Except.ok (s1, u)) :
    SizeNonNeg s1 c := by
  unfold GuiSplitter.ArrangeChildren.body at h
  simp only [] at h
  by_cases h0 : sp.items.length = 0
  · rw [if_pos h0] at h
    simp only [Except.ok.injEq, Prod.mk.injEq] at h
    rw [← h.1]; exact hs
  · rw [if_neg h0] at h
    cases hl : GuiSplitter.ArrangeChildren.itemsLength s
        (decide (sp.orientation = eGuiOrientation.VERTICAL)) 0 sp.items with
    | error e => rw [hl] at h; simp at h
    | ok T =>
      rw [hl] at h
      simp only [] at h
      generalize (if decide (sp.orientation = eGuiOrientation.VERTICAL) = true then
          (s.heap self).GetContentSizeY - (T + ((sp.items.length - 1 : Nat) : ℚ) *
            sp.separatorLength)
        else (s.heap self).GetContentSizeX - (T + ((sp.items.length - 1 : Nat) : ℚ) *
            sp.separatorLength)) = f at h
      cases hz : GuiSplitter.ArrangeChildren.sizeItems H setRect
          (decide (sp.orientation = eGuiOrientation.VERTICAL)) T f self s sp.items with
      | error e => rw [hz] at h; simp at h
      | ok s2 =>
        rw [hz] at h
        simp only [] at h
        exact layout_nonneg H arrange c harr _ _ _ s2 _ s1 u
          (sizeItems_nonneg H setRect c hset _ T f self _ s s2 hs hz) h

theorem fitToChildrenWith_nonneg
    (arrangeChildren : State → Nat → Vec2 → Except ArrangeError (State × Vec2)) (c : Nat)
    (hbody : ∀ t n z t1 u, SizeNonNeg t c → arrangeChildren t n z = Except.ok (t1, u) →
      SizeNonNeg t1 c)
    (s0 : State) (self : Nat) (f : StretchFlags) (size : Vec2) (s3 : State) (ns : Vec2)
    (hs : SizeNonNeg s0 c)
    (h : Arrange.fitToChildrenWith arrangeChildren s0 self f size = Except.ok (s3, ns)) :
    SizeNonNeg s3 c := by
  unfold Arrange.fitToChildrenWith at h
  simp only [] at h
  by_cases hf : (f.bFitToChildrenHor || f.bFitToChildrenVer) = true
  · rw [if_pos hf] at h
    split at h
    · rename_i s2 sizeUsed hb
      simp only [Except.ok.injEq, Prod.mk.injEq] at h
      rw [← h.1]
      exact enableFill_nonneg c _ _
        (hbody _ _ _ _ _ (forceFit_nonneg c _ _ hs) hb)
    · simp at h
  · rw [if_neg hf] at h
    simp only [Except.ok.injEq, Prod.mk.injEq] at h
    rw [← h.1]; exact hs

theorem fill_nonneg (c : Nat) (s3 : State) (self : Nat) (f : StretchFlags) (pos ns : Vec2)
    (s4 : State) (np4 ns4 : Vec2) (hs : SizeNonNeg s3 c)
    (h : Arrange.fill s3 self f pos ns = Except.ok (s4, np4, ns4)) : SizeNonNeg s4 c := by
  unfold Arrange.fill at h
  split_ifs at h
  · split at h
    · simp only [Except.ok.injEq, Prod.mk.injEq] at h
      rw [← h.1]
      exact hs.ofWrite self _ rfl
    · simp at h
  · simp only [Except.ok.injEq, Prod.mk.injEq] at h
    rw [← h.1]; exact hs

theorem finishWith_nonneg
    (setRect : State → Nat → ℚ → ℚ → ℚ → ℚ → Bool → Bool → Except ArrangeError State)
    (arrangeChildren : State → Nat → Vec2 → Except ArrangeError (State × Vec2)) (c : Nat)
    (hset : ∀ t n x y w h b1 b2 t1, SizeNonNeg t c → setRect t n x y w h b1 b2 = Except.ok t1 →
      SizeNonNeg t1 c)
    (hbody : ∀ t n z t1 u, SizeNonNeg t c → arrangeChildren t n z = Except.ok (t1, u) →
      SizeNonNeg t1 c)
    (s4 : State) (self : Nat) (np ns : Vec2) (s7 : State) (u : Vec2) (hs : SizeNonNeg s4 c)
    (h : Arrange.finishWith setRect arrangeChildren s4 self np ns = Except.ok (s7, u)) :
    SizeNonNeg s7 c := by
  unfold Arrange.finishWith at h
  simp only [] at h
  split at h
  · simp at h
  · rename_i s5 h5
    split at h
    · simp at h
    · rename_i s6 u6 h6
      simp only [Except.ok.injEq, Prod.mk.injEq] at h
      rw [← h.1]
      exact (hbody _ _ _ _ _ (hset _ _ _ _ _ _ _ _ _ hs h5) h6).ofWrite self _ rfl

/-- With non-negative minimum sizes, `Arrange` with the virtual `ArrangeChildren` leaves no
size negative that was not. -/
theorem ArrangeV_nonneg (H : GuiHpp) (cls : Nat → Option GuiSplitter) (c : Nat)
    (hmin : ∀ g, 0 ≤ H.GetMinSizeX g ∧ 0 ≤ H.GetMinSizeY g) (fuel : Nat) :
    ∀ (s : State) (self : Nat) (pos size : Vec2) (s1 : State) (u : Vec2), SizeNonNeg s c →
      ArrangeV H cls fuel s self pos size = Except.ok (s1, u) → SizeNonNeg s1 c := by
  induction fuel with
  | zero => intro s self pos size s1 u _ h; simp [ArrangeV] at h
  | succ fuel ih =>
    intro s self pos size s1 u hs h
    have hbody : ∀ t n z t1 u1, SizeNonNeg t c →
        (match cls self with
          | some sp =>
            GuiSplitter.ArrangeChildren.body H sp (SetRect H fuel) (ArrangeV H cls fuel)
          | none => ArrangeChildren.body H (ArrangeV H cls fuel)) t n z = Except.ok (t1, u1) →
        SizeNonNeg t1 c := by
      intro t n z t1 u1 ht hb
      cases hc : cls self with
      | some sp =>
        rw [hc] at hb
        exact splitterBody_nonneg H sp _ _ c
          (fun t n x y w h b1 b2 t1 => SetRect_nonneg H c hmin fuel t n x y w h b1 b2 t1)
          (fun t n p z t1 u => ih t n p z t1 u) t n z t1 u1 ht hb
      | none =>
        rw [hc] at hb
        exact loop_nonneg H _ c (fun t n p z t1 u => ih t n p z t1 u) _ t _ t1 u1 ht hb
    unfold ArrangeV at h
    simp only [] at h
    split at h
    · simp at h
    · rename_i s3 ns3 h3
      split at h
      · simp at h
      · rename_i s4 np4 ns4 h4
        split at h
        · simp at h
        · rename_i np5 h5
          exact finishWith_nonneg _ _ c
            (fun t n x y w h b1 b2 t1 => SetRect_nonneg H c hmin (fuel + 1) t n x y w h b1 b2 t1)
            hbody s4 self np5 ns4 s1 u
            (fill_nonneg c s3 self _ pos ns3 s4 np4 ns4
              (fitToChildrenWith_nonneg _ c hbody _ self _ size s3 ns3
                (resetForceFit_nonneg hs self) h3) h4) h

theorem RefreshLayoutV_nonneg (H : GuiHpp) (cls : Nat → Option GuiSplitter) (c : Nat)
    (hmin : ∀ g, 0 ≤ H.GetMinSizeX g ∧ 0 ≤ H.GetMinSizeY g) (fuel : Nat) (s : State)
    (self : Nat) (s1 : State) (hs : SizeNonNeg s c)
    (h : RefreshLayoutV H cls fuel s self = Except.ok s1) : SizeNonNeg s1 c := by
  unfold RefreshLayoutV at h
  split_ifs at h
  · simp only [Except.ok.injEq] at h
    rw [← h]; exact hs
  · split at h
    · rename_i root hroot
      split at h
      · rename_i s2 u2 h2
        simp only [Except.ok.injEq] at h
        rw [← h]
        exact ArrangeV_nonneg H cls c hmin fuel s root _ _ s2 u2 hs h2
      · simp at h
    · simp at h

/-! ### `Arrange` with the virtual `ArrangeChildren` on a tree without splitters -/

theorem IndexInv.ofSameFixed {s t : State} (h : SameFixed s t) (hi : IndexInv s) : IndexInv t := by
  intro p i c hc
  rw [h.children] at hc
  have := hi p i c hc
  have hf := h c
  have e1 : (t.heap c).parent = (s.heap c).parent := h.parent c
  have e2 : (t.heap c).indexInParent = (s.heap c).indexInParent := by
    have := congrArg Gui.indexInParent hf
    simpa [Gui.fixed] using this
  rw [e1, e2]
  exact this

theorem SameFixed.index {s t : State} (h : SameFixed s t) (m : Nat) :
    (t.heap m).indexInParent = (s.heap m).indexInParent := by
  have h0 := congrArg Gui.indexInParent (h m); exact h0

/-! ### Laid-out splitters anywhere in a tree -/

theorem itemsLengthRounded_id (s : State) (b : Bool) : ∀ (items : List Nat) (acc : ℚ),
    GuiSplitter.ArrangeChildren.itemsLengthRounded id s b acc items =
      GuiSplitter.ArrangeChildren.itemsLength s b acc items := by
  intro items
  induction items with
  | nil => intro acc; rfl
  | cons i rest ih =>
    intro acc
    unfold GuiSplitter.ArrangeChildren.itemsLengthRounded
      GuiSplitter.ArrangeChildren.itemsLength
    cases (s.heap i).parent with
    | none => rfl
    | some c => exact ih _

theorem sizeItemsRounded_id (H : GuiHpp)
    (setRect : State → Nat → ℚ → ℚ → ℚ → ℚ → Bool → Bool → Except ArrangeError State)
    (b : Bool) (T f : ℚ) (self : Nat) : ∀ (items : List Nat) (s : State),
    GuiSplitter.ArrangeChildren.sizeItemsRounded id H setRect b T f self s items =
      GuiSplitter.ArrangeChildren.sizeItems H setRect b T f self s items := by
  intro items
  induction items with
  | nil => intro s; rfl
  | cons i rest ih =>
    intro s
    unfold GuiSplitter.ArrangeChildren.sizeItemsRounded
      GuiSplitter.ArrangeChildren.sizeItems
    cases (s.heap i).parent with
    | none => rfl
    | some c =>
      simp only [id_eq]
      split_ifs
      · rfl
      · cases SetSize H setRect s c (s.heap self).GetContentSizeX
          ((s.heap c).size.y + (s.heap c).size.y / T * f) with
        | error e => rfl
        | ok s1 => exact ih s1
      · cases SetSize H setRect s c ((s.heap c).size.x + (s.heap c).size.x / T * f)
          (s.heap self).GetContentSizeY with
        | error e => rfl
        | ok s1 => exact ih s1

theorem layoutRounded_id (H : GuiHpp)
    (arrange : State → Nat → Vec2 → Vec2 → Except ArrangeError (State × Vec2))
    (b : Bool) (pos : Vec2) : ∀ (l : List Nat) (s : State) (acc : Vec2),
    GuiSplitter.ArrangeChildren.layoutRounded id H arrange b pos s acc l =
      GuiSplitter.ArrangeChildren.layout H arrange b pos s acc l := by
  intro l
  induction l with
  | nil => intro s acc; rfl
  | cons c rest ih =>
    intro s acc
    unfold GuiSplitter.ArrangeChildren.layoutRounded GuiSplitter.ArrangeChildren.layout
    simp only [id_eq]
    cases b with
    | true =>
      simp only [if_true]
      cases arrange s c ⟨pos.x, pos.y + acc.y⟩ (H.GetDesiredSize (s.heap c)) with
      | error e => rfl
      | ok r => exact ih _ _
    | false =>
      simp only [Bool.false_eq_true, if_false]
      cases arrange s c ⟨pos.x + acc.x, pos.y⟩ (H.GetDesiredSize (s.heap c)) with
      | error e => rfl
      | ok r => exact ih _ _

/-- With the identity as rounding, `GuiSplitter.ArrangeChildrenRounded` is
`GuiSplitter.ArrangeChildren`. -/
theorem ArrangeChildrenRounded_id (H : GuiHpp) (fuel : Nat) (sp : GuiSplitter) (s : State)
    (self : Nat) (finalSize : Vec2) :
    GuiSplitter.ArrangeChildrenRounded id H fuel sp s self finalSize =
      GuiSplitter.ArrangeChildren H fuel sp s self finalSize := by
  unfold GuiSplitter.ArrangeChildrenRounded GuiSplitter.ArrangeChildren
    GuiSplitter.ArrangeChildren.bodyRounded GuiSplitter.ArrangeChildren.body
  simp only [itemsLengthRounded_id, sizeItemsRounded_id, layoutRounded_id, id_eq]

/-- One more step of the parent walk does not change where it ends. -/
theorem arrangeRoot_mono (s : State) : ∀ (fuel n root : Nat),
    arrangeRoot fuel s n = some root → arrangeRoot (fuel + 1) s n = some root := by
  intro fuel
  induction fuel with
  | zero => intro n root h; simp [arrangeRoot] at h
  | succ fuel ih =>
    intro n root h
    unfold arrangeRoot at h ⊢
    cases hp : (s.heap n).parent with
    | none => rw [hp] at h; exact h
    | some p => rw [hp] at h; exact ih p root h

theorem arrangeRoot_add (s : State) (n root : Nat) (fuel : Nat)
    (h : arrangeRoot fuel s n = some root) : ∀ d, arrangeRoot (fuel + d) s n = some root := by
  intro d
  induction d with
  | zero => exact h
  | succ d ih => exact arrangeRoot_mono s (fuel + d) n root ih

/-- In a heap with consistent indices the parent walk from a node `m` below `x`, in a
subtree of depth at most `d + 1`, passes through `x` after at most `d` steps: it ends where
the walk from `x` ends. -/
theorem arrangeRoot_of_descendant (s : State) (hidx : IndexInv s) : ∀ (d x m f r : Nat),
    arrangeable s (d + 1) x = true → Descendant s x m → arrangeRoot f s x = some r →
    arrangeRoot (f + d) s m = some r := by
  intro d
  induction d with
  | zero =>
    intro x m f r ha hd hr
    cases hd with
    | self => exact hr
    | child hc _ =>
      have := (arrangeable_succ ha).2 _ hc
      simp [arrangeable] at this
  | succ d ih =>
    intro x m f r ha hd hr
    cases hd with
    | self => exact arrangeRoot_add s x r f hr (d + 1)
    | child hc hcm =>
      rename_i c
      have hac := (arrangeable_succ ha).2 c hc
      have hp := parent_of_mem hidx hc
      have h1 : arrangeRoot (f + 1) s c = some r := by
        unfold arrangeRoot
        rw [hp]
        exact hr
      have := ih c m (f + 1) r hac hcm h1
      rw [show f + (d + 1) = f + 1 + d by omega]
      exact this

/-- The parent walk of `RefreshLayout` from a node `n` of the tree below a node `root`
without a parent ends at `root`, when the subtrees of the children of `root` have depth at
most `fuel`. -/
theorem arrangeRoot_eq_root (s : State) (hidx : IndexInv s) (fuel n root : Nat)
    (hroot : (s.heap root).parent = none) (hn : Descendant s root n)
    (hch : ∀ c ∈ (s.heap root).children, arrangeable s fuel c = true) :
    arrangeRoot (fuel + 1) s n = some root := by
  have h1 : arrangeRoot 1 s root = some root := by
    unfold arrangeRoot
    rw [hroot]
  cases hn with
  | self =>
    rw [show fuel + 1 = 1 + fuel by omega]
    exact arrangeRoot_add s n n 1 h1 fuel
  | child hc hcm =>
    rename_i c
    have hac := hch c hc
    cases fuel with
    | zero => simp [arrangeable] at hac
    | succ d =>
      have h2 : arrangeRoot 2 s c = some root := by
        unfold arrangeRoot
        rw [parent_of_mem hidx hc]
        exact h1
      have := arrangeRoot_of_descendant s hidx d c n 2 root hac hcm h2
      rw [show d + 1 + 1 = 2 + d by omega]
      exact this

/-! ### Lengths that the layout pass keeps -/

theorem KeptLengths.start (o : eGuiOrientation) (tr : List Nat) (s : State) :
    KeptLengths o tr s s := ⟨SameFixed.same s, fun _ _ => rfl⟩

/-- The property of being a laid-out splitter in a tree reads only the items, the
orientation and the separator length of the members. -/
theorem GuiSplitter.Settled.members {H : GuiHpp} {sp sp1 : GuiSplitter} {s : State}
    {p r : Nat} {containers : List Nat} {k : Nat}
    (h : GuiSplitter.Settled H sp s p r containers k) (h1 : sp1.items = sp.items)
    (h2 : sp1.orientation = sp.orientation) (h3 : sp1.separatorLength = sp.separatorLength) :
    GuiSplitter.Settled H sp1 s p r containers k := by
  cases sp
  cases sp1
  simp only at h1 h2 h3
  subst h1 h2 h3
  exact ⟨h.hasItems, h.parents, h.distinct, h.below, h.indices, h.top, h.inTree, h.finite,
    h.stretchNone, h.lengths, h.desired, h.minSize, h.ownStretch, h.ownDesired, h.ownMargin,
    h.ownMin, h.noFreeSpace⟩

/-- A node that is neither above nor below a laid-out splitter has neither the splitter nor
one of its containers below it. -/
theorem GuiSplitter.Settled.apart {H : GuiHpp} {sp : GuiSplitter} {s : State}
    {p r : Nat} {containers : List Nat} {k : Nat}
    (h : GuiSplitter.Settled H sp s p r containers k) {x : Nat}
    (hx : Descendant s p x → x = p) (hxp : ¬ Descendant s x p) :
    ∀ c ∈ p :: containers, ¬ Descendant s x c := by
  intro c hc hd
  rcases List.mem_cons.mp hc with e | hcc
  · subst e; exact hxp hd
  · have hcp := h.below c hcc
    rcases hd.last_step with e | ⟨q, hq, hb⟩
    · subst e
      have := hx (Descendant.child hcp (Descendant.self c))
      subst this
      exact hxp (Descendant.self c)
    · have h1 := parent_of_mem h.indices hb
      have h2 := parent_of_mem h.indices hcp
      rw [h1] at h2
      injection h2 with h2
      subst h2
      exact hxp hq

/-- C16. The splitter `0` built by `AddItem(1)` and `AddItem(2)` has the children container
`3`, separator `4`, container `5`. For `RemoveItem(2)` the index 2 of the container `5` is
stored in a `bool`, so after the container is removed the node chosen as the separator is
`children[0]`, the container `3` of the other item; it is not in `separators`, and the call
ends in `separators.erase(separators.end())`. `RemoveItem(1)`, of the first item, does
remove the container `3` and the separator `4`. -/
theorem C16_RemoveItem_second_item :
    summary (twoItems sampleHpp 300) =
      some ⟨⟨100, 50⟩, ⟨100, 50⟩, [3, 4, 5], [4], [1, 2], false⟩ ∧
    (twoItems sampleHpp 300).toOption.map
      (fun w => ((w.gui.heap 2).parent, (w.gui.heap 5).indexInParent)) = some (some 5, 2) ∧
    GuiSplitter.RemoveItem.separator [3, 4] (decide ((2 : Int) ≠ 0)) = some 3 ∧
    resultError (thenRemoveItem (twoItems sampleHpp 300) 2) = some SplitterError.eraseEnd ∧
    resultError (thenRemoveItem (twoItems plainHpp 300) 2) = some SplitterError.eraseEnd ∧
    summary ((thenRemoveItem (twoItems sampleHpp 300) 1).map Prod.fst) =
      some ⟨⟨100, 50⟩, ⟨100, 50⟩, [5], [], [2], false⟩ := by
  refine ⟨by decide!, by decide!, by decide, by decide!, by decide!, by decide!⟩

/-- C19, counterexample. In scenario 3 (both containers 145 wide) the separator `4` is
entered and pressed, then the pointer leaves it, then the pointer moves by (+20, 0): after
the leave the splitter is still dragging, and the move resizes the containers to 165 and
125. -/
theorem C19_leave_keeps_dragging :
    summary (arrangedItems sampleHpp 300) =
      some ⟨⟨145, 100⟩, ⟨145, 100⟩, [3, 4, 5], [4], [1, 2], false⟩ ∧
    summary (thenEvents sampleHpp (arrangedItems sampleHpp 300)
        [PointerEvent.entered 4, PointerEvent.pressed 4 ⟨150, 10⟩, PointerEvent.leaved 4]) =
      some ⟨⟨145, 100⟩, ⟨145, 100⟩, [3, 4, 5], [4], [1, 2], true⟩ ∧
    summary (thenEvents sampleHpp (arrangedItems sampleHpp 300)
        [PointerEvent.entered 4, PointerEvent.pressed 4 ⟨150, 10⟩, PointerEvent.leaved 4,
          PointerEvent.moved ⟨170, 10⟩]) =
      some ⟨⟨165, 100⟩, ⟨125, 100⟩, [3, 4, 5], [4], [1, 2], true⟩ ∧
    summary (thenEvents plainHpp (arrangedItems plainHpp 300)
        [PointerEvent.entered 4, PointerEvent.pressed 4 ⟨150, 10⟩, PointerEvent.leaved 4,
          PointerEvent.moved ⟨170, 10⟩]) =
      some ⟨⟨165, 100⟩, ⟨125, 100⟩, [3, 4, 5], [4], [1, 2], true⟩ := by
  refine ⟨by decide!, by decide!, by decide!, by decide!⟩

/-- C19 (amended). A pointer-leave on a separator of a splitter that is dragging returns
the world it was given: the splitter stays dragging, nothing of the tree or of the cursor
changes, so the events that follow are handled as if the pointer had not left. A release
handled by a dragging splitter ends the drag and changes nothing of the tree. -/
theorem C19_leave_while_dragging (w : World) (separator p : Nat) (sp : GuiSplitter)
    (hpar : (w.gui.heap separator).parent = some p) (hsp : w.splitter p = some sp)
    (hdrag : sp.bDragging = true) :
    GuiSplitter.onMouseLeaved w separator = Except.ok w ∧
    (∀ (H : GuiHpp) (fuel : Nat) (events : List PointerEvent),
      GuiSplitter.handleAll H fuel p w (PointerEvent.leaved separator :: events) =
        GuiSplitter.handleAll H fuel p w events) ∧
    ∃ w1, GuiSplitter.onMouseReleased w p = Except.ok w1 ∧ w1.gui = w.gui ∧
      (w1.splitter p).map GuiSplitter.bDragging = some false := by
  have hleave : GuiSplitter.onMouseLeaved w separator = Except.ok w := by
    unfold GuiSplitter.onMouseLeaved
    simp [hpar, World.AsSplitter, hsp, hdrag]
  refine ⟨hleave, fun H fuel events => ?_, ?_⟩
  · simp only [GuiSplitter.handleAll, GuiSplitter.handle, hleave]
  · unfold GuiSplitter.onMouseReleased
    simp only [hsp, hdrag, if_true]
    refine ⟨_, rfl, rfl, ?_⟩
    simp [World.setSplitter]

/-- Witness for C19: the world `dragging`, in which the separator `4` of the splitter `0`
is being dragged. -/
theorem C19_leave_while_dragging_witness :
    GuiSplitter.onMouseLeaved dragging 4 = Except.ok dragging ∧
    ∃ w1, GuiSplitter.onMouseReleased dragging 0 = Except.ok w1 ∧ w1.gui = dragging.gui ∧
      (w1.splitter 0).map GuiSplitter.bDragging = some false :=
  have h := C19_leave_while_dragging dragging 4 0
    draggingMembers (by decide) (by decide!) rfl
  ⟨h.1, h.2.2⟩

/-- C18, counterexample. The splitter `0` has no items; the node `12` is no item of it, its
parent `11` is the child of the node `10` of another tree. `RemoveItem(12)` on the splitter
returns true and removes `11` from the children of `10`. For the detached node `1`, which
has no parent, `RemoveItem(1)` dereferences the null parent. -/
theorem C18_RemoveItem_reaches_other_tree :
    (otherTree.splitter 0).map GuiSplitter.items = some [] ∧
    (otherTree.gui.heap 12).parent = some 11 ∧
    (otherTree.gui.heap 10).children = [11] ∧
    (GuiSplitter.RemoveItem otherTree 0 12).toOption.map
      (fun r => (r.2, (r.1.gui.heap 10).children, (r.1.gui.heap 11).parent)) =
      some (true, [], none) ∧
    (otherTree.gui.heap 1).parent = none ∧
    resultError (GuiSplitter.RemoveItem otherTree 0 1) = some SplitterError.nullPointer := by
  refine ⟨by decide, by decide, by decide, by decide, by decide, by decide⟩

/-- C18 (amended). One copy of the move handler or of the release handler run for a
splitter that is not dragging returns the world it was given. `RemoveItem(gui)` on a
splitter, for a `gui` whose parent is a node without a parent, returns false, leaves the
tree and `separators` as they are and erases `gui` from `items`, which changes nothing if
`gui` is no item. -/
theorem C18_not_dragging_noop (H : GuiHpp) (fuel : Nat) (w : World) (this : Nat)
    (sp : GuiSplitter) (hsp : w.splitter this = some sp) :
    (sp.bDragging = false →
      ∀ cursorPos, GuiSplitter.onMouseMoved H fuel w this cursorPos = Except.ok w ∧
        GuiSplitter.onMouseReleased w this = Except.ok w) ∧
    (∀ gui container, (w.gui.heap gui).parent = some container →
      (w.gui.heap container).parent = none →
      GuiSplitter.RemoveItem w this gui =
        Except.ok (w.setSplitter this { sp with items := sp.items.erase gui }, false) ∧
      (gui ∉ sp.items → ∀ n, (w.setSplitter this { sp with items := sp.items.erase gui }).splitter n =
        w.splitter n)) := by
  constructor
  · intro hdrag cursorPos
    constructor
    · unfold GuiSplitter.onMouseMoved
      simp [hsp, hdrag]
    · unfold GuiSplitter.onMouseReleased
      simp [hsp, hdrag]
  · intro gui container hg hc
    constructor
    · unfold GuiSplitter.RemoveItem
      simp only [hsp, hg]
      unfold RemoveFromParent GuiSplitter.RemoveItem.removeSeparator
      simp [hc]
    · intro hni n
      unfold World.setSplitter
      simp only []
      split_ifs with hn
      · subst hn
        rw [hsp, List.erase_of_not_mem hni]
      · rfl

/-- Witness for C18: the world `draggable` (not dragging), and `RemoveItem(11)` for the node
`11` of `otherTree`, whose parent `10` has no parent. -/
theorem C18_not_dragging_noop_witness :
    GuiSplitter.onMouseMoved sampleHpp 3 draggable 0 ⟨170, 10⟩ = Except.ok draggable ∧
    GuiSplitter.onMouseReleased draggable 0 = Except.ok draggable ∧
    (GuiSplitter.RemoveItem otherTree 0 11).toOption.map Prod.snd = some false :=
  ⟨((C18_not_dragging_noop sampleHpp 3 draggable 0 _ rfl).1 rfl ⟨170, 10⟩).1,
    ((C18_not_dragging_noop sampleHpp 3 draggable 0 _ rfl).1 rfl ⟨170, 10⟩).2,
    by rw [((C18_not_dragging_noop sampleHpp 3 otherTree 0 _ rfl).2 11 10 (by decide)
      (by decide)).1]; rfl⟩

theorem leaf_of_child (s : State) (n c m : Nat) (hn : (s.heap n).children = [c])
    (hc : (s.heap c).children = []) : Descendant s n m ↔ m = n ∨ m = c := by
  rw [Descendant.cases_iff, hn]
  simp [leaf_descendant s c m hc]

theorem liftLayout_eq_ok {α : Type} {r : Except ArrangeError α} {a : α}
    (h : liftLayout r = Except.ok a) : r = Except.ok a := by
  cases r with
  | ok b => simpa [liftLayout] using h
  | error e => simp [liftLayout] at h

/-- C14. While a splitter drags (the pointer entered the separator `sep` of the splitter `p`
last; `left` and `right` are the children of `p` next to it, finite subtrees neither of
which is below the other), for every recorded pair of original sizes, every recorded press
position and every cursor position the two `SetSize` calls of the move handler return, and
the sizes they leave in the two containers are at least 0 on both axes. When no minimum
size is negative, the sizes of the two containers are also at least 0 in the world the
whole handler returns, after its `RefreshLayout` calls. -/
theorem C14_drag_sizes_nonneg (H : GuiHpp) (fuel : Nat) (w : World) (this : Nat)
    (sp splitter : GuiSplitter) (cursorPos : Vec2) (sep p left right : Nat)
    (hthis : w.splitter this = some sp) (hdrag : sp.bDragging = true)
    (hsaved : sp.separatorSaved = some sep)
    (hpar : (w.gui.heap sep).parent = some p)
    (hsp : w.splitter p = some splitter)
    (hleft : GetChild w.gui p ((w.gui.heap sep).indexInParent - 1) = Except.ok left)
    (hright : GetChild w.gui p ((w.gui.heap sep).indexInParent + 1) = Except.ok right)
    (haL : arrangeable w.gui (fuel + 1) left = true)
    (haR : arrangeable w.gui (fuel + 1) right = true)
    (hLR : ¬ Descendant w.gui left right) (hRL : ¬ Descendant w.gui right left) :
    (∃ s2, GuiSplitter.onMouseMoved.resize H (fuel + 1) w sp cursorPos =
        Except.ok (s2, left, right) ∧ SizeNonNeg s2 left ∧ SizeNonNeg s2 right) ∧
    ((∀ g, 0 ≤ H.GetMinSizeX g ∧ 0 ≤ H.GetMinSizeY g) →
      ∀ w2, GuiSplitter.onMouseMoved H (fuel + 1) w this cursorPos = Except.ok w2 →
        SizeNonNeg w2.gui left ∧ SizeNonNeg w2.gui right) := by
  obtain ⟨s2, h2, -, hL, hR, -⟩ := resize_spec H fuel w sp splitter cursorPos sep p left right
    hsaved hpar hsp hleft hright haL haR hLR hRL
  have hnL : SizeNonNeg s2 left := by
    unfold SizeNonNeg
    rw [hL]
    exact ⟨le_max_of_le_left (le_max_left _ _), le_max_of_le_left (le_max_left _ _)⟩
  have hnR : SizeNonNeg s2 right := by
    unfold SizeNonNeg
    rw [hR]
    exact ⟨le_max_of_le_left (le_max_left _ _), le_max_of_le_left (le_max_left _ _)⟩
  refine ⟨⟨s2, h2, hnL, hnR⟩, fun hmin w2 hw2 => ?_⟩
  unfold GuiSplitter.onMouseMoved at hw2
  simp only [hthis, hdrag, if_true, h2] at hw2
  split at hw2
  · simp at hw2
  · rename_i s3 h3
    split at hw2
    · simp at hw2
    · rename_i s4 h4
      simp only [Except.ok.injEq] at hw2
      rw [← hw2]
      have k3 := liftLayout_eq_ok h3
      have k4 := liftLayout_eq_ok h4
      exact ⟨RefreshLayoutV_nonneg H _ left hmin _ s3 right s4
          (RefreshLayoutV_nonneg H _ left hmin _ s2 left s3 hnL k3) k4,
        RefreshLayoutV_nonneg H _ right hmin _ s3 right s4
          (RefreshLayoutV_nonneg H _ right hmin _ s2 left s3 hnR k3) k4⟩

theorem draggable_not_below :
    ¬ Descendant dragging.gui 3 5 ∧ ¬ Descendant dragging.gui 5 3 := by
  constructor
  · rw [leaf_of_child dragging.gui 3 1 5 (by decide) (by decide)]; decide
  · rw [leaf_of_child dragging.gui 5 2 3 (by decide) (by decide)]; decide

/-- Witness for C14: the world `dragging` (both containers recorded as 145x100, pressed at
(150, 10)) with the cursor at (-500, 10), 650 to the left of the press; and the same drag
run from `AddItem` on, after which the containers are 0 and 290 wide. -/
theorem C14_drag_sizes_nonneg_witness :
    (∃ s2, GuiSplitter.onMouseMoved.resize sampleHpp 2 dragging draggingMembers ⟨-500, 10⟩ =
        Except.ok (s2, 3, 5) ∧ SizeNonNeg s2 3 ∧ SizeNonNeg s2 5) ∧
    summary (thenEvents sampleHpp (arrangedItems sampleHpp 300)
        [PointerEvent.entered 4, PointerEvent.pressed 4 ⟨150, 10⟩,
          PointerEvent.moved ⟨-500, 10⟩]) =
      some ⟨⟨0, 100⟩, ⟨290, 100⟩, [3, 4, 5], [4], [1, 2], true⟩ :=
  ⟨(C14_drag_sizes_nonneg sampleHpp 1 dragging 0 draggingMembers draggingMembers ⟨-500, 10⟩
    4 0 3 5 (by decide!) rfl rfl (by decide) (by decide!) (by decide) (by decide) (by decide)
    (by decide) draggable_not_below.1 draggable_not_below.2).1, by decide!⟩

theorem derefParent_root (s : State) (self : Nat) (hp : (s.heap self).parent = none) :
    derefParent s self = Except.error ArrangeError.nullParent := by
  unfold derefParent
  rw [hp]

/-- The fill-parent block of `Arrange` on a node without a parent, with one of the four
fill flags set: the first condition that holds reads `parent->`. -/
theorem fillParent_root (s : State) (self : Nat) (f : StretchFlags) (np ns : Vec2)
    (hp : (s.heap self).parent = none)
    (hf : ((f.bFillParentHor || f.bFillParentVer) ||
      (f.bFillParentPositibeDirHor || f.bFillParentPositibeDirVer)) = true) :
    Arrange.fillParent s self f np ns = Except.error ArrangeError.nullParent := by
  unfold Arrange.fillParent
  rw [derefParent_root s self hp]
  cases h1 : f.bFillParentHor <;> cases h2 : f.bFillParentVer <;>
    cases h3 : f.bFillParentPositibeDirHor <;> cases h4 : f.bFillParentPositibeDirVer <;>
    simp_all

/-- The alignment switches of `Arrange` on a node without a parent that is aligned TOP,
BOTTOM, LEFT or RIGHT: the case reads `parent->`. -/
theorem align_root_reads (s : State) (self : Nat) (np ns : Vec2)
    (hp : (s.heap self).parent = none)
    (ha : (s.heap self).alignVer = eGuiAlignVer.TOP ∨
      (s.heap self).alignVer = eGuiAlignVer.BOTTOM ∨
      (s.heap self).alignHor = eGuiAlignHor.LEFT ∨
      (s.heap self).alignHor = eGuiAlignHor.RIGHT) :
    Arrange.align s self np ns = Except.error ArrangeError.nullParent := by
  unfold Arrange.align
  rw [derefParent_root s self hp]
  cases h1 : (s.heap self).alignVer <;> cases h2 : (s.heap self).alignHor <;>
    simp_all

/-- The call `Arrange` on a node without a parent that reads `parent->` (a fill axis or an
alignment TOP, BOTTOM, LEFT or RIGHT, no pending fit-to-children override), with finite
subtrees below it, ends in the read of the null parent. -/
theorem Arrange_root_reads (H : GuiHpp) (fuel : Nat) (s : State) (self : Nat)
    (pos size : Vec2)
    (hroot : (s.heap self).parent = none)
    (hforce : (s.heap self).bForceFitToChildren = false)
    (huses : (s.heap self).usesParent = true)
    (hch : ∀ c ∈ (s.heap self).children, arrangeable s fuel c = true) :
    Arrange H (fuel + 1) s self pos size = Except.error ArrangeError.nullParent := by
  have h0 : Arrange.resetForceFit s self = s := by
    unfold Arrange.resetForceFit
    simp [hforce]
  obtain ⟨s3, ns3, h3, hn3⟩ := fitToChildren_spec H (Arrange H fuel) s self
    (Arrange.flags (s.heap self)) size
    (fun t c p z hc ht => Arrange_spec H fuel t c p z (by
      rw [arrangeable_congr ht]; exact hch c hc))
  have hp3 : (s3.heap self).parent = none := by rw [hn3.1.parent]; exact hroot
  unfold Arrange
  simp only [h0, h3]
  by_cases hf : (((Arrange.flags (s.heap self)).bFillParentHor ||
      (Arrange.flags (s.heap self)).bFillParentVer) ||
      ((Arrange.flags (s.heap self)).bFillParentPositibeDirHor ||
        (Arrange.flags (s.heap self)).bFillParentPositibeDirVer)) = true
  · unfold Arrange.fill
    simp only [hf, if_true, fillParent_root s3 self _ pos ns3 hp3 hf]
  · have ha : (s.heap self).alignVer = eGuiAlignVer.TOP ∨
        (s.heap self).alignVer = eGuiAlignVer.BOTTOM ∨
        (s.heap self).alignHor = eGuiAlignHor.LEFT ∨
        (s.heap self).alignHor = eGuiAlignHor.RIGHT := by
      unfold Arrange.flags at hf
      unfold Gui.usesParent at huses
      cases h1 : (s.heap self).stretchHor <;> cases h2 : (s.heap self).stretchVer <;>
        cases h5 : (s.heap self).alignVer <;> cases h6 : (s.heap self).alignHor <;>
        simp_all
    have ha3 : (s3.heap self).alignVer = eGuiAlignVer.TOP ∨
        (s3.heap self).alignVer = eGuiAlignVer.BOTTOM ∨
        (s3.heap self).alignHor = eGuiAlignHor.LEFT ∨
        (s3.heap self).alignHor = eGuiAlignHor.RIGHT := by
      have e1 : (s3.heap self).alignVer = (s.heap self).alignVer := by
        have h0 := congrArg Gui.alignVer (hn3.1 self); exact h0
      have e2 : (s3.heap self).alignHor = (s.heap self).alignHor := by
        have h0 := congrArg Gui.alignHor (hn3.1 self); exact h0
      rw [e1, e2]
      exact ha
    unfold Arrange.fill
    simp only [hf, if_false, Bool.false_eq_true, align_root_reads s3 self pos ns3 hp3 ha3]

/-- C22. `Arrange` on a node without a parent that has a FILL_PARENT or
FILL_PARENT_POSITIVE_DIR axis or is aligned TOP, BOTTOM, LEFT or RIGHT (and has no pending
fit-to-children override), with finite subtrees below it: the call does not complete, it
reads `parent->` of the null parent. -/
theorem C22_root_reads_parent (H : GuiHpp) (fuel : Nat) (s : State) (self : Nat)
    (pos size : Vec2)
    (hroot : (s.heap self).parent = none)
    (hforce : (s.heap self).bForceFitToChildren = false)
    (huses : (s.heap self).usesParent = true)
    (hch : ∀ c ∈ (s.heap self).children, arrangeable s fuel c = true) :
    Arrange H (fuel + 1) s self pos size = Except.error ArrangeError.nullParent :=
  Arrange_root_reads H fuel s self pos size hroot hforce huses hch

/-- Witness for C22: the root `0` of 400x300 with stretch FILL_PARENT on the horizontal
axis; also evaluated for the root aligned LEFT, the root aligned TOP and the root with
FILL_PARENT_POSITIVE_DIR on the vertical axis, through `RefreshLayout` too. A root aligned
CENTER on both axes is arranged and keeps the proposed position. -/
theorem C22_root_reads_parent_witness :
    Arrange sampleHpp 2 (rootWith eGuiStretch.FILL_PARENT eGuiStretch.NONE eGuiAlignHor.NONE
      eGuiAlignVer.NONE) 0 ⟨0, 0⟩ ⟨400, 300⟩ = Except.error ArrangeError.nullParent ∧
    resultError (Arrange plainHpp 2 (rootWith eGuiStretch.NONE eGuiStretch.NONE
      eGuiAlignHor.LEFT eGuiAlignVer.NONE) 0 ⟨0, 0⟩ ⟨400, 300⟩) =
        some ArrangeError.nullParent ∧
    resultError (Arrange sampleHpp 2 (rootWith eGuiStretch.NONE eGuiStretch.NONE
      eGuiAlignHor.NONE eGuiAlignVer.TOP) 0 ⟨0, 0⟩ ⟨400, 300⟩) =
        some ArrangeError.nullParent ∧
    resultError (RefreshLayout sampleHpp 2 (rootWith eGuiStretch.NONE
      eGuiStretch.FILL_PARENT_POSITIVE_DIR eGuiAlignHor.NONE eGuiAlignVer.NONE) 0) =
        some ArrangeError.nullParent ∧
    (resultNode (Arrange sampleHpp 2 (rootWith eGuiStretch.NONE eGuiStretch.NONE
      eGuiAlignHor.CENTER eGuiAlignVer.CENTER) 0 ⟨7, 9⟩ ⟨400, 300⟩) 0).map Gui.pos =
        some ⟨7, 9⟩ :=
  ⟨C22_root_reads_parent sampleHpp 1 _ 0 ⟨0, 0⟩ ⟨400, 300⟩ (by decide) (by decide)
      (by decide) (by decide),
    by decide!, by decide!, by decide!, by decide!⟩

/-- C26. A splitter with at least one item, every item having a parent, whose item
containers have lengths along the orientation that add up to 0: the second loop of
`GuiSplitter::ArrangeChildren` divides the size of the first container by
`itemsLength = 0`, so the call assigns no length of the model to any container. -/
theorem C26_divides_by_itemsLength (H : GuiHpp) (sp : GuiSplitter)
    (setRect : State → Nat → ℚ → ℚ → ℚ → ℚ → Bool → Bool → Except ArrangeError State)
    (arrange : State → Nat → Vec2 → Vec2 → Except ArrangeError (State × Vec2))
    (s : State) (self : Nat) (finalSize : Vec2) (containers : List Nat)
    (hne : sp.items ≠ [])
    (hcont : sp.items.map (fun i => (s.heap i).parent) = containers.map some)
    (hT : GuiSplitter.itemsLengthOf sp.orientation s containers = 0) :
    GuiSplitter.ArrangeChildren.body H sp setRect arrange s self finalSize =
      Except.error ArrangeError.divisionByZero := by
  unfold GuiSplitter.ArrangeChildren.body
  have hl : ¬ sp.items.length = 0 := fun h => hne (List.length_eq_zero.mp h)
  simp only [hl, if_false, itemsLength_eq s sp.orientation sp.items containers 0 hcont,
    zero_add]
  have hT2 : (containers.map (fun c => sp.orientation.along (s.heap c).size)).sum = 0 := hT
  rw [hT2]
  cases hi : sp.items with
  | nil => exact absurd hi hne
  | cons item rest =>
    rw [hi] at hcont
    cases containers with
    | nil => simp at hcont
    | cons c cs =>
      simp only [List.map_cons, List.cons.injEq] at hcont
      unfold GuiSplitter.ArrangeChildren.sizeItems
      simp only [hcont.1, if_true]

/-- Witness for C26: the splitter `0` of content width 300 whose two item containers are 0
wide; also evaluated through `GuiSplitter::ArrangeChildren` and `RefreshLayout` for a
splitter with containers 0 wide, and for the splitter built by one `AddItem` of an item of
size 0x0, for two choices of the `Gui.hpp` members. -/
theorem C26_divides_by_itemsLength_witness :
    GuiSplitter.ArrangeChildren.body sampleHpp draggableMembers (SetRect sampleHpp 2)
      (Arrange sampleHpp 2) (splitterTree 300 0 0) 0 ⟨300, 100⟩ =
      Except.error ArrangeError.divisionByZero ∧
    GuiSplitter.freeSpaceOf draggableMembers (splitterTree 300 0 0) 0 [3, 5] = 290 ∧
    resultError (GuiSplitter.ArrangeChildren plainHpp 2 draggableMembers
      (splitterTree 300 0 0) 0 ⟨300, 100⟩) = some ArrangeError.divisionByZero ∧
    resultError (RefreshLayoutV sampleHpp
      (fun n => if n = 0 then some draggableMembers else none) 4
      ((splitterTree 300 0 0).modify 0 (fun g => { g with bLayoutNeedRefresh := true })) 0) =
      some ArrangeError.divisionByZero ∧
    resultError (emptyItemArranged sampleHpp) =
      some (SplitterError.layout ArrangeError.divisionByZero) ∧
    resultError (emptyItemArranged plainHpp) =
      some (SplitterError.layout ArrangeError.divisionByZero) :=
  ⟨C26_divides_by_itemsLength sampleHpp draggableMembers _ _ (splitterTree 300 0 0) 0
      ⟨300, 100⟩ [3, 5] (by decide) (by decide) (by decide!),
    by decide!, by decide!, by decide!, by decide!, by decide!⟩

/-! ## `RefreshLayout` from a node of a tree -/

/-- In a heap with consistent indices, let `root` have no parent, `n` be a dirty node of the
tree below `root`, and that tree be finite with every node that reads its parent having
one. Then `n.RefreshLayout()` returns, and afterwards the dirty flag is false on every node
of the tree (`root`, `n` and all other descendants of `root`). Likewise `Arrange` on any
node `x` of such a tree returns and leaves the flag false on `x` and all its descendants. -/
theorem RefreshLayout_cleans_tree (H : GuiHpp) (fuel : Nat) (s : State) (n root : Nat)
    (hidx : IndexInv s)
    (hdirty : (s.heap n).bLayoutNeedRefresh = true)
    (hroot : (s.heap root).parent = none) (hn : Descendant s root n)
    (htree : arrangeable s (fuel + 1) root = true) :
    (∃ s1, RefreshLayout H (fuel + 1) s n = Except.ok s1 ∧
      (s1.heap n).bLayoutNeedRefresh = false ∧
      ∀ m, Descendant s root m → (s1.heap m).bLayoutNeedRefresh = false) ∧
    (∀ (x : Nat) (pos size : Vec2), arrangeable s (fuel + 1) x = true →
      ∃ s2 u, Arrange H (fuel + 1) s x pos size = Except.ok (s2, u) ∧
        ∀ m, Descendant s x m → (s2.heap m).bLayoutNeedRefresh = false) := by
  constructor
  · obtain ⟨s1, u, h1, hc⟩ := Arrange_spec H (fuel + 1) s root (s.heap root).pos
      (s.heap root).size htree
    refine ⟨s1, ?_, hc.2 n hn, hc.2⟩
    unfold RefreshLayout
    rw [if_neg (by rw [hdirty]; simp),
      arrangeRoot_eq_root s hidx fuel n root hroot hn (arrangeable_succ htree).2]
    simp only [h1]
  · intro x pos size hx
    obtain ⟨s2, u, h2, hc⟩ := Arrange_spec H (fuel + 1) s x pos size hx
    exact ⟨s2, u, h2, hc.2⟩

/-- In scenario 1, `RefreshLayout` called on the dirty node `1` below the root `0`. -/
theorem RefreshLayout_cleans_scenario1 :
    ∃ s1, RefreshLayout sampleHpp 3 scenario1 1 = Except.ok s1 ∧
      (s1.heap 1).bLayoutNeedRefresh = false ∧
      ∀ m, Descendant scenario1 0 m → (s1.heap m).bLayoutNeedRefresh = false :=
  (RefreshLayout_cleans_tree sampleHpp 2 scenario1 1 0 TreeInv_scenario1.1 (by decide)
    (by decide) (Descendant.child (by decide) (Descendant.self 1)) (by decide)).1

/-- C8. In a heap with consistent indices, let `root` be a node without a parent that has a
FILL_PARENT or FILL_PARENT_POSITIVE_DIR axis or is aligned TOP, BOTTOM, LEFT or RIGHT (no
pending fit-to-children override), and `n` a dirty node of the finite tree below it, `root`
itself included. Then `n.RefreshLayout()` walks up to `root` and calls `Arrange` on it,
which reads `parent->` of the null parent: the call does not complete, and no dirty flag of
the tree is cleared. -/
theorem C8_RefreshLayout_root_reads_parent (H : GuiHpp) (fuel : Nat) (s : State)
    (n root : Nat) (hidx : IndexInv s)
    (hdirty : (s.heap n).bLayoutNeedRefresh = true)
    (hroot : (s.heap root).parent = none) (hn : Descendant s root n)
    (hforce : (s.heap root).bForceFitToChildren = false)
    (huses : (s.heap root).usesParent = true)
    (hch : ∀ c ∈ (s.heap root).children, arrangeable s fuel c = true) :
    arrangeRoot (fuel + 1) s n = some root ∧
    Arrange H (fuel + 1) s root (s.heap root).pos (s.heap root).size =
      Except.error ArrangeError.nullParent ∧
    RefreshLayout H (fuel + 1) s n = Except.error ArrangeError.nullParent := by
  have hwalk := arrangeRoot_eq_root s hidx fuel n root hroot hn hch
  have harr := Arrange_root_reads H fuel s root (s.heap root).pos (s.heap root).size hroot
    hforce huses hch
  refine ⟨hwalk, harr, ?_⟩
  unfold RefreshLayout
  rw [if_neg (by rw [hdirty]; simp), hwalk]
  simp only [harr]

theorem TreeInv_rootWith (hor ver : eGuiStretch) (alignHor : eGuiAlignHor)
    (alignVer : eGuiAlignVer) : TreeInv (rootWith hor ver alignHor alignVer) := by
  unfold rootWith
  exact TreeInv_modify _ _ _ (TreeInv_modify _ _ _ (TreeInv_AddGui _ 0 1 true TreeInv_fresh)
    rfl rfl rfl) rfl rfl rfl

/-- Witness for C8: the root `0` of 400x300 with stretch FILL_PARENT on the horizontal axis
and its child `1`, both dirty; `RefreshLayout` on the child. Also evaluated for
`RefreshLayout` on the root, and for the root aligned LEFT with the other choice of the
`Gui.hpp` members. With stretch NONE and no alignment the same call returns and cleans both
nodes. -/
theorem C8_RefreshLayout_root_reads_parent_witness :
    (arrangeRoot 2 (dirtyTree eGuiStretch.FILL_PARENT eGuiAlignHor.NONE) 1 = some 0 ∧
      Arrange sampleHpp 2 (dirtyTree eGuiStretch.FILL_PARENT eGuiAlignHor.NONE) 0
        ((dirtyTree eGuiStretch.FILL_PARENT eGuiAlignHor.NONE).heap 0).pos
        ((dirtyTree eGuiStretch.FILL_PARENT eGuiAlignHor.NONE).heap 0).size =
        Except.error ArrangeError.nullParent ∧
      RefreshLayout sampleHpp 2 (dirtyTree eGuiStretch.FILL_PARENT eGuiAlignHor.NONE) 1 =
        Except.error ArrangeError.nullParent) ∧
    [0, 1].map (fun m =>
      ((dirtyTree eGuiStretch.FILL_PARENT eGuiAlignHor.NONE).heap m).bLayoutNeedRefresh) =
      [true, true] ∧
    resultError (RefreshLayout sampleHpp 2
      (dirtyTree eGuiStretch.FILL_PARENT eGuiAlignHor.NONE) 0) =
      some ArrangeError.nullParent ∧
    resultError (RefreshLayout plainHpp 2
      (dirtyTree eGuiStretch.NONE eGuiAlignHor.LEFT) 1) = some ArrangeError.nullParent ∧
    (match RefreshLayout sampleHpp 2 (dirtyTree eGuiStretch.NONE eGuiAlignHor.NONE) 1 with
      | Except.ok t => some [(t.heap 0).bLayoutNeedRefresh, (t.heap 1).bLayoutNeedRefresh]
      | Except.error _ => none) = some [false, false] :=
  ⟨C8_RefreshLayout_root_reads_parent sampleHpp 1
      (dirtyTree eGuiStretch.FILL_PARENT eGuiAlignHor.NONE) 1 0
      (TreeInv_modify _ _ _ (TreeInv_rootWith _ _ _ _) rfl rfl rfl).1
      (by decide) (by decide) (Descendant.child (by decide) (Descendant.self 1))
      (by decide) (by decide) (by decide),
    by decide, by decide!, by decide!, by decide!⟩


/-! ### The transient flags through the layout pass -/

theorem SameFixed.fillsParent {s t : State} (h : SameFixed s t) (m : Nat) :
    (t.heap m).fillsParent ↔ (s.heap m).fillsParent := by
  unfold Gui.fillsParent
  rw [(h.stretch m).1, (h.stretch m).2]

/-- The call `SetRect` writes neither transient flag of any node. -/
theorem SetRect_flags (H : GuiHpp) (m : Nat) (a b : Bool) (fuel : Nat) :
    ∀ (s : State) (n : Nat) (x y w h : ℚ) (b1 b2 : Bool) (s1 : State),
      ((s.heap m).bForceFitToChildren = a ∧ (s.heap m).bFillParentEnabled = b) →
      SetRect H fuel s n x y w h b1 b2 = Except.ok s1 →
      (s1.heap m).bForceFitToChildren = a ∧ (s1.heap m).bFillParentEnabled = b := by
  induction fuel with
  | zero => intro s n x y w h b1 b2 s1 _ hr; simp [SetRect] at hr
  | succ fuel ih =>
    intro s n x y w h b1 b2 s1 hs hr
    unfold SetRect at hr
    simp only [] at hr
    have hw : ∀ (t : State) (k : Nat) (f : Gui → Gui),
        ((f (t.heap k)).bForceFitToChildren = (t.heap k).bForceFitToChildren ∧
          (f (t.heap k)).bFillParentEnabled = (t.heap k).bFillParentEnabled) →
        ((t.heap m).bForceFitToChildren = a ∧ (t.heap m).bFillParentEnabled = b) →
        ((t.modify k f).heap m).bForceFitToChildren = a ∧
          ((t.modify k f).heap m).bFillParentEnabled = b := by
      intro t k f hf ht
      rw [State.modify_heap]
      split_ifs with e
      · subst e; rw [hf.1, hf.2]; exact ht
      · exact ht
    have h1 := hw s n (fun g =>
        { g with
          pos := ⟨x, y⟩
          size := ⟨max w (H.GetMinSizeX (s.heap n)), max h (H.GetMinSizeY (s.heap n))⟩ })
      ⟨rfl, rfl⟩ hs
    revert hr
    generalize (s.modify n (fun g =>
        { g with
          pos := ⟨x, y⟩
          size := ⟨max w (H.GetMinSizeX (s.heap n)), max h (H.GetMinSizeY (s.heap n))⟩ })) = t0
      at h1 ⊢
    generalize (t0.heap n).GetRect = rect
    generalize (s.heap n).GetRect = oldRect
    intro hr
    have hchange : ∀ t bp bs,
        ((t.heap m).bForceFitToChildren = a ∧ (t.heap m).bFillParentEnabled = b) →
        ((SetRect.notifyChange t n rect bp bs b2).heap m).bForceFitToChildren = a ∧
          ((SetRect.notifyChange t n rect bp bs b2).heap m).bFillParentEnabled = b := by
      intro t bp bs ht
      unfold SetRect.notifyChange
      cases bp <;> cases bs <;> cases b2 <;>
        simp only [if_true, if_false, Bool.false_eq_true]
      · exact ht
      · exact ht
      · exact ht
      · exact hw _ n _ ⟨rfl, rfl⟩ ht
      · exact ht
      · exact ht
      · exact ht
      · exact hw _ n _ ⟨rfl, rfl⟩ ht
    unfold SetRect.commit at hr
    simp only [] at hr
    split_ifs at hr with hrect
    · cases hloop : SetRect.notifyChildren
          (SetRect.move H (SetRect H fuel) b1
            ⟨rect.GetPos.x - oldRect.GetPos.x, rect.GetPos.y - oldRect.GetPos.y⟩)
          rect t0 (t0.heap n).children with
      | error e => rw [hloop] at hr; simp at hr
      | ok t2 =>
        rw [hloop] at hr
        simp only [Except.ok.injEq] at hr
        subst hr
        apply hchange
        have h2 : (t2.heap m).bForceFitToChildren = a ∧ (t2.heap m).bFillParentEnabled = b := by
          unfold SetRect.notifyChildren at hloop
          refine forEachChild_keeps _
            (fun t => (t.heap m).bForceFitToChildren = a ∧ (t.heap m).bFillParentEnabled = b)
            ?_ _ t0 t2 h1 hloop
          intro t ch t1 ht hb
          simp only [] at hb
          cases hm : SetRect.move H (SetRect H fuel) b1
              ⟨rect.GetPos.x - oldRect.GetPos.x, rect.GetPos.y - oldRect.GetPos.y⟩ t ch with
          | error e => rw [hm] at hb; simp at hb
          | ok t3 =>
            rw [hm] at hb
            simp only [Except.ok.injEq] at hb
            subst hb
            have h3 : (t3.heap m).bForceFitToChildren = a ∧
                (t3.heap m).bFillParentEnabled = b := by
              unfold SetRect.move at hm
              split_ifs at hm
              · exact ih _ _ _ _ _ _ _ _ _ ht hm
              · simp only [Except.ok.injEq] at hm
                subst hm; exact ht
            exact h3
        rw [notifySelf_heap]
        exact h2
    · simp only [Except.ok.injEq] at hr
      subst hr
      exact hchange _ _ _ h1

theorem forceFit_other (m : Nat) :
    ∀ (l : List Nat) (s : State), m ∉ l → (Arrange.forceFit s l).heap m = s.heap m := by
  intro l
  induction l with
  | nil => intro s _; rfl
  | cons c rest ih =>
    intro s hm
    unfold Arrange.forceFit
    rw [ih _ (fun h => hm (List.mem_cons_of_mem _ h))]
    have hne : m ≠ c := fun e => hm (e ▸ List.mem_cons_self _ _)
    split_ifs
    · exact State.modify_heap_of_ne _ _ hne
    · rfl

theorem forceFit_enabled (m : Nat) :
    ∀ (l : List Nat) (s : State),
      ((Arrange.forceFit s l).heap m).bFillParentEnabled = (s.heap m).bFillParentEnabled := by
  intro l
  induction l with
  | nil => intro s; rfl
  | cons c rest ih =>
    intro s
    unfold Arrange.forceFit
    rw [ih]
    split_ifs
    · rw [State.modify_heap]
      split_ifs with e
      · subst e; rfl
      · rfl
    · rfl

theorem enableFill_other (m : Nat) :
    ∀ (l : List Nat) (s : State), m ∉ l → (Arrange.enableFill s l).heap m = s.heap m := by
  intro l
  induction l with
  | nil => intro s _; rfl
  | cons c rest ih =>
    intro s hm
    unfold Arrange.enableFill
    rw [ih _ (fun h => hm (List.mem_cons_of_mem _ h))]
    have hne : m ≠ c := fun e => hm (e ▸ List.mem_cons_self _ _)
    split_ifs
    · exact State.modify_heap_of_ne _ _ hne
    · rfl

theorem enableFill_force (m : Nat) :
    ∀ (l : List Nat) (s : State),
      ((Arrange.enableFill s l).heap m).bForceFitToChildren =
        (s.heap m).bForceFitToChildren := by
  intro l
  induction l with
  | nil => intro s; rfl
  | cons c rest ih =>
    intro s
    unfold Arrange.enableFill
    rw [ih]
    split_ifs
    · rw [State.modify_heap]
      split_ifs with e
      · subst e; rfl
      · rfl
    · rfl

theorem enableFill_enabled (m : Nat) :
    ∀ (l : List Nat) (s : State),
      ((Arrange.enableFill s l).heap m).bFillParentEnabled = true →
      (s.heap m).bFillParentEnabled = true ∨ (m ∈ l ∧ (s.heap m).fillsParent) := by
  intro l
  induction l with
  | nil => intro s h; exact Or.inl h
  | cons c rest ih =>
    intro s h
    unfold Arrange.enableFill at h
    split_ifs at h with hc
    · rcases ih _ h with h1 | ⟨h1, h2⟩
      · rw [State.modify_heap] at h1
        split_ifs at h1 with e
        · subst e
          exact Or.inr ⟨List.mem_cons_self _ _, hc⟩
        · exact Or.inl h1
      · refine Or.inr ⟨List.mem_cons_of_mem _ h1, ?_⟩
        rw [State.modify_heap] at h2
        split_ifs at h2 with e
        · subst e; exact hc
        · exact h2
    · rcases ih _ h with h1 | ⟨h1, h2⟩
      · exact Or.inl h1
      · exact Or.inr ⟨List.mem_cons_of_mem _ h1, h2⟩



/-- The loop of `ArrangeChildren` over children `l` of `n`, for an `arrange` that makes a
`FlagStep` on every child: when no flag is set strictly below `n` outside `l`, and a member
of `l` with `bFillParentEnabled` set has a fill axis and no `bForceFitToChildren`, then
after the loop no flag is set strictly below `n`. -/
theorem loop_flags (H : GuiHpp)
    (arrange : State → Nat → Vec2 → Vec2 → Except ArrangeError (State × Vec2))
    (s : State) (n : Nat) (hidx : IndexInv s)
    (hacyc : ∀ c ∈ (s.heap n).children, ¬ Descendant s c n)
    (hstep : ∀ t c p z t1 u, c ∈ (s.heap n).children → SameFixed s t →
      (∀ m, Descendant s c m → m ≠ c → FlagsClear t m) →
      arrange t c p z = Except.ok (t1, u) → StepOk t c t1 ∧ FlagStep t c t1) :
    ∀ (l : List Nat), l.Nodup → (∀ c ∈ l, c ∈ (s.heap n).children) →
    ∀ (t : State) (acc : Vec2) (t1 : State) (u : Vec2), SameFixed s t →
      (∀ m, Descendant s n m → m ≠ n → m ∉ l → FlagsClear t m) →
      (∀ c ∈ l, (t.heap c).bFillParentEnabled = true →
        (t.heap c).bForceFitToChildren = false ∧ (t.heap c).fillsParent) →
      ArrangeChildren.loop H arrange t acc l = Except.ok (t1, u) →
      SameFixed s t1 ∧ (∀ m, (∀ c ∈ l, ¬ Descendant s c m) → t1.heap m = t.heap m) ∧
      (∀ m, Descendant s n m → m ≠ n → FlagsClear t1 m) := by
  intro l
  induction l with
  | nil =>
    intro _ _ t acc t1 u ht hA _ h
    simp only [ArrangeChildren.loop, Except.ok.injEq, Prod.mk.injEq] at h
    obtain ⟨h, -⟩ := h
    subst h
    exact ⟨ht, fun _ _ => rfl, fun m hm hne => hA m hm hne (List.not_mem_nil m)⟩
  | cons c rest ih =>
    intro hnd hl t acc t1 u ht hA hB h
    have hc : c ∈ (s.heap n).children := hl c (List.mem_cons_self _ _)
    have hcr : c ∉ rest := (List.nodup_cons.mp hnd).1
    unfold ArrangeChildren.loop at h
    cases harr : arrange t c (t.heap c).pos (H.GetDesiredSize (t.heap c)) with
    | error e => rw [harr] at h; simp at h
    | ok r =>
      obtain ⟨t2, u2⟩ := r
      rw [harr] at h
      simp only [] at h
      have hpre : ∀ m, Descendant s c m → m ≠ c → FlagsClear t m := by
        intro m hd hne
        refine hA m (Descendant.child hc hd) (fun e => hacyc c hc (e ▸ hd)) ?_
        intro hm
        rcases List.mem_cons.mp hm with e | e
        · exact hne e
        · exact sibling_not_below hidx hacyc hc (hl m hm) (fun e2 => hne e2.symm) hd
      obtain ⟨hst, hfs⟩ := hstep t c _ _ t2 u2 hc ht hpre harr
      have hcclear : FlagsClear t2 c := by
        refine ⟨hfs.force, ?_⟩
        cases hen : (t2.heap c).bFillParentEnabled with
        | false => rfl
        | true =>
          obtain ⟨h1, h2⟩ := hfs.enabled hen
          obtain ⟨h3, h4⟩ := hB c (List.mem_cons_self _ _) h1
          rcases h2 with h2 | h2
          · rw [h3] at h2; exact absurd h2 (by simp)
          · exact absurd h4 h2
      have hA2 : ∀ m, Descendant s n m → m ≠ n → m ∉ rest → FlagsClear t2 m := by
        intro m hd hne hm
        by_cases hdc : Descendant s c m
        · by_cases e : m = c
          · subst e; exact hcclear
          · exact hfs.below m ((Descendant.congr_iff ht c m).mpr hdc) e
        · have hsame : t2.heap m = t.heap m :=
            hst.2 m (fun hd2 => hdc ((Descendant.congr_iff ht c m).mp hd2))
          unfold FlagsClear
          rw [hsame]
          refine hA m hd hne ?_
          intro hm2
          rcases List.mem_cons.mp hm2 with e | e
          · exact hdc (by rw [e]; exact Descendant.self c)
          · exact hm e
      have hB2 : ∀ c2 ∈ rest, (t2.heap c2).bFillParentEnabled = true →
          (t2.heap c2).bForceFitToChildren = false ∧ (t2.heap c2).fillsParent := by
        intro c2 hc2
        have hne : c ≠ c2 := fun e => hcr (e ▸ hc2)
        have hnb : ¬ Descendant s c c2 :=
          sibling_not_below hidx hacyc hc (hl c2 (List.mem_cons_of_mem _ hc2)) hne
        have hsame : t2.heap c2 = t.heap c2 :=
          hst.2 c2 (fun hd2 => hnb ((Descendant.congr_iff ht c c2).mp hd2))
        rw [hsame]
        exact hB c2 (List.mem_cons_of_mem _ hc2)
      obtain ⟨k1, k2, k3⟩ := ih (List.nodup_cons.mp hnd).2
        (fun c2 hc2 => hl c2 (List.mem_cons_of_mem _ hc2)) t2 _ t1 u (ht.andThen hst.1)
        hA2 hB2 h
      refine ⟨k1, fun m hm => ?_, k3⟩
      rw [k2 m (fun c2 hc2 => hm c2 (List.mem_cons_of_mem _ hc2))]
      exact hst.2 m (fun hd2 => hm c (List.mem_cons_self _ _)
        ((Descendant.congr_iff ht c m).mp hd2))

/-- The fit-to-children block and the transient flags: afterwards the record of the node is
what it was, and strictly below it `bForceFitToChildren` is off everywhere and
`bFillParentEnabled` is on only on children with a fill axis. -/
theorem fitToChildren_flags (H : GuiHpp)
    (arrange : State → Nat → Vec2 → Vec2 → Except ArrangeError (State × Vec2))
    (s : State) (n : Nat) (hidx : IndexInv s)
    (hacyc : ∀ c ∈ (s.heap n).children, ¬ Descendant s c n)
    (hstep : ∀ t c p z t1 u, c ∈ (s.heap n).children → SameFixed s t →
      (∀ m, Descendant s c m → m ≠ c → FlagsClear t m) →
      arrange t c p z = Except.ok (t1, u) → StepOk t c t1 ∧ FlagStep t c t1)
    (hclear : ∀ m, Descendant s n m → m ≠ n → FlagsClear s m)
    (f : StretchFlags) (size : Vec2) (s3 : State) (ns : Vec2)
    (h : Arrange.fitToChildren H arrange s n f size = Except.ok (s3, ns)) :
    SameFixed s s3 ∧ s3.heap n = s.heap n ∧
    ∀ m, Descendant s n m → m ≠ n → (s3.heap m).bForceFitToChildren = false ∧
      ((s3.heap m).bFillParentEnabled = true →
        m ∈ (s.heap n).children ∧ (s3.heap m).fillsParent) := by
  have hnn : n ∉ (s.heap n).children := fun hn => hacyc n hn (Descendant.self n)
  unfold Arrange.fitToChildren at h
  by_cases hf : (f.bFitToChildrenHor || f.bFitToChildrenVer) = true
  · simp only [hf, if_true] at h
    have hs1 : StepOk s n (Arrange.forceFit s (s.heap n).children) :=
      forceFit_stepOk s n _ (fun c hc => Descendant.child hc (Descendant.self c)) s
        (StepOk.refl s n)
    unfold ArrangeChildren.body at h
    rw [hs1.1.children] at h
    cases hloop : ArrangeChildren.loop H arrange (Arrange.forceFit s (s.heap n).children)
        ⟨0, 0⟩ (s.heap n).children with
    | error e => rw [hloop] at h; simp at h
    | ok r =>
      obtain ⟨s2, used⟩ := r
      rw [hloop] at h
      simp only [Except.ok.injEq, Prod.mk.injEq] at h
      obtain ⟨h, -⟩ := h
      obtain ⟨k1, k2, k3⟩ := loop_flags H arrange s n hidx hacyc hstep (s.heap n).children
        (hidx n).nodup (fun c hc => hc) _ _ s2 used hs1.1
        (fun m hd hne hm => by
          unfold FlagsClear
          rw [forceFit_other m _ s hm]
          exact hclear m hd hne)
        (fun c hc hen => by
          rw [forceFit_enabled] at hen
          have := (hclear c (Descendant.child hc (Descendant.self c))
            (fun e => hnn (e ▸ hc))).2
          rw [this] at hen
          exact absurd hen (by simp))
        hloop
      have hn2 : s2.heap n = s.heap n := by
        rw [k2 n (fun c hc => hacyc c hc), forceFit_other n _ s hnn]
      rw [k1.children] at h
      subst h
      have hsf : SameFixed s2 (Arrange.enableFill s2 (s.heap n).children) := by
        have h0 := (enableFill_stepOk s2 n _
          (fun c hc => Descendant.child (by rw [k1.children]; exact hc) (Descendant.self c))
          s2 (StepOk.refl s2 n)).1
        exact h0
      refine ⟨k1.andThen hsf, ?_, fun m hd hne => ⟨?_, fun hen => ?_⟩⟩
      · rw [enableFill_other n _ s2 hnn, hn2]
      · rw [enableFill_force]; exact (k3 m hd hne).1
      · rcases enableFill_enabled m _ s2 hen with h1 | ⟨h1, h2⟩
        · rw [(k3 m hd hne).2] at h1; exact absurd h1 (by simp)
        · exact ⟨h1, (hsf.fillsParent m).mpr h2⟩
  · simp only [hf, if_false, Bool.false_eq_true, Except.ok.injEq, Prod.mk.injEq] at h
    obtain ⟨h, -⟩ := h
    subst h
    refine ⟨SameFixed.same _, rfl, fun m hd hne => ⟨(hclear m hd hne).1, fun hen => ?_⟩⟩
    rw [(hclear m hd hne).2] at hen
    exact absurd hen (by simp)

theorem fill_flags (s3 : State) (n : Nat) (f : StretchFlags) (pos ns : Vec2) (s4 : State)
    (np4 ns4 : Vec2) (h : Arrange.fill s3 n f pos ns = Except.ok (s4, np4, ns4)) :
    SameFixed s3 s4 ∧ (∀ m, m ≠ n → s4.heap m = s3.heap m) ∧
    (s4.heap n).bForceFitToChildren = (s3.heap n).bForceFitToChildren ∧
    ((s4.heap n).bFillParentEnabled = true → (s3.heap n).bFillParentEnabled = true ∧
      ((f.bFillParentHor || f.bFillParentVer) ||
        (f.bFillParentPositibeDirHor || f.bFillParentPositibeDirVer)) = false) := by
  unfold Arrange.fill at h
  by_cases hf : ((f.bFillParentHor || f.bFillParentVer) ||
      (f.bFillParentPositibeDirHor || f.bFillParentPositibeDirVer)) = true
  · simp only [hf, if_true] at h
    cases hfp : Arrange.fillParent s3 n f pos ns with
    | error e => rw [hfp] at h; simp at h
    | ok r =>
      obtain ⟨a, b⟩ := r
      rw [hfp] at h
      simp only [Except.ok.injEq, Prod.mk.injEq] at h
      obtain ⟨h, -, -⟩ := h
      subst h
      refine ⟨SameFixed.ofModify _ _ _ rfl, fun m hm => State.modify_heap_of_ne _ _ hm, ?_, ?_⟩
      · rw [State.modify_heap_self]
      · intro hen
        rw [State.modify_heap_self] at hen
        simp at hen
  · simp only [hf, if_false, Bool.false_eq_true, Except.ok.injEq, Prod.mk.injEq] at h
    obtain ⟨h, -, -⟩ := h
    subst h
    refine ⟨SameFixed.same _, fun _ _ => rfl, rfl, fun hen => ⟨hen, ?_⟩⟩
    simpa using hf

theorem flags_plain_fill (g : Gui) (hforce : g.bForceFitToChildren = false)
    (h : (((Arrange.flags g).bFillParentHor || (Arrange.flags g).bFillParentVer) ||
      ((Arrange.flags g).bFillParentPositibeDirHor ||
        (Arrange.flags g).bFillParentPositibeDirVer)) = false) : ¬ g.fillsParent := by
  unfold Arrange.flags at h
  unfold Gui.fillsParent
  simp only [hforce, Bool.false_eq_true, if_false, Bool.or_eq_false_iff,
    decide_eq_false_iff_not] at h
  tauto

/-- The end of `Arrange` and the transient flags. -/
theorem finish_flags (H : GuiHpp)
    (setRect : State → Nat → ℚ → ℚ → ℚ → ℚ → Bool → Bool → Except ArrangeError State)
    (arrange : State → Nat → Vec2 → Vec2 → Except ArrangeError (State × Vec2))
    (s : State) (n : Nat) (hidx : IndexInv s)
    (hacyc : ∀ c ∈ (s.heap n).children, ¬ Descendant s c n)
    (hset : ∀ x y w h s5, setRect s n x y w h true false = Except.ok s5 →
      SameFixed s s5 ∧ ∀ m, (s5.heap m).bForceFitToChildren = (s.heap m).bForceFitToChildren ∧
        (s5.heap m).bFillParentEnabled = (s.heap m).bFillParentEnabled)
    (hstep : ∀ t c p z t1 u, c ∈ (s.heap n).children → SameFixed s t →
      (∀ m, Descendant s c m → m ≠ c → FlagsClear t m) →
      arrange t c p z = Except.ok (t1, u) → StepOk t c t1 ∧ FlagStep t c t1)
    (hmid : ∀ m, Descendant s n m → m ≠ n → (s.heap m).bForceFitToChildren = false ∧
      ((s.heap m).bFillParentEnabled = true →
        m ∈ (s.heap n).children ∧ (s.heap m).fillsParent))
    (np ns : Vec2) (t : State) (u : Vec2)
    (h : Arrange.finish H setRect arrange s n np ns = Except.ok (t, u)) :
    (∀ m, Descendant s n m → m ≠ n → FlagsClear t m) ∧
    (t.heap n).bForceFitToChildren = (s.heap n).bForceFitToChildren ∧
    (t.heap n).bFillParentEnabled = (s.heap n).bFillParentEnabled := by
  unfold Arrange.finish at h
  simp only [] at h
  cases h5 : setRect s n (np.x + (s.heap n).margin.left) (np.y + (s.heap n).margin.right)
      (ns.x - ((s.heap n).margin.left + (s.heap n).margin.right))
      (ns.y - ((s.heap n).margin.top + (s.heap n).margin.bottom)) true false with
  | error e => rw [h5] at h; simp at h
  | ok s5 =>
    rw [h5] at h
    simp only [] at h
    obtain ⟨hsf5, hfl5⟩ := hset _ _ _ _ s5 h5
    unfold ArrangeChildren.body at h
    rw [hsf5.children] at h
    cases hloop : ArrangeChildren.loop H arrange s5 ⟨0, 0⟩ (s.heap n).children with
    | error e => rw [hloop] at h; simp at h
    | ok r =>
      obtain ⟨s6, used⟩ := r
      rw [hloop] at h
      simp only [Except.ok.injEq, Prod.mk.injEq] at h
      obtain ⟨h, -⟩ := h
      subst h
      obtain ⟨k1, k2, k3⟩ := loop_flags H arrange s n hidx hacyc hstep (s.heap n).children
        (hidx n).nodup (fun c hc => hc) s5 _ s6 used hsf5
        (fun m hd hne hm => by
          refine ⟨?_, ?_⟩
          · rw [(hfl5 m).1]; exact (hmid m hd hne).1
          · cases hen : (s5.heap m).bFillParentEnabled with
            | false => rfl
            | true =>
              rw [(hfl5 m).2] at hen
              exact absurd ((hmid m hd hne).2 hen).1 hm)
        (fun c hc hen => by
          have hd : Descendant s n c := Descendant.child hc (Descendant.self c)
          have hne : c ≠ n := fun e => hacyc c hc (e ▸ Descendant.self c)
          refine ⟨?_, ?_⟩
          · rw [(hfl5 c).1]; exact (hmid c hd hne).1
          · rw [(hfl5 c).2] at hen
            exact (hsf5.fillsParent c).mpr ((hmid c hd hne).2 hen).2)
        hloop
      have hn6 : s6.heap n = s5.heap n := k2 n (fun c hc => hacyc c hc)
      refine ⟨fun m hd hne => ?_, ?_, ?_⟩
      · unfold FlagsClear
        rw [State.modify_heap_of_ne _ _ hne]
        exact k3 m hd hne
      · rw [State.modify_heap_self, hn6]; exact (hfl5 n).1
      · rw [State.modify_heap_self, hn6]; exact (hfl5 n).2



theorem resetForceFit_flags (s : State) (n : Nat) :
    SameFixed s (Arrange.resetForceFit s n) ∧
    (∀ m, m ≠ n → (Arrange.resetForceFit s n).heap m = s.heap m) ∧
    ((Arrange.resetForceFit s n).heap n).bForceFitToChildren = false ∧
    ((Arrange.resetForceFit s n).heap n).bFillParentEnabled =
      (s.heap n).bFillParentEnabled := by
  unfold Arrange.resetForceFit
  split_ifs with h
  · refine ⟨SameFixed.ofModify _ _ _ rfl, fun m hm => State.modify_heap_of_ne _ _ hm, ?_, ?_⟩
    · rw [State.modify_heap_self]
    · rw [State.modify_heap_self]
  · refine ⟨SameFixed.same _, fun _ _ => rfl, ?_, rfl⟩
    simpa using h

/-- One `Arrange` call on a finite tree with consistent indices in which no transient flag
is set strictly below the node makes a `FlagStep`. -/
theorem Arrange_flags (H : GuiHpp) (fuel : Nat) :
    ∀ (s : State) (n : Nat) (pos size : Vec2) (t : State) (u : Vec2),
      arrangeable s fuel n = true → IndexInv s →
      (∀ m, Descendant s n m → m ≠ n → FlagsClear s m) →
      Arrange H fuel s n pos size = Except.ok (t, u) → FlagStep s n t := by
  induction fuel with
  | zero => intro s n pos size t u ha; simp [arrangeable] at ha
  | succ fuel ih =>
    intro s n pos size t u ha hidx hclear h
    have hacyc := arrangeable_acyclic s (fuel + 1) n ha
    have hch := (arrangeable_succ ha).2
    have hrec : ∀ base : State, SameFixed s base →
        ∀ t c p z t1 u, c ∈ (base.heap n).children → SameFixed base t →
          (∀ m, Descendant base c m → m ≠ c → FlagsClear t m) →
          Arrange H fuel t c p z = Except.ok (t1, u) → StepOk t c t1 ∧ FlagStep t c t1 := by
      intro base hb t c p z t1 u hc ht hpre hr
      have hat : arrangeable t fuel c = true := by
        rw [arrangeable_congr (hb.andThen ht)]
        exact hch c (by rw [← hb.children]; exact hc)
      obtain ⟨t1b, ub, e, hcs⟩ := Arrange_spec H fuel t c p z hat
      rw [hr] at e
      simp only [Except.ok.injEq, Prod.mk.injEq] at e
      obtain ⟨e, -⟩ := e
      subst e
      exact ⟨hcs.1, ih t c p z t1 u hat (IndexInv.ofSameFixed (hb.andThen ht) hidx)
        (fun m hd hne => hpre m ((Descendant.congr_iff ht c m).mp hd) hne) hr⟩
    have hacycOf : ∀ base : State, SameFixed s base →
        ∀ c ∈ (base.heap n).children, ¬ Descendant base c n := by
      intro base hb c hc hd
      exact hacyc c (by rw [← hb.children]; exact hc) ((Descendant.congr_iff hb c n).mp hd)
    obtain ⟨hsf0, hother0, hforce0, hen0⟩ := resetForceFit_flags s n
    unfold Arrange at h
    simp only [] at h
    cases h3 : Arrange.fitToChildren H (Arrange H fuel) (Arrange.resetForceFit s n) n
        (Arrange.flags (s.heap n)) size with
    | error e => rw [h3] at h; simp at h
    | ok r3 =>
      obtain ⟨s3, ns3⟩ := r3
      rw [h3] at h
      simp only [] at h
      obtain ⟨hsf3, hn3, hmid3⟩ := fitToChildren_flags H (Arrange H fuel) _ n
        (IndexInv.ofSameFixed hsf0 hidx) (hacycOf _ hsf0) (hrec _ hsf0)
        (fun m hd hne => by
          unfold FlagsClear
          rw [hother0 m hne]
          exact hclear m ((Descendant.congr_iff hsf0 n m).mp hd) hne)
        _ _ s3 ns3 h3
      cases h4 : Arrange.fill s3 n (Arrange.flags (s.heap n)) pos ns3 with
      | error e => rw [h4] at h; simp at h
      | ok r4 =>
        obtain ⟨s4, np4, ns4⟩ := r4
        rw [h4] at h
        simp only [] at h
        obtain ⟨hsf4, hother4, hforce4, hen4⟩ := fill_flags s3 n _ pos ns3 s4 np4 ns4 h4
        cases h5 : Arrange.align s4 n np4 ns4 with
        | error e => rw [h5] at h; simp at h
        | ok np5 =>
          rw [h5] at h
          simp only [] at h
          have hs4 : SameFixed s s4 := (hsf0.andThen hsf3).andThen hsf4
          have ha4 : arrangeable s4 (fuel + 1) n = true := by
            rw [arrangeable_congr hs4]; exact ha
          obtain ⟨k1, k2, k3⟩ := finish_flags H (SetRect H (fuel + 1)) (Arrange H fuel) s4 n
            (IndexInv.ofSameFixed hs4 hidx) (hacycOf _ hs4)
            (fun x y w hh s5 h5 => by
              obtain ⟨s5b, e, hst⟩ := SetRect_spec H (fuel + 1) s4 n x y w hh true false ha4
              rw [h5] at e
              simp only [Except.ok.injEq] at e
              subst e
              exact ⟨hst.1, fun m => SetRect_flags H m _ _ (fuel + 1) s4 n x y w hh true false
                s5 ⟨rfl, rfl⟩ h5⟩)
            (hrec _ hs4)
            (fun m hd hne => by
              rw [hother4 m hne]
              have hd0 : Descendant (Arrange.resetForceFit s n) n m :=
                (Descendant.congr_iff hsf0 n m).mpr ((Descendant.congr_iff hs4 n m).mp hd)
              obtain ⟨q1, q2⟩ := hmid3 m hd0 hne
              refine ⟨q1, fun hen => ?_⟩
              obtain ⟨q3, q4⟩ := q2 hen
              refine ⟨?_, q4⟩
              rw [(hsf3.andThen hsf4).children]
              exact q3)
            np5 ns4 t u h
          refine ⟨fun m hd hne => k1 m ((Descendant.congr_iff hs4 n m).mpr hd) hne, ?_, ?_⟩
          · rw [k2, hforce4, hn3]; exact hforce0
          · intro hen
            rw [k3] at hen
            obtain ⟨q1, q2⟩ := hen4 hen
            rw [hn3, hen0] at q1
            refine ⟨q1, ?_⟩
            cases hf : (s.heap n).bForceFitToChildren with
            | true => exact Or.inl rfl
            | false => exact Or.inr (flags_plain_fill _ hf q2)

/-! ### The transient flags are one-shot -/

theorem clearBelow_spec (s : State) {n m : Nat} (hd : Descendant s n m) :
    ∀ d, clearBelow s d n = true → FlagsClear s m := by
  induction hd with
  | self n =>
    intro d h
    cases d with
    | zero => simp [clearBelow] at h
    | succ d =>
      simp only [clearBelow, Bool.and_eq_true, Bool.not_eq_true'] at h
      exact ⟨h.1.1, h.1.2⟩
  | child hc _ ih =>
    intro d h
    cases d with
    | zero => simp [clearBelow] at h
    | succ d =>
      simp only [clearBelow, Bool.and_eq_true, List.all_eq_true] at h
      exact ih d (h.2 _ hc)

/-- On a finite tree with consistent indices in which no transient flag is set on `self` or
below, `Arrange` on `self` returns a state of the same kind, and no flag that was off
anywhere in the heap is on. -/
theorem Arrange_clear (H : GuiHpp) (fuel : Nat) (s : State) (self : Nat) (pos size : Vec2)
    (ha : arrangeable s fuel self = true) (hidx : IndexInv s)
    (hclear : ∀ m, Descendant s self m → FlagsClear s m) :
    ∃ t u, Arrange H fuel s self pos size = Except.ok (t, u) ∧ CleanStep s self t ∧
      (∀ m, Descendant s self m → FlagsClear t m) ∧
      (∀ m, FlagsClear s m → FlagsClear t m) ∧
      arrangeable t fuel self = true ∧ IndexInv t ∧
      (∀ m, Descendant t self m → FlagsClear t m) := by
  obtain ⟨t, u, h, hcs⟩ := Arrange_spec H fuel s self pos size ha
  have hfs := Arrange_flags H fuel s self pos size t u ha hidx
    (fun m hd _ => hclear m hd) h
  have hsub : ∀ m, Descendant s self m → FlagsClear t m := by
    intro m hd
    by_cases e : m = self
    · subst e
      refine ⟨hfs.force, ?_⟩
      cases hen : (t.heap m).bFillParentEnabled with
      | false => rfl
      | true =>
        have := (hfs.enabled hen).1
        rw [(hclear m (Descendant.self m)).2] at this
        exact absurd this (by simp)
    · exact hfs.below m hd e
  refine ⟨t, u, h, hcs, hsub, fun m hm => ?_, ?_, IndexInv.ofSameFixed hcs.1.1 hidx,
    fun m hd => hsub m ((Descendant.congr_iff hcs.1.1 self m).mp hd)⟩
  · by_cases hd : Descendant s self m
    · exact hsub m hd
    · unfold FlagsClear
      rw [hcs.1.2 m hd]
      exact hm
  · rw [arrangeable_congr hcs.1.1]; exact ha

/-- C23. The transient flags are one-shot. Take a finite tree of plain nodes with consistent
indices, of any stretch modes and alignments, in which `bForceFitToChildren` and
`bFillParentEnabled` are off on the node `self` and on every node below it. Then
`Arrange` on `self` returns, and in the state it returns both flags are off on `self` and
on every node below it; a node on which both were off before, anywhere in the heap, has both
off afterwards; and a second `Arrange` on `self`, with any arguments, again starts from
cleared flags, returns, and leaves both flags off on the whole subtree. -/
theorem C23_flags_one_shot (H : GuiHpp) (fuel : Nat) (s : State) (self : Nat)
    (pos size : Vec2) (ha : arrangeable s fuel self = true) (hidx : IndexInv s)
    (hclear : ∀ m, Descendant s self m → FlagsClear s m) :
    ∃ t u, Arrange H fuel s self pos size = Except.ok (t, u) ∧
      (∀ m, Descendant s self m → FlagsClear t m) ∧
      (∀ m, FlagsClear s m → FlagsClear t m) ∧
      ∀ pos2 size2, ∃ t2 u2, Arrange H fuel t self pos2 size2 = Except.ok (t2, u2) ∧
        (∀ m, Descendant s self m → FlagsClear t2 m) ∧
        (∀ m, FlagsClear s m → FlagsClear t2 m) := by
  obtain ⟨t, u, h, hcs, k1, k2, k3, k4, k5⟩ := Arrange_clear H fuel s self pos size ha hidx hclear
  refine ⟨t, u, h, k1, k2, fun pos2 size2 => ?_⟩
  obtain ⟨t2, u2, h2, -, q1, q2, -, -, -⟩ := Arrange_clear H fuel t self pos2 size2 k3 k4 k5
  exact ⟨t2, u2, h2, fun m hd => q1 m ((Descendant.congr_iff hcs.1.1 self m).mpr hd),
    fun m hm => q2 m (k2 m hm)⟩

theorem TreeInv_flagTree : TreeInv flagTree := by
  unfold flagTree
  refine TreeInv_modify _ _ _ (TreeInv_modify _ _ _ (TreeInv_modify _ _ _
    (TreeInv_modify _ _ _
      (TreeInv_AddGui _ 1 3 true (TreeInv_AddGui _ 0 2 true
        (TreeInv_AddGui _ 0 1 true TreeInv_fresh)))
      rfl rfl rfl) rfl rfl rfl) rfl rfl rfl) rfl rfl rfl

/-- Witness for C23: the tree `flagTree`, which has a fit-to-children root, a child that
fills horizontally and fits vertically, a child that fills in the positive direction, and
a grandchild that fills on both axes; `Arrange` on the root `0`. -/
theorem C23_flags_one_shot_witness :
    arrangeable flagTree 3 0 = true ∧
    (∃ t u, Arrange sampleHpp 3 flagTree 0 ⟨0, 0⟩ ⟨400, 300⟩ = Except.ok (t, u) ∧
      (∀ m, Descendant flagTree 0 m → FlagsClear t m) ∧
      (∀ m, FlagsClear flagTree m → FlagsClear t m) ∧
      ∀ pos2 size2, ∃ t2 u2, Arrange sampleHpp 3 t 0 pos2 size2 = Except.ok (t2, u2) ∧
        (∀ m, Descendant flagTree 0 m → FlagsClear t2 m) ∧
        (∀ m, FlagsClear flagTree m → FlagsClear t2 m)) ∧
    [0, 1, 2, 3].map (resultFlags (Arrange sampleHpp 3 flagTree 0 ⟨0, 0⟩ ⟨400, 300⟩)) =
      [some (false, false), some (false, false), some (false, false), some (false, false)] ∧
    [0, 1, 2, 3].map (resultFlags (Arrange plainHpp 3 flagTree 0 ⟨0, 0⟩ ⟨400, 300⟩)) =
      [some (false, false), some (false, false), some (false, false), some (false, false)] :=
  ⟨by decide,
    C23_flags_one_shot sampleHpp 3 flagTree 0 ⟨0, 0⟩ ⟨400, 300⟩ (by decide)
      TreeInv_flagTree.1 (fun m hd => clearBelow_spec flagTree hd 3 (by decide)),
    by decide!, by decide!⟩

/-! ### What one `Arrange` call does to its own node -/

/-- The fit-to-children block on a finite tree: it returns, writes below the node only and
not the node's own record, and leaves an axis of the size alone that is not fitted. -/
theorem fitToChildren_own (H : GuiHpp)
    (arrange : State → Nat → Vec2 → Vec2 → Except ArrangeError (State × Vec2))
    (s0 : State) (self : Nat) (f : StretchFlags) (size : Vec2)
    (hacyc : ∀ c ∈ (s0.heap self).children, ¬ Descendant s0 c self)
    (hstep : ∀ t c p z, c ∈ (s0.heap self).children → SameFixed s0 t →
      ∃ t1 u, arrange t c p z = Except.ok (t1, u) ∧ CleanStep t c t1) :
    ∃ s3 ns, Arrange.fitToChildren H arrange s0 self f size = Except.ok (s3, ns) ∧
      StepOk s0 self s3 ∧ s3.heap self = s0.heap self ∧
      (f.bFitToChildrenHor = false → ns.x = size.x) ∧
      (f.bFitToChildrenVer = false → ns.y = size.y) := by
  have hnn : self ∉ (s0.heap self).children := fun hn => hacyc self hn (Descendant.self self)
  unfold Arrange.fitToChildren
  by_cases hfit : (f.bFitToChildrenHor || f.bFitToChildrenVer) = true
  · have h1 := forceFit_stepOk s0 self (s0.heap self).children (children_descendant s0 self)
      s0 (StepOk.refl s0 self)
    obtain ⟨t1, u, hl, hsf, hfr, -⟩ := loop_spec H arrange s0 (s0.heap self).children hstep
      (Arrange.forceFit s0 (s0.heap self).children) ⟨0, 0⟩ h1.1
    have hn : StepOk s0 self t1 := by
      refine ⟨h1.1.andThen hsf, fun m hm => ?_⟩
      rw [hfr m (fun c hc hd => hm (Descendant.child hc hd))]
      exact h1.2 m hm
    simp only [hfit, if_true, ArrangeChildren.body, h1.1.children, hl]
    refine ⟨_, _, rfl, ?_, ?_, fun hx => ?_, fun hy => ?_⟩
    · rw [hn.1.children]
      exact enableFill_stepOk s0 self _ (children_descendant s0 self) t1 hn
    · rw [hn.1.children, enableFill_other self _ t1 hnn, hfr self hacyc,
        forceFit_other self _ s0 hnn]
    · simp only [hx, Bool.false_eq_true, if_false]
    · simp only [hy, Bool.false_eq_true, if_false]
  · simp only [hfit, if_false, Bool.false_eq_true]
    exact ⟨_, _, rfl, StepOk.refl s0 self, rfl, fun _ => rfl, fun _ => rfl⟩

/-- The end of `Arrange` on a finite tree: it returns, and the node's record afterwards is
the one before with the position `newPos + (margin.left, margin.right)`, the size
`newSize - margin` clamped from below by the minimum size, and the dirty flag off. -/
theorem finish_own (H : GuiHpp) (fuel : Nat) (s4 : State) (self : Nat) (np ns : Vec2)
    (ha : arrangeable s4 (fuel + 1) self = true) :
    ∃ s7 u, Arrange.finish H (SetRect H (fuel + 1)) (Arrange H fuel) s4 self np ns =
        Except.ok (s7, u) ∧ CleanStep s4 self s7 ∧
      s7.heap self = { (s4.heap self) with
        pos := ⟨np.x + (s4.heap self).margin.left, np.y + (s4.heap self).margin.right⟩
        size := ⟨max (ns.x - ((s4.heap self).margin.left + (s4.heap self).margin.right))
            (H.GetMinSizeX (s4.heap self)),
          max (ns.y - ((s4.heap self).margin.top + (s4.heap self).margin.bottom))
            (H.GetMinSizeY (s4.heap self))⟩
        bLayoutNeedRefresh := false } ∧
      u = ⟨(s7.heap self).size.x + ((s4.heap self).margin.left + (s4.heap self).margin.right),
        (s7.heap self).size.y + ((s4.heap self).margin.top + (s4.heap self).margin.bottom)⟩ := by
  obtain ⟨-, hch⟩ := arrangeable_succ ha
  have hacyc := arrangeable_acyclic s4 (fuel + 1) self ha
  obtain ⟨s5, h5, hself5⟩ := SetRect_self H fuel s4 self
    (np.x + (s4.heap self).margin.left) (np.y + (s4.heap self).margin.right)
    (ns.x - ((s4.heap self).margin.left + (s4.heap self).margin.right))
    (ns.y - ((s4.heap self).margin.top + (s4.heap self).margin.bottom)) true ha
  obtain ⟨s7, u, h7, hc7⟩ := finish_spec H (SetRect H (fuel + 1)) (Arrange H fuel) s4 self
    np ns
    (fun x y w h => SetRect_spec H (fuel + 1) s4 self x y w h true false ha)
    (fun t c p z hc ht => Arrange_spec H fuel t c p z
      (by rw [arrangeable_congr ht]; exact hch c hc))
  obtain ⟨s5b, h5b, hst5⟩ := SetRect_spec H (fuel + 1) s4 self
    (np.x + (s4.heap self).margin.left) (np.y + (s4.heap self).margin.right)
    (ns.x - ((s4.heap self).margin.left + (s4.heap self).margin.right))
    (ns.y - ((s4.heap self).margin.top + (s4.heap self).margin.bottom)) true false ha
  rw [h5] at h5b
  have e5 : s5b = s5 := by injection h5b with h; exact h.symm
  subst e5
  obtain ⟨s6, u6, h6, -, hfr6, -⟩ := loop_spec H (Arrange H fuel) s4 (s4.heap self).children
    (fun t c p z hc ht => Arrange_spec H fuel t c p z
      (by rw [arrangeable_congr ht]; exact hch c hc))
    s5b ⟨0, 0⟩ hst5.1
  have hself6 : s6.heap self = s5b.heap self := hfr6 self hacyc
  have hrec : s7.heap self = { (s4.heap self) with
        pos := ⟨np.x + (s4.heap self).margin.left, np.y + (s4.heap self).margin.right⟩
        size := ⟨max (ns.x - ((s4.heap self).margin.left + (s4.heap self).margin.right))
            (H.GetMinSizeX (s4.heap self)),
          max (ns.y - ((s4.heap self).margin.top + (s4.heap self).margin.bottom))
            (H.GetMinSizeY (s4.heap self))⟩
        bLayoutNeedRefresh := false } ∧
      u = ⟨(s7.heap self).size.x + ((s4.heap self).margin.left + (s4.heap self).margin.right),
        (s7.heap self).size.y +
          ((s4.heap self).margin.top + (s4.heap self).margin.bottom)⟩ := by
    unfold Arrange.finish at h7
    simp only [h5, ArrangeChildren.body, hst5.1.children, h6, Except.ok.injEq,
      Prod.mk.injEq] at h7
    obtain ⟨e7, eu⟩ := h7
    subst e7
    subst eu
    refine ⟨?_, ?_⟩
    · rw [State.modify_heap_self, hself6, hself5]
    · rw [State.modify_heap_self, hself6, hself5]
  exact ⟨s7, u, h7, hc7, hrec.1, hrec.2⟩

/-- The steps of one `Arrange` call on a finite tree: the fit-to-children block, which
leaves the node's record as the flag reset left it; the fill block, which writes at most
the node's `bFillParentEnabled`; the alignment; and the end, which stores position and
size in the node. -/
theorem Arrange_own (H : GuiHpp) (fuel : Nat) (s : State) (self : Nat) (pos size : Vec2)
    (ha : arrangeable s (fuel + 1) self = true) :
    ∃ s3 ns3 s4 np4 ns4 np5 t u,
      Arrange.fitToChildren H (Arrange H fuel) (Arrange.resetForceFit s self) self
        (Arrange.flags (s.heap self)) size = Except.ok (s3, ns3) ∧
      StepOk s self s3 ∧ s3.heap self = (Arrange.resetForceFit s self).heap self ∧
      ((Arrange.flags (s.heap self)).bFitToChildrenHor = false → ns3.x = size.x) ∧
      ((Arrange.flags (s.heap self)).bFitToChildrenVer = false → ns3.y = size.y) ∧
      Arrange.fill s3 self (Arrange.flags (s.heap self)) pos ns3 = Except.ok (s4, np4, ns4) ∧
      StepOk s self s4 ∧ (∀ m, m ≠ self → s4.heap m = s3.heap m) ∧
      Arrange.align s4 self np4 ns4 = Except.ok np5 ∧
      Arrange H (fuel + 1) s self pos size = Except.ok (t, u) ∧
      CleanStep s self t ∧ CleanStep s4 self t ∧
      t.heap self = { (s4.heap self) with
        pos := ⟨np5.x + (s4.heap self).margin.left, np5.y + (s4.heap self).margin.right⟩
        size := ⟨max (ns4.x - ((s4.heap self).margin.left + (s4.heap self).margin.right))
            (H.GetMinSizeX (s4.heap self)),
          max (ns4.y - ((s4.heap self).margin.top + (s4.heap self).margin.bottom))
            (H.GetMinSizeY (s4.heap self))⟩
        bLayoutNeedRefresh := false } ∧
      u = ⟨(t.heap self).size.x + ((s4.heap self).margin.left + (s4.heap self).margin.right),
        (t.heap self).size.y + ((s4.heap self).margin.top + (s4.heap self).margin.bottom)⟩ := by
  obtain ⟨hpar, hch⟩ := arrangeable_succ ha
  have hacyc := arrangeable_acyclic s (fuel + 1) self ha
  obtain ⟨hsf0, hother0, -, -⟩ := resetForceFit_flags s self
  have hn0 : StepOk s self (Arrange.resetForceFit s self) :=
    ⟨hsf0, fun m hm => hother0 m (fun e => hm (by rw [e]; exact Descendant.self self))⟩
  obtain ⟨s3, ns3, h3, hn3, hown3, hx3, hy3⟩ := fitToChildren_own H (Arrange H fuel)
    (Arrange.resetForceFit s self) self (Arrange.flags (s.heap self)) size
    (fun c hc hd => hacyc c (by rw [← hsf0.children]; exact hc)
      ((Descendant.congr_iff hsf0 c self).mp hd))
    (fun t c p z hc ht => Arrange_spec H fuel t c p z (by
      rw [arrangeable_congr (hsf0.andThen ht)]
      exact hch c (by rw [← hsf0.children]; exact hc)))
  have hs3 : StepOk s self s3 := hn0.mono (Descendant.self self) hn3
  obtain ⟨s4, np4, ns4, h4, hn4⟩ := fill_spec s3 self pos ns3
    (by rw [hs3.1.usesParent, hs3.1.parent]; exact hpar) (s.heap self)
    (hs3.1.usesParent self).symm
  have hs4 : StepOk s self s4 := hs3.mono (Descendant.self self) hn4
  obtain ⟨np5, h5⟩ := align_ok s4 self np4 ns4
    (by rw [hs4.1.usesParent, hs4.1.parent]; exact hpar)
  have ha4 : arrangeable s4 (fuel + 1) self = true := by
    rw [arrangeable_congr hs4.1]; exact ha
  obtain ⟨t, u, h7, hc7, hrec, hu⟩ := finish_own H fuel s4 self np5 ns4 ha4
  refine ⟨s3, ns3, s4, np4, ns4, np5, t, u, h3, hs3, hown3, hx3, hy3, h4, hs4,
    (fill_flags s3 self _ pos ns3 s4 np4 ns4 h4).2.1, h5, ?_, ?_, hc7, hrec, hu⟩
  · unfold Arrange
    simp only [h3, h4, h5, h7]
  · exact ⟨hs4.mono (Descendant.self self) hc7.1,
      fun m hm => hc7.2 m ((Descendant.congr_iff hs4.1 self m).mpr hm)⟩

/-! ### One axis of the fill block and of the alignment -/

theorem flags_fit_hor (g : Gui) (h : g.stretchHor = eGuiStretch.FIT_TO_CHILDREN) :
    (Arrange.flags g).bFitToChildrenHor = true ∧ (Arrange.flags g).bFillParentHor = false ∧
    (Arrange.flags g).bFillParentPositibeDirHor = false := by
  unfold Arrange.flags
  cases g.bForceFitToChildren <;> simp [h]

theorem flags_fit_ver (g : Gui) (h : g.stretchVer = eGuiStretch.FIT_TO_CHILDREN) :
    (Arrange.flags g).bFitToChildrenVer = true ∧ (Arrange.flags g).bFillParentVer = false ∧
    (Arrange.flags g).bFillParentPositibeDirVer = false := by
  unfold Arrange.flags
  cases g.bForceFitToChildren <;> simp [h]

theorem flags_fill_hor (g : Gui) (h : g.stretchHor = eGuiStretch.FILL_PARENT)
    (hf : g.bForceFitToChildren = false) :
    (Arrange.flags g).bFitToChildrenHor = false ∧ (Arrange.flags g).bFillParentHor = true ∧
    (Arrange.flags g).bFillParentPositibeDirHor = false := by
  unfold Arrange.flags
  simp [h, hf]

theorem flags_fill_ver (g : Gui) (h : g.stretchVer = eGuiStretch.FILL_PARENT)
    (hf : g.bForceFitToChildren = false) :
    (Arrange.flags g).bFitToChildrenVer = false ∧ (Arrange.flags g).bFillParentVer = true ∧
    (Arrange.flags g).bFillParentPositibeDirVer = false := by
  unfold Arrange.flags
  simp [h, hf]

theorem flags_forced_hor (g : Gui) (h : g.stretchHor = eGuiStretch.FILL_PARENT)
    (hf : g.bForceFitToChildren = true) :
    (Arrange.flags g).bFitToChildrenHor = true ∧ (Arrange.flags g).bFillParentHor = false := by
  unfold Arrange.flags
  simp [h, hf]

theorem flags_forced_ver (g : Gui) (h : g.stretchVer = eGuiStretch.FILL_PARENT)
    (hf : g.bForceFitToChildren = true) :
    (Arrange.flags g).bFitToChildrenVer = true ∧ (Arrange.flags g).bFillParentVer = false := by
  unfold Arrange.flags
  simp [h, hf]

/-- The fill block leaves the horizontal axis alone when neither horizontal fill flag is
set. -/
theorem fill_keep_hor (s3 : State) (n : Nat) (f : StretchFlags) (pos ns : Vec2) (s4 : State)
    (np4 ns4 : Vec2) (hf : f.bFillParentHor = false) (hd : f.bFillParentPositibeDirHor = false)
    (h : Arrange.fill s3 n f pos ns = Except.ok (s4, np4, ns4)) :
    np4.x = pos.x ∧ ns4.x = ns.x := by
  unfold Arrange.fill Arrange.fillParent at h
  simp only [hf, hd, Bool.false_or, Bool.or_false, Bool.false_eq_true, if_false] at h
  cases hv : f.bFillParentVer <;> cases hp : f.bFillParentPositibeDirVer <;>
    cases hdp : derefParent s3 n <;>
    simp only [hv, hp, hdp, Bool.or_self, Bool.or_true, Bool.true_or, Bool.false_eq_true,
      if_true, if_false, Except.ok.injEq, Prod.mk.injEq, reduceCtorEq] at h
  all_goals first
    | exact ⟨by rw [← h.2.1], by rw [← h.2.2]⟩
    | (split_ifs at h <;>
        simp only [Except.ok.injEq, Prod.mk.injEq, reduceCtorEq] at h <;>
        exact ⟨by rw [← h.2.1], by rw [← h.2.2]⟩)

/-- The fill block leaves the vertical axis alone when neither vertical fill flag is set. -/
theorem fill_keep_ver (s3 : State) (n : Nat) (f : StretchFlags) (pos ns : Vec2) (s4 : State)
    (np4 ns4 : Vec2) (hf : f.bFillParentVer = false) (hd : f.bFillParentPositibeDirVer = false)
    (h : Arrange.fill s3 n f pos ns = Except.ok (s4, np4, ns4)) :
    np4.y = pos.y ∧ ns4.y = ns.y := by
  unfold Arrange.fill Arrange.fillParent at h
  simp only [hf, hd, Bool.false_or, Bool.or_false, Bool.false_eq_true, if_false] at h
  cases hv : f.bFillParentHor <;> cases hp : f.bFillParentPositibeDirHor <;>
    cases hdp : derefParent s3 n <;>
    simp only [hv, hp, hdp, Bool.or_self, Bool.or_true, Bool.true_or, Bool.false_eq_true,
      if_true, if_false, Except.ok.injEq, Prod.mk.injEq, reduceCtorEq] at h
  all_goals first
    | exact ⟨by rw [← h.2.1], by rw [← h.2.2]⟩
    | (split_ifs at h <;>
        simp only [Except.ok.injEq, Prod.mk.injEq, reduceCtorEq] at h <;>
        exact ⟨by rw [← h.2.1], by rw [← h.2.2]⟩)

/-- The fill block on a node with the horizontal FILL_PARENT flag whose
`bFillParentEnabled` is set: position and size take the parent's content position and
content width. -/
theorem fill_hor (s3 : State) (n p : Nat) (f : StretchFlags) (pos ns : Vec2) (s4 : State)
    (np4 ns4 : Vec2) (hp : (s3.heap n).parent = some p)
    (hf : f.bFillParentHor = true) (hd : f.bFillParentPositibeDirHor = false)
    (hen : (s3.heap n).bFillParentEnabled = true)
    (h : Arrange.fill s3 n f pos ns = Except.ok (s4, np4, ns4)) :
    np4.x = (s3.heap p).GetContentPosX ∧ ns4.x = (s3.heap p).GetContentSizeX := by
  unfold Arrange.fill Arrange.fillParent derefParent at h
  simp only [hp, hf, hd, hen, or_true, Bool.true_or, Bool.false_eq_true, if_true,
    if_false] at h
  cases hv : f.bFillParentVer <;> cases hq : f.bFillParentPositibeDirVer <;>
    simp only [hv, hq, Bool.false_eq_true, if_true, if_false, Except.ok.injEq,
      Prod.mk.injEq] at h
  all_goals exact ⟨by rw [← h.2.1], by rw [← h.2.2]⟩

/-- The fill block on a node with the vertical FILL_PARENT flag whose `bFillParentEnabled`
is set: position and size take the parent's content position and content height. -/
theorem fill_ver (s3 : State) (n p : Nat) (f : StretchFlags) (pos ns : Vec2) (s4 : State)
    (np4 ns4 : Vec2) (hp : (s3.heap n).parent = some p)
    (hf : f.bFillParentVer = true) (hd : f.bFillParentPositibeDirVer = false)
    (hen : (s3.heap n).bFillParentEnabled = true)
    (h : Arrange.fill s3 n f pos ns = Except.ok (s4, np4, ns4)) :
    np4.y = (s3.heap p).GetContentPosY ∧ ns4.y = (s3.heap p).GetContentSizeY := by
  unfold Arrange.fill Arrange.fillParent derefParent at h
  simp only [hp, hf, hd, hen, or_true, Bool.true_or, Bool.or_true, Bool.false_eq_true,
    if_true, if_false] at h
  cases hv : f.bFillParentHor <;> cases hq : f.bFillParentPositibeDirHor <;>
    simp only [hv, hq, Bool.false_eq_true, if_true, if_false, Except.ok.injEq,
      Prod.mk.injEq] at h
  all_goals exact ⟨by rw [← h.2.1], by rw [← h.2.2]⟩

/-- A node that has the parent's content position and content width is left where it is,
horizontally, by every alignment. -/
theorem align_hor_filled (s : State) (n p : Nat) (np ns np5 : Vec2)
    (hp : (s.heap n).parent = some p) (hx : np.x = (s.heap p).GetContentPosX)
    (hw : ns.x = (s.heap p).GetContentSizeX)
    (h : Arrange.align s n np ns = Except.ok np5) : np5.x = (s.heap p).GetContentPosX := by
  unfold Arrange.align derefParent at h
  cases h1 : (s.heap n).alignVer <;> cases h2 : (s.heap n).alignHor <;>
    simp only [h1, h2, hp, Except.ok.injEq] at h <;> subst h <;>
    simp only [hx, hw, Gui.GetContentPosX, Gui.GetContentSizeX, Gui.GetContentCenterPosX,
      RectF.GetSize] <;> ring

/-- A node that has the parent's content position and content height is left where it is,
vertically, by every alignment. -/
theorem align_ver_filled (s : State) (n p : Nat) (np ns np5 : Vec2)
    (hp : (s.heap n).parent = some p) (hy : np.y = (s.heap p).GetContentPosY)
    (hh : ns.y = (s.heap p).GetContentSizeY)
    (h : Arrange.align s n np ns = Except.ok np5) : np5.y = (s.heap p).GetContentPosY := by
  unfold Arrange.align derefParent at h
  cases h1 : (s.heap n).alignVer <;> cases h2 : (s.heap n).alignHor <;>
    simp only [h1, h2, hp, Except.ok.injEq] at h <;> subst h <;>
    simp only [hy, hh, Gui.GetContentPosY, Gui.GetContentSizeY, Gui.GetContentCenterPosY,
      RectF.GetSize] <;> ring

/-! ### The loop over the children seen from one child -/

theorem loop_ge_acc (H : GuiHpp)
    (arrange : State → Nat → Vec2 → Vec2 → Except ArrangeError (State × Vec2)) :
    ∀ (l : List Nat) (t : State) (acc : Vec2) (t1 : State) (u : Vec2),
      ArrangeChildren.loop H arrange t acc l = Except.ok (t1, u) →
      acc.x ≤ u.x ∧ acc.y ≤ u.y := by
  intro l
  induction l with
  | nil =>
    intro t acc t1 u h
    simp only [ArrangeChildren.loop, Except.ok.injEq, Prod.mk.injEq] at h
    rw [← h.2]
    exact ⟨le_refl _, le_refl _⟩
  | cons c rest ih =>
    intro t acc t1 u h
    unfold ArrangeChildren.loop at h
    cases harr : arrange t c (t.heap c).pos (H.GetDesiredSize (t.heap c)) with
    | error e => rw [harr] at h; simp at h
    | ok r =>
      obtain ⟨t2, u2⟩ := r
      rw [harr] at h
      simp only [] at h
      obtain ⟨k1, k2⟩ := ih _ _ _ _ h
      exact ⟨le_trans (le_max_left _ _) k1, le_trans (le_max_left _ _) k2⟩

/-- The loop of `ArrangeChildren` over children of `n`, seen from one of them, `C`: the
loop returns; the call for `C` starts in a state in which the records of `C` and of `n` are
as at the start of the loop; after the loop the record of `C` is as that call left it and
the record of `n` as at the start; and the size the loop returns is at least the used size
that call returned. -/
theorem loop_at (H : GuiHpp) (fuel : Nat) (s : State) (n C : Nat) (hidx : IndexInv s)
    (hacyc : ∀ c ∈ (s.heap n).children, ¬ Descendant s c n)
    (hch : ∀ c ∈ (s.heap n).children, arrangeable s fuel c = true) :
    ∀ (l : List Nat), (∀ c ∈ l, c ∈ (s.heap n).children) → l.Nodup → C ∈ l →
    ∀ (t : State) (acc : Vec2), SameFixed s t →
      ∃ t1 u ta tb ua,
        ArrangeChildren.loop H (Arrange H fuel) t acc l = Except.ok (t1, u) ∧
        SameFixed s t1 ∧ SameFixed s ta ∧ ta.heap C = t.heap C ∧ ta.heap n = t.heap n ∧
        Arrange H fuel ta C (ta.heap C).pos (H.GetDesiredSize (ta.heap C)) =
          Except.ok (tb, ua) ∧
        t1.heap C = tb.heap C ∧ t1.heap n = t.heap n ∧ ua.x ≤ u.x ∧ ua.y ≤ u.y := by
  intro l
  induction l with
  | nil => intro _ _ hC; exact absurd hC (List.not_mem_nil C)
  | cons c rest ih =>
    intro hl hnd hC t acc ht
    have hc : c ∈ (s.heap n).children := hl c (List.mem_cons_self _ _)
    have hcr : c ∉ rest := (List.nodup_cons.mp hnd).1
    have hstep : ∀ (t : State) (c : Nat) (p z : Vec2), c ∈ (s.heap n).children →
        SameFixed s t → ∃ t1 u, Arrange H fuel t c p z = Except.ok (t1, u) ∧
          CleanStep t c t1 := fun t c p z hc ht =>
      Arrange_spec H fuel t c p z (by rw [arrangeable_congr ht]; exact hch c hc)
    obtain ⟨t2, u2, h2, hc2⟩ := hstep t c (t.heap c).pos (H.GetDesiredSize (t.heap c)) hc ht
    have hn2 : t2.heap n = t.heap n :=
      hc2.1.2 n (fun hd => hacyc c hc ((Descendant.congr_iff ht c n).mp hd))
    by_cases e : c = C
    · subst e
      obtain ⟨t1, u, h1, hsf1, hfr1, -⟩ := loop_spec H (Arrange H fuel) s rest
        (fun t c2 p z hc2 ht => hstep t c2 p z (hl c2 (List.mem_cons_of_mem _ hc2)) ht)
        t2 ⟨max acc.x u2.x, max acc.y u2.y⟩ (ht.andThen hc2.1.1)
      obtain ⟨k1, k2⟩ := loop_ge_acc H (Arrange H fuel) rest _ _ _ _ h1
      refine ⟨t1, u, t, t2, u2, ?_, (ht.andThen hc2.1.1).andThen hsf1, ht, rfl, rfl, h2, ?_, ?_,
        le_trans (le_max_right _ _) k1, le_trans (le_max_right _ _) k2⟩
      · simp only [ArrangeChildren.loop, h2, h1]
      · exact hfr1 c (fun c2 hc2 => sibling_not_below hidx hacyc
          (hl c2 (List.mem_cons_of_mem _ hc2)) hc (fun e => hcr (e ▸ hc2)))
      · rw [hfr1 n (fun c2 hc2 => hacyc c2 (hl c2 (List.mem_cons_of_mem _ hc2))), hn2]
    · have hCr : C ∈ rest := by
        rcases List.mem_cons.mp hC with e2 | e2
        · exact absurd e2.symm e
        · exact e2
      have hCc : C ∈ (s.heap n).children := hl C hC
      have hC2 : t2.heap C = t.heap C :=
        hc2.1.2 C (fun hd => sibling_not_below hidx hacyc hc hCc e
          ((Descendant.congr_iff ht c C).mp hd))
      obtain ⟨t1, u, ta, tb, ua, k1, k2, k3, k4, k5, k6, k7, k8, k9, k10⟩ :=
        ih (fun c2 hc2 => hl c2 (List.mem_cons_of_mem _ hc2)) (List.nodup_cons.mp hnd).2 hCr
          t2 ⟨max acc.x u2.x, max acc.y u2.y⟩ (ht.andThen hc2.1.1)
      refine ⟨t1, u, ta, tb, ua, ?_, k2, k3, k4.trans hC2, k5.trans hn2, k6, k7,
        k8.trans hn2, k9, k10⟩
      simp only [ArrangeChildren.loop, h2, k1]

theorem forceFit_sets (c : Nat) :
    ∀ (l : List Nat) (s : State), c ∈ l →
      ((s.heap c).stretchHor = eGuiStretch.FILL_PARENT ∨
        (s.heap c).stretchVer = eGuiStretch.FILL_PARENT) →
      ((Arrange.forceFit s l).heap c).bForceFitToChildren = true := by
  intro l
  induction l with
  | nil => intro s hc; exact absurd hc (List.not_mem_nil c)
  | cons a rest ih =>
    intro s hc hfill
    unfold Arrange.forceFit
    by_cases hr : c ∈ rest
    · apply ih _ hr
      split_ifs
      · rw [State.modify_heap]
        split_ifs with e
        · subst e; exact hfill
        · exact hfill
      · exact hfill
    · have e : c = a := by
        rcases List.mem_cons.mp hc with e | e
        · exact e
        · exact absurd e hr
      subst e
      rw [forceFit_other c rest _ hr, if_pos hfill, State.modify_heap_self]

theorem enableFill_sets (c : Nat) :
    ∀ (l : List Nat) (s : State), c ∈ l → (s.heap c).fillsParent →
      ((Arrange.enableFill s l).heap c).bFillParentEnabled = true := by
  intro l
  induction l with
  | nil => intro s hc; exact absurd hc (List.not_mem_nil c)
  | cons a rest ih =>
    intro s hc hfill
    unfold Arrange.enableFill
    by_cases hr : c ∈ rest
    · apply ih _ hr
      split_ifs
      · rw [State.modify_heap]
        split_ifs with e
        · subst e; exact hfill
        · exact hfill
      · exact hfill
    · have e : c = a := by
        rcases List.mem_cons.mp hc with e | e
        · exact e
        · exact absurd e hr
      subst e
      have hfill2 := hfill
      unfold Gui.fillsParent at hfill2
      rw [enableFill_other c rest _ hr, if_pos hfill2, State.modify_heap_self]

/-! ### Fit-to-children parent with a fill-parent child -/

/-- What an `Arrange` call on a finite tree returns: the node's size is not below the
minimum size read from a record with the node's fixed members, the used size is that size
plus the margin, and the node's `bForceFitToChildren` is off. -/
theorem Arrange_result (H : GuiHpp) (fuel : Nat) (s : State) (self : Nat) (pos size : Vec2)
    (ha : arrangeable s (fuel + 1) self = true) :
    ∃ t u g, Arrange H (fuel + 1) s self pos size = Except.ok (t, u) ∧ CleanStep s self t ∧
      g.fixed = (s.heap self).fixed ∧
      H.GetMinSizeX g ≤ (t.heap self).size.x ∧ H.GetMinSizeY g ≤ (t.heap self).size.y ∧
      u = ⟨(t.heap self).size.x + ((s.heap self).margin.left + (s.heap self).margin.right),
        (t.heap self).size.y + ((s.heap self).margin.top + (s.heap self).margin.bottom)⟩ ∧
      (t.heap self).bForceFitToChildren = false := by
  obtain ⟨s3, ns3, s4, np4, ns4, np5, t, u, h3, hs3, hown3, -, -, h4, hs4, -, -, hA, hcs, -,
    hrec, hu⟩ := Arrange_own H fuel s self pos size ha
  obtain ⟨-, -, hforce4, -⟩ := fill_flags s3 self _ pos ns3 s4 np4 ns4 h4
  refine ⟨t, u, s4.heap self, hA, hcs, hs4.1 self, ?_, ?_, ?_, ?_⟩
  · rw [hrec]; exact le_max_right _ _
  · rw [hrec]; exact le_max_right _ _
  · rw [hu, (hs4.1.insets self).1]
  · rw [hrec]
    show (s4.heap self).bForceFitToChildren = false
    rw [hforce4, hown3]
    exact (resetForceFit_flags s self).2.2.1

theorem fill_state (s3 : State) (n : Nat) (f : StretchFlags) (pos ns : Vec2) (s4 : State)
    (np4 ns4 : Vec2) (h : Arrange.fill s3 n f pos ns = Except.ok (s4, np4, ns4)) :
    s4 = if ((f.bFillParentHor || f.bFillParentVer) ||
        (f.bFillParentPositibeDirHor || f.bFillParentPositibeDirVer)) = true then
      s3.modify n (fun g => { g with bFillParentEnabled := false }) else s3 := by
  unfold Arrange.fill at h
  by_cases hf : ((f.bFillParentHor || f.bFillParentVer) ||
      (f.bFillParentPositibeDirHor || f.bFillParentPositibeDirVer)) = true
  · simp only [hf, if_true] at h ⊢
    cases hfp : Arrange.fillParent s3 n f pos ns with
    | error e => rw [hfp] at h; simp at h
    | ok r =>
      obtain ⟨a, b⟩ := r
      rw [hfp] at h
      simp only [Except.ok.injEq, Prod.mk.injEq] at h
      exact h.1.symm
  · simp only [hf, if_false, Bool.false_eq_true, Except.ok.injEq, Prod.mk.injEq] at h ⊢
    exact h.1.symm

theorem contentSize_ge (g : Gui) (w h : ℚ) (hw : w ≤ g.size.x) (hh : h ≤ g.size.y) :
    w - (g.border.left + g.border.right) - (g.padding.left + g.padding.right) ≤
      g.GetContentSizeX ∧
    h - (g.border.top + g.border.bottom) - (g.padding.top + g.padding.bottom) ≤
      g.GetContentSizeY := by
  simp only [Gui.GetContentSizeX, Gui.GetContentSizeY, Gui.GetContentRect, Gui.GetRect,
    RectF.ofPosSize, RectF.MoveSidesLocal, RectF.neg, RectF.GetSize]
  constructor <;> linarith

/-- The `Arrange` call on a child `C` of `P` whose `bFillParentEnabled` is set, whose
`bForceFitToChildren` is off and whose margin is zero: on an axis with FILL_PARENT the
child takes the parent's content position, whatever its alignment, and the parent's
content size, clamped from below by the child's minimum size. -/
theorem Arrange_enabled (H : GuiHpp) (k : Nat) (t : State) (C P : Nat) (pos z : Vec2)
    (ha : arrangeable t (k + 1) C = true) (hp : (t.heap C).parent = some P)
    (hnb : ¬ Descendant t C P) (hforce : (t.heap C).bForceFitToChildren = false)
    (hen : (t.heap C).bFillParentEnabled = true)
    (hmargin : (t.heap C).margin = ⟨0, 0, 0, 0⟩) :
    ∃ tb ua g, Arrange H (k + 1) t C pos z = Except.ok (tb, ua) ∧ CleanStep t C tb ∧
      g.fixed = (t.heap C).fixed ∧
      ((t.heap C).stretchHor = eGuiStretch.FILL_PARENT →
        (tb.heap C).pos.x = (t.heap P).GetContentPosX ∧
        (tb.heap C).size.x = max (t.heap P).GetContentSizeX (H.GetMinSizeX g)) ∧
      ((t.heap C).stretchVer = eGuiStretch.FILL_PARENT →
        (tb.heap C).pos.y = (t.heap P).GetContentPosY ∧
        (tb.heap C).size.y = max (t.heap P).GetContentSizeY (H.GetMinSizeY g)) := by
  obtain ⟨s3, ns3, s4, np4, ns4, np5, tb, ua, h3, hs3, hown3, -, -, h4, hs4, hother4, h5, hA,
    hcs, -, hrec, -⟩ := Arrange_own H k t C pos z ha
  have hPC : P ≠ C := fun e => hnb (by rw [e]; exact Descendant.self C)
  have hs3P : s3.heap P = t.heap P := hs3.2 P hnb
  have hs4P : s4.heap P = t.heap P := (hother4 P hPC).trans hs3P
  have hen3 : (s3.heap C).bFillParentEnabled = true := by
    rw [hown3, (resetForceFit_flags t C).2.2.2]; exact hen
  have hp3 : (s3.heap C).parent = some P := by rw [hs3.1.parent]; exact hp
  have hp4 : (s4.heap C).parent = some P := by rw [hs4.1.parent]; exact hp
  have hm4 : (s4.heap C).margin = ⟨0, 0, 0, 0⟩ := by rw [(hs4.1.insets C).1]; exact hmargin
  have hml : (s4.heap C).margin.left = 0 := by rw [hm4]
  have hmr : (s4.heap C).margin.right = 0 := by rw [hm4]
  have hmt : (s4.heap C).margin.top = 0 := by rw [hm4]
  have hmb : (s4.heap C).margin.bottom = 0 := by rw [hm4]
  refine ⟨tb, ua, s4.heap C, hA, hcs, hs4.1 C, fun hH => ?_, fun hV => ?_⟩
  · obtain ⟨-, hf, hd⟩ := flags_fill_hor (t.heap C) hH hforce
    obtain ⟨hx, hw⟩ := fill_hor s3 C P _ pos ns3 s4 np4 ns4 hp3 hf hd hen3 h4
    rw [← hother4 P hPC] at hx hw
    have h5x := align_hor_filled s4 C P np4 ns4 np5 hp4 hx hw h5
    rw [hs4P] at h5x hw
    rw [hrec]
    simp only [hml, hmr, add_zero, sub_zero, h5x, hw, and_self]
  · obtain ⟨-, hf, hd⟩ := flags_fill_ver (t.heap C) hV hforce
    obtain ⟨hy, hh⟩ := fill_ver s3 C P _ pos ns3 s4 np4 ns4 hp3 hf hd hen3 h4
    rw [← hother4 P hPC] at hy hh
    have h5y := align_ver_filled s4 C P np4 ns4 np5 hp4 hy hh h5
    rw [hs4P] at h5y hh
    rw [hrec]
    simp only [hmr, hmt, hmb, add_zero, sub_zero, h5y, hh, and_self]

/-- The end of `Arrange` on `P`, seen from a child `C`: `SetRect` stores position and size
in `P` and writes no transient flag; the final `Arrange` call on `C` starts with the
records of `C` and `P` as `SetRect` left them; and the state returned has the record of
`C` as that call left it and the record of `P` as `SetRect` left it, the dirty flag off. -/
theorem finish_at (H : GuiHpp) (k : Nat) (s4 : State) (P C : Nat) (np ns : Vec2)
    (ha : arrangeable s4 (k + 2) P = true) (hidx : IndexInv s4)
    (hC : C ∈ (s4.heap P).children) :
    ∃ s5 ta tb ua t u,
      Arrange.finish H (SetRect H (k + 2)) (Arrange H (k + 1)) s4 P np ns =
        Except.ok (t, u) ∧
      SameFixed s4 s5 ∧
      (∀ m, (s5.heap m).bForceFitToChildren = (s4.heap m).bForceFitToChildren ∧
        (s5.heap m).bFillParentEnabled = (s4.heap m).bFillParentEnabled) ∧
      s5.heap P = { (s4.heap P) with
        pos := ⟨np.x + (s4.heap P).margin.left, np.y + (s4.heap P).margin.right⟩
        size := ⟨max (ns.x - ((s4.heap P).margin.left + (s4.heap P).margin.right))
            (H.GetMinSizeX (s4.heap P)),
          max (ns.y - ((s4.heap P).margin.top + (s4.heap P).margin.bottom))
            (H.GetMinSizeY (s4.heap P))⟩ } ∧
      SameFixed s4 ta ∧ ta.heap C = s5.heap C ∧ ta.heap P = s5.heap P ∧
      Arrange H (k + 1) ta C (ta.heap C).pos (H.GetDesiredSize (ta.heap C)) =
        Except.ok (tb, ua) ∧
      t.heap C = tb.heap C ∧
      t.heap P = { (s5.heap P) with bLayoutNeedRefresh := false } := by
  obtain ⟨-, hch⟩ := arrangeable_succ ha
  have hacyc := arrangeable_acyclic s4 (k + 2) P ha
  have hCP : C ≠ P := fun e => hacyc C hC (by rw [e]; exact Descendant.self P)
  obtain ⟨s5, h5, hself5⟩ := SetRect_self H (k + 1) s4 P
    (np.x + (s4.heap P).margin.left) (np.y + (s4.heap P).margin.right)
    (ns.x - ((s4.heap P).margin.left + (s4.heap P).margin.right))
    (ns.y - ((s4.heap P).margin.top + (s4.heap P).margin.bottom)) true ha
  obtain ⟨s5b, h5b, hst5⟩ := SetRect_spec H (k + 2) s4 P
    (np.x + (s4.heap P).margin.left) (np.y + (s4.heap P).margin.right)
    (ns.x - ((s4.heap P).margin.left + (s4.heap P).margin.right))
    (ns.y - ((s4.heap P).margin.top + (s4.heap P).margin.bottom)) true false ha
  rw [h5] at h5b
  have e5 : s5b = s5 := by injection h5b with h; exact h.symm
  subst e5
  obtain ⟨s6, u6, ta, tb, ua, h6, -, hsfa, haC, haP, harr, h6C, h6P, -, -⟩ :=
    loop_at H (k + 1) s4 P C hidx hacyc hch (s4.heap P).children (fun c hc => hc)
      (hidx P).nodup hC s5b ⟨0, 0⟩ hst5.1
  have hfin : ∃ u, Arrange.finish H (SetRect H (k + 2)) (Arrange H (k + 1)) s4 P np ns =
      Except.ok (s6.modify P (fun g => { g with bLayoutNeedRefresh := false }), u) := by
    unfold Arrange.finish
    simp only [h5, ArrangeChildren.body, hst5.1.children, h6]
    exact ⟨_, rfl⟩
  obtain ⟨u, hfin⟩ := hfin
  refine ⟨s5b, ta, tb, ua, _, u, hfin, hst5.1,
    fun m => SetRect_flags H m _ _ (k + 2) s4 P _ _ _ _ true false s5b ⟨rfl, rfl⟩ h5,
    hself5, hsfa, haC, haP, harr, ?_, ?_⟩
  · rw [State.modify_heap_of_ne _ _ hCP]; exact h6C
  · rw [State.modify_heap_self, h6P]

/-- Fit-to-children parent `P`, child `C` with zero margin whose minimum size is read from
fixed members only: the measurement pass returns a used size that does not depend on the
proposal, and for every proposal `Arrange` on `P` returns with `C`, on an axis where `P`
fits and `C` fills, at the content position and of the content size of `P`, whose own size
on that axis is the measured size plus padding and border, clamped by its minimum size. -/
theorem fitFill_cycle (H : GuiHpp) (k : Nat) (s : State) (P C : Nat)
    (htree : arrangeable s (k + 2) P = true) (hidx : IndexInv s)
    (hC : C ∈ (s.heap P).children)
    (hmargin : (s.heap C).margin = ⟨0, 0, 0, 0⟩)
    (hmin : ∀ g, g.fixed = (s.heap C).fixed →
      H.GetMinSizeX g = H.GetMinSizeX (s.heap C) ∧
      H.GetMinSizeY g = H.GetMinSizeY (s.heap C)) :
    ∃ s2 sizeUsed g,
      ArrangeChildren.loop H (Arrange H (k + 1))
        (Arrange.forceFit (Arrange.resetForceFit s P) (s.heap P).children) ⟨0, 0⟩
        (s.heap P).children = Except.ok (s2, sizeUsed) ∧
      g.fixed = (s.heap P).fixed ∧
      ∀ pos size, ∃ t u, Arrange H (k + 2) s P pos size = Except.ok (t, u) ∧
        ((s.heap P).stretchHor = eGuiStretch.FIT_TO_CHILDREN →
          (s.heap C).stretchHor = eGuiStretch.FILL_PARENT →
          (t.heap C).size.x = (t.heap P).GetContentSizeX ∧
          (t.heap C).pos.x = (t.heap P).GetContentPosX ∧
          (t.heap P).size.x =
            max (sizeUsed.x + ((s.heap P).padding.left + (s.heap P).padding.right)
              + ((s.heap P).border.left + (s.heap P).border.right)) (H.GetMinSizeX g)) ∧
        ((s.heap P).stretchVer = eGuiStretch.FIT_TO_CHILDREN →
          (s.heap C).stretchVer = eGuiStretch.FILL_PARENT →
          (t.heap C).size.y = (t.heap P).GetContentSizeY ∧
          (t.heap C).pos.y = (t.heap P).GetContentPosY ∧
          (t.heap P).size.y =
            max (sizeUsed.y + ((s.heap P).padding.top + (s.heap P).padding.bottom)
              + ((s.heap P).border.top + (s.heap P).border.bottom)) (H.GetMinSizeY g)) := by
  obtain ⟨-, hch⟩ := arrangeable_succ htree
  have hacyc := arrangeable_acyclic s (k + 2) P htree
  have hCP : C ≠ P := fun e => hacyc C hC (by rw [e]; exact Descendant.self P)
  have hnn : P ∉ (s.heap P).children := fun hn => hacyc P hn (Descendant.self P)
  have hparC : (s.heap C).parent = some P := parent_of_mem hidx hC
  have hs1 : StepOk s P (Arrange.forceFit (Arrange.resetForceFit s P) (s.heap P).children) :=
    forceFit_stepOk s P _ (children_descendant s P) _ (resetForceFit_stepOk s P)
  have hsf0 : SameFixed s (Arrange.resetForceFit s P) := (resetForceFit_stepOk s P).1
  -- the measurement pass
  obtain ⟨s2, sizeUsed, ta, tb, ua, hloop, hsf2, hsfa, haC, haP, harr, h2C, h2P, hux, huy⟩ :=
    loop_at H (k + 1) s P C hidx hacyc hch (s.heap P).children (fun c hc => hc)
      (hidx P).nodup hC _ ⟨0, 0⟩ hs1.1
  have h2P0 : s2.heap P = (Arrange.resetForceFit s P).heap P := by
    rw [h2P, forceFit_other P _ _ hnn]
  obtain ⟨tb2, ua2, gC, eqm, -, hgfix, hminx, hminy, hu, hforce⟩ :=
    Arrange_result H k ta C (ta.heap C).pos (H.GetDesiredSize (ta.heap C))
      (by rw [arrangeable_congr hsfa]; exact hch C hC)
  rw [harr] at eqm
  simp only [Except.ok.injEq, Prod.mk.injEq] at eqm
  obtain ⟨e1, e2⟩ := eqm
  subst e1
  subst e2
  have hmta : (ta.heap C).margin = ⟨0, 0, 0, 0⟩ := by rw [(hsfa.insets C).1]; exact hmargin
  have hMx : H.GetMinSizeX (s.heap C) ≤ sizeUsed.x := by
    rw [← (hmin gC (hgfix.trans (hsfa C))).1]
    refine le_trans hminx (le_trans (le_of_eq ?_) hux)
    rw [hu, hmta]; simp
  have hMy : H.GetMinSizeY (s.heap C) ≤ sizeUsed.y := by
    rw [← (hmin gC (hgfix.trans (hsfa C))).2]
    refine le_trans hminy (le_trans (le_of_eq ?_) huy)
    rw [hu, hmta]; simp
  -- the state after the fit-to-children block
  obtain ⟨s3, hs3def⟩ : ∃ s3, s3 = Arrange.enableFill s2 (s.heap P).children := ⟨_, rfl⟩
  have hsf23 : SameFixed s2 s3 := by
    rw [hs3def]
    exact (enableFill_stepOk s2 P _
      (fun c hc => Descendant.child (by rw [hsf2.children]; exact hc) (Descendant.self c))
      s2 (StepOk.refl s2 P)).1
  have hsf3 : SameFixed s s3 := hsf2.andThen hsf23
  have h3P : s3.heap P = (Arrange.resetForceFit s P).heap P := by
    rw [hs3def, enableFill_other P _ s2 hnn, h2P0]
  have h3Cf : (s3.heap C).bForceFitToChildren = false := by
    rw [hs3def, enableFill_force, h2C]; exact hforce
  have h3Ce : (s.heap C).fillsParent → (s3.heap C).bFillParentEnabled = true := by
    intro hfill
    rw [hs3def]
    exact enableFill_sets C _ s2 hC ((hsf2.fillsParent C).mpr hfill)
  obtain ⟨s4, hs4def⟩ : ∃ s4, s4 = if
      (((Arrange.flags (s.heap P)).bFillParentHor || (Arrange.flags (s.heap P)).bFillParentVer) ||
        ((Arrange.flags (s.heap P)).bFillParentPositibeDirHor ||
          (Arrange.flags (s.heap P)).bFillParentPositibeDirVer)) = true then
      s3.modify P (fun g => { g with bFillParentEnabled := false }) else s3 := ⟨_, rfl⟩
  have hsf34 : SameFixed s3 s4 := by
    rw [hs4def]
    split_ifs
    · exact SameFixed.ofModify _ _ _ rfl
    · exact SameFixed.same _
  have h4C : s4.heap C = s3.heap C := by
    rw [hs4def]
    split_ifs
    · exact State.modify_heap_of_ne _ _ hCP
    · rfl
  have hsf4 : SameFixed s s4 := hsf3.andThen hsf34
  refine ⟨s2, sizeUsed, s4.heap P, hloop, hsf4 P, fun pos size => ?_⟩
  obtain ⟨s3b, ns3, s4b, np4, ns4, np5, t, u, h3, -, -, -, -, h4, -, -, h5, hA, -, -, -, -⟩ :=
    Arrange_own H (k + 1) s P pos size htree
  have e4 := fill_state s3b P _ pos ns3 s4b np4 ns4 h4
  -- the end of the call, once the fit-to-children block is known to have run
  have hend : s3b = s3 →
      ((t.heap C).bForceFitToChildren = false → True) ∧
      ∃ (s5 ta2 tb2 : State) (ua2 : Vec2),
        s5.heap P = { (s4.heap P) with
          pos := ⟨np5.x + (s4.heap P).margin.left, np5.y + (s4.heap P).margin.right⟩
          size := ⟨max (ns4.x - ((s4.heap P).margin.left + (s4.heap P).margin.right))
              (H.GetMinSizeX (s4.heap P)),
            max (ns4.y - ((s4.heap P).margin.top + (s4.heap P).margin.bottom))
              (H.GetMinSizeY (s4.heap P))⟩ } ∧
        SameFixed s ta2 ∧ ta2.heap P = s5.heap P ∧
        (ta2.heap C).bForceFitToChildren = false ∧
        ((s.heap C).fillsParent → (ta2.heap C).bFillParentEnabled = true) ∧
        Arrange H (k + 1) ta2 C (ta2.heap C).pos (H.GetDesiredSize (ta2.heap C)) =
          Except.ok (tb2, ua2) ∧
        t.heap C = tb2.heap C ∧
        t.heap P = { (s5.heap P) with bLayoutNeedRefresh := false } := by
    intro e3
    subst e3
    rw [← hs4def] at e4
    subst e4
    obtain ⟨s5, ta2, tb2, ua2, t2, u2, hfin, hsf5, hfl5, hrec5, hsfa2, ha2C, ha2P, harr2, htC,
      htP⟩ := finish_at H k s4b P C np5 ns4 (by rw [arrangeable_congr hsf4]; exact htree)
        (IndexInv.ofSameFixed hsf4 hidx) (by rw [hsf4.children]; exact hC)
    have hA2 : Arrange H (k + 2) s P pos size = Except.ok (t2, u2) := by
      unfold Arrange
      simp only [h3, h4, h5, hfin]
    rw [hA] at hA2
    simp only [Except.ok.injEq, Prod.mk.injEq] at hA2
    obtain ⟨e1, e2⟩ := hA2
    subst e1
    subst e2
    refine ⟨fun _ => trivial, s5, ta2, tb2, ua2, hrec5, hsf4.andThen hsfa2, ha2P, ?_,
      fun hfill => ?_, harr2, htC, htP⟩
    · rw [ha2C, (hfl5 C).1, h4C]; exact h3Cf
    · rw [ha2C, (hfl5 C).2, h4C]; exact h3Ce hfill
  have hfitEq : ((Arrange.flags (s.heap P)).bFitToChildrenHor ||
      (Arrange.flags (s.heap P)).bFitToChildrenVer) = true →
      s3b = s3 ∧
      ns3 = ⟨if (Arrange.flags (s.heap P)).bFitToChildrenHor then
          sizeUsed.x + ((s2.heap P).padding.left + (s2.heap P).padding.right)
            + ((s2.heap P).border.left + (s2.heap P).border.right)
            + ((s2.heap P).margin.left + (s2.heap P).margin.right)
        else size.x,
        if (Arrange.flags (s.heap P)).bFitToChildrenVer then
          sizeUsed.y + ((s2.heap P).padding.top + (s2.heap P).padding.bottom)
            + ((s2.heap P).border.top + (s2.heap P).border.bottom)
            + ((s2.heap P).margin.top + (s2.heap P).margin.bottom)
        else size.y⟩ := by
    intro hfit
    unfold Arrange.fitToChildren at h3
    simp only [hfit, if_true, ArrangeChildren.body, hs1.1.children, hsf0.children, hloop,
      hsf2.children, Except.ok.injEq, Prod.mk.injEq] at h3
    rw [hs3def]
    exact ⟨h3.1.symm, h3.2.symm⟩
  have hins2 := hsf2.insets P
  have hins4 := hsf4.insets P
  refine ⟨t, u, hA, fun hPH hCH => ?_, fun hPV hCV => ?_⟩
  · obtain ⟨hfh, hf1, hf2⟩ := flags_fit_hor (s.heap P) hPH
    obtain ⟨e3, ens⟩ := hfitEq (by rw [hfh]; rfl)
    obtain ⟨-, s5, ta2, tb2, ua2, hrec5, hsfa2, ha2P, hfo, hen, harr2, htC, htP⟩ := hend e3
    obtain ⟨-, hkx⟩ := fill_keep_hor s3b P _ pos ns3 s4b np4 ns4 hf1 hf2 h4
    have hnsx : ns4.x = sizeUsed.x + ((s.heap P).padding.left + (s.heap P).padding.right)
        + ((s.heap P).border.left + (s.heap P).border.right)
        + ((s.heap P).margin.left + (s.heap P).margin.right) := by
      rw [hkx, ens]
      simp only [hfh, if_true, hins2.1, hins2.2.1, hins2.2.2]
    have hPx : (s5.heap P).size.x =
        max (sizeUsed.x + ((s.heap P).padding.left + (s.heap P).padding.right)
          + ((s.heap P).border.left + (s.heap P).border.right)) (H.GetMinSizeX (s4.heap P)) := by
      rw [hrec5]
      simp only [hnsx, hins4.1]
      congr 1
      ring
    obtain ⟨tb3, ua3, g3, eq3, -, hg3, hhor, -⟩ := Arrange_enabled H k ta2 C P (ta2.heap C).pos
      (H.GetDesiredSize (ta2.heap C))
      (by rw [arrangeable_congr hsfa2]; exact hch C hC)
      (by rw [hsfa2.parent]; exact hparC)
      (fun hd => hacyc C hC ((Descendant.congr_iff hsfa2 C P).mp hd))
      hfo (hen (Or.inl hCH)) (by rw [(hsfa2.insets C).1]; exact hmargin)
    rw [harr2] at eq3
    simp only [Except.ok.injEq, Prod.mk.injEq] at eq3
    obtain ⟨e1, -⟩ := eq3
    subst e1
    obtain ⟨hpx, hsx⟩ := hhor (by rw [(hsfa2.stretch C).1]; exact hCH)
    have hcx : (t.heap P).GetContentSizeX = (s5.heap P).GetContentSizeX := by rw [htP]; rfl
    have hcp : (t.heap P).GetContentPosX = (s5.heap P).GetContentPosX := by rw [htP]; rfl
    have hge : H.GetMinSizeX g3 ≤ (s5.heap P).GetContentSizeX := by
      rw [(hmin g3 (hg3.trans (hsfa2 C))).1]
      have h1 := (contentSize_ge (s5.heap P)
        (sizeUsed.x + ((s.heap P).padding.left + (s.heap P).padding.right)
          + ((s.heap P).border.left + (s.heap P).border.right)) (s5.heap P).size.y
        (by rw [hPx]; exact le_max_left _ _) (le_refl _)).1
      have hb : (s5.heap P).border = (s.heap P).border := by rw [hrec5]; exact hins4.2.1
      have hp : (s5.heap P).padding = (s.heap P).padding := by rw [hrec5]; exact hins4.2.2
      rw [hb, hp] at h1
      linarith
    refine ⟨?_, ?_, ?_⟩
    · rw [htC, hsx, ha2P, hcx]; exact max_eq_left hge
    · rw [htC, hpx, ha2P, hcp]
    · rw [htP]; exact hPx
  · obtain ⟨hfv, hf1, hf2⟩ := flags_fit_ver (s.heap P) hPV
    obtain ⟨e3, ens⟩ := hfitEq (by rw [hfv]; simp)
    obtain ⟨-, s5, ta2, tb2, ua2, hrec5, hsfa2, ha2P, hfo, hen, harr2, htC, htP⟩ := hend e3
    obtain ⟨-, hky⟩ := fill_keep_ver s3b P _ pos ns3 s4b np4 ns4 hf1 hf2 h4
    have hnsy : ns4.y = sizeUsed.y + ((s.heap P).padding.top + (s.heap P).padding.bottom)
        + ((s.heap P).border.top + (s.heap P).border.bottom)
        + ((s.heap P).margin.top + (s.heap P).margin.bottom) := by
      rw [hky, ens]
      simp only [hfv, if_true, hins2.1, hins2.2.1, hins2.2.2]
    have hPy : (s5.heap P).size.y =
        max (sizeUsed.y + ((s.heap P).padding.top + (s.heap P).padding.bottom)
          + ((s.heap P).border.top + (s.heap P).border.bottom)) (H.GetMinSizeY (s4.heap P)) := by
      rw [hrec5]
      simp only [hnsy, hins4.1]
      congr 1
      ring
    obtain ⟨tb3, ua3, g3, eq3, -, hg3, -, hver⟩ := Arrange_enabled H k ta2 C P (ta2.heap C).pos
      (H.GetDesiredSize (ta2.heap C))
      (by rw [arrangeable_congr hsfa2]; exact hch C hC)
      (by rw [hsfa2.parent]; exact hparC)
      (fun hd => hacyc C hC ((Descendant.congr_iff hsfa2 C P).mp hd))
      hfo (hen (Or.inr (Or.inl hCV))) (by rw [(hsfa2.insets C).1]; exact hmargin)
    rw [harr2] at eq3
    simp only [Except.ok.injEq, Prod.mk.injEq] at eq3
    obtain ⟨e1, -⟩ := eq3
    subst e1
    obtain ⟨hpy, hsy⟩ := hver (by rw [(hsfa2.stretch C).2]; exact hCV)
    have hcy : (t.heap P).GetContentSizeY = (s5.heap P).GetContentSizeY := by rw [htP]; rfl
    have hcp : (t.heap P).GetContentPosY = (s5.heap P).GetContentPosY := by rw [htP]; rfl
    have hge : H.GetMinSizeY g3 ≤ (s5.heap P).GetContentSizeY := by
      rw [(hmin g3 (hg3.trans (hsfa2 C))).2]
      have h1 := (contentSize_ge (s5.heap P) (s5.heap P).size.x
        (sizeUsed.y + ((s.heap P).padding.top + (s.heap P).padding.bottom)
          + ((s.heap P).border.top + (s.heap P).border.bottom))
        (le_refl _) (by rw [hPy]; exact le_max_left _ _)).2
      have hb : (s5.heap P).border = (s.heap P).border := by rw [hrec5]; exact hins4.2.1
      have hp : (s5.heap P).padding = (s.heap P).padding := by rw [hrec5]; exact hins4.2.2
      rw [hb, hp] at h1
      linarith
    refine ⟨?_, ?_, ?_⟩
    · rw [htC, hsy, ha2P, hcy]; exact max_eq_left hge
    · rw [htC, hpy, ha2P, hcp]
    · rw [htP]; exact hPy

/-- C24. Fit/fill cycle resolution. Let `C` be a child with zero margin of `P` in a finite
tree with consistent indices, and let the minimum size of `C` be read from members that the
layout pass does not write. The measurement loop of `P.Arrange` starts in a state in which
`C`, on an axis where it has FILL_PARENT, runs with the fit-to-children flag on and the
fill-parent flag off; it returns a used size `sizeUsed` that does not depend on the
position and size proposed to `P`. For every proposal `P.Arrange` returns, and on an axis
on which `P` has FIT_TO_CHILDREN and `C` has FILL_PARENT, the size of `C` is the content
size of `P`, the position of `C` is the content position of `P`, and the size of `P` is
`sizeUsed` plus padding and border, clamped from below by the minimum size of `P`. -/
theorem C24_fit_fill_cycle (H : GuiHpp) (k : Nat) (s : State) (P C : Nat)
    (htree : arrangeable s (k + 2) P = true) (hidx : IndexInv s)
    (hC : C ∈ (s.heap P).children)
    (hmargin : (s.heap C).margin = ⟨0, 0, 0, 0⟩)
    (hmin : ∀ g, g.fixed = (s.heap C).fixed →
      H.GetMinSizeX g = H.GetMinSizeX (s.heap C) ∧
      H.GetMinSizeY g = H.GetMinSizeY (s.heap C)) :
    ((s.heap C).stretchHor = eGuiStretch.FILL_PARENT →
      (Arrange.flags ((Arrange.forceFit (Arrange.resetForceFit s P)
        (s.heap P).children).heap C)).bFitToChildrenHor = true ∧
      (Arrange.flags ((Arrange.forceFit (Arrange.resetForceFit s P)
        (s.heap P).children).heap C)).bFillParentHor = false) ∧
    ((s.heap C).stretchVer = eGuiStretch.FILL_PARENT →
      (Arrange.flags ((Arrange.forceFit (Arrange.resetForceFit s P)
        (s.heap P).children).heap C)).bFitToChildrenVer = true ∧
      (Arrange.flags ((Arrange.forceFit (Arrange.resetForceFit s P)
        (s.heap P).children).heap C)).bFillParentVer = false) ∧
    ∃ s2 sizeUsed g,
      ArrangeChildren.loop H (Arrange H (k + 1))
        (Arrange.forceFit (Arrange.resetForceFit s P) (s.heap P).children) ⟨0, 0⟩
        (s.heap P).children = Except.ok (s2, sizeUsed) ∧
      g.fixed = (s.heap P).fixed ∧
      ∀ pos size, ∃ t u, Arrange H (k + 2) s P pos size = Except.ok (t, u) ∧
        ((s.heap P).stretchHor = eGuiStretch.FIT_TO_CHILDREN →
          (s.heap C).stretchHor = eGuiStretch.FILL_PARENT →
          (t.heap C).size.x = (t.heap P).GetContentSizeX ∧
          (t.heap C).pos.x = (t.heap P).GetContentPosX ∧
          (t.heap P).size.x =
            max (sizeUsed.x + ((s.heap P).padding.left + (s.heap P).padding.right)
              + ((s.heap P).border.left + (s.heap P).border.right)) (H.GetMinSizeX g)) ∧
        ((s.heap P).stretchVer = eGuiStretch.FIT_TO_CHILDREN →
          (s.heap C).stretchVer = eGuiStretch.FILL_PARENT →
          (t.heap C).size.y = (t.heap P).GetContentSizeY ∧
          (t.heap C).pos.y = (t.heap P).GetContentPosY ∧
          (t.heap P).size.y =
            max (sizeUsed.y + ((s.heap P).padding.top + (s.heap P).padding.bottom)
              + ((s.heap P).border.top + (s.heap P).border.bottom)) (H.GetMinSizeY g)) := by
  have hs1 : StepOk s P (Arrange.forceFit (Arrange.resetForceFit s P) (s.heap P).children) :=
    forceFit_stepOk s P _ (children_descendant s P) _ (resetForceFit_stepOk s P)
  have hsf0 : SameFixed s (Arrange.resetForceFit s P) := (resetForceFit_stepOk s P).1
  refine ⟨fun hH => ?_, fun hV => ?_, fitFill_cycle H k s P C htree hidx hC hmargin hmin⟩
  · exact flags_forced_hor _ (by rw [(hs1.1.stretch C).1]; exact hH)
      (forceFit_sets C _ _ hC (Or.inl (by rw [(hsf0.stretch C).1]; exact hH)))
  · exact flags_forced_ver _ (by rw [(hs1.1.stretch C).2]; exact hV)
      (forceFit_sets C _ _ hC (Or.inr (by rw [(hsf0.stretch C).2]; exact hV)))

theorem TreeInv_fitFillTree : TreeInv fitFillTree := by
  unfold fitFillTree
  refine TreeInv_modify _ _ _ (TreeInv_modify _ _ _ (TreeInv_modify _ _ _
      (TreeInv_AddGui _ 0 2 true (TreeInv_AddGui _ 0 1 true TreeInv_fresh))
      rfl rfl rfl) rfl rfl rfl) rfl rfl rfl

/-- Witness for C24: the tree `fitFillTree`, parent `0`, child `1`. Proposed 400x300, the
root comes out 30x40, the bounding box of the measured children (child `1` measured as 0x0,
child `2` as 30x40), and child `1` is then 30x40 at the root's content position. -/
theorem C24_fit_fill_cycle_witness :
    (((fitFillTree.heap 1).stretchHor = eGuiStretch.FILL_PARENT →
      (Arrange.flags ((Arrange.forceFit (Arrange.resetForceFit fitFillTree 0)
        (fitFillTree.heap 0).children).heap 1)).bFitToChildrenHor = true ∧
      (Arrange.flags ((Arrange.forceFit (Arrange.resetForceFit fitFillTree 0)
        (fitFillTree.heap 0).children).heap 1)).bFillParentHor = false) ∧
    ((fitFillTree.heap 1).stretchVer = eGuiStretch.FILL_PARENT →
      (Arrange.flags ((Arrange.forceFit (Arrange.resetForceFit fitFillTree 0)
        (fitFillTree.heap 0).children).heap 1)).bFitToChildrenVer = true ∧
      (Arrange.flags ((Arrange.forceFit (Arrange.resetForceFit fitFillTree 0)
        (fitFillTree.heap 0).children).heap 1)).bFillParentVer = false) ∧
    ∃ s2 sizeUsed g,
      ArrangeChildren.loop sampleHpp (Arrange sampleHpp (0 + 1))
        (Arrange.forceFit (Arrange.resetForceFit fitFillTree 0) (fitFillTree.heap 0).children)
        ⟨0, 0⟩ (fitFillTree.heap 0).children = Except.ok (s2, sizeUsed) ∧
      g.fixed = (fitFillTree.heap 0).fixed ∧
      ∀ pos size, ∃ t u, Arrange sampleHpp (0 + 2) fitFillTree 0 pos size = Except.ok (t, u) ∧
        ((fitFillTree.heap 0).stretchHor = eGuiStretch.FIT_TO_CHILDREN →
          (fitFillTree.heap 1).stretchHor = eGuiStretch.FILL_PARENT →
          (t.heap 1).size.x = (t.heap 0).GetContentSizeX ∧
          (t.heap 1).pos.x = (t.heap 0).GetContentPosX ∧
          (t.heap 0).size.x =
            max (sizeUsed.x +
                ((fitFillTree.heap 0).padding.left + (fitFillTree.heap 0).padding.right)
              + ((fitFillTree.heap 0).border.left + (fitFillTree.heap 0).border.right))
              (sampleHpp.GetMinSizeX g)) ∧
        ((fitFillTree.heap 0).stretchVer = eGuiStretch.FIT_TO_CHILDREN →
          (fitFillTree.heap 1).stretchVer = eGuiStretch.FILL_PARENT →
          (t.heap 1).size.y = (t.heap 0).GetContentSizeY ∧
          (t.heap 1).pos.y = (t.heap 0).GetContentPosY ∧
          (t.heap 0).size.y =
            max (sizeUsed.y +
                ((fitFillTree.heap 0).padding.top + (fitFillTree.heap 0).padding.bottom)
              + ((fitFillTree.heap 0).border.top + (fitFillTree.heap 0).border.bottom))
              (sampleHpp.GetMinSizeY g))) ∧
    [0, 1, 2].map (fun n => (resultNode
        (Arrange sampleHpp 2 fitFillTree 0 ⟨0, 0⟩ ⟨400, 300⟩) n).map Gui.GetRect) =
      [some ⟨0, 30, 0, 40⟩, some ⟨0, 30, 0, 40⟩, some ⟨0, 30, 0, 40⟩] ∧
    [0, 1, 2].map (fun n => (resultNode
        (Arrange plainHpp 2 fitFillTree 0 ⟨7, 9⟩ ⟨10, 10⟩) n).map Gui.GetRect) =
      [some ⟨7, 37, 9, 49⟩, some ⟨7, 37, 9, 49⟩, some ⟨7, 37, 9, 49⟩] :=
  ⟨C24_fit_fill_cycle sampleHpp 0 fitFillTree 0 1 (by decide) TreeInv_fitFillTree.1
    (by decide) (by decide) (fun _ _ => ⟨rfl, rfl⟩), by decide!, by decide!⟩

/-! ### `alignHor` of a node is read by nothing but the alignment of that node -/

theorem reAlign_heap (n : Nat) (a : eGuiAlignHor) (s : State) (m : Nat) :
    ∃ b, (reAlign n a s).heap m = { (s.heap m) with alignHor := b } := by
  unfold reAlign
  rw [State.modify_heap]
  split_ifs with e
  · subst e; exact ⟨a, rfl⟩
  · exact ⟨(s.heap m).alignHor, rfl⟩

theorem reAlign_heap_ne (n : Nat) (a : eGuiAlignHor) (s : State) {m : Nat} (h : m ≠ n) :
    (reAlign n a s).heap m = s.heap m := State.modify_heap_of_ne _ _ h

theorem reAlign_heap_self (n : Nat) (a : eGuiAlignHor) (s : State) :
    (reAlign n a s).heap n = { (s.heap n) with alignHor := a } := State.modify_heap_self _ _ _

theorem reAlign_fire (n : Nat) (a : eGuiAlignHor) (s : State) (e : Event) :
    reAlign n a (s.fire e) = (reAlign n a s).fire e := rfl

/-- A write that does not look at `alignHor` and does not change it commutes with
`reAlign`. -/
theorem reAlign_write (n : Nat) (a : eGuiAlignHor) (s : State) (m : Nat) (f : Gui → Gui)
    (hf : ∀ g b, f { g with alignHor := b } = { (f g) with alignHor := b }) :
    reAlign n a (s.modify m f) = (reAlign n a s).modify m f := by
  unfold reAlign State.modify
  simp only [State.mk.injEq, and_true]
  funext k
  by_cases h1 : k = n <;> by_cases h2 : k = m
  · subst h1; subst h2; simp only [if_true]; exact (hf _ _).symm
  · subst h1; simp only [if_true, h2, if_false]
  · subst h2
    have h3 : ¬ n = k := fun e => h1 e.symm
    simp only [if_true, h1, if_false, h3]
  · simp only [h1, h2, if_false]

theorem notifySelf_reAlign (n : Nat) (a : eGuiAlignHor) (t : State) (self : Nat) (rect : RectF) :
    SetRect.notifySelf (reAlign n a t) self rect = reAlign n a (SetRect.notifySelf t self rect) := by
  obtain ⟨b, hb⟩ := reAlign_heap n a t self
  unfold SetRect.notifySelf
  simp only [State.fire_heap, hb]
  cases (t.heap self).parent <;> rfl

theorem notifyChange_reAlign (n : Nat) (a : eGuiAlignHor) (t : State) (self : Nat) (rect : RectF)
    (b1 b2 b3 : Bool) :
    SetRect.notifyChange (reAlign n a t) self rect b1 b2 b3 =
      reAlign n a (SetRect.notifyChange t self rect b1 b2 b3) := by
  unfold SetRect.notifyChange
  cases b1 <;> cases b2 <;> cases b3 <;>
    simp only [if_true, if_false, Bool.false_eq_true] <;>
    first
      | rfl
      | (rw [reAlign_write n a _ self _ (fun _ _ => rfl)]; rfl)

theorem forEachChild_reAlign (n : Nat) (a : eGuiAlignHor)
    (body : State → Nat → Except ArrangeError State)
    (hbody : ∀ t c, body (reAlign n a t) c = (body t c).map (reAlign n a)) :
    ∀ (l : List Nat) (s : State),
      forEachChild body (reAlign n a s) l = (forEachChild body s l).map (reAlign n a) := by
  intro l
  induction l with
  | nil => intro s; rfl
  | cons c rest ih =>
    intro s
    unfold forEachChild
    rw [hbody]
    cases body s c with
    | error e => rfl
    | ok s1 => exact ih s1

/-- When the minimum size does not depend on `alignHor`, `SetRect` commutes with
`reAlign`. -/
theorem SetRect_reAlign (H : GuiHpp) (n : Nat) (a : eGuiAlignHor)
    (hmin : ∀ g b, H.GetMinSizeX { g with alignHor := b } = H.GetMinSizeX g ∧
      H.GetMinSizeY { g with alignHor := b } = H.GetMinSizeY g) (fuel : Nat) :
    ∀ (s : State) (c : Nat) (x y w h : ℚ) (b1 b2 : Bool),
      SetRect H fuel (reAlign n a s) c x y w h b1 b2 =
        (SetRect H fuel s c x y w h b1 b2).map (reAlign n a) := by
  induction fuel with
  | zero => intro s c x y w h b1 b2; rfl
  | succ fuel ih =>
    intro s c x y w h b1 b2
    obtain ⟨b, hb⟩ := reAlign_heap n a s c
    unfold SetRect
    simp only []
    rw [hb, (hmin (s.heap c) b).1, (hmin (s.heap c) b).2]
    have hw := reAlign_write n a s c (fun g =>
      { g with
        pos := ⟨x, y⟩
        size := ⟨max w (H.GetMinSizeX (s.heap c)), max h (H.GetMinSizeY (s.heap c))⟩ })
      (fun _ _ => rfl)
    rw [← hw]
    have hrect : ({ (s.heap c) with alignHor := b } : Gui).GetRect = (s.heap c).GetRect := rfl
    rw [hrect]
    generalize (s.modify c (fun g =>
      { g with
        pos := ⟨x, y⟩
        size := ⟨max w (H.GetMinSizeX (s.heap c)), max h (H.GetMinSizeY (s.heap c))⟩ })) = t0
    obtain ⟨b0, hb0⟩ := reAlign_heap n a t0 c
    have hrect0 : ((reAlign n a t0).heap c).GetRect = (t0.heap c).GetRect := by rw [hb0]; rfl
    have hch0 : ((reAlign n a t0).heap c).children = (t0.heap c).children := by rw [hb0]
    rw [hrect0]
    generalize (t0.heap c).GetRect = rect
    generalize (s.heap c).GetRect = oldRect
    unfold SetRect.commit
    simp only [hch0]
    have hloop : SetRect.notifyChildren
        (SetRect.move H (SetRect H fuel) b1
          ⟨rect.GetPos.x - oldRect.GetPos.x, rect.GetPos.y - oldRect.GetPos.y⟩)
        rect (reAlign n a t0) (t0.heap c).children =
      (SetRect.notifyChildren
        (SetRect.move H (SetRect H fuel) b1
          ⟨rect.GetPos.x - oldRect.GetPos.x, rect.GetPos.y - oldRect.GetPos.y⟩)
        rect t0 (t0.heap c).children).map (reAlign n a) := by
      unfold SetRect.notifyChildren
      apply forEachChild_reAlign
      intro t ch
      have hmove : SetRect.move H (SetRect H fuel) b1
          ⟨rect.GetPos.x - oldRect.GetPos.x, rect.GetPos.y - oldRect.GetPos.y⟩
          (reAlign n a t) ch =
        (SetRect.move H (SetRect H fuel) b1
          ⟨rect.GetPos.x - oldRect.GetPos.x, rect.GetPos.y - oldRect.GetPos.y⟩ t ch).map
          (reAlign n a) := by
        unfold SetRect.move
        obtain ⟨b3, hb3⟩ := reAlign_heap n a t ch
        cases b1
        · rfl
        · simp only [if_true, hb3]
          exact ih _ _ _ _ _ _ _ _
      rw [hmove]
      cases SetRect.move H (SetRect H fuel) b1
          ⟨rect.GetPos.x - oldRect.GetPos.x, rect.GetPos.y - oldRect.GetPos.y⟩ t ch with
      | error e => rfl
      | ok t1 => rfl
    rw [hloop]
    split_ifs
    · cases SetRect.notifyChildren
          (SetRect.move H (SetRect H fuel) b1
            ⟨rect.GetPos.x - oldRect.GetPos.x, rect.GetPos.y - oldRect.GetPos.y⟩)
          rect t0 (t0.heap c).children with
      | error e => rfl
      | ok t2 =>
        simp only [Except.map, notifySelf_reAlign, notifyChange_reAlign]
    · simp only [Except.map, notifyChange_reAlign]

theorem resetForceFit_reAlign (n : Nat) (a : eGuiAlignHor) (s : State) (c : Nat) :
    Arrange.resetForceFit (reAlign n a s) c = reAlign n a (Arrange.resetForceFit s c) := by
  obtain ⟨b, hb⟩ := reAlign_heap n a s c
  unfold Arrange.resetForceFit
  rw [hb]
  simp only []
  split_ifs
  · exact (reAlign_write n a s c _ (fun _ _ => rfl)).symm
  · rfl

theorem forceFit_reAlign (n : Nat) (a : eGuiAlignHor) :
    ∀ (l : List Nat) (s : State),
      Arrange.forceFit (reAlign n a s) l = reAlign n a (Arrange.forceFit s l) := by
  intro l
  induction l with
  | nil => intro s; rfl
  | cons c rest ih =>
    intro s
    obtain ⟨b, hb⟩ := reAlign_heap n a s c
    unfold Arrange.forceFit
    rw [hb]
    simp only []
    split_ifs
    · rw [← reAlign_write n a s c _ (fun _ _ => rfl)]
      exact ih _
    · exact ih _

theorem enableFill_reAlign (n : Nat) (a : eGuiAlignHor) :
    ∀ (l : List Nat) (s : State),
      Arrange.enableFill (reAlign n a s) l = reAlign n a (Arrange.enableFill s l) := by
  intro l
  induction l with
  | nil => intro s; rfl
  | cons c rest ih =>
    intro s
    obtain ⟨b, hb⟩ := reAlign_heap n a s c
    unfold Arrange.enableFill
    rw [hb]
    simp only []
    split_ifs
    · rw [← reAlign_write n a s c _ (fun _ _ => rfl)]
      exact ih _
    · exact ih _

theorem fillParent_reAlign (n : Nat) (a : eGuiAlignHor) (s : State) (self : Nat)
    (f : StretchFlags) (np ns : Vec2) :
    Arrange.fillParent (reAlign n a s) self f np ns = Arrange.fillParent s self f np ns := by
  obtain ⟨b, hb⟩ := reAlign_heap n a s self
  unfold Arrange.fillParent derefParent
  rw [hb]
  simp only []
  cases hp : (s.heap self).parent with
  | none => rfl
  | some p =>
    obtain ⟨b2, hb2⟩ := reAlign_heap n a s p
    simp only [hb2]
    rfl

theorem fill_reAlign (n : Nat) (a : eGuiAlignHor) (s : State) (self : Nat)
    (f : StretchFlags) (pos ns : Vec2) :
    Arrange.fill (reAlign n a s) self f pos ns =
      reAlignResult n a (Arrange.fill s self f pos ns) := by
  unfold Arrange.fill
  rw [fillParent_reAlign]
  split_ifs
  · cases Arrange.fillParent s self f pos ns with
    | error e => rfl
    | ok r =>
      obtain ⟨x, y⟩ := r
      simp only [reAlignResult]
      rw [reAlign_write n a s self _ (fun _ _ => rfl)]
  · rfl

theorem align_reAlign (n : Nat) (a : eGuiAlignHor) (s : State) (self : Nat) (np ns : Vec2)
    (h : self ≠ n) :
    Arrange.align (reAlign n a s) self np ns = Arrange.align s self np ns := by
  unfold Arrange.align derefParent
  rw [reAlign_heap_ne n a s h]
  simp only []
  cases hp : (s.heap self).parent with
  | none => rfl
  | some p =>
    obtain ⟨b2, hb2⟩ := reAlign_heap n a s p
    simp only [hb2]
    rfl

/-- The loop of `ArrangeChildren` over children other than `n` commutes with `reAlign`
when every call of the loop does. -/
theorem loop_reAlign (H : GuiHpp) (n : Nat) (a : eGuiAlignHor)
    (arrange : State → Nat → Vec2 → Vec2 → Except ArrangeError (State × Vec2))
    (s : State) (l : List Nat) (hl : ∀ c ∈ l, c ≠ n)
    (hstep : ∀ t c p z, c ∈ l → SameFixed s t →
      (∀ t1 u, arrange t c p z = Except.ok (t1, u) → SameFixed t t1) ∧
      arrange (reAlign n a t) c p z = reAlignResult n a (arrange t c p z)) :
    ∀ (t : State) (acc : Vec2), SameFixed s t →
      ArrangeChildren.loop H arrange (reAlign n a t) acc l =
        reAlignResult n a (ArrangeChildren.loop H arrange t acc l) := by
  induction l with
  | nil => intro t acc _; rfl
  | cons c rest ih =>
    intro t acc ht
    obtain ⟨h1, h2⟩ := hstep t c (t.heap c).pos (H.GetDesiredSize (t.heap c))
      (List.mem_cons_self _ _) ht
    unfold ArrangeChildren.loop
    rw [reAlign_heap_ne n a t (hl c (List.mem_cons_self _ _)), h2]
    cases harr : arrange t c (t.heap c).pos (H.GetDesiredSize (t.heap c)) with
    | error e => rfl
    | ok r =>
      obtain ⟨t1, u⟩ := r
      simp only [reAlignResult]
      exact ih (fun c2 hc2 => hl c2 (List.mem_cons_of_mem _ hc2))
        (fun t c2 p z hc2 ht => hstep t c2 p z (List.mem_cons_of_mem _ hc2) ht)
        t1 _ (ht.andThen (h1 t1 u harr))

theorem fitToChildren_reAlign (H : GuiHpp) (n : Nat) (a : eGuiAlignHor)
    (arrange : State → Nat → Vec2 → Vec2 → Except ArrangeError (State × Vec2))
    (s0 : State) (self : Nat) (f : StretchFlags) (size : Vec2)
    (hl : ∀ c ∈ (s0.heap self).children, c ≠ n)
    (hstep : ∀ t c p z, c ∈ (s0.heap self).children → SameFixed s0 t →
      (∀ t1 u, arrange t c p z = Except.ok (t1, u) → SameFixed t t1) ∧
      arrange (reAlign n a t) c p z = reAlignResult n a (arrange t c p z)) :
    Arrange.fitToChildren H arrange (reAlign n a s0) self f size =
      reAlignResult n a (Arrange.fitToChildren H arrange s0 self f size) := by
  obtain ⟨b, hb⟩ := reAlign_heap n a s0 self
  have hs1 : SameFixed s0 (Arrange.forceFit s0 (s0.heap self).children) :=
    (forceFit_stepOk s0 self _ (children_descendant s0 self) s0 (StepOk.refl s0 self)).1
  unfold Arrange.fitToChildren
  by_cases hfit : (f.bFitToChildrenHor || f.bFitToChildrenVer) = true
  · simp only [hfit, if_true, hb, forceFit_reAlign, ArrangeChildren.body]
    obtain ⟨b1, hb1⟩ := reAlign_heap n a (Arrange.forceFit s0 (s0.heap self).children) self
    rw [hb1]
    simp only [hs1.children]
    rw [loop_reAlign H n a arrange s0 _ hl hstep _ _ hs1]
    cases ArrangeChildren.loop H arrange (Arrange.forceFit s0 (s0.heap self).children) ⟨0, 0⟩
        (s0.heap self).children with
    | error e => rfl
    | ok r =>
      obtain ⟨s2, used⟩ := r
      obtain ⟨b2, hb2⟩ := reAlign_heap n a s2 self
      simp only [reAlignResult, hb2, enableFill_reAlign]
  · simp only [hfit, if_false, Bool.false_eq_true, reAlignResult]

theorem finish_reAlign (H : GuiHpp) (n : Nat) (a : eGuiAlignHor)
    (hmin : ∀ g b, H.GetMinSizeX { g with alignHor := b } = H.GetMinSizeX g ∧
      H.GetMinSizeY { g with alignHor := b } = H.GetMinSizeY g) (fuel : Nat)
    (arrange : State → Nat → Vec2 → Vec2 → Except ArrangeError (State × Vec2))
    (s4 : State) (self : Nat) (np ns : Vec2)
    (hl : ∀ c ∈ (s4.heap self).children, c ≠ n)
    (hset : ∀ x y w h s5, SetRect H fuel s4 self x y w h true false = Except.ok s5 →
      SameFixed s4 s5)
    (hstep : ∀ t c p z, c ∈ (s4.heap self).children → SameFixed s4 t →
      (∀ t1 u, arrange t c p z = Except.ok (t1, u) → SameFixed t t1) ∧
      arrange (reAlign n a t) c p z = reAlignResult n a (arrange t c p z)) :
    Arrange.finish H (SetRect H fuel) arrange (reAlign n a s4) self np ns =
      reAlignResult n a (Arrange.finish H (SetRect H fuel) arrange s4 self np ns) := by
  obtain ⟨b, hb⟩ := reAlign_heap n a s4 self
  unfold Arrange.finish
  simp only [hb, SetRect_reAlign H n a hmin]
  cases h5 : SetRect H fuel s4 self (np.x + (s4.heap self).margin.left)
      (np.y + (s4.heap self).margin.right)
      (ns.x - ((s4.heap self).margin.left + (s4.heap self).margin.right))
      (ns.y - ((s4.heap self).margin.top + (s4.heap self).margin.bottom)) true false with
  | error e => rfl
  | ok s5 =>
    have hsf5 := hset _ _ _ _ s5 h5
    obtain ⟨b5, hb5⟩ := reAlign_heap n a s5 self
    simp only [Except.map, ArrangeChildren.body, hb5, hsf5.children]
    rw [loop_reAlign H n a arrange s4 _ hl hstep _ _ hsf5]
    cases ArrangeChildren.loop H arrange s5 ⟨0, 0⟩ (s4.heap self).children with
    | error e => rfl
    | ok r =>
      obtain ⟨s6, used⟩ := r
      simp only [reAlignResult]
      rw [← reAlign_write n a s6 self _ (fun _ _ => rfl)]
      obtain ⟨b7, hb7⟩ := reAlign_heap n a
        (s6.modify self (fun g => { g with bLayoutNeedRefresh := false })) self
      rw [hb7]

theorem flags_reAlign (n : Nat) (a : eGuiAlignHor) (s : State) (m : Nat) :
    Arrange.flags ((reAlign n a s).heap m) = Arrange.flags (s.heap m) := by
  obtain ⟨b, hb⟩ := reAlign_heap n a s m
  rw [hb]
  rfl

/-- When the minimum size does not depend on `alignHor`, `Arrange` on a finite tree that
does not contain `n` commutes with `reAlign`. -/
theorem Arrange_reAlign (H : GuiHpp) (n : Nat) (a : eGuiAlignHor)
    (hmin : ∀ g b, H.GetMinSizeX { g with alignHor := b } = H.GetMinSizeX g ∧
      H.GetMinSizeY { g with alignHor := b } = H.GetMinSizeY g) (fuel : Nat) :
    ∀ (s : State) (c : Nat) (pos z : Vec2), arrangeable s fuel c = true →
      (∀ m, Descendant s c m → m ≠ n) →
      Arrange H fuel (reAlign n a s) c pos z = reAlignResult n a (Arrange H fuel s c pos z) := by
  induction fuel with
  | zero => intro s c pos z ha; simp [arrangeable] at ha
  | succ fuel ih =>
    intro s c pos z ha hnb
    obtain ⟨-, hch⟩ := arrangeable_succ ha
    have hcn : c ≠ n := hnb c (Descendant.self c)
    obtain ⟨s3, ns3, s4, np4, ns4, np5, t, u, h3, hs3, -, -, -, h4, hs4, -, h5, hA, -, -, -, -⟩ :=
      Arrange_own H fuel s c pos z ha
    have hfin : Arrange.finish H (SetRect H (fuel + 1)) (Arrange H fuel) s4 c np5 ns4 =
        Except.ok (t, u) := by
      have h0 := hA
      unfold Arrange at h0
      simpa only [h3, h4, h5] using h0
    have hrec : ∀ base : State, SameFixed s base →
        ∀ t ch p z, ch ∈ (base.heap c).children → SameFixed base t →
          (∀ t1 u, Arrange H fuel t ch p z = Except.ok (t1, u) → SameFixed t t1) ∧
          Arrange H fuel (reAlign n a t) ch p z =
            reAlignResult n a (Arrange H fuel t ch p z) := by
      intro base hb t ch p z hc ht
      have hc0 : ch ∈ (s.heap c).children := by rw [← hb.children]; exact hc
      have hat : arrangeable t fuel ch = true := by
        rw [arrangeable_congr (hb.andThen ht)]; exact hch ch hc0
      refine ⟨fun t1 u1 h1 => ?_, ih t ch p z hat (fun m hd =>
        hnb m (Descendant.child hc0 ((Descendant.congr_iff (hb.andThen ht) ch m).mp hd)))⟩
      obtain ⟨t1b, ub, e, hcs⟩ := Arrange_spec H fuel t ch p z hat
      rw [h1] at e
      simp only [Except.ok.injEq, Prod.mk.injEq] at e
      rw [e.1]
      exact hcs.1.1
    have hlOf : ∀ base : State, SameFixed s base → ∀ ch ∈ (base.heap c).children, ch ≠ n := by
      intro base hb ch hc
      exact hnb ch (Descendant.child (by rw [← hb.children]; exact hc) (Descendant.self ch))
    have hsf0 : SameFixed s (Arrange.resetForceFit s c) := (resetForceFit_stepOk s c).1
    rw [hA]
    unfold Arrange
    simp only [flags_reAlign, resetForceFit_reAlign]
    rw [fitToChildren_reAlign H n a (Arrange H fuel) _ c _ z (hlOf _ hsf0) (hrec _ hsf0), h3]
    simp only [reAlignResult]
    rw [fill_reAlign, h4]
    simp only [reAlignResult]
    rw [align_reAlign n a s4 c np4 ns4 hcn, h5]
    simp only []
    rw [finish_reAlign H n a hmin (fuel + 1) (Arrange H fuel) s4 c np5 ns4 (hlOf _ hs4.1)
      (fun x y w h s5 h5 => by
        obtain ⟨s5b, e, hst⟩ := SetRect_spec H (fuel + 1) s4 c x y w h true false
          (by rw [arrangeable_congr hs4.1]; exact ha)
        rw [h5] at e
        simp only [Except.ok.injEq] at e
        rw [e]
        exact hst.1)
      (hrec _ hs4.1), hfin]
    rfl

theorem arrangeable_reAlign (n : Nat) (a : eGuiAlignHor) (s : State)
    (hp : (s.heap n).parent.isSome = true) (d : Nat) :
    ∀ c, arrangeable (reAlign n a s) d c = arrangeable s d c := by
  induction d with
  | zero => intro c; rfl
  | succ d ih =>
    intro c
    have hfun : (fun c => arrangeable (reAlign n a s) d c) = fun c => arrangeable s d c :=
      funext ih
    obtain ⟨b, hb⟩ := reAlign_heap n a s c
    simp only [arrangeable, hfun]
    by_cases e : c = n
    · subst e
      rw [hb]
      simp only [hp, Bool.or_true]
    · rw [reAlign_heap_ne n a s e]

/-! ### Horizontal alignment -/

theorem flags_none_hor (g : Gui) (h : g.stretchHor = eGuiStretch.NONE) :
    (Arrange.flags g).bFitToChildrenHor = false ∧ (Arrange.flags g).bFillParentHor = false ∧
    (Arrange.flags g).bFillParentPositibeDirHor = false := by
  unfold Arrange.flags
  cases g.bForceFitToChildren <;> simp [h]

/-- The horizontal component that the alignment switch computes. -/
theorem align_hor (s : State) (n p : Nat) (np ns np5 : Vec2)
    (hp : (s.heap n).parent = some p) (h : Arrange.align s n np ns = Except.ok np5) :
    ((s.heap n).alignHor = eGuiAlignHor.NONE → np5.x = np.x) ∧
    ((s.heap n).alignHor = eGuiAlignHor.LEFT → np5.x = (s.heap p).GetContentPosX) ∧
    ((s.heap n).alignHor = eGuiAlignHor.CENTER →
      np5.x = (s.heap p).GetContentCenterPosX - ns.x * (1 / 2)) ∧
    ((s.heap n).alignHor = eGuiAlignHor.RIGHT →
      np5.x = (s.heap p).GetContentPosX + (s.heap p).GetContentSizeX - ns.x) := by
  unfold Arrange.align derefParent at h
  cases h1 : (s.heap n).alignVer <;> cases h2 : (s.heap n).alignHor <;>
    simp only [h1, h2, hp, Except.ok.injEq] at h <;> subst h <;>
    simp

/-- Two `Arrange` calls on `n` that differ only in `alignHor` of `n` commit the same
size, when the minimum size does not depend on `alignHor`. -/
theorem Arrange_size_reAlign (H : GuiHpp) (k : Nat) (s : State) (n p : Nat) (a : eGuiAlignHor)
    (pos size : Vec2) (htree : arrangeable s (k + 1) n = true)
    (hpar : (s.heap n).parent = some p)
    (hminA : ∀ g b, H.GetMinSizeX { g with alignHor := b } = H.GetMinSizeX g ∧
      H.GetMinSizeY { g with alignHor := b } = H.GetMinSizeY g) :
    ∃ t u t0 u0, Arrange H (k + 1) s n pos size = Except.ok (t, u) ∧
      Arrange H (k + 1) (reAlign n a s) n pos size = Except.ok (t0, u0) ∧
      (t0.heap n).size = (t.heap n).size := by
  obtain ⟨-, hch⟩ := arrangeable_succ htree
  have hacyc := arrangeable_acyclic s (k + 1) n htree
  obtain ⟨s3, ns3, s4, np4, ns4, np5, t, u, h3, hs3, -, -, -, h4, hs4, -, h5, hA, -, -, hrec,
    -⟩ := Arrange_own H k s n pos size htree
  have htree0 : arrangeable (reAlign n a s) (k + 1) n = true := by
    rw [arrangeable_reAlign n a s (by rw [hpar]; rfl)]; exact htree
  obtain ⟨s3b, ns3b, s4b, np4b, ns4b, np5b, t0, u0, h3b, -, -, -, -, h4b, -, -, -, hA0, -, -,
    hrec0, -⟩ := Arrange_own H k (reAlign n a s) n pos size htree0
  have hsf0 : SameFixed s (Arrange.resetForceFit s n) := (resetForceFit_stepOk s n).1
  rw [flags_reAlign, resetForceFit_reAlign,
    fitToChildren_reAlign H n a (Arrange H k) _ n _ size
      (fun c hc e => hacyc c (by rw [← hsf0.children]; exact hc)
        (by rw [e]; exact Descendant.self n))
      (fun t c p z hc ht => by
        have hc0 : c ∈ (s.heap n).children := by rw [← hsf0.children]; exact hc
        have hat : arrangeable t k c = true := by
          rw [arrangeable_congr (hsf0.andThen ht)]; exact hch c hc0
        refine ⟨fun t1 u1 h1 => ?_, Arrange_reAlign H n a hminA k t c p z hat (fun m hd e =>
          hacyc c hc0 ((Descendant.congr_iff (hsf0.andThen ht) c n).mp (e ▸ hd)))⟩
        obtain ⟨t1b, ub, e, hcs⟩ := Arrange_spec H k t c p z hat
        rw [h1] at e
        simp only [Except.ok.injEq, Prod.mk.injEq] at e
        rw [e.1]
        exact hcs.1.1),
    h3] at h3b
  simp only [reAlignResult, Except.ok.injEq, Prod.mk.injEq] at h3b
  obtain ⟨e3, en3⟩ := h3b
  subst e3
  subst en3
  rw [flags_reAlign, fill_reAlign, h4] at h4b
  simp only [reAlignResult, Except.ok.injEq, Prod.mk.injEq] at h4b
  obtain ⟨e4, -, en4⟩ := h4b
  subst e4
  subst en4
  refine ⟨t, u, t0, u0, hA, hA0, ?_⟩
  rw [hrec, hrec0, reAlign_heap_self]
  simp only [(hminA (s4.heap n) a).1, (hminA (s4.heap n) a).2]

/-- C21. Horizontal alignment repositions inside the parent's content rect and never changes
size. Let `n` be a node with parent `p` (not below `n`) and stretchHor NONE in a finite
tree, let the minimum width of `n` not exceed the proposed width minus the margin (no
clamping), and let the minimum size not depend on `alignHor`. Then `Arrange` on `n`
returns, and so does `Arrange` on `n` in the state that differs only in `alignHor` of `n`
being NONE. After the first call: with LEFT the rect's left edge minus `margin.left` is the
left edge of the parent's content rect; with RIGHT the rect's right edge plus
`margin.right` is the right edge of the parent's content rect; with CENTER the centre of
the margin box is the centre of the parent's content rect. In every case the committed
size is the size that the call with `alignHor = NONE` commits, and its width is the
proposed width minus the margin. -/
theorem C21_align_hor (H : GuiHpp) (k : Nat) (s : State) (n p : Nat) (pos size : Vec2)
    (htree : arrangeable s (k + 1) n = true)
    (hpar : (s.heap n).parent = some p) (hnb : ¬ Descendant s n p)
    (hstretch : (s.heap n).stretchHor = eGuiStretch.NONE)
    (hminX : ∀ g, g.fixed = (s.heap n).fixed →
      H.GetMinSizeX g ≤ size.x - ((s.heap n).margin.left + (s.heap n).margin.right))
    (hminA : ∀ g b, H.GetMinSizeX { g with alignHor := b } = H.GetMinSizeX g ∧
      H.GetMinSizeY { g with alignHor := b } = H.GetMinSizeY g) :
    ∃ t u t0 u0, Arrange H (k + 1) s n pos size = Except.ok (t, u) ∧
      Arrange H (k + 1) (reAlign n eGuiAlignHor.NONE s) n pos size = Except.ok (t0, u0) ∧
      ((s.heap n).alignHor = eGuiAlignHor.LEFT →
        (t.heap n).GetRect.left - (t.heap n).margin.left = (t.heap p).GetContentRect.left) ∧
      ((s.heap n).alignHor = eGuiAlignHor.RIGHT →
        (t.heap n).GetRect.right + (t.heap n).margin.right =
          (t.heap p).GetContentRect.right) ∧
      ((s.heap n).alignHor = eGuiAlignHor.CENTER →
        ((t.heap n).GetRect.left - (t.heap n).margin.left) +
          (((t.heap n).GetRect.right + (t.heap n).margin.right) -
            ((t.heap n).GetRect.left - (t.heap n).margin.left)) * (1 / 2) =
          (t.heap p).GetContentCenterPosX) ∧
      (t.heap n).size = (t0.heap n).size ∧
      (t.heap n).size.x = size.x - ((s.heap n).margin.left + (s.heap n).margin.right) := by
  obtain ⟨t, u, t0, u0, hA, hA0, hsize⟩ :=
    Arrange_size_reAlign H k s n p eGuiAlignHor.NONE pos size htree hpar hminA
  obtain ⟨s3, ns3, s4, np4, ns4, np5, t2, u2, -, -, -, hx3, -, h4, hs4, -, h5, hA2, hcs, -,
    hrec, -⟩ := Arrange_own H k s n pos size htree
  rw [hA] at hA2
  simp only [Except.ok.injEq, Prod.mk.injEq] at hA2
  obtain ⟨e1, -⟩ := hA2
  subst e1
  obtain ⟨hf1, hf2, hf3⟩ := flags_none_hor (s.heap n) hstretch
  obtain ⟨-, hkx⟩ := fill_keep_hor s3 n _ pos ns3 s4 np4 ns4 hf2 hf3 h4
  have hns : ns4.x = size.x := hkx.trans (hx3 hf1)
  have hp4 : (s4.heap n).parent = some p := by rw [hs4.1.parent]; exact hpar
  have hpp : s4.heap p = t.heap p := by rw [hs4.2 p hnb, hcs.1.2 p hnb]
  have hm4 : (s4.heap n).margin = (s.heap n).margin := (hs4.1.insets n).1
  have ha4 : (s4.heap n).alignHor = (s.heap n).alignHor := by
    have h0 := congrArg Gui.alignHor (hs4.1 n); exact h0
  obtain ⟨-, hL, hC, hR⟩ := align_hor s4 n p np4 ns4 np5 hp4 h5
  have hw : (t.heap n).size.x =
      size.x - ((s.heap n).margin.left + (s.heap n).margin.right) := by
    rw [hrec]
    simp only [hns, hm4]
    exact max_eq_left (hminX _ (hs4.1 n))
  have hpos : (t.heap n).pos.x = np5.x + (s.heap n).margin.left := by
    rw [hrec]
    simp only [hm4]
  have hmt : (t.heap n).margin = (s.heap n).margin := by rw [hrec]; exact hm4
  refine ⟨t, u, t0, u0, hA, hA0, fun hl => ?_, fun hr => ?_, fun hc => ?_, hsize.symm, hw⟩
  · rw [ha4] at hL
    simp only [Gui.GetRect, RectF.ofPosSize, hpos, hmt, hL hl, hpp, Gui.GetContentPosX]
    ring
  · rw [ha4] at hR
    simp only [Gui.GetRect, RectF.ofPosSize, hpos, hw, hmt, hR hr, hpp, hns,
      Gui.GetContentPosX, Gui.GetContentSizeX, RectF.GetSize]
    ring
  · rw [ha4] at hC
    simp only [Gui.GetRect, RectF.ofPosSize, hpos, hw, hmt, hC hc, hpp, hns]
    ring

theorem TreeInv_alignChild (a : eGuiAlignHor) : TreeInv (alignChild a) := by
  unfold alignChild
  exact TreeInv_modify _ _ _ (TreeInv_modify _ _ _ (TreeInv_AddGui _ 0 1 true TreeInv_fresh)
    rfl rfl rfl) rfl rfl rfl

/-- Witness for C21: the child `1` (margin left 3, right 4) of the root `0`, whose content
rect runs from 15 to 385 horizontally, aligned RIGHT and proposed 60x20 at (0, 0): the
rect comes out as left 328, right 381; with LEFT as left 18, right 71; with CENTER as left
173, right 226; with NONE as left 3, right 56; the size is 53x20 in all four (top 4 and
bottom 24, the vertical position being `pos.y + margin.right`). -/
theorem C21_align_hor_witness :
    (∃ t u t0 u0,
      Arrange sampleHpp (0 + 1) (alignChild eGuiAlignHor.RIGHT) 1 ⟨0, 0⟩ ⟨60, 20⟩ =
        Except.ok (t, u) ∧
      Arrange sampleHpp (0 + 1) (reAlign 1 eGuiAlignHor.NONE (alignChild eGuiAlignHor.RIGHT)) 1
        ⟨0, 0⟩ ⟨60, 20⟩ = Except.ok (t0, u0) ∧
      (((alignChild eGuiAlignHor.RIGHT).heap 1).alignHor = eGuiAlignHor.LEFT →
        (t.heap 1).GetRect.left - (t.heap 1).margin.left = (t.heap 0).GetContentRect.left) ∧
      (((alignChild eGuiAlignHor.RIGHT).heap 1).alignHor = eGuiAlignHor.RIGHT →
        (t.heap 1).GetRect.right + (t.heap 1).margin.right =
          (t.heap 0).GetContentRect.right) ∧
      (((alignChild eGuiAlignHor.RIGHT).heap 1).alignHor = eGuiAlignHor.CENTER →
        ((t.heap 1).GetRect.left - (t.heap 1).margin.left) +
          (((t.heap 1).GetRect.right + (t.heap 1).margin.right) -
            ((t.heap 1).GetRect.left - (t.heap 1).margin.left)) * (1 / 2) =
          (t.heap 0).GetContentCenterPosX) ∧
      (t.heap 1).size = (t0.heap 1).size ∧
      (t.heap 1).size.x = 60 - (((alignChild eGuiAlignHor.RIGHT).heap 1).margin.left +
        ((alignChild eGuiAlignHor.RIGHT).heap 1).margin.right)) ∧
    [eGuiAlignHor.RIGHT, eGuiAlignHor.LEFT, eGuiAlignHor.CENTER, eGuiAlignHor.NONE].map
      (fun a => (resultNode (Arrange sampleHpp 1 (alignChild a) 1 ⟨0, 0⟩ ⟨60, 20⟩) 1).map
        Gui.GetRect) =
      [some ⟨328, 381, 4, 24⟩, some ⟨18, 71, 4, 24⟩, some ⟨173, 226, 4, 24⟩,
        some ⟨3, 56, 4, 24⟩] :=
  ⟨C21_align_hor sampleHpp 0 (alignChild eGuiAlignHor.RIGHT) 1 0 ⟨0, 0⟩ ⟨60, 20⟩ (by decide)
    (by decide) (by rw [leaf_descendant _ 1 0 (by decide)]; decide) (by decide)
    (fun _ _ => by show (0 : ℚ) ≤ 60 - (3 + 4); norm_num) (fun _ _ => ⟨rfl, rfl⟩), by decide!⟩

/-! ### What `AddGui` does to children, parents and sizes -/

theorem clearLinks_size (s : State) (child m : Nat) :
    ((RemoveGui.clearLinks s child).heap m).size = (s.heap m).size := by
  unfold RemoveGui.clearLinks
  cases (s.heap child).front <;> simp only [] <;>
    (split <;> simp only [State.modify_heap] <;> split_ifs <;> simp_all)

theorem RemoveGui_fields (s : State) (self child : Nat) (b : Bool) (m : Nat) :
    ((RemoveGui s self child b).1.heap m).size = (s.heap m).size ∧
    (m ≠ child → ((RemoveGui s self child b).1.heap m).parent = (s.heap m).parent) ∧
    (child ∉ (s.heap m).children →
      ((RemoveGui s self child b).1.heap m).children = (s.heap m).children) := by
  cases hres : (RemoveGui s self child b).2 with
  | false =>
    rw [RemoveGui_false_state s self child b hres]
    exact ⟨rfl, fun _ => rfl, fun _ => rfl⟩
  | true =>
    obtain ⟨k, hk, hget⟩ := (RemoveGui_true_iff s self child b).mp hres
    rw [RemoveGui_eq_of_stored s self child b k hk hget]
    have hcore : ((RemoveGui.erase (RemoveGui.clearLinks s child) self k).heap m).size =
          (s.heap m).size ∧
        (m ≠ child → ((RemoveGui.erase (RemoveGui.clearLinks s child) self k).heap m).parent =
          (s.heap m).parent) ∧
        (child ∉ (s.heap m).children →
          ((RemoveGui.erase (RemoveGui.clearLinks s child) self k).heap m).children =
            (s.heap m).children) := by
      obtain ⟨j, ch, hj⟩ := erase_frame (RemoveGui.clearLinks s child) self k m
      refine ⟨?_, fun hm => ?_, fun hc => ?_⟩
      · rw [hj]; exact clearLinks_size s child m
      · rw [hj]
        show ((RemoveGui.clearLinks s child).heap m).parent = _
        rw [clearLinks_parent, if_neg hm]
      · rw [erase_children, clearLinks_children, clearLinks_children]
        split_ifs with e
        · subst e
          exact absurd (List.mem_iff_getElem?.mpr ⟨k, hget⟩) hc
        · rfl
    cases b
    · exact hcore
    · simp only [if_true]
      rw [fireEvents_heap]
      split_ifs with e
      · subst e; exact hcore
      · exact hcore

theorem link_size (s : State) (self child m : Nat) :
    ((AddGui.link s self child).heap m).size = (s.heap m).size := by
  unfold AddGui.link
  simp only [State.modify_heap]
  obtain ⟨f1, b1, h1⟩ := linkLast_frame
    (s.modify child (fun g => { g with parent := some self })) self child self
  obtain ⟨f2, b2, h2⟩ := linkLast_frame
    (s.modify child (fun g => { g with parent := some self })) self child m
  obtain ⟨f3, b3, h3⟩ := linkLast_frame
    (s.modify child (fun g => { g with parent := some self })) self child child
  rw [h1, h2, h3]
  simp only [State.modify_heap]
  split_ifs <;> simp_all

/-- The call `AddGui(child)` on `self`: sizes are not written; `child` gets the parent
`self` and no other parent changes; `child` is appended to the children of `self`; and the
children of a node that did not hold `child` are not written. -/
theorem AddGui_tracked (s : State) (self child : Nat) (b : Bool) :
    (∀ m, ((AddGui s self child b).heap m).size = (s.heap m).size) ∧
    (∀ m, ((AddGui s self child b).heap m).parent =
      if m = child then some self else (s.heap m).parent) ∧
    (child ∉ (s.heap self).children →
      ((AddGui s self child b).heap self).children = (s.heap self).children ++ [child]) ∧
    (∀ m, m ≠ self → child ∉ (s.heap m).children →
      ((AddGui s self child b).heap m).children = (s.heap m).children) := by
  have hdet : ∀ m, ((AddGui.detach s child b).heap m).size = (s.heap m).size ∧
      (m ≠ child → ((AddGui.detach s child b).heap m).parent = (s.heap m).parent) ∧
      (child ∉ (s.heap m).children →
        ((AddGui.detach s child b).heap m).children = (s.heap m).children) := by
    intro m
    unfold AddGui.detach
    cases (s.heap child).parent with
    | none => exact ⟨rfl, fun _ => rfl, fun _ => rfl⟩
    | some p => exact RemoveGui_fields s p child b m
  have hsize : ∀ m, ((AddGui s self child b).heap m).size =
      ((AddGui.link (AddGui.detach s child b) self child).heap m).size := by
    intro m
    unfold AddGui
    cases b
    · rfl
    · simp only [if_true, AddGui_fireEvents_heap]
      split_ifs with hm
      · subst hm; rfl
      · rfl
  refine ⟨fun m => ?_, fun m => ?_, fun hc => ?_, fun m hm hc => ?_⟩
  · rw [hsize, link_size]; exact (hdet m).1
  · rw [(AddGui_fields s self child b m).2.1, link_parent]
    split_ifs with e
    · rfl
    · exact (hdet m).2.1 e
  · rw [(AddGui_fields s self child b self).1, link_children, if_pos rfl, (hdet self).2.2 hc]
  · rw [(AddGui_fields s self child b m).1, link_children, if_neg hm, (hdet m).2.2 hc]

/-- The call `AddGui()` on `self` that creates the node at the address `p`, which is not
`self` and not among its children. -/
theorem AddGuiNew_tracked (s : State) (self p : Nat) (hp : p ≠ self)
    (hc : p ∉ (s.heap self).children) :
    ((AddGuiNew s self p).heap self).children = (s.heap self).children ++ [p] ∧
    ((AddGuiNew s self p).heap p).children = [] ∧
    ((AddGuiNew s self p).heap p).parent = some self ∧
    (∀ m, m ≠ p → ((AddGuiNew s self p).heap m).size = (s.heap m).size) ∧
    (∀ m, m ≠ p → ((AddGuiNew s self p).heap m).parent = (s.heap m).parent) ∧
    (∀ m, m ≠ p → m ≠ self → p ∉ (s.heap m).children →
      ((AddGuiNew s self p).heap m).children = (s.heap m).children) := by
  obtain ⟨h1, h2, h3, h4⟩ := AddGui_tracked (s.modify p (fun _ => Gui.new)) self p true
  have hself : (s.modify p (fun _ => Gui.new)).heap self = s.heap self :=
    State.modify_heap_of_ne _ _ (fun e => hp e.symm)
  unfold AddGuiNew
  refine ⟨?_, ?_, ?_, fun m hm => ?_, fun m hm => ?_, fun m hm hms hcm => ?_⟩
  · rw [h3 (by rw [hself]; exact hc), hself]
  · rw [h4 p hp (by rw [State.modify_heap_self]; simp [Gui.new]), State.modify_heap_self]
    rfl
  · rw [h2, if_pos rfl]
  · rw [h1, State.modify_heap_of_ne _ _ hm]
  · rw [h2, if_neg hm, State.modify_heap_of_ne _ _ hm]
  · rw [h4 m hms (by rw [State.modify_heap_of_ne _ _ hm]; exact hcm),
      State.modify_heap_of_ne _ _ hm]

theorem notifyChange_frame (t : State) (self : Nat) (rect : RectF) (b1 b2 b3 : Bool) :
    (∀ m, m ≠ self → (SetRect.notifyChange t self rect b1 b2 b3).heap m = t.heap m) ∧
    ∃ d, (SetRect.notifyChange t self rect b1 b2 b3).heap self =
      { (t.heap self) with bLayoutNeedRefresh := d } := by
  constructor
  · intro m hm
    cases b1 <;> cases b2 <;> cases b3 <;> simp [SetRect.notifyChange, State.modify_heap, hm]
  · refine ⟨if (b2 && b3) = true then true else (t.heap self).bLayoutNeedRefresh, ?_⟩
    cases b1 <;> cases b2 <;> cases b3 <;> simp [SetRect.notifyChange]

/-- `SetSize(w, h)` on a node whose children have a size not below their minimum size: the
children are moved by nothing, so the call returns with a depth of two, writes no node but
`self`, and stores in `self` the size clamped from below by the minimum size. -/
theorem SetSize_shallow (H : GuiHpp) (f : Nat) (s : State) (self : Nat) (w h : ℚ)
    (hns : self ∉ (s.heap self).children)
    (hch : ∀ c ∈ (s.heap self).children,
      H.GetMinSizeX (s.heap c) ≤ (s.heap c).size.x ∧
      H.GetMinSizeY (s.heap c) ≤ (s.heap c).size.y) :
    ∃ s5, SetSize H (SetRect H (f + 2)) s self w h = Except.ok s5 ∧
      (∀ m, m ≠ self → s5.heap m = s.heap m) ∧
      ∃ d, s5.heap self = { (s.heap self) with
        size := ⟨max w (H.GetMinSizeX (s.heap self)), max h (H.GetMinSizeY (s.heap self))⟩
        bLayoutNeedRefresh := d } := by
  obtain ⟨s1, hs1⟩ : ∃ s1, s1 = s.modify self (fun g =>
      { g with
        pos := ⟨(s.heap self).pos.x, (s.heap self).pos.y⟩
        size := ⟨max w (H.GetMinSizeX (s.heap self)), max h (H.GetMinSizeY (s.heap self))⟩ }) :=
    ⟨_, rfl⟩
  have h1o : ∀ m, m ≠ self → s1.heap m = s.heap m := by
    intro m hm; rw [hs1]; exact State.modify_heap_of_ne _ _ hm
  have h1s : s1.heap self = { (s.heap self) with
      size := ⟨max w (H.GetMinSizeX (s.heap self)), max h (H.GetMinSizeY (s.heap self))⟩ } := by
    rw [hs1, State.modify_heap_self]
  have hchild : (s1.heap self).children = (s.heap self).children := by rw [h1s]
  have hposx : (s1.heap self).GetRect.GetPos.x - (s.heap self).GetRect.GetPos.x = 0 := by
    rw [h1s]; simp [Gui.GetRect, RectF.ofPosSize, RectF.GetPos]
  have hposy : (s1.heap self).GetRect.GetPos.y - (s.heap self).GetRect.GetPos.y = 0 := by
    rw [h1s]; simp [Gui.GetRect, RectF.ofPosSize, RectF.GetPos]
  have hloop : ∃ s2, SetRect.notifyChildren
      (SetRect.move H (SetRect H (f + 1)) H.setSizeMoveChildren
        ⟨(s1.heap self).GetRect.GetPos.x - (s.heap self).GetRect.GetPos.x,
          (s1.heap self).GetRect.GetPos.y - (s.heap self).GetRect.GetPos.y⟩)
      (s1.heap self).GetRect s1 (s1.heap self).children = Except.ok s2 ∧
        s2.heap = s1.heap := by
    refine notifyChildren_inv _ _ (fun t => t.heap = s1.heap) _ (fun t e ht => ht) ?_ s1 rfl
    intro t c hc ht
    rw [hchild] at hc
    have hcs : c ≠ self := fun e => hns (e ▸ hc)
    have htc : t.heap c = s.heap c := by rw [ht]; exact h1o c hcs
    refine ⟨t, ?_, ht⟩
    unfold SetRect.move
    split_ifs
    · rw [hposx, hposy]
      apply SetRect_same
      · simp
      · rw [htc, max_eq_left (hch c hc).1, max_eq_left (hch c hc).2]
    · rfl
  obtain ⟨s2, h2, h2h⟩ := hloop
  unfold SetSize SetRect
  simp only []
  rw [← hs1]
  unfold SetRect.commit
  simp only [h2]
  split_ifs with hrect
  · obtain ⟨k1, d, k2⟩ := notifyChange_frame (SetRect.notifySelf s2 self (s1.heap self).GetRect)
      self (s1.heap self).GetRect
      (decide ((s1.heap self).GetRect.GetPos ≠ (s.heap self).GetRect.GetPos))
      (decide ((s1.heap self).GetRect.GetSize ≠ (s.heap self).GetRect.GetSize))
      H.setSizeMakeLayoutDirty
    refine ⟨_, rfl, fun m hm => ?_, d, ?_⟩
    · rw [k1 m hm, notifySelf_heap, h2h]; exact h1o m hm
    · rw [k2, notifySelf_heap, h2h, h1s]
  · obtain ⟨k1, d, k2⟩ := notifyChange_frame s1 self (s1.heap self).GetRect
      (decide ((s1.heap self).GetRect.GetPos ≠ (s.heap self).GetRect.GetPos))
      (decide ((s1.heap self).GetRect.GetSize ≠ (s.heap self).GetRect.GetSize))
      H.setSizeMakeLayoutDirty
    refine ⟨_, rfl, fun m hm => ?_, d, ?_⟩
    · rw [k1 m hm]; exact h1o m hm
    · rw [k2, h1s]

/-! ### The structure that `AddItem` builds -/

theorem createdChildren_snoc (done : List AddItemCall) (c : AddItemCall) :
    createdChildren (done ++ [c]) =
      if done = [] then [c.container] else createdChildren done ++ [c.separator, c.container] := by
  cases done with
  | nil => rfl
  | cons d rest =>
    simp [createdChildren, List.flatMap_append]

theorem mem_createdChildren {done : List AddItemCall} {m : Nat} (h : m ∈ createdChildren done) :
    ∃ d ∈ done, m = d.separator ∨ m = d.container := by
  cases done with
  | nil => simp [createdChildren] at h
  | cons d rest =>
    simp only [createdChildren, List.mem_cons, List.mem_flatMap, List.mem_singleton,
      List.not_mem_nil, or_false] at h
    rcases h with h | ⟨e, he, h⟩
    · exact ⟨d, List.mem_cons_self _ _, Or.inr h⟩
    · exact ⟨e, List.mem_cons_of_mem _ he, h⟩

theorem StretchFillParent_heap (s : State) (self : Nat) (bHor bVer : Bool) (m : Nat) :
    ((StretchFillParent s self bHor bVer).heap m).size = (s.heap m).size ∧
    ((StretchFillParent s self bHor bVer).heap m).parent = (s.heap m).parent ∧
    ((StretchFillParent s self bHor bVer).heap m).children = (s.heap m).children := by
  unfold StretchFillParent Stretch
  simp only [State.modify_heap]
  by_cases e : m = self
  · subst e; simp only [if_true, and_self]
  · simp only [e, if_false, and_self]

theorem addSeparator_built (H : GuiHpp) (f : Nat) (w0 w : World) (self : Nat)
    (o : eGuiOrientation) (L : ℚ) (done : List AddItemCall) (c : AddItemCall)
    (hb : SplitterBuilt w0 w self o L done) (hf : FreshCall self done c)
    (sp : GuiSplitter) (ho : sp.orientation = o) (hL : sp.separatorLength = L)
    (hitems : sp.items = done.map AddItemCall.item)
    (hseps : sp.separators = done.tail.map AddItemCall.separator)
    (hminS : ∀ g, o.along ⟨H.GetMinSizeX g, H.GetMinSizeY g⟩ ≤ L) :
    ∃ s2, GuiSplitter.AddItem.addSeparator H (f + 2) sp w.gui self c.separator =
        Except.ok (s2, (done ++ [c]).tail.map AddItemCall.separator) ∧
      (s2.heap self).children =
        (if done = [] then [] else createdChildren done ++ [c.separator]) ∧
      (∀ m, m ≠ c.separator → (s2.heap m).size = (w.gui.heap m).size ∧
        (s2.heap m).parent = (w.gui.heap m).parent) ∧
      (∀ m, m ≠ c.separator → m ≠ self → c.separator ∉ (w.gui.heap m).children →
        (s2.heap m).children = (w.gui.heap m).children) ∧
      (done ≠ [] → o.along (s2.heap c.separator).size = L) := by
  unfold GuiSplitter.AddItem.addSeparator
  by_cases hd : done = []
  · subst hd
    simp only [hitems, List.map_nil, List.length_nil, gt_iff_lt, lt_self_iff_false, if_false,
      hseps, List.tail_nil, List.nil_append, List.tail_cons, if_true]
    refine ⟨w.gui, rfl, ?_, fun _ _ => ⟨rfl, rfl⟩, fun _ _ _ _ => rfl,
      fun h => absurd rfl h⟩
    rw [hb.children]; rfl
  · have hlen : sp.items.length > 0 := by
      rw [hitems, List.length_map]
      exact List.length_pos.mpr hd
    have htail : (done ++ [c]).tail.map AddItemCall.separator =
        sp.separators ++ [c.separator] := by
      rw [List.tail_append_of_ne_nil hd, List.map_append, hseps]
      rfl
    have hnc : c.separator ∉ (w.gui.heap self).children := by
      rw [hb.children]
      intro hm
      obtain ⟨d, hdm, h⟩ := mem_createdChildren hm
      rcases h with h | h
      · exact (hf.sepNew d hdm).2.1 h
      · exact (hf.sepNew d hdm).2.2 h
    obtain ⟨k1, k2, k3, k4, k5, k6⟩ := AddGuiNew_tracked w.gui self c.separator hf.sepSelf hnc
    have hrest : ∀ (wd ht : ℚ) (bH bV : Bool),
        o.along ⟨wd, ht⟩ = L →
        ∃ s2, (match SetSize H (SetRect H (f + 2)) (AddGuiNew w.gui self c.separator)
              c.separator wd ht with
            | Except.ok s2 => Except.ok (StretchFillParent s2 c.separator bH bV,
                sp.separators ++ [c.separator])
            | Except.error e => Except.error e) =
          Except.ok (s2, (done ++ [c]).tail.map AddItemCall.separator) ∧
        (s2.heap self).children =
          (if done = [] then [] else createdChildren done ++ [c.separator]) ∧
        (∀ m, m ≠ c.separator → (s2.heap m).size = (w.gui.heap m).size ∧
          (s2.heap m).parent = (w.gui.heap m).parent) ∧
        (∀ m, m ≠ c.separator → m ≠ self → c.separator ∉ (w.gui.heap m).children →
          (s2.heap m).children = (w.gui.heap m).children) ∧
        (done ≠ [] → o.along (s2.heap c.separator).size = L) := by
      intro wd ht bH bV hwl
      obtain ⟨s2, h2, h2o, d2, h2s⟩ := SetSize_shallow H f (AddGuiNew w.gui self c.separator)
        c.separator wd ht (by rw [k2]; simp) (by rw [k2]; simp)
      rw [h2, htail]
      refine ⟨_, rfl, ?_, fun m hm => ⟨?_, ?_⟩, fun m hm hms hcm => ?_, fun _ => ?_⟩
      · rw [(StretchFillParent_heap s2 c.separator bH bV self).2.2,
          h2o self (fun e => hf.sepSelf e.symm), k1, hb.children, if_neg hd]
      · rw [(StretchFillParent_heap s2 c.separator bH bV m).1, h2o m hm, k4 m hm]
      · rw [(StretchFillParent_heap s2 c.separator bH bV m).2.1, h2o m hm, k5 m hm]
      · rw [(StretchFillParent_heap s2 c.separator bH bV m).2.2, h2o m hm, k6 m hm hms hcm]
      · rw [(StretchFillParent_heap s2 c.separator bH bV c.separator).1, h2s]
        have hm := hminS ((AddGuiNew w.gui self c.separator).heap c.separator)
        cases o with
        | HORIZONTAL =>
          simp only [eGuiOrientation.along] at hm hwl ⊢
          rw [max_eq_left (by rw [hwl]; exact hm)]; exact hwl
        | VERTICAL =>
          simp only [eGuiOrientation.along] at hm hwl ⊢
          rw [max_eq_left (by rw [hwl]; exact hm)]; exact hwl
    simp only [hlen, if_true]
    by_cases hor : sp.orientation = eGuiOrientation.HORIZONTAL
    · simp only [hor, if_true]
      exact hrest sp.separatorLength 0 false true (by rw [← ho, hor, ← hL]; rfl)
    · simp only [hor, if_false]
      have hv : o = eGuiOrientation.VERTICAL := by
        rw [← ho]
        cases h : sp.orientation with
        | HORIZONTAL => exact absurd h hor
        | VERTICAL => rfl
      exact hrest 0 sp.separatorLength true false (by rw [hv, ← hL]; rfl)

/-- One more `AddItem` call, with new addresses, on a splitter built by the calls `done`:
the call returns and the splitter is as built by `done ++ [c]`. -/
theorem AddItem_built (H : GuiHpp) (f : Nat) (w0 w : World) (self : Nat)
    (o : eGuiOrientation) (L : ℚ) (done : List AddItemCall) (c : AddItemCall)
    (hb : SplitterBuilt w0 w self o L done) (hf : FreshCall self done c)
    (hminI : ∀ g, H.GetMinSizeX g ≤ (w0.gui.heap c.item).size.x ∧
      H.GetMinSizeY g ≤ (w0.gui.heap c.item).size.y)
    (hminS : ∀ g, o.along ⟨H.GetMinSizeX g, H.GetMinSizeY g⟩ ≤ L) :
    ∃ w1, GuiSplitter.AddItem H (f + 2) w self c.item c.separator c.container =
        Except.ok w1 ∧ SplitterBuilt w0 w1 self o L (done ++ [c]) := by
  obtain ⟨sp, hsp, ho, hL, hitems, hseps⟩ := hb.members
  obtain ⟨s2, hA, a1, a2, a3, a4⟩ := addSeparator_built H f w0 w self o L done c hb hf sp ho hL
    hitems hseps hminS
  -- the children of the splitter after the separator
  have hch2 : ∀ m ∈ (s2.heap self).children, ∃ d ∈ done ++ [c], m = d.separator ∨ m = d.container := by
    intro m hm
    rw [a1] at hm
    split_ifs at hm with hd
    · simp at hm
    · rcases List.mem_append.mp hm with h | h
      · obtain ⟨d, hdm, h⟩ := mem_createdChildren h
        exact ⟨d, List.mem_append_left _ hdm, h⟩
      · simp only [List.mem_singleton] at h
        exact ⟨c, List.mem_append_right _ (List.mem_singleton_self c), Or.inl h⟩
  have hcn : c.container ∉ (s2.heap self).children := by
    intro hm
    obtain ⟨d, hdm, h⟩ := hch2 _ hm
    rcases List.mem_append.mp hdm with hd | hd
    · rcases h with h | h
      · exact (hf.contNew d hd).2.1 h
      · exact (hf.contNew d hd).2.2 h
    · simp only [List.mem_singleton] at hd
      subst hd
      rcases h with h | h
      · exact hf.sepCont h.symm
      · exact absurd h (fun _ => by
          rw [a1] at hm
          split_ifs at hm with hd
          · simp at hm
          · rcases List.mem_append.mp hm with h2 | h2
            · obtain ⟨d, hdm, h3⟩ := mem_createdChildren h2
              rcases h3 with h3 | h3
              · exact (hf.contNew d hdm).2.1 h3
              · exact (hf.contNew d hdm).2.2 h3
            · simp only [List.mem_singleton] at h2
              exact hf.sepCont h2.symm)
  obtain ⟨b1, b2, b3, b4, b5, b6⟩ := AddGuiNew_tracked s2 self c.container hf.contSelf hcn
  obtain ⟨s3, hs3⟩ : ∃ s3, s3 = AddGuiNew s2 self c.container := ⟨_, rfl⟩
  rw [← hs3] at b1 b2 b3 b4 b5 b6
  have hself3 : (s3.heap self).children = createdChildren (done ++ [c]) := by
    rw [b1, a1, createdChildren_snoc]
    split_ifs with hd
    · rfl
    · simp
  obtain ⟨c1, c2, c3, c4⟩ := AddGui_tracked s3 c.container c.item true
  obtain ⟨s4, hs4⟩ : ∃ s4, s4 = AddGui s3 c.container c.item true := ⟨_, rfl⟩
  rw [← hs4] at c1 c2 c3 c4
  have hitem3 : (s3.heap c.item).size = (w0.gui.heap c.item).size := by
    rw [b4 _ hf.itemCont, (a2 _ hf.itemSep).1]
    exact hb.sizes _ (fun d hd => ⟨(hf.itemNew d hd).2.1, (hf.itemNew d hd).2.2⟩)
  have hcont4 : (s4.heap c.container).children = [c.item] := by
    rw [c3 (by rw [b2]; simp), b2]; rfl
  obtain ⟨s5, h5, h5o, d5, h5s⟩ := SetSize_shallow H f s4 c.container (s4.heap c.item).size.x
    (s4.heap c.item).size.y
    (by rw [hcont4]; simp; exact fun e => hf.itemCont e.symm)
    (by
      intro m hm
      rw [hcont4, List.mem_singleton] at hm
      subst hm
      rw [c1, hitem3]
      exact hminI _)
  have hnot : c.item ∉ sp.items := by
    rw [hitems]
    intro hm
    obtain ⟨d, hd, e⟩ := List.mem_map.mp hm
    exact (hf.itemNew d hd).1 e.symm
  have hcall : GuiSplitter.AddItem H (f + 2) w self c.item c.separator c.container =
      Except.ok ({ w with gui := s5 }.setSplitter self
        { sp with
          separators := (done ++ [c]).tail.map AddItemCall.separator
          items := sp.items ++ [c.item] }) := by
    unfold GuiSplitter.AddItem
    simp only [hsp, hA, liftLayout, ← hs3, ← hs4, h5, hnot, if_false]
  refine ⟨_, hcall, ?_⟩
  · -- a node that is not the new container or separator keeps what the calls before built
    have hkeep : ∀ m, m ≠ c.separator → m ≠ c.container →
        (s5.heap m).size = (w.gui.heap m).size ∧
        (m ≠ c.item → (s5.heap m).parent = (w.gui.heap m).parent) := by
      intro m hms hmc
      rw [h5o m hmc]
      refine ⟨?_, fun hmi => ?_⟩
      · rw [c1, b4 m hmc, (a2 m hms).1]
      · rw [c2, if_neg hmi, b5 m hmc, (a2 m hms).2]
    have hkeepc : ∀ m, m ≠ c.separator → m ≠ c.container → m ≠ self →
        c.separator ∉ (w.gui.heap m).children → c.container ∉ (w.gui.heap m).children →
        c.item ∉ (w.gui.heap m).children →
        (s5.heap m).children = (w.gui.heap m).children := by
      intro m hms hmc hmself h1 h2 h3
      have e2 : (s2.heap m).children = (w.gui.heap m).children := a3 m hms hmself h1
      have e3 : (s3.heap m).children = (s2.heap m).children :=
        b6 m hmc hmself (by rw [e2]; exact h2)
      rw [h5o m hmc, c4 m hmc (by rw [e3, e2]; exact h3), e3, e2]
    constructor
    · refine ⟨{ sp with
          separators := (done ++ [c]).tail.map AddItemCall.separator
          items := sp.items ++ [c.item] }, ?_, ho, hL, ?_, rfl⟩
      · simp [World.setSplitter]
      · simp only [hitems, List.map_append, List.map_cons, List.map_nil]
    · show (s5.heap self).children = _
      rw [h5o self (fun e => hf.contSelf e.symm),
        c4 self (fun e => hf.contSelf e.symm) (by
          rw [hself3]
          intro hm
          obtain ⟨d, hdm, h⟩ := mem_createdChildren hm
          rcases List.mem_append.mp hdm with hd | hd
          · rcases h with h | h
            · exact (hf.itemNew d hd).2.1 h
            · exact (hf.itemNew d hd).2.2 h
          · simp only [List.mem_singleton] at hd
            subst hd
            rcases h with h | h
            · exact hf.itemSep h
            · exact hf.itemCont h), hself3]
    · intro d hd
      show (s5.heap d.item).parent = some d.container ∧
        (s5.heap d.container).children = [d.item] ∧
        (s5.heap d.container).size = (w0.gui.heap d.item).size
      rcases List.mem_append.mp hd with hd | hd
      · obtain ⟨p1, p2, p3⟩ := hb.wrapped d hd
        obtain ⟨q1, q2, q3⟩ := hf.itemNew d hd
        obtain ⟨r1, r2, r3⟩ := hf.sepNew d hd
        obtain ⟨t1, t2, t3⟩ := hf.contNew d hd
        refine ⟨?_, ?_, ?_⟩
        · rw [((hkeep d.item (Ne.symm r1) (Ne.symm t1)).2 (Ne.symm q1)), p1]
        · rw [hkeepc d.container (Ne.symm r3) (Ne.symm t3) (hb.apart d hd).2
            (by rw [p2]; simpa using r1) (by rw [p2]; simpa using t1)
            (by rw [p2]; simpa using q1), p2]
        · rw [(hkeep d.container (Ne.symm r3) (Ne.symm t3)).1, p3]
      · simp only [List.mem_singleton] at hd
        subst hd
        refine ⟨?_, ?_, ?_⟩
        · rw [h5o _ hf.itemCont, c2, if_pos rfl]
        · rw [h5s]; exact hcont4
        · rw [h5s]
          show (⟨max (s4.heap d.item).size.x _, max (s4.heap d.item).size.y _⟩ : Vec2) = _
          rw [c1, hitem3, max_eq_left (hminI _).1, max_eq_left (hminI _).2]
    · intro d hd
      show o.along (s5.heap d.separator).size = L
      by_cases hdn : done = []
      · subst hdn; simp at hd
      · rw [List.tail_append_of_ne_nil hdn] at hd
        rcases List.mem_append.mp hd with hd | hd
        · have hdd : d ∈ done := List.mem_of_mem_tail hd
          rw [(hkeep d.separator (Ne.symm (hf.sepNew d hdd).2.1)
            (Ne.symm (hf.contNew d hdd).2.1)).1]
          exact hb.lengths d hd
        · simp only [List.mem_singleton] at hd
          subst hd
          rw [h5o _ hf.sepCont, c1, b4 _ hf.sepCont]
          exact a4 hdn
    · intro m hm
      show (s5.heap m).size = _
      have hmc := hm c (List.mem_append_right _ (List.mem_singleton_self c))
      rw [(hkeep m hmc.1 hmc.2).1]
      exact hb.sizes m (fun d hd => hm d (List.mem_append_left _ hd))
    · intro d hd
      rcases List.mem_append.mp hd with hd | hd
      · exact hb.apart d hd
      · simp only [List.mem_singleton] at hd
        subst hd
        exact ⟨hf.sepSelf, hf.contSelf⟩

theorem callIds_append (a b : List AddItemCall) : callIds (a ++ b) = callIds a ++ callIds b := by
  unfold callIds
  exact List.flatMap_append _ _ _

theorem mem_callIds {cs : List AddItemCall} {d : AddItemCall} (h : d ∈ cs) :
    d.item ∈ callIds cs ∧ d.separator ∈ callIds cs ∧ d.container ∈ callIds cs := by
  unfold callIds
  simp only [List.mem_flatMap, List.mem_cons, List.mem_singleton, List.not_mem_nil, or_false]
  exact ⟨⟨d, h, Or.inl rfl⟩, ⟨d, h, Or.inr (Or.inl rfl)⟩, ⟨d, h, Or.inr (Or.inr rfl)⟩⟩

theorem freshCall_of_nodup (self : Nat) (done rest : List AddItemCall) (c : AddItemCall)
    (h : (self :: callIds (done ++ c :: rest)).Nodup) : FreshCall self done c := by
  rw [callIds_append] at h
  have hc : callIds (c :: rest) = [c.item, c.separator, c.container] ++ callIds rest := by
    unfold callIds; rfl
  rw [hc] at h
  obtain ⟨hself, hnd⟩ := List.nodup_cons.mp h
  obtain ⟨-, hnd2, hdis⟩ := List.nodup_append.mp hnd
  obtain ⟨hnd3, -, -⟩ := List.nodup_append.mp hnd2
  have hi : c.item ∈ [c.item, c.separator, c.container] ++ callIds rest := by simp
  have hs : c.separator ∈ [c.item, c.separator, c.container] ++ callIds rest := by simp
  have hk : c.container ∈ [c.item, c.separator, c.container] ++ callIds rest := by simp
  simp only [List.nodup_cons, List.mem_cons, List.mem_singleton, List.not_mem_nil, or_false,
    not_or, List.nodup_nil, and_true] at hnd3
  have hne : ∀ x, x ∈ [c.item, c.separator, c.container] ++ callIds rest → x ≠ self := by
    intro x hx e
    exact hself (List.mem_append_right _ (e ▸ hx))
  have hnew : ∀ x, x ∈ [c.item, c.separator, c.container] ++ callIds rest →
      ∀ d ∈ done, x ≠ d.item ∧ x ≠ d.separator ∧ x ≠ d.container := by
    intro x hx d hd
    obtain ⟨m1, m2, m3⟩ := mem_callIds hd
    exact ⟨fun e => hdis (e ▸ m1) hx, fun e => hdis (e ▸ m2) hx, fun e => hdis (e ▸ m3) hx⟩
  exact ⟨hne _ hi, hne _ hs, hne _ hk, hnd3.1.1, hnd3.1.2, hnd3.2.1, hnew _ hi, hnew _ hs,
    hnew _ hk⟩

/-- A sequence of `AddItem` calls with new addresses continues a built splitter. -/
theorem addItems_built (H : GuiHpp) (f : Nat) (w0 : World) (self : Nat) (o : eGuiOrientation)
    (L : ℚ) (hminS : ∀ g, o.along ⟨H.GetMinSizeX g, H.GetMinSizeY g⟩ ≤ L) :
    ∀ (rest done : List AddItemCall) (w : World), SplitterBuilt w0 w self o L done →
      (self :: callIds (done ++ rest)).Nodup →
      (∀ c ∈ rest, ∀ g, H.GetMinSizeX g ≤ (w0.gui.heap c.item).size.x ∧
        H.GetMinSizeY g ≤ (w0.gui.heap c.item).size.y) →
      ∃ w1, GuiSplitter.addItems H (f + 2) self w rest = Except.ok w1 ∧
        SplitterBuilt w0 w1 self o L (done ++ rest) := by
  intro rest
  induction rest with
  | nil =>
    intro done w hb _ _
    rw [List.append_nil]
    exact ⟨w, rfl, hb⟩
  | cons c rest ih =>
    intro done w hb hnd hmin
    obtain ⟨w1, h1, hb1⟩ := AddItem_built H f w0 w self o L done c hb
      (freshCall_of_nodup self done rest c hnd) (hmin c (List.mem_cons_self _ _)) hminS
    have e : done ++ c :: rest = (done ++ [c]) ++ rest := by simp
    obtain ⟨w2, h2, hb2⟩ := ih (done ++ [c]) w1 hb1 (by rw [← e]; exact hnd)
      (fun d hd => hmin d (List.mem_cons_of_mem _ hd))
    refine ⟨w2, ?_, by rw [e]; exact hb2⟩
    unfold GuiSplitter.addItems
    simp only [h1, h2]

theorem pairs_index (rest : List AddItemCall) :
    ∀ j, (rest.flatMap (fun d => [d.separator, d.container]))[2 * j]? =
        rest[j]?.map AddItemCall.separator ∧
      (rest.flatMap (fun d => [d.separator, d.container]))[2 * j + 1]? =
        rest[j]?.map AddItemCall.container := by
  induction rest with
  | nil => intro j; simp
  | cons d r ih =>
    intro j
    cases j with
    | zero => simp
    | succ j =>
      have e1 : 2 * (j + 1) = (2 * j + 1) + 1 := by ring
      rw [e1]
      simp only [List.flatMap_cons, List.cons_append, List.nil_append, List.getElem?_cons_succ]
      exact ih j

theorem createdChildren_index (cs : List AddItemCall) (i : Nat) :
    (createdChildren cs)[2 * i]? = cs[i]?.map AddItemCall.container ∧
    (createdChildren cs)[2 * i + 1]? = cs[i + 1]?.map AddItemCall.separator := by
  cases cs with
  | nil => simp [createdChildren]
  | cons c rest =>
    unfold createdChildren
    constructor
    · cases i with
      | zero => simp
      | succ j =>
        have e1 : 2 * (j + 1) = (2 * j + 1) + 1 := by ring
        rw [e1]
        simp only [List.getElem?_cons_succ]
        exact (pairs_index rest j).2
    · simp only [List.getElem?_cons_succ]
      exact (pairs_index rest i).1

theorem createdChildren_length (cs : List AddItemCall) :
    (createdChildren cs).length = 2 * cs.length - 1 := by
  cases cs with
  | nil => rfl
  | cons c rest =>
    unfold createdChildren
    have h : ∀ r : List AddItemCall,
        (r.flatMap (fun d => [d.separator, d.container])).length = 2 * r.length := by
      intro r
      induction r with
      | nil => rfl
      | cons d r ih => simp only [List.flatMap_cons, List.length_append, ih, List.length_cons,
          List.length_nil]; omega
    simp only [List.length_cons, h]
    omega

/-! ### The structure after a sequence of `AddItem` calls -/

/-- C25. Splitter structure invariant. Take a splitter `self` without children, items and
separators, and `n >= 1` calls `AddItem(item)` whose items and the addresses of the nodes
they create are all different and different from the splitter, with no item smaller than a
minimum size and the separator length not below the minimum length (no clamping). Then the
calls return, and afterwards: the children of the splitter are the created container of the
first call followed by separator and container of each later call, `2n - 1` in all, the
container of call `i` at index `2i` and the separator of call `i + 1` at index `2i + 1`;
`separators` has `n - 1` entries, entry `j` being the child at index `2j + 1`; `items` are
the items in the order of the calls; every item has its container as parent, the container
has the item as only child and has the size the item had when its call started (the world
`wk` reached by the calls before it); and every separator has the length `separatorLength`
along the orientation. -/
theorem C25_splitter_structure (H : GuiHpp) (f : Nat) (w0 : World) (self : Nat)
    (sp0 : GuiSplitter) (cs : List AddItemCall)
    (hsp : w0.splitter self = some sp0) (hitems : sp0.items = [])
    (hseps : sp0.separators = []) (hchildren : (w0.gui.heap self).children = [])
    (hne : cs ≠ []) (hids : (self :: callIds cs).Nodup)
    (hminI : ∀ c ∈ cs, ∀ g, H.GetMinSizeX g ≤ (w0.gui.heap c.item).size.x ∧
      H.GetMinSizeY g ≤ (w0.gui.heap c.item).size.y)
    (hminS : ∀ g, sp0.orientation.along ⟨H.GetMinSizeX g, H.GetMinSizeY g⟩ ≤
      sp0.separatorLength) :
    ∃ w1 sp1, GuiSplitter.addItems H (f + 2) self w0 cs = Except.ok w1 ∧
      w1.splitter self = some sp1 ∧
      (w1.gui.heap self).children = createdChildren cs ∧
      (w1.gui.heap self).children.length = 2 * cs.length - 1 ∧
      (∀ i, (w1.gui.heap self).children[2 * i]? = cs[i]?.map AddItemCall.container) ∧
      (∀ i, (w1.gui.heap self).children[2 * i + 1]? =
        cs[i + 1]?.map AddItemCall.separator) ∧
      sp1.separators.length = cs.length - 1 ∧
      (∀ j, sp1.separators[j]? = (w1.gui.heap self).children[2 * j + 1]?) ∧
      sp1.items = cs.map AddItemCall.item ∧
      (∀ c ∈ cs, (w1.gui.heap c.item).parent = some c.container ∧
        (w1.gui.heap c.container).children = [c.item]) ∧
      (∀ k c, cs[k]? = some c →
        ∃ wk, GuiSplitter.addItems H (f + 2) self w0 (cs.take k) = Except.ok wk ∧
          (w1.gui.heap c.container).size = (wk.gui.heap c.item).size) ∧
      (∀ c ∈ cs.tail, sp0.orientation.along (w1.gui.heap c.separator).size =
        sp0.separatorLength) := by
  have hb0 : SplitterBuilt w0 w0 self sp0.orientation sp0.separatorLength [] :=
    { members := ⟨sp0, hsp, rfl, rfl, by rw [hitems]; rfl, by rw [hseps]; rfl⟩
      children := by rw [hchildren]; rfl
      wrapped := fun c hc => absurd hc (List.not_mem_nil c)
      lengths := fun c hc => absurd hc (List.not_mem_nil c)
      sizes := fun _ _ => rfl
      apart := fun c hc => absurd hc (List.not_mem_nil c) }
  obtain ⟨w1, h1, hb1⟩ := addItems_built H f w0 self _ _ hminS cs [] w0 hb0
    (by rw [List.nil_append]; exact hids) hminI
  rw [List.nil_append] at hb1
  obtain ⟨sp1, hsp1, -, -, hi1, hs1⟩ := hb1.members
  have hch := hb1.children
  refine ⟨w1, sp1, h1, hsp1, hch, ?_, fun i => ?_, fun i => ?_, ?_, fun j => ?_, hi1,
    fun c hc => ⟨(hb1.wrapped c hc).1, (hb1.wrapped c hc).2.1⟩, fun k c hk => ?_, hb1.lengths⟩
  · rw [hch, createdChildren_length]
  · rw [hch]; exact (createdChildren_index cs i).1
  · rw [hch]; exact (createdChildren_index cs i).2
  · rw [hs1, List.length_map, List.length_tail]
  · rw [hch, (createdChildren_index cs j).2, hs1, List.getElem?_map]
    congr 1
    cases cs with
    | nil => simp
    | cons c rest => simp
  · have hlt : k < cs.length := by
      by_contra h
      rw [List.getElem?_eq_none (by omega)] at hk
      exact absurd hk (by simp)
    have hck : cs[k] = c := by
      rw [List.getElem?_eq_getElem hlt] at hk
      exact Option.some.inj hk
    have e : cs = cs.take k ++ c :: cs.drop (k + 1) := by
      rw [← hck, ← List.drop_eq_getElem_cons hlt, List.take_append_drop]
    have hnd : (self :: callIds (cs.take k ++ c :: cs.drop (k + 1))).Nodup := by
      rw [← e]; exact hids
    have hpre : (self :: callIds ([] ++ cs.take k)).Nodup := by
      rw [List.nil_append]
      rw [callIds_append] at hnd
      obtain ⟨q1, q2⟩ := List.nodup_cons.mp hnd
      exact List.nodup_cons.mpr ⟨fun hm => q1 (List.mem_append_left _ hm),
        (List.nodup_append.mp q2).1⟩
    obtain ⟨wk, hk1, hbk⟩ := addItems_built H f w0 self _ _ hminS (cs.take k) [] w0 hb0 hpre
      (fun d hd => hminI d (List.mem_of_mem_take hd))
    rw [List.nil_append] at hbk
    have hfr := freshCall_of_nodup self (cs.take k) (cs.drop (k + 1)) c hnd
    have hcm : c ∈ cs := by rw [← hck]; exact List.getElem_mem hlt
    refine ⟨wk, hk1, ?_⟩
    rw [(hb1.wrapped c hcm).2.2,
      hbk.sizes c.item (fun d hd => ⟨(hfr.itemNew d hd).2.1, (hfr.itemNew d hd).2.2⟩)]

/-- Witness for C25: the splitter `0` of `splitterRoot 300` and the three calls of
`threeItems`. The children come out as 3, 4, 5, 8, 9, `separators` as 4, 8, `items` as
1, 2, 7; the containers 3, 5, 9 are 100x50, 100x50 and 60x20 like their items, the
separators 4 and 8 are 10 wide. -/
theorem C25_splitter_structure_witness :
    (∃ w1 sp1, GuiSplitter.addItems sampleHpp (0 + 2) 0 (splitterRoot 300)
        [⟨1, 6, 3⟩, ⟨2, 4, 5⟩, ⟨7, 8, 9⟩] = Except.ok w1 ∧
      w1.splitter 0 = some sp1 ∧
      (w1.gui.heap 0).children = createdChildren [⟨1, 6, 3⟩, ⟨2, 4, 5⟩, ⟨7, 8, 9⟩] ∧
      (w1.gui.heap 0).children.length =
        2 * ([⟨1, 6, 3⟩, ⟨2, 4, 5⟩, ⟨7, 8, 9⟩] : List AddItemCall).length - 1 ∧
      (∀ i, (w1.gui.heap 0).children[2 * i]? =
        ([⟨1, 6, 3⟩, ⟨2, 4, 5⟩, ⟨7, 8, 9⟩] : List AddItemCall)[i]?.map
          AddItemCall.container) ∧
      (∀ i, (w1.gui.heap 0).children[2 * i + 1]? =
        ([⟨1, 6, 3⟩, ⟨2, 4, 5⟩, ⟨7, 8, 9⟩] : List AddItemCall)[i + 1]?.map
          AddItemCall.separator) ∧
      sp1.separators.length =
        ([⟨1, 6, 3⟩, ⟨2, 4, 5⟩, ⟨7, 8, 9⟩] : List AddItemCall).length - 1 ∧
      (∀ j, sp1.separators[j]? = (w1.gui.heap 0).children[2 * j + 1]?) ∧
      sp1.items = ([⟨1, 6, 3⟩, ⟨2, 4, 5⟩, ⟨7, 8, 9⟩] : List AddItemCall).map
        AddItemCall.item ∧
      (∀ c ∈ ([⟨1, 6, 3⟩, ⟨2, 4, 5⟩, ⟨7, 8, 9⟩] : List AddItemCall),
        (w1.gui.heap c.item).parent = some c.container ∧
        (w1.gui.heap c.container).children = [c.item]) ∧
      (∀ k c, ([⟨1, 6, 3⟩, ⟨2, 4, 5⟩, ⟨7, 8, 9⟩] : List AddItemCall)[k]? = some c →
        ∃ wk, GuiSplitter.addItems sampleHpp (0 + 2) 0 (splitterRoot 300)
            (([⟨1, 6, 3⟩, ⟨2, 4, 5⟩, ⟨7, 8, 9⟩] : List AddItemCall).take k) = Except.ok wk ∧
          (w1.gui.heap c.container).size = (wk.gui.heap c.item).size) ∧
      (∀ c ∈ ([⟨1, 6, 3⟩, ⟨2, 4, 5⟩, ⟨7, 8, 9⟩] : List AddItemCall).tail,
        GuiSplitter.new.orientation.along (w1.gui.heap c.separator).size =
          GuiSplitter.new.separatorLength)) ∧
    summary (threeItems sampleHpp) =
      some ⟨⟨100, 50⟩, ⟨100, 50⟩, [3, 4, 5, 8, 9], [4, 8], [1, 2, 7], false⟩ ∧
    resultSizes (threeItems sampleHpp) [3, 4, 5, 8, 9] =
      some [⟨100, 50⟩, ⟨10, 0⟩, ⟨100, 50⟩, ⟨10, 0⟩, ⟨60, 20⟩] ∧
    summary (threeItems plainHpp) =
      some ⟨⟨100, 50⟩, ⟨100, 50⟩, [3, 4, 5, 8, 9], [4, 8], [1, 2, 7], false⟩ :=
  ⟨C25_splitter_structure sampleHpp 0 (splitterRoot 300) 0 GuiSplitter.new
    [⟨1, 6, 3⟩, ⟨2, 4, 5⟩, ⟨7, 8, 9⟩] rfl rfl rfl (by decide) (by decide) (by decide)
    (fun c hc g => by
      simp only [List.mem_cons, List.mem_singleton, List.not_mem_nil, or_false] at hc
      rcases hc with rfl | rfl | rfl
      · show (0 : ℚ) ≤ 100 ∧ (0 : ℚ) ≤ 50
        constructor <;> norm_num
      · show (0 : ℚ) ≤ 100 ∧ (0 : ℚ) ≤ 50
        constructor <;> norm_num
      · show (0 : ℚ) ≤ 60 ∧ (0 : ℚ) ≤ 20
        constructor <;> norm_num)
    (fun g => by show (0 : ℚ) ≤ 10; norm_num),
    by decide!, by decide!, by decide!⟩

end inl.gui

namespace inl.gxeng

/-! ## `impl::VertexPartData::operator[]` -/

theorem lookup_ok_iff (index : Int) :
    ∀ (table : List Int) (start k : Nat),
      VertexPartData.lookup index table start = Except.ok k ↔
        ∃ j, k = start + j ∧ table[j]? = some index ∧ ∀ i < j, table[i]? ≠ some index := by
  intro table
  induction table with
  | nil =>
    intro start k
    simp [VertexPartData.lookup]
  | cons t rest ih =>
    intro start k
    unfold VertexPartData.lookup
    by_cases h : t = index
    · subst h
      simp only [if_true, Except.ok.injEq]
      constructor
      · intro e
        exact ⟨0, by omega, by simp, fun i hi => absurd hi (Nat.not_lt_zero i)⟩
      · rintro ⟨j, hk, hj, hfirst⟩
        cases j with
        | zero => omega
        | succ j => exact absurd (by simp) (hfirst 0 (Nat.succ_pos j))
    · simp only [h, if_false]
      rw [ih (start + 1) k]
      constructor
      · rintro ⟨j, hk, hj, hfirst⟩
        refine ⟨j + 1, by omega, by simpa using hj, fun i hi => ?_⟩
        cases i with
        | zero => simpa using h
        | succ i => simpa using hfirst i (by omega)
      · rintro ⟨j, hk, hj, hfirst⟩
        cases j with
        | zero => simp at hj; exact absurd hj h
        | succ j =>
          refine ⟨j, by omega, by simpa using hj, fun i hi => ?_⟩
          simpa using hfirst (i + 1) (by omega)

theorem lookup_error_iff (index : Int) :
    ∀ (table : List Int) (start : Nat),
      VertexPartData.lookup index table start = Except.error Thrown.invalid_argument ↔
        index ∉ table := by
  intro table
  induction table with
  | nil => intro start; simp [VertexPartData.lookup]
  | cons t rest ih =>
    intro start
    unfold VertexPartData.lookup
    by_cases h : t = index
    · subst h
      simp
    · simp only [h, if_false, ih (start + 1), List.mem_cons, not_or]
      exact ⟨fun hr => ⟨fun e => h e.symm, hr⟩, fun hr => hr.2⟩

theorem lookupConst_eq (index : Int) :
    ∀ (table : List Int) (start : Nat),
      VertexPartData.lookupConst index table start = VertexPartData.lookup index table start := by
  intro table
  induction table with
  | nil => intro start; rfl
  | cons t rest ih =>
    intro start
    unfold VertexPartData.lookupConst VertexPartData.lookup
    rw [ih]

/-- C28. `operator[](index)` of a `VertexPartData` with the index pack `table` returns
the slot `k` exactly when `k` is the first position of `table` that holds `index`; it
throws `invalid_argument` exactly when `index` does not occur in `table`, and it never
leaves in another way; the `const` overload selects the same slot. -/
theorem C28_subscript_first_match (table : List Int) (index : Int) :
    (∀ k, VertexPartData.subscript table index = Except.ok k ↔
      (table[k]? = some index ∧ ∀ i < k, table[i]? ≠ some index)) ∧
    (VertexPartData.subscript table index = Except.error Thrown.invalid_argument ↔
      index ∉ table) ∧
    (index ∈ table → ∃ k, VertexPartData.subscript table index = Except.ok k) ∧
    VertexPartData.subscriptConst table index = VertexPartData.subscript table index := by
  refine ⟨fun k => ?_, lookup_error_iff index table 0, fun hmem => ?_,
    lookupConst_eq index table 0⟩
  · unfold VertexPartData.subscript
    rw [lookup_ok_iff]
    constructor
    · rintro ⟨j, hk, h⟩
      rw [Nat.zero_add] at hk
      subst hk
      exact h
    · intro h
      exact ⟨k, by omega, h⟩
  · cases hr : VertexPartData.subscript table index with
    | ok k => exact ⟨k, rfl⟩
    | error e =>
      exfalso
      have he : e = Thrown.invalid_argument := by
        clear hmem
        unfold VertexPartData.subscript at hr
        generalize (0 : Nat) = start at hr
        induction table generalizing start with
        | nil => simp [VertexPartData.lookup] at hr; exact hr.symm
        | cons t rest ih =>
          unfold VertexPartData.lookup at hr
          split_ifs at hr
          exact ih _ hr
      rw [he] at hr
      exact (lookup_error_iff index table 0).mp hr hmem

/-! ## `CopyCommandList::SetResourceState` -/

/-- A call that is for a resource outside the CONSTANT and UPLOAD heaps and for a concrete
subresource. -/
theorem SetResourceState_single (ALL_SUBRESOURCES fuel : Nat) (cl : CopyCommandList)
    (resource : MemoryObject) (state subresource : Nat)
    (h1 : resource.heap ≠ eResourceHeap.CONSTANT) (h2 : resource.heap ≠ eResourceHeap.UPLOAD)
    (h3 : subresource ≠ ALL_SUBRESOURCES) :
    SetResourceState ALL_SUBRESOURCES (fuel + 1) cl resource state subresource =
      Except.ok (SetResourceState.single cl resource state subresource) := by
  unfold SetResourceState
  simp [h1, h2, h3]

theorem single_other (cl : CopyCommandList) (resource : MemoryObject) (state subresource : Nat)
    (k : SubresourceId) (hk : (⟨resource, subresource⟩ : SubresourceId) ≠ k)
    (hptr : resource.resourcePtr = k.resource.resourcePtr → resource = k.resource) :
    (SetResourceState.single cl resource state subresource).m_resourceTransitions k =
      cl.m_resourceTransitions k ∧
    barriersFor k (SetResourceState.single cl resource state subresource) =
      barriersFor k cl := by
  have hk2 : ¬ k = ⟨resource, subresource⟩ := fun e => hk e.symm
  have hb : ¬ (resource.resourcePtr = k.resource.resourcePtr ∧ subresource = k.subresource) := by
    rintro ⟨e1, e2⟩
    apply hk
    cases k
    simp only [SubresourceId.mk.injEq]
    exact ⟨hptr e1, e2⟩
  unfold SetResourceState.single barriersFor
  cases h : cl.m_resourceTransitions ⟨resource, subresource⟩ with
  | none => simp [h, hk2]
  | some iter =>
    simp only [h]
    split_ifs
    · simp [hk2, hb]
    · exact ⟨rfl, rfl⟩

theorem single_first (cl : CopyCommandList) (k : SubresourceId) (state : Nat)
    (h : cl.m_resourceTransitions k = none) :
    (SetResourceState.single cl k.resource state k.subresource).m_resourceTransitions k =
      some ⟨state, state, false⟩ ∧
    barriersFor k (SetResourceState.single cl k.resource state k.subresource) =
      barriersFor k cl := by
  unfold SetResourceState.single barriersFor
  simp [h]

theorem single_next (cl : CopyCommandList) (k : SubresourceId) (state : Nat)
    (info : SubresourceUsageInfo) (h : cl.m_resourceTransitions k = some info) :
    (SetResourceState.single cl k.resource state k.subresource).m_resourceTransitions k =
      some ⟨state, info.firstState,
        info.multipleStates || decide (info.lastState ≠ state)⟩ ∧
    barriersFor k (SetResourceState.single cl k.resource state k.subresource) =
      barriersFor k cl ++
        if info.lastState ≠ state then
          [⟨k.resource.resourcePtr, info.lastState, state, k.subresource⟩]
        else [] := by
  unfold SetResourceState.single barriersFor
  simp only [h]
  by_cases hs : info.lastState = state
  · subst hs
    simp [h]
  · simp [hs]

theorem stateChanges_cons (a b : Nat) (rest : List Nat) :
    stateChanges (a :: b :: rest) =
      (if a ≠ b then [(a, b)] else []) ++ stateChanges (b :: rest) := by
  by_cases h : a = b <;> simp [stateChanges, h]

/-- The calls of a sequence, for a subresource that has a record already. -/
theorem setResourceStates_recorded (ALL_SUBRESOURCES fuel : Nat) (k : SubresourceId) :
    ∀ (calls : List StateCall) (cl : CopyCommandList) (info : SubresourceUsageInfo),
      (∀ c ∈ calls, c.resource.heap ≠ eResourceHeap.CONSTANT ∧
        c.resource.heap ≠ eResourceHeap.UPLOAD ∧ c.subresource ≠ ALL_SUBRESOURCES ∧
        (c.resource.resourcePtr = k.resource.resourcePtr → c.resource = k.resource)) →
      cl.m_resourceTransitions k = some info →
      ∃ cl1, setResourceStates ALL_SUBRESOURCES (fuel + 1) cl calls = Except.ok cl1 ∧
        cl1.m_resourceTransitions k =
          some ⟨(info.lastState :: statesFor k calls).getLast (List.cons_ne_nil _ _),
            info.firstState,
            info.multipleStates ||
              decide (stateChanges (info.lastState :: statesFor k calls) ≠ [])⟩ ∧
        barriersFor k cl1 = barriersFor k cl ++
          (stateChanges (info.lastState :: statesFor k calls)).map
            (fun p => ⟨k.resource.resourcePtr, p.1, p.2, k.subresource⟩) := by
  intro calls
  induction calls with
  | nil =>
    intro cl info _ h
    refine ⟨cl, rfl, ?_, ?_⟩
    · simp [statesFor, stateChanges, h]
    · simp [statesFor, stateChanges]
  | cons c rest ih =>
    intro cl info hv h
    obtain ⟨v1, v2, v3, v4⟩ := hv c (List.mem_cons_self _ _)
    have hrest := fun c1 hc1 => hv c1 (List.mem_cons_of_mem _ hc1)
    unfold setResourceStates
    rw [SetResourceState_single ALL_SUBRESOURCES fuel cl c.resource c.state c.subresource
      v1 v2 v3]
    simp only []
    by_cases hk : (⟨c.resource, c.subresource⟩ : SubresourceId) = k
    · have e1 : c.resource = k.resource := by rw [← hk]
      have e2 : c.subresource = k.subresource := by rw [← hk]
      rw [e1, e2]
      obtain ⟨t1, b1⟩ := single_next cl k c.state info h
      obtain ⟨cl1, hrun, ht, hb⟩ := ih _ _ hrest t1
      refine ⟨cl1, hrun, ?_, ?_⟩
      · rw [ht]
        have hs : statesFor k (c :: rest) = c.state :: statesFor k rest := by
          simp [statesFor, List.filter_cons, hk]
        simp only [hs, stateChanges_cons, List.getLast_cons_cons]
        by_cases hd : info.lastState = c.state
        · simp [hd]
        · simp [hd]
      · rw [hb, b1]
        have hs : statesFor k (c :: rest) = c.state :: statesFor k rest := by
          simp [statesFor, List.filter_cons, hk]
        simp only [hs, stateChanges_cons, List.map_append, List.append_assoc]
        by_cases hd : info.lastState = c.state <;> simp [hd]
    · obtain ⟨t1, b1⟩ := single_other cl c.resource c.state c.subresource k hk v4
      obtain ⟨cl1, hrun, ht, hb⟩ := ih _ info hrest (t1.trans h)
      have hs : statesFor k (c :: rest) = statesFor k rest := by
        simp [statesFor, List.filter_cons, hk]
      refine ⟨cl1, hrun, ?_, ?_⟩
      · rw [ht, hs]
      · rw [hb, b1, hs]

/-- The calls of a sequence, for a subresource that has no record yet. -/
theorem setResourceStates_fresh (ALL_SUBRESOURCES fuel : Nat) (k : SubresourceId) :
    ∀ (calls : List StateCall) (cl : CopyCommandList),
      (∀ c ∈ calls, c.resource.heap ≠ eResourceHeap.CONSTANT ∧
        c.resource.heap ≠ eResourceHeap.UPLOAD ∧ c.subresource ≠ ALL_SUBRESOURCES ∧
        (c.resource.resourcePtr = k.resource.resourcePtr → c.resource = k.resource)) →
      cl.m_resourceTransitions k = none →
      ∀ s1 states, statesFor k calls = s1 :: states →
      ∃ cl1, setResourceStates ALL_SUBRESOURCES (fuel + 1) cl calls = Except.ok cl1 ∧
        cl1.m_resourceTransitions k =
          some ⟨(s1 :: states).getLast (List.cons_ne_nil _ _), s1,
            decide (stateChanges (s1 :: states) ≠ [])⟩ ∧
        barriersFor k cl1 = barriersFor k cl ++
          (stateChanges (s1 :: states)).map
            (fun p => ⟨k.resource.resourcePtr, p.1, p.2, k.subresource⟩) := by
  intro calls
  induction calls with
  | nil =>
    intro cl _ _ s1 states hs
    simp [statesFor] at hs
  | cons c rest ih =>
    intro cl hv h s1 states hs
    obtain ⟨v1, v2, v3, v4⟩ := hv c (List.mem_cons_self _ _)
    have hrest := fun c1 hc1 => hv c1 (List.mem_cons_of_mem _ hc1)
    unfold setResourceStates
    rw [SetResourceState_single ALL_SUBRESOURCES fuel cl c.resource c.state c.subresource
      v1 v2 v3]
    simp only []
    by_cases hk : (⟨c.resource, c.subresource⟩ : SubresourceId) = k
    · have e1 : c.resource = k.resource := by rw [← hk]
      have e2 : c.subresource = k.subresource := by rw [← hk]
      have hs2 : statesFor k (c :: rest) = c.state :: statesFor k rest := by
        simp [statesFor, List.filter_cons, hk]
      rw [hs2] at hs
      injection hs with hs3 hs4
      rw [e1, e2]
      obtain ⟨t1, b1⟩ := single_first cl k c.state h
      obtain ⟨cl1, hrun, ht, hb⟩ := setResourceStates_recorded ALL_SUBRESOURCES fuel k rest
        _ _ hrest t1
      refine ⟨cl1, hrun, ?_, ?_⟩
      · rw [ht, ← hs3, ← hs4]
        simp
      · rw [hb, b1, ← hs3, ← hs4]
    · obtain ⟨t1, b1⟩ := single_other cl c.resource c.state c.subresource k hk v4
      have hs2 : statesFor k (c :: rest) = statesFor k rest := by
        simp [statesFor, List.filter_cons, hk]
      rw [hs2] at hs
      obtain ⟨cl1, hrun, ht, hb⟩ := ih _ hrest (t1.trans h) s1 states hs
      exact ⟨cl1, hrun, ht, by rw [hb, b1]⟩

theorem stateChanges_ne_nil_iff :
    ∀ (states : List Nat), stateChanges states ≠ [] ↔
      ∃ i a b, states[i]? = some a ∧ states[i + 1]? = some b ∧ a ≠ b := by
  intro states
  induction states with
  | nil => simp [stateChanges]
  | cons a rest ih =>
    cases rest with
    | nil => simp [stateChanges]
    | cons b rest =>
      rw [stateChanges_cons]
      by_cases h : a = b
      · subst h
        simp only [ne_eq, not_true_eq_false, if_false, List.nil_append]
        rw [← ne_eq, ih]
        constructor
        · rintro ⟨i, x, y, h1, h2, h3⟩
          exact ⟨i + 1, x, y, by simpa using h1, by simpa using h2, h3⟩
        · rintro ⟨i, x, y, h1, h2, h3⟩
          cases i with
          | zero =>
            simp at h1 h2
            exact absurd (h1.symm.trans h2) h3
          | succ i => exact ⟨i, x, y, by simpa using h1, by simpa using h2, h3⟩
      · simp only [ne_eq, h, not_false_eq_true, if_true, List.singleton_append,
          List.cons_ne_nil, true_iff]
        exact ⟨0, a, b, by simp, by simp, h⟩

theorem stateChanges_eq_zip :
    ∀ (states : List Nat), stateChanges states =
      (states.zip states.tail).filter (fun p => decide (p.1 ≠ p.2)) := by
  intro states
  induction states with
  | nil => rfl
  | cons a rest ih =>
    cases rest with
    | nil => rfl
    | cons b rest =>
      rw [stateChanges_cons, ih]
      by_cases h : a = b <;> simp [List.filter_cons, h]

theorem statesFor_mem (k : SubresourceId) :
    ∀ (calls : List StateCall), statesFor k calls ≠ [] →
      ∃ c ∈ calls, (⟨c.resource, c.subresource⟩ : SubresourceId) = k := by
  intro calls h
  unfold statesFor at h
  rw [ne_eq, List.map_eq_nil_iff, List.filter_eq_nil_iff] at h
  push_neg at h
  obtain ⟨c, hc, hk⟩ := h
  exact ⟨c, hc, by simpa using hk⟩

/-- C27. Let a sequence of `SetResourceState` calls on one command list be for
resources outside the CONSTANT and UPLOAD heaps and for concrete subresources, let the
subresource `k` have no record before, and let `s1 :: states` be the states the calls give
for `k`, in call order. Then all calls return; the record of `k` has `firstState = s1`,
`lastState` the last of the states, and `multipleStates` true exactly when two states in
succession differ; the barriers recorded for `k` are those recorded before followed by one
barrier `s(i) -> s(i+1)` for every `i` with `s(i) ≠ s(i+1)`, in order; and
`ExpectResourceState` for the last state returns. A call for a resource in the CONSTANT or
UPLOAD heap throws `invalid_argument`. -/
theorem C27_SetResourceState_tracks (ALL_SUBRESOURCES fuel : Nat) (cl : CopyCommandList)
    (calls : List StateCall) (k : SubresourceId) (s1 : Nat) (states : List Nat)
    (hvalid : ∀ c ∈ calls, c.resource.heap ≠ eResourceHeap.CONSTANT ∧
      c.resource.heap ≠ eResourceHeap.UPLOAD ∧ c.subresource ≠ ALL_SUBRESOURCES ∧
      (c.resource.resourcePtr = k.resource.resourcePtr → c.resource = k.resource))
    (hfresh : cl.m_resourceTransitions k = none)
    (hseq : statesFor k calls = s1 :: states) :
    (∃ cl1 info, setResourceStates ALL_SUBRESOURCES (fuel + 1) cl calls = Except.ok cl1 ∧
      cl1.m_resourceTransitions k = some info ∧
      info.firstState = s1 ∧
      info.lastState = (s1 :: states).getLast (List.cons_ne_nil _ _) ∧
      (info.multipleStates = true ↔
        ∃ i a b, (s1 :: states)[i]? = some a ∧ (s1 :: states)[i + 1]? = some b ∧ a ≠ b) ∧
      barriersFor k cl1 = barriersFor k cl ++
        (((s1 :: states).zip states).filter (fun p => decide (p.1 ≠ p.2))).map
          (fun p => ⟨k.resource.resourcePtr, p.1, p.2, k.subresource⟩) ∧
      ExpectResourceState ALL_SUBRESOURCES (fuel + 1) cl1 k.resource [info.lastState]
        k.subresource = Except.ok ()) ∧
    ∀ (cl2 : CopyCommandList) (resource : MemoryObject) (state subresource : Nat),
      resource.heap = eResourceHeap.CONSTANT ∨ resource.heap = eResourceHeap.UPLOAD →
      SetResourceState ALL_SUBRESOURCES (fuel + 1) cl2 resource state subresource =
        Except.error Thrown.invalid_argument := by
  constructor
  · obtain ⟨cl1, hrun, ht, hb⟩ := setResourceStates_fresh ALL_SUBRESOURCES fuel k calls cl
      hvalid hfresh s1 states hseq
    obtain ⟨c, hc, hk⟩ := statesFor_mem k calls (by rw [hseq]; exact List.cons_ne_nil _ _)
    obtain ⟨v1, v2, v3, -⟩ := hvalid c hc
    have e1 : c.resource = k.resource := by rw [← hk]
    have e2 : c.subresource = k.subresource := by rw [← hk]
    rw [e1] at v1 v2
    rw [e2] at v3
    refine ⟨cl1, _, hrun, ht, rfl, rfl, ?_, ?_, ?_⟩
    · simp only [decide_eq_true_eq]
      exact stateChanges_ne_nil_iff (s1 :: states)
    · rw [hb, stateChanges_eq_zip]
      rfl
    · unfold ExpectResourceState
      simp only [v1, v2, v3, or_self, if_false]
      unfold ExpectResourceState.single
      have hk2 : (⟨k.resource, k.subresource⟩ : SubresourceId) = k := by cases k; rfl
      rw [hk2, ht]
      simp
  · intro cl2 resource state subresource h
    unfold SetResourceState
    simp [h]

/-- Witness for C27: on a fresh command list, the states 1, 1, 4, 4, 2 for the subresource
0 of a resource in another heap, with a call for its subresource 1 in between: the record
is first 1, last 2, multiple states, and the barriers for the subresource are 1 -> 4 and
4 -> 2. -/
theorem C27_SetResourceState_tracks_witness :
    ∃ cl1 info,
      setResourceStates (2 ^ 32 - 1) 1 CopyCommandList.fresh
        [⟨⟨eResourceHeap.other 0, 7, ⟨1, 1, 2⟩⟩, 1, 0⟩,
          ⟨⟨eResourceHeap.other 0, 7, ⟨1, 1, 2⟩⟩, 1, 0⟩,
          ⟨⟨eResourceHeap.other 0, 7, ⟨1, 1, 2⟩⟩, 8, 1⟩,
          ⟨⟨eResourceHeap.other 0, 7, ⟨1, 1, 2⟩⟩, 4, 0⟩,
          ⟨⟨eResourceHeap.other 0, 7, ⟨1, 1, 2⟩⟩, 4, 0⟩,
          ⟨⟨eResourceHeap.other 0, 7, ⟨1, 1, 2⟩⟩, 2, 0⟩] = Except.ok cl1 ∧
      cl1.m_resourceTransitions ⟨⟨eResourceHeap.other 0, 7, ⟨1, 1, 2⟩⟩, 0⟩ = some info ∧
      info.firstState = 1 ∧ info.lastState = 2 ∧ info.multipleStates = true ∧
      barriersFor ⟨⟨eResourceHeap.other 0, 7, ⟨1, 1, 2⟩⟩, 0⟩ cl1 =
        [⟨7, 1, 4, 0⟩, ⟨7, 4, 2, 0⟩] := by
  obtain ⟨⟨cl1, info, h1, h2, h3, h4, h5, h6, -⟩, -⟩ :=
    C27_SetResourceState_tracks (2 ^ 32 - 1) 0 CopyCommandList.fresh
      [⟨⟨eResourceHeap.other 0, 7, ⟨1, 1, 2⟩⟩, 1, 0⟩,
        ⟨⟨eResourceHeap.other 0, 7, ⟨1, 1, 2⟩⟩, 1, 0⟩,
        ⟨⟨eResourceHeap.other 0, 7, ⟨1, 1, 2⟩⟩, 8, 1⟩,
        ⟨⟨eResourceHeap.other 0, 7, ⟨1, 1, 2⟩⟩, 4, 0⟩,
        ⟨⟨eResourceHeap.other 0, 7, ⟨1, 1, 2⟩⟩, 4, 0⟩,
        ⟨⟨eResourceHeap.other 0, 7, ⟨1, 1, 2⟩⟩, 2, 0⟩]
      ⟨⟨eResourceHeap.other 0, 7, ⟨1, 1, 2⟩⟩, 0⟩ 1 [1, 4, 4, 2]
      (by decide) rfl (by decide)
  refine ⟨cl1, info, h1, h2, h3, h4, h5.mpr ⟨1, 1, 4, by decide, by decide, by decide⟩, ?_⟩
  rw [h6]
  decide

/-! ## `Mesh::Layout`: sorting, hashes, comparison -/

/-- Insertion by a key into a list ordered by the key and then by `r`, of an element that has
`r` to all elements of the list, gives a list ordered in the same way. -/
theorem orderedInsert_lex {α β : Type} [LinearOrder β] (key : α → β) (r : α → α → Prop)
    (a : α) :
    ∀ (l : List α), (∀ b ∈ l, r a b) →
      l.Pairwise (fun x y => key x < key y ∨ (key x = key y ∧ r x y)) →
      (l.orderedInsert (fun x y => key x ≤ key y) a).Pairwise
        (fun x y => key x < key y ∨ (key x = key y ∧ r x y)) := by
  intro l
  induction l with
  | nil => intro _ _; simp
  | cons b u ih =>
    intro hr hp
    rw [List.pairwise_cons] at hp
    unfold List.orderedInsert
    by_cases hab : key a ≤ key b
    · simp only [hab, if_true]
      rw [List.pairwise_cons]
      refine ⟨fun x hx => ?_, List.pairwise_cons.mpr hp⟩
      have hax : key a ≤ key x := by
        rcases List.mem_cons.mp hx with e | hx
        · rw [e]; exact hab
        · rcases hp.1 x hx with h | h
          · exact le_trans hab (le_of_lt h)
          · rw [← h.1]; exact hab
      rcases lt_or_eq_of_le hax with h | h
      · exact Or.inl h
      · exact Or.inr ⟨h, hr x hx⟩
    · simp only [hab, if_false]
      rw [List.pairwise_cons]
      refine ⟨fun x hx => ?_, ih (fun x hx => hr x (List.mem_cons_of_mem _ hx)) hp.2⟩
      rcases (List.mem_orderedInsert _).mp hx with e | hx
      · rw [e]; exact Or.inl (lt_of_not_le hab)
      · exact hp.1 x hx

/-- A stable sort by a key of a list ordered by `r` gives a list ordered by the key and then
by `r`. -/
theorem insertionSort_lex {α β : Type} [LinearOrder β] (key : α → β) (r : α → α → Prop) :
    ∀ (l : List α), l.Pairwise r →
      (l.insertionSort (fun x y => key x ≤ key y)).Pairwise
        (fun x y => key x < key y ∨ (key x = key y ∧ r x y)) := by
  intro l
  induction l with
  | nil => intro _; simp
  | cons a t ih =>
    intro hp
    rw [List.pairwise_cons] at hp
    show ((t.insertionSort (fun x y => key x ≤ key y)).orderedInsert
      (fun x y => key x ≤ key y) a).Pairwise _
    exact orderedInsert_lex key r a _
      (fun b hb => hp.1 b ((List.perm_insertionSort _ t).mem_iff.mp hb)) (ih hp.2)

theorem RadixSortElements_perm (l : List Element) : (RadixSortElements l).Perm l := by
  unfold RadixSortElements
  exact ((List.perm_insertionSort _ _).trans (List.perm_insertionSort _ _)).trans
    (List.perm_insertionSort _ _)

/-- The three stable sorts of `RadixSortElements` leave the elements in lexicographic
order by (semantic, index, offset). -/
theorem RadixSortElements_sorted (l : List Element) :
    (RadixSortElements l).Pairwise Element.lexLE := by
  unfold RadixSortElements
  have h0 : l.Pairwise (fun _ _ => True) := List.pairwise_of_forall (fun _ _ => trivial)
  have h1 := insertionSort_lex (fun e : Element => e.offset) (fun _ _ => True) l h0
  have h1b : (l.insertionSort (fun lhs rhs => lhs.offset ≤ rhs.offset)).Pairwise
      (fun x y => x.offset ≤ y.offset) :=
    h1.imp (fun h => by
      rcases h with h | h
      · exact le_of_lt h
      · exact le_of_eq h.1)
  have h2 := insertionSort_lex (fun e : Element => e.index) _ _ h1b
  have h3 := insertionSort_lex (fun e : Element => e.semantic.value) _ _ h2
  exact h3

theorem eVertexElementSemantic.value_inj {a b : eVertexElementSemantic}
    (h : a.value = b.value) : a = b := by
  cases a <;> cases b <;> simp [eVertexElementSemantic.value] at h <;> rfl

theorem Element.lexLE_antisymm {a b : Element} (h1 : a.lexLE b) (h2 : b.lexLE a) : a = b := by
  unfold Element.lexLE at h1 h2
  have hs : a.semantic.value = b.semantic.value := by
    rcases h1 with h1 | h1 <;> rcases h2 with h2 | h2 <;> omega
  have hi : a.index = b.index := by
    rcases h1 with h1 | ⟨-, h1 | h1⟩ <;> rcases h2 with h2 | ⟨-, h2 | h2⟩ <;> omega
  have ho : a.offset = b.offset := by
    rcases h1 with h1 | ⟨-, h1 | h1⟩ <;> rcases h2 with h2 | ⟨-, h2 | h2⟩ <;> omega
  cases a
  cases b
  simp only [Element.mk.injEq]
  exact ⟨eVertexElementSemantic.value_inj hs, hi, ho⟩

/-- `RadixSortElements` gives the same vector for two vectors with the same elements. -/
theorem RadixSortElements_eq_iff (x y : List Element) :
    RadixSortElements x = RadixSortElements y ↔ x.Perm y := by
  constructor
  · intro h
    exact ((RadixSortElements_perm x).symm.trans (h ▸ List.Perm.refl _)).trans
      (RadixSortElements_perm y)
  · intro h
    exact List.Perm.eq_of_sorted (fun a b _ _ h1 h2 => Element.lexLE_antisymm h1 h2)
      (RadixSortElements_sorted x) (RadixSortElements_sorted y)
      (((RadixSortElements_perm x).trans h).trans (RadixSortElements_perm y).symm)

theorem fold_cons (w hash : Nat) (e : Element) (rest : List Element) :
    CalculateHashes.fold w hash (e :: rest) =
      CalculateHashes.fold w (hash ^^^ inthashSizeT w (e.semantic.value : Int) ^^^
        inthashSizeT w e.index ^^^ inthashSizeT w e.offset) rest := rfl

/-- The xor of the hashes does not depend on the order of the elements. -/
theorem fold_perm (w : Nat) {x y : List Element} (h : x.Perm y) :
    ∀ hash, CalculateHashes.fold w hash x = CalculateHashes.fold w hash y := by
  induction h with
  | nil => intro _; rfl
  | cons e _ ih => intro hash; exact (fold_cons _ _ _ _).trans ((ih _).trans (fold_cons _ _ _ _).symm)
  | swap e1 e2 l =>
    intro hash
    refine ((fold_cons _ _ _ _).trans (fold_cons _ _ _ _)).trans
      (Eq.trans ?_ ((fold_cons _ _ _ _).trans (fold_cons _ _ _ _)).symm)
    apply congrArg (fun h => CalculateHashes.fold w h l)
    generalize inthashSizeT w (e1.semantic.value : Int) = a1
    generalize inthashSizeT w e1.index = b1
    generalize inthashSizeT w e1.offset = c1
    generalize inthashSizeT w (e2.semantic.value : Int) = a2
    generalize inthashSizeT w e2.index = b2
    generalize inthashSizeT w e2.offset = c2
    ac_rfl
  | trans _ _ ih1 ih2 => intro hash; rw [ih1, ih2]

theorem elementsMatch_iff :
    ∀ (l r : List Element), l.length = r.length → (elementsMatch l r = true ↔ l = r) := by
  intro l
  induction l with
  | nil =>
    intro r h
    cases r with
    | nil => simp [elementsMatch]
    | cons b rs => simp at h
  | cons a ls ih =>
    intro r h
    cases r with
    | nil => simp at h
    | cons b rs =>
      simp only [List.length_cons, add_left_inj] at h
      unfold elementsMatch
      by_cases hd : a.semantic ≠ b.semantic ∨ a.index ≠ b.index ∨ a.offset ≠ b.offset
      · simp only [hd, if_true, Bool.false_eq_true, false_iff]
        intro e
        injection e with e1 e2
        subst e1
        simp at hd
      · simp only [hd, if_false]
        rw [ih rs h]
        push_neg at hd
        have e : a = b := by
          cases a
          cases b
          simp only [Element.mk.injEq]
          exact hd
        subst e
        simp

theorem GetAllElements_perm (sort : List Element → List Element)
    (hsort : ∀ l, (sort l).Perm l) :
    ∀ (layout : List (List Element)), (GetAllElements sort layout).Perm layout.flatten := by
  intro layout
  induction layout with
  | nil => exact List.Perm.refl _
  | cons s rest ih =>
    simp only [GetAllElements, List.flatten_cons]
    exact (hsort s).append ih

/-- The two hashes that `CalculateHashes` computes are the same number, and it is the
same for two layouts with the same elements. -/
theorem CalculateHashes_spec (w : Nat) (sort : List Element → List Element)
    (hsort : ∀ l, (sort l).Perm l) (layout : List (List Element)) :
    (CalculateHashes w sort layout).1 = CalculateHashes.fold w 0 layout.flatten ∧
    (CalculateHashes w sort layout).2 = CalculateHashes.fold w 0 layout.flatten := by
  unfold CalculateHashes
  simp only []
  exact ⟨fold_perm w ((RadixSortElements_perm _).trans (GetAllElements_perm sort hsort layout))
    0, fold_perm w (GetAllElements_perm sort hsort layout) 0⟩

/-- C29. For two layouts whose hashes were computed by `CalculateHashes`, and whatever
`std::sort` does with elements of equal offset, `EqualElements` is true exactly when the
elements of all streams of the one layout are a rearrangement of those of the other;
`RadixSortElements` returns a rearrangement of its input in lexicographic order by
(semantic, index, offset). -/
theorem C29_EqualElements_iff_same_elements (w : Nat) (sort : List Element → List Element)
    (hsort : ∀ l, (sort l).Perm l) (a b : Layout)
    (ha : a.Hashed w sort) (hb : b.Hashed w sort) :
    (a.EqualElements sort b = true ↔ a.m_layout.flatten.Perm b.m_layout.flatten) ∧
    ∀ l, (RadixSortElements l).Perm l ∧ (RadixSortElements l).Pairwise Element.lexLE := by
  refine ⟨?_, fun l => ⟨RadixSortElements_perm l, RadixSortElements_sorted l⟩⟩
  have hpa := GetAllElements_perm sort hsort a.m_layout
  have hpb := GetAllElements_perm sort hsort b.m_layout
  unfold Layout.Hashed at ha hb
  have ha1 : a.m_elementHash = CalculateHashes.fold w 0 a.m_layout.flatten := by
    rw [← (CalculateHashes_spec w sort hsort a.m_layout).1, ← ha]
  have hb1 : b.m_elementHash = CalculateHashes.fold w 0 b.m_layout.flatten := by
    rw [← (CalculateHashes_spec w sort hsort b.m_layout).1, ← hb]
  have hlen : (GetAllElements sort a.m_layout).length = (GetAllElements sort b.m_layout).length →
      (RadixSortElements (GetAllElements sort a.m_layout)).length =
        (RadixSortElements (GetAllElements sort b.m_layout)).length := by
    intro h
    rw [(RadixSortElements_perm _).length_eq, (RadixSortElements_perm _).length_eq]
    exact h
  unfold Layout.EqualElements
  simp only []
  constructor
  · intro h
    by_cases h1 : a.m_elementHash ≠ b.m_elementHash
    · simp [h1] at h
    · by_cases h2 : (GetAllElements sort a.m_layout).length ≠
          (GetAllElements sort b.m_layout).length
      · simp [h1, h2] at h
      · simp only [h1, h2, if_false] at h
        have he := (elementsMatch_iff _ _ (hlen (not_not.mp h2))).mp h
        exact (hpa.symm.trans ((RadixSortElements_eq_iff _ _).mp he)).trans hpb
  · intro h
    have hall : (GetAllElements sort a.m_layout).Perm (GetAllElements sort b.m_layout) :=
      (hpa.trans h).trans hpb.symm
    have h1 : ¬ a.m_elementHash ≠ b.m_elementHash := by
      rw [ha1, hb1, fold_perm w h 0]
      exact not_not.mpr rfl
    have h2 : ¬ (GetAllElements sort a.m_layout).length ≠
        (GetAllElements sort b.m_layout).length := not_not.mpr hall.length_eq
    simp only [h1, h2, if_false]
    exact (elementsMatch_iff _ _ (hlen hall.length_eq)).mpr
      ((RadixSortElements_eq_iff _ _).mpr hall)

theorem Hashed_ofStreams (w : Nat) (sort : List Element → List Element)
    (layout : List (List Element)) : (Layout.ofStreams w sort layout).Hashed w sort := rfl

theorem sampleSort_perm (l : List Element) : (sampleSort l).Perm l :=
  List.perm_insertionSort _ l

theorem StdSort_sampleSort : StdSort sampleSort := by
  intro l
  refine ⟨sampleSort_perm l, ?_⟩
  have h0 : l.Pairwise (fun _ _ => True) := List.pairwise_of_forall (fun _ _ => trivial)
  exact (insertionSort_lex (fun e : Element => e.offset) (fun _ _ => True) l h0).imp
    (fun h => by
      rcases h with h | h
      · exact le_of_lt h
      · exact le_of_eq h.1)

/-- Witness for C29: position at offset 0 and normal at offset 12 in one stream in this
order, and in two streams in the other order: `EqualElements` is true; against a layout
with the normal at offset 16 it is false. -/
theorem C29_EqualElements_iff_same_elements_witness :
    (Layout.ofStreams 64 sampleSort
        [[elem eVertexElementSemantic.POSITION 0, elem eVertexElementSemantic.NORMAL 12]]).EqualElements
      sampleSort (Layout.ofStreams 64 sampleSort
        [[elem eVertexElementSemantic.NORMAL 12], [elem eVertexElementSemantic.POSITION 0]]) =
      true ∧
    (Layout.ofStreams 64 sampleSort
        [[elem eVertexElementSemantic.POSITION 0, elem eVertexElementSemantic.NORMAL 12]]).EqualElements
      sampleSort (Layout.ofStreams 64 sampleSort
        [[elem eVertexElementSemantic.POSITION 0, elem eVertexElementSemantic.NORMAL 16]]) =
      false :=
  ⟨((C29_EqualElements_iff_same_elements 64 sampleSort sampleSort_perm _ _
      (Hashed_ofStreams 64 sampleSort _) (Hashed_ofStreams 64 sampleSort _)).1).mpr
      (by decide),
    by decide⟩

theorem StdSort_singleton (sort : List Element → List Element) (hsort : StdSort sort)
    (e : Element) : sort [e] = [e] :=
  List.perm_singleton.mp (hsort [e]).1

/-- A stream whose elements are in the order of their offsets, all different, is left as
it is by `std::sort`. -/
theorem StdSort_ordered (sort : List Element → List Element) (hsort : StdSort sort)
    (l : List Element) (hl : l.Pairwise (fun lhs rhs => lhs.offset < rhs.offset)) :
    sort l = l := by
  have hnd : (l.map Element.offset).Nodup := by
    unfold List.Nodup
    rw [List.pairwise_map]
    exact hl.imp (fun h => ne_of_lt h)
  refine List.Perm.eq_of_sorted (fun a b ha hb h1 h2 => ?_) (hsort l).2
    (hl.imp (fun h => le_of_lt h)) (hsort l).1
  exact List.inj_on_of_nodup_map hnd ((hsort l).1.mem_iff.mp ha) hb (le_antisymm h1 h2)

/-- C30. A layout with position at offset 0 and normal at offset 12 in one stream, and a
layout with the same two elements in two streams: whatever `std::sort` does with elements
of equal offset, `GetAllElements` builds the same vector for both, the layout hashes are
equal, and `EqualLayout` is true although the layouts have 1 and 2 streams. For every
layout the layout hash is the same number as the element hash, and it is the same for
every layout with the same elements, however they are distributed over the streams. -/
theorem C30_EqualLayout_ignores_streams (w : Nat) (sort : List Element → List Element)
    (hsort : StdSort sort) :
    GetAllElements sort
        [[elem eVertexElementSemantic.POSITION 0, elem eVertexElementSemantic.NORMAL 12]] =
      GetAllElements sort
        [[elem eVertexElementSemantic.POSITION 0], [elem eVertexElementSemantic.NORMAL 12]] ∧
    (Layout.ofStreams w sort
        [[elem eVertexElementSemantic.POSITION 0, elem eVertexElementSemantic.NORMAL 12]]).EqualLayout
      sort (Layout.ofStreams w sort
        [[elem eVertexElementSemantic.POSITION 0], [elem eVertexElementSemantic.NORMAL 12]]) =
      true ∧
    (Layout.ofStreams w sort
        [[elem eVertexElementSemantic.POSITION 0,
          elem eVertexElementSemantic.NORMAL 12]]).GetStreamCount = 1 ∧
    (Layout.ofStreams w sort
        [[elem eVertexElementSemantic.POSITION 0],
          [elem eVertexElementSemantic.NORMAL 12]]).GetStreamCount = 2 ∧
    (∀ layout, (CalculateHashes w sort layout).2 = (CalculateHashes w sort layout).1) ∧
    ∀ layout1 layout2, layout1.flatten.Perm layout2.flatten →
      (CalculateHashes w sort layout1).2 = (CalculateHashes w sort layout2).2 := by
  have hperm : ∀ l, (sort l).Perm l := fun l => (hsort l).1
  have h1 : GetAllElements sort
      [[elem eVertexElementSemantic.POSITION 0, elem eVertexElementSemantic.NORMAL 12]] =
      [elem eVertexElementSemantic.POSITION 0, elem eVertexElementSemantic.NORMAL 12] := by
    simp only [GetAllElements, List.append_nil]
    exact StdSort_ordered sort hsort _ (by decide)
  have h2 : GetAllElements sort
      [[elem eVertexElementSemantic.POSITION 0], [elem eVertexElementSemantic.NORMAL 12]] =
      [elem eVertexElementSemantic.POSITION 0, elem eVertexElementSemantic.NORMAL 12] := by
    simp only [GetAllElements, List.append_nil, StdSort_singleton sort hsort]
    rfl
  refine ⟨h1.trans h2.symm, ?_, rfl, rfl, fun layout => ?_, fun l1 l2 h => ?_⟩
  · unfold Layout.EqualLayout Layout.ofStreams CalculateHashes
    simp only [h1, h2]
    simp [elementsMatch]
  · rw [(CalculateHashes_spec w sort hperm layout).1, (CalculateHashes_spec w sort hperm layout).2]
  · rw [(CalculateHashes_spec w sort hperm l1).2, (CalculateHashes_spec w sort hperm l2).2]
    exact fold_perm w h 0

/-- Witness for C30: evaluated with a 64-bit `size_t` and one sort that meets the contract
of `std::sort`; the same comes out for a layout of two streams against one of three. -/
theorem C30_EqualLayout_ignores_streams_witness :
    (Layout.ofStreams 64 sampleSort
        [[elem eVertexElementSemantic.POSITION 0, elem eVertexElementSemantic.NORMAL 12]]).EqualLayout
      sampleSort (Layout.ofStreams 64 sampleSort
        [[elem eVertexElementSemantic.POSITION 0], [elem eVertexElementSemantic.NORMAL 12]]) =
      true ∧
    (Layout.ofStreams 32 sampleSort
        [[elem eVertexElementSemantic.POSITION 0, elem eVertexElementSemantic.TEX_COORD 24],
          [elem eVertexElementSemantic.NORMAL 0]]).EqualLayout
      sampleSort (Layout.ofStreams 32 sampleSort
        [[elem eVertexElementSemantic.POSITION 0], [elem eVertexElementSemantic.TEX_COORD 24],
          [elem eVertexElementSemantic.NORMAL 0]]) = true :=
  ⟨(C30_EqualLayout_ignores_streams 64 sampleSort StdSort_sampleSort).2.1, by decide⟩

end inl.gxeng

namespace inl.gui

end inl.gui
